import Mathlib

/-! # CloudiskServer: wire codec, storage engine and reactor dispatch

A shallow embedding of `enterprise_cloud_drive` (common/include/protocol.hpp,
server/src/storage_manager.cpp, server/src/file_index.cpp,
server/src/cloud_server.cpp) together with the properties proved about it.

Conventions
* a `std::byte` / `char` is a `Fin 256`; `std::string` and `std::vector<std::byte>`
  are lists of bytes;
* `std::size_t` and `std::uint64_t` values are natural numbers (64 bits wide); the
  narrowing casts of the source (`uint16_t`, `uint32_t`) and the one `+=` on a
  `uint64_t` are written as explicit `%`;
* a C++ function that may throw is an `Eff`: it returns `Except Str _`, the error
  being `what()`, together with the state it leaves behind;
* the file system is a tree without symbolic links, every SQLite statement
  succeeds, and the log sink is left out (`logger_` calls do not throw once the
  log file is open);
* a finalization task runs in one piece: the interleaving of workers with the
  reactor is not part of the embedding.
-/

namespace cloud

/-- One `std::byte` (equally one `char` of a `std::string`). -/
abbrev Byte := Fin 256

/-- A `std::string`: a sequence of chars. -/
abbrev Str := List Byte

/-- The byte with value `n mod 256` (`static_cast<unsigned char>`). -/
def byteOf (n : Nat) : Byte := ⟨n % 256, Nat.mod_lt _ (by decide)⟩

/-- A string literal of the source as a `std::string`. -/
def str (s : String) : Str := s.toList.map (fun c => byteOf c.toNat)

/-- The char `=`. -/
def chEq : Byte := 61

/-- The char `\n`. -/
def chNl : Byte := 10

/-- The char `/`. -/
def chSlash : Byte := 47

/-- The char `.`. -/
def chDot : Byte := 46

namespace protocol

/-- `kMagic = 0x45434452`. -/
def kMagic : Nat := 0x45434452

/-- `kVersion = 1`. -/
def kVersion : Nat := 1

/-- `sizeof(detail::WireHeader)`: u32 + u16 + u16 + u32, no padding. -/
def kWireHeaderSize : Nat := 12

/-- `HeaderMap = std::unordered_map<std::string, std::string>`, kept as the list of
its entries in iteration order. The keys of a map are pairwise distinct
(`HeaderMap.WF`). -/
abbrev HeaderMap := List (Str × Str)

/-- The type invariant of a map: no key occurs twice. -/
def HeaderMap.WF (h : HeaderMap) : Prop := (h.map Prod.fst).Nodup

instance (h : HeaderMap) : Decidable (HeaderMap.WF h) := by
  unfold HeaderMap.WF; infer_instance

/-- `headers.find(key)`: the mapped value, if the key is present. -/
def HeaderMap.find (h : HeaderMap) (key : Str) : Option Str :=
  (List.find? (fun e => e.1 == key) h).map Prod.snd

/-- `headers.emplace(key, value)`: inserts unless the key is already present. -/
def HeaderMap.emplace (h : HeaderMap) (key value : Str) : HeaderMap :=
  if h.any (fun e => e.1 == key) then h else h ++ [(key, value)]

/-- `struct Message { HeaderMap headers; std::vector<std::byte> body; }`. -/
structure Message where
  headers : HeaderMap
  body : List Byte
deriving DecidableEq, Repr

/-- `detail::serialize_headers`: `key=value\n` for every entry, in iteration order. -/
def serialize_headers : HeaderMap → Str
  | [] => []
  | entry :: rest => entry.1 ++ chEq :: (entry.2 ++ chNl :: serialize_headers rest)

/-- `std::string_view::find(c, 0)` on the view `data`: index of the first `c`. -/
def findChar (c : Byte) : Str → Option Nat
  | [] => none
  | x :: xs => if x = c then some 0 else (findChar c xs).map (· + 1)

/-- The loop of `detail::parse_headers`, on the unread suffix `data.substr(start)`.
`fuel` bounds the number of iterations; every iteration consumes at least one
char, so `data.size()` iterations always suffice (`parse_headers`). -/
def parse_headers_loop : Nat → Str → HeaderMap → HeaderMap
  | 0, _, headers => headers
  | fuel + 1, rest, headers =>
    if rest.length = 0 then headers            -- while (start < data.size())
    else
      let endp := findChar chNl rest           -- data.find('\n', start)
      let line_end := endp.getD rest.length
      if line_end = 0 then headers             -- if (line_end == start) break;
      else
        let headers1 :=
          match findChar chEq rest with        -- data.find('=', start)
          | some sep =>
            if sep < line_end then
              headers.emplace (rest.take sep) ((rest.drop (sep + 1)).take (line_end - sep - 1))
            else headers
          | none => headers
        match endp with
        | none => headers1                     -- if (end == npos) break;
        | some e => parse_headers_loop fuel (rest.drop (e + 1)) headers1

/-- `detail::parse_headers`. -/
def parse_headers (data : Str) : HeaderMap :=
  parse_headers_loop data.length data []

/-- `make_message(headers, body)`: emplaces the listed pairs in order. -/
def make_message (headers : List (Str × Str)) (body : List Byte := []) : Message :=
  { headers := headers.foldl (fun h e => h.emplace e.1 e.2) [], body := body }

/-- `header_value(msg, key)` with the default (empty) fallback. -/
def header_value (msg : Message) (key : Str) : Str :=
  (msg.headers.find key).getD []

/-- `htons(v)` laid out in memory: the two bytes of `v`, most significant first. -/
def be16 (v : Nat) : List Byte := [byteOf (v / 256), byteOf v]

/-- `htonl(v)` laid out in memory: the four bytes of `v`, most significant first. -/
def be32 (v : Nat) : List Byte :=
  [byteOf (v / 16777216), byteOf (v / 65536), byteOf (v / 256), byteOf v]

/-- The big-endian value of a byte sequence (`ntohs` / `ntohl` of the bytes in memory). -/
def readBE (bs : List Byte) : Nat := bs.foldl (fun acc b => acc * 256 + b.val) 0

/-- The big-endian integer stored in the `n` bytes at `buffer[pos ..]`. -/
def readAt (buffer : List Byte) (pos n : Nat) : Nat := readBE ((buffer.drop pos).take n)

/-- `encode(message)`: preamble, header block, body.  The two size fields are the
narrowing casts `static_cast<uint16_t>` and `static_cast<uint32_t>` of the source. -/
def encode (message : Message) : List Byte :=
  let header_blob := serialize_headers message.headers
  be32 kMagic ++ be16 kVersion ++ be16 (header_blob.length % 65536)
    ++ be32 (message.body.length % 4294967296) ++ header_blob ++ message.body

/-- Outcome of one `try_decode` call: `true` with the message written to `out`,
`false` (more bytes are needed), or a thrown `std::runtime_error`. -/
inductive DecodeResult where
  | message (out : Message)
  | need_more
  | error (what : Str)
deriving DecidableEq, Repr

/-- What `try_decode` leaves behind: its outcome and the two in-out arguments. -/
structure Decoded where
  result : DecodeResult
  buffer : List Byte
  offset : Nat
deriving DecidableEq, Repr

/-- `try_decode(buffer, offset, out)`, for a cursor `offset ≤ buffer.size()`. -/
def try_decode (buffer : List Byte) (offset : Nat) : Decoded :=
  let available := buffer.length - offset
  if available < kWireHeaderSize then ⟨.need_more, buffer, offset⟩
  else
    let magic := readAt buffer offset 4
    let version := readAt buffer (offset + 4) 2
    let header_size := readAt buffer (offset + 6) 2
    let body_size := readAt buffer (offset + 8) 4
    if magic ≠ kMagic then ⟨.error (str "Protocol magic mismatch"), buffer, offset⟩
    else if version ≠ kVersion then ⟨.error (str "Unsupported protocol version"), buffer, offset⟩
    else
      let frame_size := kWireHeaderSize + header_size + body_size
      if available < frame_size then ⟨.need_more, buffer, offset⟩
      else
        let header_blob := (buffer.drop (offset + kWireHeaderSize)).take header_size
        let body := (buffer.drop (offset + kWireHeaderSize + header_size)).take body_size
        let out : Message := { headers := parse_headers header_blob, body := body }
        let offset1 := offset + frame_size
        if 0 < offset1 ∧ buffer.length / 2 < offset1 then
          ⟨.message out, buffer.drop offset1, 0⟩
        else ⟨.message out, buffer, offset1⟩

/-- A message `encode` and `try_decode` carry faithfully: the keys of its header map are
pairwise distinct, no key or value holds `=` or a newline, the serialized header block
fits the 16-bit size field and the body the 32-bit one. -/
def SafeMessage (m : Message) : Prop :=
  HeaderMap.WF m.headers
  ∧ (∀ e ∈ m.headers, chEq ∉ e.1 ∧ chNl ∉ e.1 ∧ chEq ∉ e.2 ∧ chNl ∉ e.2)
  ∧ (serialize_headers m.headers).length ≤ 65535
  ∧ m.body.length < 4294967296

instance (m : Message) : Decidable (SafeMessage m) := by
  unfold SafeMessage
  infer_instance

end protocol

/-! ## `std::filesystem::path` (POSIX, generic format) -/

namespace fs

/-- The pieces of a path string between its slashes (empty pieces included). -/
def splitSlash : Str → List Str
  | [] => [[]]
  | c :: cs =>
    if c = chSlash then [] :: splitSlash cs
    else
      match splitSlash cs with
      | [] => [[c]]
      | x :: xs => (c :: x) :: xs

/-- The parts joined by single slashes. -/
def joinSlash : List Str → Str
  | [] => []
  | [x] => x
  | x :: y :: rest => x ++ chSlash :: joinSlash (y :: rest)

/-- The filename `.`. -/
def dot : Str := [chDot]

/-- The filename `..`. -/
def dotdot : Str := [chDot, chDot]

/-- `path::is_absolute` (POSIX: the path has a root directory). -/
def is_absolute (p : Str) : Bool := p.head? == some chSlash

/-- `path::has_filename`: the path is not empty and does not end in a separator. -/
def has_filename (p : Str) : Bool :=
  match p.getLast? with
  | some c => c != chSlash
  | none => false

/-- `path::has_relative_path`: some char is not a separator. -/
def has_relative_path (p : Str) : Bool := p.any (fun c => c != chSlash)

/-- `operator/` of two paths. -/
def append (p q : Str) : Str :=
  if is_absolute q then q
  else if has_filename p then p ++ chSlash :: q
  else p ++ q

/-- The filenames of a path: its non-empty pieces. -/
def names (p : Str) : List Str := (splitSlash p).filter (fun x => x ≠ [])

/-- A filename: a non-empty string without a separator. -/
def Filename (x : Str) : Prop := x ≠ [] ∧ chSlash ∉ x

instance (x : Str) : Decidable (Filename x) := by
  unfold Filename
  infer_instance

/-- The elements a `path` iterates over: the root directory `/` if the path is
absolute, every filename, and a final empty element if a separator follows the
last filename. -/
def elems (p : Str) : List Str :=
  (if is_absolute p then [[chSlash]] else []) ++ names p ++
    (if names p ≠ [] ∧ p.getLast? = some chSlash then [[]] else [])

/-- Drops the longest suffix whose chars satisfy `f`. -/
def dropEndWhile (f : Byte → Bool) (p : Str) : Str := (p.reverse.dropWhile f).reverse

/-- `path::parent_path`. -/
def parent_path (p : Str) : Str :=
  if !has_relative_path p then p
  else
    let q := dropEndWhile (fun c => c != chSlash) p
    let r := dropEndWhile (fun c => c == chSlash) q
    if r = [] then (if q = [] then [] else [chSlash]) else r

/-- The element loop of `lexically_normal`.  `st` is the stack of kept filenames
(last kept first), `ab` says whether the path has a root directory, and the flag
says whether a separator follows the last kept filename. -/
def normal_loop : List Str → List Str → Bool → Bool → List Str × Bool
  | [], st, _, tr => (st, tr)
  | e :: es, st, ab, tr =>
    if e = [] ∨ e = dot then normal_loop es st ab true
    else if e = dotdot then
      match st with
      | top :: rest =>
        if top = dotdot then normal_loop es (dotdot :: st) ab false
        else normal_loop es rest ab true
      | [] => if ab then normal_loop es [] ab tr else normal_loop es [dotdot] ab false
    else normal_loop es (e :: st) ab false

/-- `path::lexically_normal`. -/
def lexically_normal (p : Str) : Str :=
  if p = [] then []
  else
    let ab := is_absolute p
    let r := normal_loop ((elems p).filter (fun e => e ≠ [chSlash])) [] ab false
    match r.1 with
    | [] => if ab then [chSlash] else dot
    | top :: rest =>
      (if ab then [chSlash] else []) ++ joinSlash (top :: rest).reverse ++
        (if r.2 ∧ top ≠ dotdot then [chSlash] else [])

/-- Strips the common leading elements of two element lists (`std::mismatch`). -/
def mismatch : List Str → List Str → List Str × List Str
  | a :: as, b :: bs => if a = b then mismatch as bs else (a :: as, b :: bs)
  | as, bs => (as, bs)

/-- `path::lexically_relative`. -/
def lexically_relative (p base : Str) : Str :=
  if is_absolute p != is_absolute base then []
  else
    let ab := mismatch (elems p) (elems base)
    if ab.1 = [] ∧ ab.2 = [] then dot
    else
      let ups := (ab.2.filter (fun e => e ≠ dot ∧ e ≠ dotdot ∧ e ≠ [])).length
      let downs := (ab.2.filter (fun e => e = dotdot)).length
      if ups < downs then []
      else if ups - downs = 0 ∧ (ab.1 = [] ∨ ab.1.head? = some []) then dot
      else (List.replicate (ups - downs) dotdot ++ ab.1).foldl append []

end fs

/-! ## Effects

A C++ call that reads and writes some state `σ` and may throw.  What it did to
the state before throwing stays done. -/

deriving instance DecidableEq for Except

/-- A computation over the state `σ` returning `α` or throwing `what()`. -/
def Eff (σ α : Type) : Type := σ → Except Str α × σ

namespace Eff

/-- `return a`. -/
def ret {σ α : Type} (a : α) : Eff σ α := fun s => (.ok a, s)

/-- Sequencing: the rest of the block runs only if the first part did not throw. -/
def andThen {σ α β : Type} (m : Eff σ α) (f : α → Eff σ β) : Eff σ β := fun s =>
  match m s with
  | (.ok a, s1) => f a s1
  | (.error e, s1) => (.error e, s1)

instance {σ : Type} : Monad (Eff σ) where
  pure := ret
  bind := andThen

/-- `throw std::runtime_error(what)` (or any other `std::exception`). -/
def raise {σ α : Type} (what : Str) : Eff σ α := fun s => (.error what, s)

/-- `try { m } catch (const std::exception& ex) { h ex.what() }`. -/
def catching {σ α : Type} (m : Eff σ α) (h : Str → Eff σ α) : Eff σ α := fun s =>
  match m s with
  | (.ok a, s1) => (.ok a, s1)
  | (.error e, s1) => h e s1

/-- Reads the state. -/
def read {σ : Type} : Eff σ σ := fun s => (.ok s, s)

/-- A pure value that may be an exception. -/
def ofExcept {σ α : Type} (x : Except Str α) : Eff σ α := fun s => (x, s)

end Eff

/-! ## The file system behind `std::filesystem`

A tree without symbolic links: every existing file or directory is listed under
its canonical absolute path, given as the list of its filenames.  The root
directory (the empty list) always exists.  The process's working directory is `/`,
there are no permission errors and the disk is never full. -/

namespace fs

/-- What a path names: a regular file with its contents, or a directory. -/
inductive Node where
  | file (data : List Byte)
  | dir
deriving DecidableEq, Repr

/-- The existing files and directories, by canonical absolute path. -/
abbrev FileSystem := List (List Str × Node)

/-- The node at a canonical path, if it exists. -/
def lookup (t : FileSystem) (k : List Str) : Option Node :=
  if k = [] then some Node.dir else (t.find? (fun e => e.1 == k)).map Prod.snd

/-- Unlinks the entry at `k`. -/
def erase (t : FileSystem) (k : List Str) : FileSystem := t.filter (fun e => e.1 ≠ k)

/-- Creates or replaces the entry at `k`. -/
def put (t : FileSystem) (k : List Str) (n : Node) : FileSystem := erase t k ++ [(k, n)]

/-- Unlinks `k` and everything below it. -/
def eraseTree (t : FileSystem) (k : List Str) : FileSystem :=
  t.filter (fun e => !(k.isPrefixOf e.1))

/-- The entries directly inside the directory `k`. -/
def children (t : FileSystem) (k : List Str) : FileSystem :=
  t.filter (fun e => e.1 ≠ [] ∧ e.1.dropLast = k)

/-- What a C API sees of a `std::string` passed as `c_str()`: the chars before the
first NUL. -/
def c_str (s : Str) : Str := s.takeWhile (fun c => c ≠ 0)

/-- The filenames the kernel walks for a path: empty pieces are skipped and a
trailing separator asks for a directory, like a final `.`. -/
def os_comps (p : Str) : List Str :=
  let ps := splitSlash p
  (ps.dropLast.filter (fun x => x ≠ [])) ++
    (match ps.getLast? with
     | some [] => [dot]
     | some x => [x]
     | none => [])

/-- One step of path resolution from the directory `cur`. -/
def step (cur : List Str) (c : Str) : List Str :=
  if c = dot then cur else if c = dotdot then cur.dropLast else cur ++ [c]

/-- A canonical path without `.` and `..`: every element is a filename other than those. -/
def Plain (k : List Str) : Prop := ∀ x ∈ k, Filename x ∧ x ≠ dot ∧ x ≠ dotdot

/-- The place a path names when every directory on the way exists: its names walked from
the root, `..` stepping up and staying at the root there. -/
def lexical_key (p : Str) : List Str := (names p).foldl step []

/-- Path resolution: every filename is looked up in an existing directory
(`ENOENT` / `ENOTDIR` otherwise); the place reached need not exist. -/
def walk (t : FileSystem) : List Str → List Str → Option (List Str)
  | [], cur => some cur
  | c :: cs, cur => if lookup t cur = some Node.dir then walk t cs (step cur c) else none

/-- The canonical path a path string names, if the kernel can resolve it. -/
def locate (t : FileSystem) (p : Str) : Option (List Str) :=
  if c_str p = [] then none else walk t (os_comps (c_str p)) []

/-- `status(p)`: the node at `p`, if there is one. -/
def status (t : FileSystem) (p : Str) : Option Node := (locate t p).bind (lookup t)

/-- `std::filesystem::exists(p)`. -/
def path_exists (t : FileSystem) (p : Str) : Bool := (status t p).isSome

/-- `std::filesystem::is_directory(p)`. -/
def is_directory (t : FileSystem) (p : Str) : Bool := status t p == some Node.dir

/-- `is_regular_file(p)`. -/
def is_regular_file (t : FileSystem) (p : Str) : Bool :=
  match status t p with
  | some (Node.file _) => true
  | _ => false

/-- The string of a canonical absolute path. -/
def key_string : List Str → Str
  | [] => [chSlash]
  | [c] => chSlash :: c
  | c :: d :: rest => chSlash :: c ++ key_string (d :: rest)

/-- The leading elements of a path that exist (first loop of `weakly_canonical`):
the path they form and the elements left over. -/
def leading_existing (t : FileSystem) : Str → List Str → Str × List Str
  | result, [] => (result, [])
  | result, e :: es =>
    if path_exists t (append result e) then leading_existing t (append result e) es
    else (result, e :: es)

/-- `std::filesystem::weakly_canonical(p)`. -/
def weakly_canonical (t : FileSystem) (p : Str) : Str :=
  match status t p, locate t p with
  | some _, some k => key_string k
  | _, _ =>
    let r := leading_existing t [] (elems p)
    let head :=
      if r.1 = [] then []
      else
        match locate t r.1 with
        | some k => key_string k
        | none => r.1
    lexically_normal (r.2.foldl append head)

/-- `std::filesystem::relative(p, base)`. -/
def relative (t : FileSystem) (p base : Str) : Str :=
  lexically_relative (weakly_canonical t p) (weakly_canonical t base)

/-- The message of a `std::filesystem::filesystem_error`: the fixed prefix and
the reason, without the paths the library appends in brackets. -/
def fs_error (what : String) : Str := str "filesystem error: " ++ str what

/-- The directory-creating walk of `create_directories`: missing directories are
created on the way, a regular file in the way is an error. -/
def mkdirs : List Str → List Str → Eff FileSystem Unit
  | [], _ => Eff.ret ()
  | c :: cs, cur => fun t =>
    match lookup t (step cur c) with
    | some Node.dir => mkdirs cs (step cur c) t
    | some (Node.file _) => (.error (fs_error "cannot create directories: Not a directory"), t)
    | none => mkdirs cs (step cur c) (put t (step cur c) Node.dir)

/-- `std::filesystem::create_directories(p)`. -/
def create_directories (p : Str) : Eff FileSystem Unit :=
  if c_str p = [] then Eff.raise (fs_error "cannot create directories: No such file or directory")
  else mkdirs (os_comps (c_str p)) []

/-- Moves the subtree at `ko` to `kn`. -/
def moveTree (t : FileSystem) (ko kn : List Str) : FileSystem :=
  (erase t kn).map (fun e => if ko.isPrefixOf e.1 then (kn ++ e.1.drop ko.length, e.2) else e)

/-- `std::filesystem::rename(old_p, new_p)` (POSIX `rename`). -/
def rename (old_p new_p : Str) : Eff FileSystem Unit := fun t =>
  match locate t old_p, locate t new_p with
  | some ko, some kn =>
    match lookup t ko with
    | none => (.error (fs_error "cannot rename: No such file or directory"), t)
    | some (Node.file d) =>
      if ko = kn then (.ok (), t)
      else if lookup t kn = some Node.dir then
        (.error (fs_error "cannot rename: Is a directory"), t)
      else (.ok (), put (erase t ko) kn (Node.file d))
    | some Node.dir =>
      if ko = kn then (.ok (), t)
      else if ko = [] ∨ ko.isPrefixOf kn then
        (.error (fs_error "cannot rename: Invalid argument"), t)
      else
        match lookup t kn with
        | some (Node.file _) => (.error (fs_error "cannot rename: Not a directory"), t)
        | some Node.dir =>
          if children t kn = [] then (.ok (), moveTree t ko kn)
          else (.error (fs_error "cannot rename: Directory not empty"), t)
        | none => (.ok (), moveTree t ko kn)
  | _, _ => (.error (fs_error "cannot rename: No such file or directory"), t)

/-- `std::filesystem::remove(p)`: false if nothing is there; a directory must be empty. -/
def remove (p : Str) : Eff FileSystem Bool := fun t =>
  match locate t p with
  | none => (.ok false, t)
  | some k =>
    match lookup t k with
    | none => (.ok false, t)
    | some (Node.file _) => (.ok true, erase t k)
    | some Node.dir =>
      if k = [] ∨ children t k ≠ [] then (.error (fs_error "cannot remove: Directory not empty"), t)
      else (.ok true, erase t k)

/-- `std::filesystem::remove_all(p)`. -/
def remove_all (p : Str) : Eff FileSystem Unit := fun t =>
  match locate t p with
  | none => (.ok (), t)
  | some k => (.ok (), eraseTree t k)

/-- `std::filesystem::copy_file(from, to, copy_options::overwrite_existing)`. -/
def copy_file (from_p to_p : Str) : Eff FileSystem Unit := fun t =>
  match locate t from_p, locate t to_p with
  | some kf, some kt =>
    match lookup t kf, lookup t kt with
    | some (Node.file d), some (Node.file _) =>
      if kf = kt then (.error (fs_error "cannot copy file: File exists"), t)
      else (.ok (), put t kt (Node.file d))
    | some (Node.file d), none => (.ok (), put t kt (Node.file d))
    | _, _ => (.error (fs_error "cannot copy file: Invalid argument"), t)
  | _, _ => (.error (fs_error "cannot copy file: No such file or directory"), t)

/-- `std::filesystem::file_size(p)`: only a regular file has a size. -/
def file_size (p : Str) : Eff FileSystem Nat := fun t =>
  match status t p with
  | some (Node.file d) => (.ok d.length, t)
  | some Node.dir => (.error (fs_error "cannot get file size: Is a directory"), t)
  | none => (.error (fs_error "cannot get file size: No such file or directory"), t)

/-- `std::ifstream stream(p)`: the bytes the stream will deliver, or `none` if the
open fails.  Opening a directory succeeds; every read from it then fails. -/
def ifstream_open (t : FileSystem) (p : Str) : Option (List Byte) :=
  match status t p with
  | some (Node.file d) => some d
  | some Node.dir => some []
  | none => none

/-- `std::ofstream(p, std::ios::trunc) << data; flush()`: nothing happens when the
open fails (no such directory, or `p` is a directory). -/
def ofstream_write (p : Str) (data : List Byte) : Eff FileSystem Unit := fun t =>
  match locate t p with
  | none => (.ok (), t)
  | some k =>
    match lookup t k with
    | some Node.dir => (.ok (), t)
    | _ => (.ok (), put t k (Node.file data))

/-- The contents of a file after a complete `pwrite(fd, data, offset)`: writing
nothing changes nothing, a gap before `offset` is zero filled. -/
def pwrite_bytes (old data : List Byte) (offset : Nat) : List Byte :=
  if data = [] then old
  else (old ++ List.replicate (offset - old.length) 0).take offset ++ data
    ++ old.drop (offset + data.length)

/-- The first file position an `off_t` (a signed 64-bit integer) cannot hold. -/
def kOffLimit : Nat := 9223372036854775808

/-- `open(p, O_CREAT | O_RDWR, 0644)`, `pwrite(fd, data, offset)`, `close(fd)`:
whether the open succeeded and the write was complete.  The open creates a
missing file.  `static_cast<off_t>(offset)` is negative from `kOffLimit` on, and
`pwrite` then fails with `EINVAL`; a write that would not end below `kOffLimit`
is not complete either, and is taken to write nothing. -/
def open_pwrite (p : Str) (offset : Nat) (data : List Byte) : Eff FileSystem Bool := fun t =>
  match locate t p with
  | none => (.ok false, t)
  | some k =>
    match lookup t k with
    | some Node.dir => (.ok false, t)
    | some (Node.file old) =>
      if kOffLimit ≤ offset + data.length then (.ok false, t)
      else (.ok true, put t k (Node.file (pwrite_bytes old data offset)))
    | none =>
      if kOffLimit ≤ offset + data.length then (.ok false, put t k (Node.file []))
      else (.ok true, put t k (Node.file (pwrite_bytes [] data offset)))

end fs

/-! ## Numbers as text -/

/-- `isspace` in the C locale. -/
def isspace (c : Byte) : Bool := c.val = 32 ∨ (9 ≤ c.val ∧ c.val ≤ 13)

/-- `isdigit`. -/
def isdigit (c : Byte) : Bool := 48 ≤ c.val ∧ c.val ≤ 57

/-- The value of a run of decimal digits. -/
def digits_value (ds : Str) : Nat := ds.foldl (fun acc d => acc * 10 + (d.val - 48)) 0

/-- `std::stoull(s)` / `std::stoul(s)` (64-bit `unsigned long`), base 10, as
`strtoull` converts: leading white space, an optional sign, then digits; what
follows the digits is ignored.  `name` is the `what()` of the exception thrown
when there is no digit or the value does not fit. -/
def strtoull (name : String) (s : Str) : Except Str Nat :=
  let s1 := s.dropWhile isspace
  let neg := s1.head? == some (45 : Byte)
  let s2 := if s1.head? == some (45 : Byte) ∨ s1.head? == some (43 : Byte) then s1.drop 1 else s1
  let ds := s2.takeWhile isdigit
  if ds = [] then .error (str name)
  else if 18446744073709551616 ≤ digits_value ds then .error (str name)
  else .ok (if neg then (18446744073709551616 - digits_value ds) % 18446744073709551616
            else digits_value ds)

/-- `std::stoull`. -/
def stoull (s : Str) : Except Str Nat := strtoull "stoull" s

/-- `std::stoul`. -/
def stoul (s : Str) : Except Str Nat := strtoull "stoul" s

/-- The decimal digits of `n`, most significant first, in front of `acc`. -/
def to_string_loop : Nat → Nat → Str → Str
  | 0, _, acc => acc
  | fuel + 1, n, acc =>
    if n / 10 = 0 then byteOf (48 + n % 10) :: acc
    else to_string_loop fuel (n / 10) (byteOf (48 + n % 10) :: acc)

/-- `std::to_string(n)` for an unsigned `n`. -/
def to_string (n : Nat) : Str := to_string_loop (n + 1) n []

/-! ## Storage engine (`storage_manager.cpp`) -/

namespace server

open fs

/-- `struct UploadCheckpoint`. -/
structure UploadCheckpoint where
  active : Bool
  temp_path : Str
  meta_path : Str
  final_path : Str
  total : Nat
  received : Nat
deriving DecidableEq, Repr

/-- A default-constructed `UploadCheckpoint`. -/
def UploadCheckpoint.empty : UploadCheckpoint :=
  { active := false, temp_path := [], meta_path := [], final_path := [], total := 0, received := 0 }

/-- `struct DirEntry`. -/
structure DirEntry where
  name : Str
  is_directory : Bool
  size : Nat
  modified : Nat
deriving DecidableEq, Repr

/-- What the server is configured and linked with: the storage root (`root_`, absolute
or relative to the working directory), `max_chunk_bytes`, the page size, and the
collaborators the specification treats as opaque functions. -/
structure Env where
  /-- `StorageManager::root_` -/
  root : Str
  /-- `config_.max_chunk_bytes` -/
  max_chunk_bytes : Nat
  /-- `sysconf(_SC_PAGESIZE)` -/
  page_size : Nat
  /-- the MD5 digest of a byte string, in hex -/
  md5_hex : List Byte → Str
  /-- `JwtService::verify(token)`: the subject of the claims if the token verifies,
  `none` for `std::nullopt`, or the exception that `base64_decode` or `stoull` throws -/
  verify : Str → Except Str (Option Str)
  /-- `JwtService::issue(username)` -/
  issue : Str → Str
  /-- `PasswordHasher::hash_password(password, salt)`: the hash, or the exception
  `crypt_r failed` -/
  hash_password : Str → Str → Except Str Str
  /-- `PasswordHasher::generate_salt()` -/
  generate_salt : Str
  /-- `last_write_time` of a directory entry, in seconds since the epoch -/
  last_write_time : Str → Nat

/-- `kMmapThreshold`. -/
def kMmapThreshold : Nat := 100 * 1024 * 1024

/-- `last_write_offset(checkpoint)`. -/
def last_write_offset (checkpoint : UploadCheckpoint) : Eff FileSystem Nat := fun t =>
  if !path_exists t checkpoint.temp_path then (.ok 0, t)
  else file_size checkpoint.temp_path t

/-- The text `write_meta` writes. -/
def meta_text (checkpoint : UploadCheckpoint) : Str :=
  str "path=" ++ checkpoint.final_path ++ str "\n"
    ++ str "total=" ++ to_string checkpoint.total ++ str "\n"
    ++ str "received=" ++ to_string checkpoint.received ++ str "\n"

/-- `write_meta(checkpoint)`. -/
def write_meta (checkpoint : UploadCheckpoint) : Eff FileSystem Unit :=
  ofstream_write checkpoint.meta_path (meta_text checkpoint)

/-- The lines `std::getline` delivers from a stream holding `data`. -/
def getlines (data : Str) : List Str :=
  let ps := List.splitOn chNl data
  if ps.getLast? = some [] then ps.dropLast else ps

/-- The body of the `getline` loop of `read_meta`, for one line. -/
def read_meta_line (cp : UploadCheckpoint) (line : Str) : Except Str UploadCheckpoint :=
  match protocol.findChar chEq line with
  | none => .ok cp
  | some pos =>
    let key := line.take pos
    let value := line.drop (pos + 1)
    if key = str "total" then
      match stoull value with
      | .ok v => .ok { cp with total := v }
      | .error e => .error e
    else if key = str "received" then
      match stoull value with
      | .ok v => .ok { cp with received := v }
      | .error e => .error e
    else if key = str "path" then .ok { cp with final_path := value }
    else .ok cp

/-- The `getline` loop of `read_meta`. -/
def read_meta_lines : List Str → UploadCheckpoint → Except Str UploadCheckpoint
  | [], cp => .ok cp
  | line :: rest, cp =>
    match read_meta_line cp line with
    | .ok cp1 => read_meta_lines rest cp1
    | .error e => .error e

/-- `read_meta(meta_path, final_path)`. -/
def read_meta (meta_path final_path : Str) : Eff FileSystem UploadCheckpoint := fun t =>
  let cp : UploadCheckpoint :=
    { UploadCheckpoint.empty with
      meta_path := meta_path, final_path := final_path, active := path_exists t meta_path }
  if !cp.active then (.ok cp, t)
  else (read_meta_lines (getlines ((ifstream_open t meta_path).getD [])) cp, t)

/-- `StorageManager::user_root(username)`. -/
def user_root (env : Env) (username : Str) : Eff FileSystem Str := do
  let path := fs.append env.root username
  create_directories path
  pure path

/-- `StorageManager::checkpoint_dir(username)`. -/
def checkpoint_dir (env : Env) (username : Str) : Eff FileSystem Str := do
  let dir := fs.append (← user_root env username) (str ".resume")
  create_directories dir
  pure dir

/-- `StorageManager::meta_file(username, md5)`. -/
def meta_file (env : Env) (username md5 : Str) : Eff FileSystem Str := do
  pure (fs.append (← checkpoint_dir env username) (md5 ++ str ".meta"))

/-- `StorageManager::temp_file(username, md5)`. -/
def temp_file (env : Env) (username md5 : Str) : Eff FileSystem Str := do
  pure (fs.append (← checkpoint_dir env username) (md5 ++ str ".part"))

/-- `StorageManager::sanitize_path(base, relative)`: the check is
`canonical_target.string().rfind(canonical_base.string(), 0) != 0`, a prefix test
on the two strings. -/
def sanitize_path (base relative : Str) : Eff FileSystem Str := fun t =>
  let target := fs.append base relative
  let canonical_base := weakly_canonical t base
  let canonical_target := weakly_canonical t target
  if !(canonical_base.isPrefixOf canonical_target) then
    (.error (str "Path traversal detected"), t)
  else (.ok canonical_target, t)

/-- `StorageManager::resolve(username, relative)`. -/
def resolve (env : Env) (username relative : Str) : Eff FileSystem Str := do
  sanitize_path (← user_root env username) relative

/-- One `DirEntry` of `StorageManager::list`. -/
def list_entry (env : Env) (target : Str) (e : List Str × Node) : DirEntry :=
  { name := e.1.getLastD [],
    is_directory := e.2 == Node.dir,
    size := (match e.2 with
             | Node.file d => d.length
             | Node.dir => 0),
    modified := env.last_write_time (fs.append target (e.1.getLastD [])) }

/-- `StorageManager::list(username, relative_path)`. -/
def list (env : Env) (username relative_path : Str) : Eff FileSystem (List DirEntry) := do
  let target ← resolve env username relative_path
  let t ← Eff.read
  if !path_exists t target then pure []
  else
    match status t target, locate t target with
    | some Node.dir, some k => pure ((children t k).map (list_entry env target))
    | _, _ => Eff.raise (fs_error "directory iterator cannot open directory: Not a directory")

/-- `StorageManager::ensure_directory(username, relative_path)`. -/
def ensure_directory (env : Env) (username relative_path : Str) : Eff FileSystem Bool := do
  let path ← resolve env username relative_path
  create_directories path
  let t ← Eff.read
  pure (path_exists t path)

/-- `StorageManager::remove(username, relative_path)`. -/
def remove (env : Env) (username relative_path : Str) : Eff FileSystem Bool := do
  let target ← resolve env username relative_path
  let t ← Eff.read
  if !path_exists t target then pure false
  else if is_directory t target then do
    remove_all target
    pure true
  else fs.remove target

/-- `StorageManager::prepare_upload(username, md5, logical_path, total_bytes)`. -/
def prepare_upload (env : Env) (username md5 logical_path : Str) (total_bytes : Nat) :
    Eff FileSystem UploadCheckpoint := do
  let final_path ← resolve env username logical_path
  let meta_path ← meta_file env username md5
  let temp_path ← temp_file env username md5
  let checkpoint : UploadCheckpoint :=
    { active := true, total := total_bytes, final_path := final_path,
      meta_path := meta_path, temp_path := temp_path, received := 0 }
  create_directories (parent_path checkpoint.final_path)
  if path_exists (← Eff.read) checkpoint.meta_path then do
    let existing ← read_meta checkpoint.meta_path checkpoint.final_path
    pure { checkpoint with received := min existing.received total_bytes }
  else if path_exists (← Eff.read) checkpoint.temp_path then do
    let off ← last_write_offset checkpoint
    let checkpoint1 := { checkpoint with received := min off total_bytes }
    write_meta checkpoint1
    pure checkpoint1
  else do
    let checkpoint1 := { checkpoint with received := 0 }
    write_meta checkpoint1
    pure checkpoint1

/-- `StorageManager::write_chunk(checkpoint, offset, data)`. -/
def write_chunk (checkpoint : UploadCheckpoint) (offset : Nat) (data : List Byte) :
    Eff FileSystem Bool :=
  open_pwrite checkpoint.temp_path offset data

/-- `StorageManager::update_progress(checkpoint, received_bytes)`. -/
def update_progress (checkpoint : UploadCheckpoint) (received_bytes : Nat) :
    Eff FileSystem Unit :=
  write_meta { checkpoint with received := received_bytes }

/-- `StorageManager::finalize_upload(checkpoint)`. -/
def finalize_upload (checkpoint : UploadCheckpoint) : Eff FileSystem Str := do
  create_directories (parent_path checkpoint.final_path)
  rename checkpoint.temp_path checkpoint.final_path
  if path_exists (← Eff.read) checkpoint.meta_path then do
    let _ ← fs.remove checkpoint.meta_path
    pure checkpoint.final_path
  else pure checkpoint.final_path

/-- `if (std::filesystem::exists(p)) { std::filesystem::remove(p); }`. -/
def remove_if_exists (p : Str) : Eff FileSystem Unit := fun t =>
  if path_exists t p then
    match fs.remove p t with
    | (.ok _, t1) => (.ok (), t1)
    | (.error what, t1) => (.error what, t1)
  else (.ok (), t)

/-- `StorageManager::discard_checkpoint(checkpoint)`. -/
def discard_checkpoint (checkpoint : UploadCheckpoint) : Eff FileSystem Unit := fun t =>
  match remove_if_exists checkpoint.temp_path t with
  | (.ok _, t1) => remove_if_exists checkpoint.meta_path t1
  | (.error what, t1) => (.error what, t1)

/-- `StorageManager::file_size(absolute_path)`. -/
def storage_file_size (absolute_path : Str) : Eff FileSystem Nat := fun t =>
  if path_exists t absolute_path then fs.file_size absolute_path t else (.ok 0, t)

/-- `StorageManager::read_chunk(absolute_path, offset, length)`.  In the branch for large
files, `mmap` fails with `EINVAL` when asked for a mapping of length 0. -/
def read_chunk (env : Env) (absolute_path : Str) (offset length : Nat) :
    Eff FileSystem (List Byte) := do
  let size ← storage_file_size absolute_path
  if size ≤ offset then pure []
  else
    let to_read := min length (size - offset)
    match ifstream_open (← Eff.read) absolute_path with
    | none =>
      if kMmapThreshold ≤ size then Eff.raise (str "Unable to open file for mmap")
      else pure (List.replicate to_read 0)
    | some data =>
      if kMmapThreshold ≤ size then
        let page_offset := offset % env.page_size
        let map_offset := offset - page_offset
        let map_length := page_offset + to_read
        if map_length = 0 then Eff.raise (str "mmap failed")
        else pure ((((data.drop map_offset).take map_length).drop page_offset).take to_read)
      else
        let got := (data.drop offset).take to_read
        pure (got ++ List.replicate (to_read - got.length) 0)

/-- `StorageManager::compute_md5(absolute_path)`. -/
def compute_md5 (env : Env) (absolute_path : Str) : Eff FileSystem Str := fun t =>
  match ifstream_open t absolute_path with
  | none => (.error (str "Unable to open file for MD5"), t)
  | some data => (.ok (env.md5_hex data), t)

/-! ## Metadata index (`file_index.cpp`) and accounts (`auth_service.cpp`)

The SQLite tables are lists of rows in rowid order; every statement succeeds.
Text is bound with `c_str()`, so a row holds the chars before the first NUL. -/

/-- `struct FileMetadata`. -/
structure FileMetadata where
  owner : Str
  logical_path : Str
  md5 : Str
  storage_path : Str
  size : Nat
deriving DecidableEq, Repr

/-- The table `user_files`. -/
abbrev Catalog := List FileMetadata

/-- The row a `FileMetadata` is stored as. -/
def FileMetadata.row (m : FileMetadata) : FileMetadata :=
  { owner := c_str m.owner, logical_path := c_str m.logical_path, md5 := c_str m.md5,
    storage_path := c_str m.storage_path, size := m.size }

/-- `FileIndex::find_by_path(owner, logical_path)`. -/
def find_by_path (c : Catalog) (owner logical_path : Str) : Option FileMetadata :=
  c.find? (fun r => r.owner = c_str owner ∧ r.logical_path = c_str logical_path)

/-- `FileIndex::find_by_md5(md5)`: the first matching row. -/
def find_by_md5 (c : Catalog) (md5 : Str) : Option FileMetadata :=
  c.find? (fun r => r.md5 = c_str md5)

/-- `FileIndex::upsert(metadata)`: `INSERT ... ON CONFLICT(owner, logical_path) DO UPDATE`. -/
def upsert (c : Catalog) (metadata : FileMetadata) : Catalog :=
  if c.any (fun r => r.owner = c_str metadata.owner ∧ r.logical_path = c_str metadata.logical_path)
  then c.map (fun r =>
    if r.owner = c_str metadata.owner ∧ r.logical_path = c_str metadata.logical_path
    then metadata.row else r)
  else c ++ [metadata.row]

/-- `FileIndex::remove(owner, logical_path)`. -/
def index_remove (c : Catalog) (owner logical_path : Str) : Catalog :=
  c.filter (fun r => ¬ (r.owner = c_str owner ∧ r.logical_path = c_str logical_path))

/-- `struct UserRecord`. -/
structure UserRecord where
  username : Str
  password_hash : Str
  salt : Str
deriving DecidableEq, Repr

/-- `AuthService::find_user(username)`. -/
def find_user (users : List UserRecord) (username : Str) : Option UserRecord :=
  users.find? (fun r => r.username = c_str username)

/-- `AuthService::register_user(username, password)`. -/
def register_user (env : Env) (users : List UserRecord) (username password : Str) :
    Except Str (Bool × List UserRecord) :=
  if username = [] ∨ password = [] then .ok (false, users)
  else if (find_user users username).isSome then .ok (false, users)
  else
    match env.hash_password password env.generate_salt with
    | .error what => .error what
    | .ok hash =>
      .ok (true, users ++ [{ username := c_str username,
                             password_hash := c_str hash,
                             salt := c_str env.generate_salt }])

/-- `AuthService::validate_user(username, password)`. -/
def validate_user (env : Env) (users : List UserRecord) (username password : Str) :
    Except Str Bool :=
  match find_user users username with
  | none => .ok false
  | some record =>
    match env.hash_password password record.salt with
    | .error what => .error what
    | .ok attempted => .ok (decide (attempted = record.password_hash))

/-! ## Tokens (`jwt_service.cpp`, `base64.hpp`)

`HMAC(EVP_sha256(), key, data)` is a parameter `hmac` of `issue` and `verify`; the
clock and the random bytes of `random_jti` are parameters too. -/

/-- `cloud::util::kBase64Chars`. -/
def kBase64Chars : Str :=
  str "ABCDEFGHIJKLMNOPQRSTUVWXYZabcdefghijklmnopqrstuvwxyz0123456789+/"

/-- The char of `kBase64Chars` at index `i & 0x3F`. -/
def base64_char (i : Nat) : Byte := kBase64Chars.getD (i % 64) 0

/-- The loop `while (bits_collected >= 6)` of `base64_encode`: the bits left and the
chars pushed.  At most 13 bits are collected, so two iterations suffice. -/
def base64_emit : Nat → Nat → Nat → Nat × Str
  | 0, _, bits => (bits, [])
  | fuel + 1, accumulator, bits =>
    if 6 ≤ bits then
      let r := base64_emit fuel accumulator (bits - 6)
      (r.1, base64_char (accumulator >>> (bits - 6)) :: r.2)
    else (bits, [])

/-- The loop of `base64_encode` over the input, with the char for the bits left over
at the end; `accumulator` is a `uint32_t`. -/
def base64_encode_loop : Str → Nat → Nat → Str
  | [], accumulator, bits =>
    if 0 < bits then [base64_char ((accumulator <<< (6 - bits)) % 4294967296)] else []
  | c :: cs, accumulator, bits =>
    let accumulator1 := ((accumulator <<< 8) ||| c.val) % 4294967296
    let r := base64_emit 3 accumulator1 (bits + 8)
    r.2 ++ base64_encode_loop cs accumulator1 r.1

/-- `cloud::util::base64_encode`. -/
def base64_encode (input : Str) : Str :=
  let output := base64_encode_loop input 0 0
  output ++ List.replicate ((4 - output.length % 4) % 4) chEq

/-- The loop of `base64_decode`: it stops at the first `=`. -/
def base64_decode_loop : Str → Nat → Nat → Except Str Str
  | [], _, _ => .ok []
  | ch :: rest, accumulator, bits =>
    if ch = chEq then .ok []
    else if 64 ≤ kBase64Chars.indexOf ch then .error (str "Invalid Base64 character")
    else
      let accumulator1 := ((accumulator <<< 6) ||| kBase64Chars.indexOf ch) % 4294967296
      if 8 ≤ bits + 6 then
        match base64_decode_loop rest accumulator1 (bits + 6 - 8) with
        | .ok out => .ok (byteOf ((accumulator1 >>> (bits + 6 - 8)) % 256) :: out)
        | .error what => .error what
      else base64_decode_loop rest accumulator1 (bits + 6)

/-- `cloud::util::base64_decode`. -/
def base64_decode (input : Str) : Except Str Str :=
  if input.length % 4 ≠ 0 then .error (str "Invalid Base64 input length")
  else base64_decode_loop input 0 0

/-- `base64url_from_standard`. -/
def base64url_from_standard (value : Str) : Str :=
  dropEndWhile (fun ch => ch == chEq)
    (value.map (fun ch => if ch = 43 then 45 else if ch = 47 then 95 else ch))

/-- `base64url_to_standard`. -/
def base64url_to_standard (value : Str) : Str :=
  value.map (fun ch => if ch = 45 then 43 else if ch = 95 then 47 else ch)
    ++ List.replicate ((4 - value.length % 4) % 4) chEq

/-- `JwtService::base64url_encode`. -/
def base64url_encode (input : Str) : Str := base64url_from_standard (base64_encode input)

/-- `JwtService::base64url_decode`. -/
def base64url_decode (input : Str) : Except Str Str :=
  base64_decode (base64url_to_standard input)

/-- `std::string::find(pattern)` on the suffix that starts at index `i`. -/
def find_from (pattern : Str) : Str → Nat → Option Nat
  | [], i => if pattern = [] then some i else none
  | c :: cs, i => if pattern.isPrefixOf (c :: cs) then some i else find_from pattern cs (i + 1)

/-- `extract_json_string(payload, key)`: the chars up to the next `"`, not unescaped. -/
def extract_json_string (payload key : Str) : Str :=
  let pattern := str "\"" ++ key ++ str "\":\""
  match find_from pattern payload 0 with
  | none => []
  | some pos =>
    let start := pos + pattern.length
    match protocol.findChar 34 (payload.drop start) with
    | none => []
    | some len => (payload.drop start).take len

/-- `extract_json_number(payload, key)`. -/
def extract_json_number (payload key : Str) : Except Str Nat :=
  let pattern := str "\"" ++ key ++ str "\":"
  match find_from pattern payload 0 with
  | none => .ok 0
  | some pos =>
    stoull (((payload.drop (pos + pattern.length)).dropWhile isspace).takeWhile isdigit)

/-- `JwtService::escape_json`. -/
def escape_json (raw : Str) : Str :=
  raw.foldr (fun ch escaped => if ch = 34 ∨ ch = 92 then 92 :: ch :: escaped else ch :: escaped) []

/-- `struct JwtConfig`. -/
structure JwtConfig where
  issuer : Str
  secret : Str
  ttl_seconds : Nat
deriving DecidableEq, Repr

/-- `struct JwtClaims`. -/
structure JwtClaims where
  subject : Str
  expires_at : Nat
  issued_at : Nat
deriving DecidableEq, Repr

/-- `JwtService::issue(username)` at the time `now`, with the 16 random bytes `jti`. -/
def jwt_issue (hmac : Str → Str → List Byte) (config : JwtConfig) (now : Nat) (jti : List Byte)
    (username : Str) : Str :=
  let exp := (now + config.ttl_seconds) % 18446744073709551616
  let header := str "\x7b\"alg\":\"HS256\",\"typ\":\"JWT\"\x7d"
  let payload := str "\x7b\"iss\":\"" ++ escape_json config.issuer ++ str "\","
    ++ str "\"sub\":\"" ++ escape_json username ++ str "\","
    ++ str "\"iat\":" ++ to_string now ++ str ","
    ++ str "\"exp\":" ++ to_string exp ++ str ","
    ++ str "\"jti\":\"" ++ escape_json (base64_encode jti) ++ str "\"\x7d"
  let signing_input := base64url_encode header ++ str "." ++ base64url_encode payload
  let signature := base64url_from_standard (base64_encode (hmac config.secret signing_input))
  signing_input ++ str "." ++ signature

/-- `JwtService::verify(token)` at the time `now`: the claims, `none` for
`std::nullopt`, or the exception `base64_decode` or `stoull` throws. -/
def jwt_verify (hmac : Str → Str → List Byte) (config : JwtConfig) (now : Nat) (token : Str) :
    Except Str (Option JwtClaims) :=
  match protocol.findChar 46 token with
  | none => .ok none
  | some first_dot =>
    match protocol.findChar 46 (token.drop (first_dot + 1)) with
    | none => .ok none
    | some len =>
      let header_part := token.take first_dot
      let payload_part := (token.drop (first_dot + 1)).take len
      let signature_part := token.drop (first_dot + 1 + len + 1)
      match base64url_decode header_part with
      | .error what => .error what
      | .ok decoded_header =>
        if find_from (str "\"HS256\"") decoded_header 0 = none then .ok none
        else
          let signing_input := header_part ++ str "." ++ payload_part
          let expected_signature :=
            base64url_from_standard (base64_encode (hmac config.secret signing_input))
          if expected_signature ≠ signature_part then .ok none
          else
            match base64url_decode payload_part with
            | .error what => .error what
            | .ok payload =>
              match extract_json_number payload (str "iat") with
              | .error what => .error what
              | .ok issued_at =>
                match extract_json_number payload (str "exp") with
                | .error what => .error what
                | .ok expires_at =>
                  let subject := extract_json_string payload (str "sub")
                  if subject = [] ∨ expires_at = 0 then .ok none
                  else if expires_at < now then .ok none
                  else .ok (some { subject := subject, expires_at := expires_at,
                                   issued_at := issued_at })

/-! ## Reactor and session core (`cloud_server.cpp`) -/

open protocol

/-- The body of the loop of `normalize_relative`, for one element `part` of the path. -/
def normalize_step (normalized part : Str) : Str :=
  if part = dot then normalized
  else if part = dotdot then (if normalized ≠ [] then parent_path normalized else normalized)
  else fs.append normalized part

/-- `normalize_relative(path)`. -/
def normalize_relative (path : Str) : Str :=
  let normalized := (elems path).foldl normalize_step []
  if normalized = [] then str "." else normalized

/-- One step of the reference stack normalisation: a `.` segment is dropped, a `..`
segment removes the last kept segment (nothing when none is left), any other segment
is kept. -/
def reference_step (kept : List Str) (segment : Str) : List Str :=
  if segment = dot then kept
  else if segment = dotdot then kept.dropLast
  else kept ++ [segment]

/-- The reference stack normalisation of a list of segments: the kept segments joined
with `/`, and `.` when none is kept. -/
def reference_normalize_segments (segments : List Str) : Str :=
  if segments.foldl reference_step [] = [] then str "."
  else joinSlash (segments.foldl reference_step [])

/-- The reference normalisation of a slash-separated path, whose segments are the
non-empty pieces between its slashes. -/
def reference_normalize (path : Str) : Str := reference_normalize_segments (names path)

/-- `struct CloudServer::ConnectionContext`. -/
structure ConnectionContext where
  fd : Nat
  peer : Str
  inbound : List Byte
  inbound_offset : Nat
  outbound : List Byte
  username : Str
  token : Str
  cwd : Str
  upload_active : Bool
  upload_checkpoint : UploadCheckpoint
  upload_expected : Nat
  upload_md5 : Str
  upload_logical : Str
deriving DecidableEq, Repr

/-- The session `handle_accept` creates for a new connection. -/
def ConnectionContext.fresh (fd : Nat) (peer : Str) : ConnectionContext :=
  { fd := fd, peer := peer, inbound := [], inbound_offset := 0, outbound := [],
    username := [], token := [], cwd := str ".", upload_active := false,
    upload_checkpoint := UploadCheckpoint.empty, upload_expected := 0, upload_md5 := [],
    upload_logical := [] }

/-- `struct CloudServer::PendingResponse`. -/
structure PendingResponse where
  fd : Nat
  message : Message
deriving DecidableEq, Repr

/-- The closure `FILE_UPLOAD_COMMIT` submits to the task executor, by its captures
`[this, checkpoint, md5, logical, username, fd_copy]`. -/
structure FinalizeTask where
  checkpoint : UploadCheckpoint
  md5 : Str
  logical : Str
  username : Str
  fd_copy : Nat
deriving DecidableEq, Repr

/-- What the reactor and the workers share besides the sessions: the storage
engine's files, the catalog, the accounts, the outbox `async_responses_` and
the queue of the task executor. -/
structure Backend where
  storage : FileSystem
  file_index : Catalog
  users : List UserRecord
  async_responses : List PendingResponse
  tasks : List FinalizeTask
deriving DecidableEq, Repr

/-- The state one message is handled in: the session `ctx` of the connection and
everything else the handlers reach. -/
structure Dispatch where
  ctx : ConnectionContext
  world : Backend
deriving DecidableEq, Repr

/-- `CloudServer::schedule_response(fd, message)`: appends to the outbox. -/
def schedule_response (fd : Nat) (message : Message) : Eff Dispatch Unit := fun s =>
  (.ok (), { s with world := { s.world with
    async_responses := s.world.async_responses ++ [{ fd := fd, message := message }] } })

/-- `task_executor_.submit(task)`. -/
def submit (task : FinalizeTask) : Eff Dispatch Unit := fun s =>
  (.ok (), { s with world := { s.world with tasks := s.world.tasks ++ [task] } })

/-- A call into `storage_manager_` (or `std::filesystem`) from a handler. -/
def storage_call {α : Type} (m : Eff FileSystem α) : Eff Dispatch α := fun s =>
  ((m s.world.storage).1, { s with world := { s.world with storage := (m s.world.storage).2 } })

/-- An assignment to fields of `ctx`. -/
def set_ctx (f : ConnectionContext → ConnectionContext) : Eff Dispatch Unit := fun s =>
  (.ok (), { s with ctx := f s.ctx })

/-- An update of the catalog through `file_index_`. -/
def index_call (f : Catalog → Catalog) : Eff Dispatch Unit := fun s =>
  (.ok (), { s with world := { s.world with file_index := f s.world.file_index } })

/-- A call into `auth_service_` that may change the accounts, or throw. -/
def auth_call {α : Type} (f : List UserRecord → Except Str (α × List UserRecord)) :
    Eff Dispatch α := fun s =>
  match f s.world.users with
  | .error what => (.error what, s)
  | .ok r => (.ok r.1, { s with world := { s.world with users := r.2 } })

/-- The reply `make_message({{"cmd", cmd}, {"status", status}})`. -/
def status_reply (cmd status : Str) : Message :=
  make_message [(str "cmd", cmd), (str "status", status)]

/-- The `REGISTER` branch. -/
def on_register (env : Env) (fd : Nat) (message : Message) : Eff Dispatch Unit := do
  let username := header_value message (str "username")
  let password := header_value message (str "password")
  if username = [] ∨ password = [] then
    schedule_response fd (status_reply (str "REGISTER") (str "invalid"))
  else do
    if (← auth_call (fun users => register_user env users username password)) then
      schedule_response fd (status_reply (str "REGISTER") (str "ok"))
    else schedule_response fd (status_reply (str "REGISTER") (str "exists"))

/-- The `LOGIN` branch. -/
def on_login (env : Env) (fd : Nat) (message : Message) : Eff Dispatch Unit := do
  let username := header_value message (str "username")
  let password := header_value message (str "password")
  if username = [] ∨ password = [] then
    schedule_response fd (status_reply (str "LOGIN") (str "invalid"))
  else do
    let s ← Eff.read
    if (← Eff.ofExcept (validate_user env s.world.users username password)) then do
      let token := env.issue username
      set_ctx (fun c => { c with username := username, token := token, cwd := str "." })
      schedule_response fd (make_message [(str "cmd", str "LOGIN"), (str "status", str "ok"),
        (str "token", token), (str "home", str ".")])
    else schedule_response fd (status_reply (str "LOGIN") (str "denied"))

/-- The `TOKEN_AUTH` branch. -/
def on_token_auth (env : Env) (fd : Nat) (message : Message) : Eff Dispatch Unit := do
  let token := header_value message (str "token")
  if token = [] then schedule_response fd (status_reply (str "TOKEN_AUTH") (str "missing"))
  else
    match env.verify token with
    | .error what => Eff.raise what
    | .ok none => schedule_response fd (status_reply (str "TOKEN_AUTH") (str "invalid"))
    | .ok (some subject) => do
      set_ctx (fun c => { c with username := subject, token := token })
      schedule_response fd (status_reply (str "TOKEN_AUTH") (str "ok"))

/-- The `DIR_PWD` branch. -/
def on_dir_pwd (fd : Nat) : Eff Dispatch Unit := do
  let s ← Eff.read
  schedule_response fd (make_message [(str "cmd", str "DIR_PWD"), (str "status", str "ok"),
    (str "path", s.ctx.cwd)])

/-- The `DIR_CHANGE` branch. -/
def on_dir_change (env : Env) (fd : Nat) (message : Message) : Eff Dispatch Unit := do
  let path := header_value message (str "path")
  if path = [] then schedule_response fd (status_reply (str "DIR_CHANGE") (str "invalid"))
  else
    Eff.catching (do
      let s ← Eff.read
      let resolved ← storage_call (resolve env s.ctx.username (fs.append s.ctx.cwd path))
      let s1 ← Eff.read
      if !is_directory s1.world.storage resolved then
        schedule_response fd (status_reply (str "DIR_CHANGE") (str "notfound"))
      else do
        let base ← storage_call (user_root env s.ctx.username)
        let s2 ← Eff.read
        let cwd := lexically_normal (fs.relative s2.world.storage resolved base)
        let cwd1 := if cwd = [] then str "." else cwd
        set_ctx (fun c => { c with cwd := cwd1 })
        schedule_response fd (make_message [(str "cmd", str "DIR_CHANGE"), (str "status", str "ok"),
          (str "path", cwd1)]))
      (fun what => schedule_response fd (status_reply (str "DIR_CHANGE") what))

/-- The `DIR_MKDIR` branch. -/
def on_dir_mkdir (env : Env) (fd : Nat) (message : Message) : Eff Dispatch Unit := do
  let path := header_value message (str "path")
  if path = [] then schedule_response fd (status_reply (str "DIR_MKDIR") (str "invalid"))
  else do
    let s ← Eff.read
    if (← storage_call (ensure_directory env s.ctx.username (fs.append s.ctx.cwd path))) then
      schedule_response fd (status_reply (str "DIR_MKDIR") (str "ok"))
    else schedule_response fd (status_reply (str "DIR_MKDIR") (str "failed"))

/-- One line of the `DIR_LIST` body. -/
def list_line (entry : DirEntry) : Str :=
  entry.name ++ str "|" ++ (if entry.is_directory then str "dir" else str "file") ++ str "|"
    ++ to_string entry.size ++ str "|" ++ to_string entry.modified ++ str "\n"

/-- The `DIR_LIST` branch. -/
def on_dir_list (env : Env) (fd : Nat) (message : Message) : Eff Dispatch Unit := do
  let path := header_value message (str "path")
  let s ← Eff.read
  let target := if path ≠ [] then fs.append s.ctx.cwd path else s.ctx.cwd
  Eff.catching (do
    let entries ← storage_call (list env s.ctx.username target)
    let body := (entries.map list_line).foldl (fun acc l => acc ++ l) []
    schedule_response fd
      (make_message [(str "cmd", str "DIR_LIST"), (str "status", str "ok"),
        (str "count", to_string entries.length)] body))
    (fun what => schedule_response fd (status_reply (str "DIR_LIST") what))

/-- The `FILE_DELETE` branch. -/
def on_file_delete (env : Env) (fd : Nat) (message : Message) : Eff Dispatch Unit := do
  let path := header_value message (str "path")
  if path = [] then schedule_response fd (status_reply (str "FILE_DELETE") (str "invalid"))
  else do
    let s ← Eff.read
    if (← storage_call (server.remove env s.ctx.username (fs.append s.ctx.cwd path))) then do
      index_call (fun c => index_remove c s.ctx.username
        (normalize_relative (fs.append s.ctx.cwd path)))
      schedule_response fd (status_reply (str "FILE_DELETE") (str "ok"))
    else schedule_response fd (status_reply (str "FILE_DELETE") (str "notfound"))

/-- The `FILE_UPLOAD_INIT` branch. -/
def on_upload_init (env : Env) (fd : Nat) (message : Message) : Eff Dispatch Unit := do
  let path := header_value message (str "path")
  let md5 := header_value message (str "md5")
  let size := header_value message (str "size")
  if path = [] ∨ md5 = [] ∨ size = [] then
    schedule_response fd (status_reply (str "FILE_UPLOAD_INIT") (str "invalid"))
  else do
    let s ← Eff.read
    let logical := normalize_relative (fs.append s.ctx.cwd path)
    let absolute ← storage_call (resolve env s.ctx.username logical)
    let s1 ← Eff.read
    match find_by_md5 s1.world.file_index md5 with
    | some instant =>
      if path_exists s1.world.storage instant.storage_path then do
        storage_call (create_directories (parent_path absolute))
        storage_call (copy_file instant.storage_path absolute)
        index_call (fun c => upsert c
          { owner := s.ctx.username, logical_path := logical, md5 := md5,
            storage_path := absolute, size := instant.size })
        schedule_response fd (make_message [(str "cmd", str "FILE_UPLOAD_INIT"),
          (str "status", str "instant"), (str "path", logical)])
      else on_upload_open env fd md5 size logical s.ctx.username
    | none => on_upload_open env fd md5 size logical s.ctx.username
where
  /-- The rest of the branch when there is no instant transfer: `prepare_upload`
  and the `ready` reply. -/
  on_upload_open (env : Env) (fd : Nat) (md5 size logical username : Str) :
      Eff Dispatch Unit := do
    let total ← Eff.ofExcept (stoull size)
    let checkpoint ← storage_call (prepare_upload env username md5 logical total)
    set_ctx (fun c => { c with
      upload_active := true
      upload_checkpoint := checkpoint
      upload_expected := checkpoint.total
      upload_md5 := md5
      upload_logical := logical })
    schedule_response fd (make_message [(str "cmd", str "FILE_UPLOAD_INIT"),
      (str "status", str "ready"), (str "offset", to_string checkpoint.received)])

/-- The `FILE_UPLOAD_CHUNK` branch. -/
def on_upload_chunk (fd : Nat) (message : Message) : Eff Dispatch Unit := do
  let s ← Eff.read
  if !s.ctx.upload_active then
    schedule_response fd (status_reply (str "FILE_UPLOAD_CHUNK") (str "no_session"))
  else
    let offset := header_value message (str "offset")
    if offset = [] then
      schedule_response fd (status_reply (str "FILE_UPLOAD_CHUNK") (str "invalid"))
    else do
      let off ← Eff.ofExcept (stoull offset)
      if off ≠ s.ctx.upload_checkpoint.received then
        schedule_response fd (status_reply (str "FILE_UPLOAD_CHUNK") (str "offset"))
      else if !(← storage_call (write_chunk s.ctx.upload_checkpoint off message.body)) then
        schedule_response fd (status_reply (str "FILE_UPLOAD_CHUNK") (str "io_error"))
      else do
        let received := (s.ctx.upload_checkpoint.received + message.body.length)
          % 18446744073709551616
        set_ctx (fun c => { c with
          upload_checkpoint := { c.upload_checkpoint with received := received } })
        storage_call (update_progress { s.ctx.upload_checkpoint with received := received }
          received)
        schedule_response fd (make_message [(str "cmd", str "FILE_UPLOAD_CHUNK"),
          (str "status", str "ok"), (str "received", to_string received)])

/-- The `FILE_UPLOAD_COMMIT` branch. -/
def on_upload_commit (fd : Nat) : Eff Dispatch Unit := do
  let s ← Eff.read
  if !s.ctx.upload_active ∨ s.ctx.upload_checkpoint.received ≠ s.ctx.upload_expected then
    schedule_response fd (status_reply (str "FILE_UPLOAD_COMMIT") (str "incomplete"))
  else do
    set_ctx (fun c => { c with upload_active := false })
    submit { checkpoint := s.ctx.upload_checkpoint, md5 := s.ctx.upload_md5,
             logical := s.ctx.upload_logical, username := s.ctx.username, fd_copy := fd }

/-- The `FILE_DOWNLOAD_INIT` branch. -/
def on_download_init (env : Env) (fd : Nat) (message : Message) : Eff Dispatch Unit := do
  let path := header_value message (str "path")
  if path = [] then
    schedule_response fd (status_reply (str "FILE_DOWNLOAD_INIT") (str "invalid"))
  else do
    let s ← Eff.read
    let logical := normalize_relative (fs.append s.ctx.cwd path)
    let absolute ← storage_call (resolve env s.ctx.username logical)
    let s1 ← Eff.read
    if !path_exists s1.world.storage absolute then
      schedule_response fd (status_reply (str "FILE_DOWNLOAD_INIT") (str "notfound"))
    else do
      let md5 ←
        match find_by_path s1.world.file_index s.ctx.username logical with
        | some entry => pure entry.md5
        | none => storage_call (compute_md5 env absolute)
      let size ← storage_call (storage_file_size absolute)
      schedule_response fd
        (make_message [(str "cmd", str "FILE_DOWNLOAD_INIT"), (str "status", str "ok"),
          (str "size", to_string size), (str "md5", md5), (str "path", logical)])

/-- The `FILE_DOWNLOAD_FETCH` branch. -/
def on_download_fetch (env : Env) (fd : Nat) (message : Message) : Eff Dispatch Unit := do
  let path := header_value message (str "path")
  let offset := header_value message (str "offset")
  let length := header_value message (str "length")
  if path = [] ∨ offset = [] ∨ length = [] then
    schedule_response fd (status_reply (str "FILE_DOWNLOAD_FETCH") (str "invalid"))
  else do
    let s ← Eff.read
    let logical := normalize_relative (fs.append s.ctx.cwd path)
    let absolute ← storage_call (resolve env s.ctx.username logical)
    let s1 ← Eff.read
    if !path_exists s1.world.storage absolute then
      schedule_response fd (status_reply (str "FILE_DOWNLOAD_FETCH") (str "notfound"))
    else do
      let requested ← Eff.ofExcept (stoul length)
      let chunk_size := min requested env.max_chunk_bytes
      let off ← Eff.ofExcept (stoull offset)
      let chunk ← storage_call (read_chunk env absolute off chunk_size)
      schedule_response fd
        (make_message [(str "cmd", str "FILE_DOWNLOAD_FETCH"),
          (str "status", if chunk = [] then str "done" else str "ok"),
          (str "chunk", to_string chunk.length)] chunk)

/-- The commands behind the auth guard, in the order the source tests them. -/
def on_command (env : Env) (fd : Nat) (command : Str) (message : Message) : Eff Dispatch Unit :=
  if command = str "DIR_PWD" then on_dir_pwd fd
  else if command = str "DIR_CHANGE" then on_dir_change env fd message
  else if command = str "DIR_MKDIR" then on_dir_mkdir env fd message
  else if command = str "DIR_LIST" then on_dir_list env fd message
  else if command = str "FILE_DELETE" then on_file_delete env fd message
  else if command = str "FILE_UPLOAD_INIT" then on_upload_init env fd message
  else if command = str "FILE_UPLOAD_CHUNK" then on_upload_chunk fd message
  else if command = str "FILE_UPLOAD_COMMIT" then on_upload_commit fd
  else if command = str "FILE_DOWNLOAD_INIT" then on_download_init env fd message
  else if command = str "FILE_DOWNLOAD_FETCH" then on_download_fetch env fd message
  else schedule_response fd (status_reply command (str "unknown"))

/-- The `try` block of the decode loop: the three commands that need no token, the
auth guard, then the guarded commands. -/
def dispatch_try (env : Env) (fd : Nat) (command : Str) (message : Message) : Eff Dispatch Unit :=
  if command = str "REGISTER" then on_register env fd message
  else if command = str "LOGIN" then on_login env fd message
  else if command = str "TOKEN_AUTH" then on_token_auth env fd message
  else
    let token := header_value message (str "token")
    if token = [] then schedule_response fd (status_reply command (str "auth_required"))
    else
      match env.verify token with
      | .error what => Eff.raise what
      | .ok none => schedule_response fd (status_reply command (str "token_invalid"))
      | .ok (some subject) => do
        set_ctx (fun c => { c with username := subject, token := token })
        on_command env fd command message

/-- The body of the decode loop of `handle_fd_event`, for one decoded message. -/
def dispatch (env : Env) (fd : Nat) (message : Message) : Eff Dispatch Unit :=
  let cmd := header_value message (str "cmd")
  if cmd = [] then
    schedule_response fd (make_message [(str "cmd", str "ERROR"), (str "reason", str "MissingCommand")])
  else
    Eff.catching (dispatch_try env fd cmd message)
      (fun what => schedule_response fd (make_message [(str "cmd", cmd), (str "status", str "error"),
        (str "reason", what)]))

/-- The thirteen commands the dispatcher tests for. -/
def recognized_commands : List Str :=
  [str "REGISTER", str "LOGIN", str "TOKEN_AUTH", str "DIR_PWD", str "DIR_CHANGE",
   str "DIR_MKDIR", str "DIR_LIST", str "FILE_DELETE", str "FILE_UPLOAD_INIT",
   str "FILE_UPLOAD_CHUNK", str "FILE_UPLOAD_COMMIT", str "FILE_DOWNLOAD_INIT",
   str "FILE_DOWNLOAD_FETCH"]

/-- The `try` block of the finalization task: the headers it adds to the
response after `cmd`.  No header is added before a statement that can throw. -/
def finalize_try (env : Env) (task : FinalizeTask) : Eff Backend (List (Str × Str)) := fun w =>
  match finalize_upload task.checkpoint w.storage with
  | (.error what, t1) => (.error what, { w with storage := t1 })
  | (.ok final_path, t1) =>
    match compute_md5 env final_path t1 with
    | (.error what, t2) => (.error what, { w with storage := t2 })
    | (.ok actual_md5, t2) =>
      if actual_md5 ≠ task.md5 then
        match discard_checkpoint task.checkpoint t2 with
        | (.error what, t3) => (.error what, { w with storage := t3 })
        | (.ok _, t3) => (.ok [(str "status", str "md5_mismatch")], { w with storage := t3 })
      else
        (.ok [(str "status", str "ok"), (str "path", task.logical)],
          { w with
            storage := t2
            file_index := upsert w.file_index
              { owner := task.username, logical_path := task.logical, md5 := actual_md5,
                storage_path := final_path, size := task.checkpoint.total } })

/-- The response the finalization task ends with: `cmd`, then what the `try` block
added, or `status = what()` from the `catch`. -/
def task_reply (env : Env) (task : FinalizeTask) (w : Backend) : Message :=
  make_message ((str "cmd", str "FILE_UPLOAD_COMMIT") ::
    (match (finalize_try env task w).1 with
     | .ok added => added
     | .error what => [(str "status", what)]))

/-- The finalization task `FILE_UPLOAD_COMMIT` submits, run by a worker: the `try`
block, the `catch` that turns an exception into `status = what()`, and the one
`schedule_response(fd_copy, response)` that ends it. -/
def run_task (env : Env) (task : FinalizeTask) (w : Backend) : Backend :=
  { (finalize_try env task w).2 with
    async_responses := (finalize_try env task w).2.async_responses ++
      [{ fd := task.fd_copy, message := task_reply env task w }] }

/-- `EPOLLIN`. -/
def EPOLLIN : Nat := 1

/-- `EPOLLOUT`. -/
def EPOLLOUT : Nat := 4

/-- `EPOLLERR`. -/
def EPOLLERR : Nat := 8

/-- `EPOLLHUP`. -/
def EPOLLHUP : Nat := 16

/-- `EPOLLRDHUP`. -/
def EPOLLRDHUP : Nat := 8192

/-- What one `recv` call on a non-blocking socket returns: `received` bytes (none
at end of stream), `EAGAIN`, or another error. -/
inductive RecvResult where
  | data (bytes : List Byte)
  | again
  | failed
deriving DecidableEq, Repr

/-- What one `send` call returns: the number of bytes taken, `EAGAIN`, or another error. -/
inductive SendResult where
  | sent (n : Nat)
  | again
  | failed
deriving DecidableEq, Repr

/-- What the socket does during one `handle_fd_event`: the results of the
successive `recv` and `send` calls (`EAGAIN` once a list is used up). -/
structure SocketIO where
  recvs : List RecvResult
  sends : List SendResult
deriving DecidableEq, Repr

/-- The reactor: the `connections_` table and what it shares with the workers. -/
structure Server where
  connections : List (Nat × ConnectionContext)
  world : Backend
deriving DecidableEq, Repr

/-- `connections_.find(fd)`. -/
def find_connection (s : Server) (fd : Nat) : Option ConnectionContext :=
  (s.connections.find? (fun e => e.1 == fd)).map Prod.snd

/-- `CloudServer::close_connection(fd)`: `connections_.erase(fd)`. -/
def close_connection (fd : Nat) (s : Server) : Server :=
  { s with connections := s.connections.filter (fun e => e.1 ≠ fd) }

/-- Writes the session of `fd` back into the table (`ctx` is a reference into it). -/
def store_connection (fd : Nat) (ctx : ConnectionContext) (s : Server) : Server :=
  { s with connections := s.connections.map (fun e => if e.1 = fd then (fd, ctx) else e) }

/-- The `recv` loop: the inbound buffer once the socket would block, or `none` when
the connection is to be closed (error or end of stream). -/
def recv_loop : List RecvResult → List Byte → Option (List Byte)
  | [], inbound => some inbound
  | RecvResult.again :: _, inbound => some inbound
  | RecvResult.failed :: _, _ => none
  | RecvResult.data bytes :: rest, inbound =>
    if bytes = [] then none else recv_loop rest (inbound ++ bytes)

/-- The decode loop `while (protocol::try_decode(ctx.inbound, ctx.inbound_offset, message))`.
The call to `try_decode` is the loop condition, outside the `try` block of the
body: what it throws leaves the loop and `handle_fd_event`.  Every decoded frame
takes at least 12 bytes, so `fuel` = unread bytes + 1 is never used up. -/
def decode_loop (env : Env) (fd : Nat) : Nat → Eff Dispatch Unit
  | 0 => Eff.ret ()
  | fuel + 1 => fun s =>
    let d := try_decode s.ctx.inbound s.ctx.inbound_offset
    let s1 : Dispatch :=
      { s with ctx := { s.ctx with inbound := d.buffer, inbound_offset := d.offset } }
    match d.result with
    | DecodeResult.need_more => (.ok (), s1)
    | DecodeResult.error what => (.error what, s1)
    | DecodeResult.message message =>
      match dispatch env fd message s1 with
      | (.ok _, s2) => decode_loop env fd fuel s2
      | (.error what, s2) => (.error what, s2)

/-- The decode loop of `handle_fd_event`, `while (protocol::try_decode(ctx.inbound,
ctx.inbound_offset, message))`, with the handling of a message replaced by collecting it:
the messages decoded until `try_decode` reports "need more bytes", and the buffer and the
cursor then.  Every decoded frame takes at least 12 bytes, so `fuel` = unread bytes + 1 is
never used up; if it were, the result would be the error `fuel`. -/
def decode_messages : Nat → List Byte → Nat → Except Str (List Message × List Byte × Nat)
  | 0, _, _ => .error (str "fuel")
  | fuel + 1, buffer, offset =>
    let d := try_decode buffer offset
    match d.result with
    | DecodeResult.need_more => .ok ([], d.buffer, d.offset)
    | DecodeResult.error what => .error what
    | DecodeResult.message message =>
      match decode_messages fuel d.buffer d.offset with
      | .ok (messages, buffer1, offset1) => .ok (message :: messages, buffer1, offset1)
      | .error what => .error what

/-- The `EPOLLIN` part of `handle_fd_event` for a sequence of `recv` results: each
fragment is appended to the inbound buffer and the decode loop runs; the messages decoded
in all, and the buffer and the cursor at the end. -/
def feed_fragments : List (List Byte) → List Byte → Nat →
    Except Str (List Message × List Byte × Nat)
  | [], buffer, offset => .ok ([], buffer, offset)
  | fragment :: rest, buffer, offset =>
    match decode_messages ((buffer ++ fragment).length - offset + 1) (buffer ++ fragment)
        offset with
    | .error what => .error what
    | .ok (messages, buffer1, offset1) =>
      match feed_fragments rest buffer1 offset1 with
      | .error what => .error what
      | .ok (messages2, buffer2, offset2) => .ok (messages ++ messages2, buffer2, offset2)

/-- The `send` loop: the outbound buffer left, or `none` when the connection is to
be closed. -/
def send_loop : List SendResult → List Byte → Option (List Byte)
  | [], outbound => some outbound
  | r :: rest, outbound =>
    if outbound = [] then some outbound
    else
      match r with
      | SendResult.sent n => send_loop rest (outbound.drop n)
      | SendResult.again => some outbound
      | SendResult.failed => none

/-- The `EPOLLOUT` part of `handle_fd_event`. -/
def on_writable (fd : Nat) (events : Nat) (io : SocketIO) (s : Server) : Server :=
  if events &&& EPOLLOUT = 0 then s
  else
    match find_connection s fd with
    | none => s
    | some ctx =>
      match send_loop io.sends ctx.outbound with
      | none => close_connection fd s
      | some outbound => store_connection fd { ctx with outbound := outbound } s

/-- `CloudServer::handle_fd_event(fd, events)`.  The result is `error what` when an
exception leaves the function. -/
def handle_fd_event (env : Env) (fd : Nat) (events : Nat) (io : SocketIO) : Eff Server Unit :=
  fun s =>
  match find_connection s fd with
  | none => (.ok (), s)
  | some ctx =>
    if events &&& (EPOLLHUP ||| EPOLLRDHUP ||| EPOLLERR) ≠ 0 then (.ok (), close_connection fd s)
    else if events &&& EPOLLIN ≠ 0 then
      match recv_loop io.recvs ctx.inbound with
      | none => (.ok (), close_connection fd s)
      | some inbound =>
        let ctx1 := { ctx with inbound := inbound }
        match decode_loop env fd (inbound.length - ctx.inbound_offset + 1)
            { ctx := ctx1, world := s.world } with
        | (.ok _, d) =>
          (.ok (), on_writable fd events io
            (store_connection fd d.ctx { s with world := d.world }))
        | (.error what, d) => (.error what, store_connection fd d.ctx { s with world := d.world })
    else (.ok (), on_writable fd events io s)

/-- The inner loop of `reactor_loop`: `handle_fd_event` for every queued event.
Nothing catches an exception here; it ends the reactor thread. -/
def drain_ready_queue (env : Env) : List (Nat × Nat × SocketIO) → Eff Server Unit
  | [] => Eff.ret ()
  | (fd, mask, io) :: rest => fun s =>
    match handle_fd_event env fd mask io s with
    | (.ok _, s1) => drain_ready_queue env rest s1
    | (.error what, s1) => (.error what, s1)

/-- The loop of `drain_async_queue` over the swapped-out outbox. -/
def deliver : List PendingResponse → Server → Server
  | [], s => s
  | resp :: rest, s =>
    match find_connection s resp.fd with
    | none => deliver rest s
    | some ctx =>
      deliver rest (store_connection resp.fd
        { ctx with outbound := ctx.outbound ++ encode resp.message } s)

/-- `CloudServer::drain_async_queue()`. -/
def drain_async_queue (s : Server) : Server :=
  deliver s.world.async_responses { s with world := { s.world with async_responses := [] } }

/-! ## What a handler emits -/

/-- Between `s` and `s1` nothing was put into the outbox or the task queue. -/
def Quiet (s s1 : Dispatch) : Prop :=
  s1.world.async_responses = s.world.async_responses ∧ s1.world.tasks = s.world.tasks

/-- Between `s` and `s1` exactly one response for `fd` was scheduled and no task
was submitted. -/
def Replied (fd : Nat) (s s1 : Dispatch) : Prop :=
  (∃ reply, s1.world.async_responses
      = s.world.async_responses ++ [{ fd := fd, message := reply }])
    ∧ s1.world.tasks = s.world.tasks

/-- Between `s` and `s1` no response was scheduled and exactly one finalization
task, answering to `fd`, was submitted. -/
def Submitted (fd : Nat) (s s1 : Dispatch) : Prop :=
  s1.world.async_responses = s.world.async_responses
    ∧ ∃ task, s1.world.tasks = s.world.tasks ++ [task] ∧ task.fd_copy = fd

/-- The computation never schedules a response and never submits a task. -/
def Silent {α : Type} (m : Eff Dispatch α) : Prop := ∀ s, Quiet s (m s).2

/-- The computation schedules one response or submits one task when it returns, and
neither when it throws. -/
def Answers {α : Type} (fd : Nat) (m : Eff Dispatch α) : Prop :=
  ∀ s, match (m s).1 with
    | .ok _ => Replied fd s (m s).2 ∨ Submitted fd s (m s).2
    | .error _ => Quiet s (m s).2

/-- The computation always returns, and has then scheduled one response or
submitted one task. -/
def AnswersOnce {α : Type} (fd : Nat) (m : Eff Dispatch α) : Prop :=
  ∀ s, (∃ a, (m s).1 = .ok a) ∧ (Replied fd s (m s).2 ∨ Submitted fd s (m s).2)

/-- The computation keeps the property `Q` of the session and the task queue,
whether it returns or throws. -/
def Keeps {α : Type} (Q : ConnectionContext → List FinalizeTask → Prop) (m : Eff Dispatch α) :
    Prop :=
  ∀ s, Q s.ctx s.world.tasks → Q (m s).2.ctx (m s).2.world.tasks

/-- The session has no active upload and the task queue is `tasks`. -/
def UploadIdle (tasks : List FinalizeTask) (c : ConnectionContext) (ts : List FinalizeTask) :
    Prop :=
  c.upload_active = false ∧ ts = tasks

instance (tasks : List FinalizeTask) (c : ConnectionContext) (ts : List FinalizeTask) :
    Decidable (UploadIdle tasks c ts) := by
  unfold UploadIdle
  infer_instance

/-- The state after the messages have been dispatched in order on the connection `fd`
(no finalization task runs in between). -/
def dispatch_all (env : Env) (fd : Nat) (messages : List Message) (s : Dispatch) : Dispatch :=
  messages.foldl (fun d m => (dispatch env fd m d).2) s

end server

/-! ## Sample inputs -/

namespace samples

open protocol fs server

/-- A message with one header whose key is 65534 chars `a` and whose value is
empty: its serialized header block is 65536 bytes long. -/
def long_header_message : Message :=
  { headers := [(List.replicate 65534 (97 : Byte), [])], body := [] }

/-- A preamble with valid magic and version that declares no header bytes and a
body of 4294967295 bytes. -/
def oversize_preamble : List Byte :=
  be32 kMagic ++ be16 kVersion ++ be16 0 ++ be32 4294967295

/-- A server configuration for the examples: storage root `/srv`, the default
`max_chunk_bytes`, a digest function (the decimal length of the data stands in
for MD5) and a token service that accepts the token `T` for `alice` and the
token `B` for `bob`, throws on the token `!..` as `base64_decode` does on its first
segment, and rejects every other token. -/
def sample_env : Env where
  root := str "/srv"
  max_chunk_bytes := 1048576
  page_size := 4096
  md5_hex := fun data => to_string data.length
  verify := fun token =>
    if token = str "T" then .ok (some (str "alice"))
    else if token = str "B" then .ok (some (str "bob"))
    else if token = str "!.." then .error (str "Invalid Base64 character")
    else .ok none
  issue := fun username => if username = str "bob" then str "B" else str "T"
  hash_password := fun password salt => .ok (password ++ salt)
  generate_salt := str "s"
  last_write_time := fun _ => 0

/-- A storage root `/srv` that holds the root directory of the user `alice2`. -/
def sibling_storage : FileSystem :=
  [([str "srv"], Node.dir), ([str "srv", str "alice2"], Node.dir)]

/-- An empty back end: no files, no catalog rows, no accounts, nothing queued. -/
def empty_backend : Backend :=
  { storage := [], file_index := [], users := [], async_responses := [], tasks := [] }

/-- A fresh session on descriptor 5 over the empty back end. -/
def fresh_dispatch : Dispatch :=
  { ctx := ConnectionContext.fresh 5 [], world := empty_backend }

/-- A request with the given headers (as literals) and body. -/
def request (headers : List (String × String)) (body : List Byte := []) : Message :=
  make_message (headers.map (fun e => (str e.1, str e.2))) body

/-- The session state after the messages have been dispatched in order on descriptor 5. -/
def after (messages : List Message) (s : Dispatch) : Dispatch :=
  messages.foldl (fun d m => (dispatch sample_env 5 m d).2) s

/-- A server with the one fresh connection 5. -/
def one_connection : Server :=
  { connections := [(5, ConnectionContext.fresh 5 [])], world := empty_backend }

/-- The session after a complete upload of the three bytes 1, 2, 3 to `note.bin` has
been committed (the finalization task is queued, not yet run). -/
def committed_upload : Dispatch :=
  after [request [("cmd", "FILE_UPLOAD_INIT"), ("token", "T"), ("path", "note.bin"),
           ("size", "3"), ("md5", "3")],
         request [("cmd", "FILE_UPLOAD_CHUNK"), ("token", "T"), ("offset", "0")] [1, 2],
         request [("cmd", "FILE_UPLOAD_CHUNK"), ("token", "T"), ("offset", "2")] [3],
         request [("cmd", "FILE_UPLOAD_COMMIT"), ("token", "T")]] fresh_dispatch

/-- The finalization task of `committed_upload`. -/
def note_task : FinalizeTask :=
  { checkpoint :=
      { active := true, temp_path := str "/srv/alice/.resume/3.part",
        meta_path := str "/srv/alice/.resume/3.meta", final_path := str "/srv/alice/note.bin",
        total := 3, received := 3 },
    md5 := str "3", logical := str "note.bin", username := str "alice", fd_copy := 5 }

/-- A committed upload whose target is the part file of its own checkpoint. -/
def part_target_upload : Dispatch :=
  after [request [("cmd", "FILE_UPLOAD_INIT"), ("token", "T"), ("path", ".resume/1.part"),
           ("size", "1"), ("md5", "1")],
         request [("cmd", "FILE_UPLOAD_CHUNK"), ("token", "T"), ("offset", "0")] [7],
         request [("cmd", "FILE_UPLOAD_COMMIT"), ("token", "T")]] fresh_dispatch

/-- A committed upload made after the client created a directory at the place of the
checkpoint's meta file. -/
def meta_directory_upload : Dispatch :=
  after [request [("cmd", "DIR_MKDIR"), ("token", "T"), ("path", ".resume/1.meta/sub")],
         request [("cmd", "FILE_UPLOAD_INIT"), ("token", "T"), ("path", "a"), ("size", "1"),
           ("md5", "1")],
         request [("cmd", "FILE_UPLOAD_CHUNK"), ("token", "T"), ("offset", "0")] [7],
         request [("cmd", "FILE_UPLOAD_COMMIT"), ("token", "T")]] fresh_dispatch

/-- The session after the client created a directory at the place of the meta file of
the digest `1`, opened an upload of one byte under that digest and sent the byte. -/
def meta_directory_chunk : Dispatch :=
  after [request [("cmd", "DIR_MKDIR"), ("token", "T"), ("path", ".resume/1.meta/sub")],
         request [("cmd", "FILE_UPLOAD_INIT"), ("token", "T"), ("path", "a"), ("size", "1"),
           ("md5", "1")],
         request [("cmd", "FILE_UPLOAD_CHUNK"), ("token", "T"), ("offset", "0")] [7]]
    fresh_dispatch

/-- A committed upload whose path header is `a`, a NUL char, `b`. -/
def nul_path_upload : Dispatch :=
  after [make_message [(str "cmd", str "FILE_UPLOAD_INIT"), (str "token", str "T"),
           (str "path", [97, 0, 98]), (str "size", str "1"), (str "md5", str "1")],
         request [("cmd", "FILE_UPLOAD_CHUNK"), ("token", "T"), ("offset", "0")] [7],
         request [("cmd", "FILE_UPLOAD_COMMIT"), ("token", "T")]] fresh_dispatch

/-- The session after an `INIT` has opened an upload of three bytes to `note.bin`. -/
def opened_upload : Dispatch :=
  after [request [("cmd", "FILE_UPLOAD_INIT"), ("token", "T"), ("path", "note.bin"),
           ("size", "3"), ("md5", "3")]] fresh_dispatch

/-- The session after one byte has been uploaded for `a` under the declared digest `9`
and the upload has been committed (the finalization task is queued, not yet run).  The
digest of the byte is `1`. -/
def mismatch_upload : Dispatch :=
  after [request [("cmd", "FILE_UPLOAD_INIT"), ("token", "T"), ("path", "a"), ("size", "1"),
           ("md5", "9")],
         request [("cmd", "FILE_UPLOAD_CHUNK"), ("token", "T"), ("offset", "0")] [7],
         request [("cmd", "FILE_UPLOAD_COMMIT"), ("token", "T")]] fresh_dispatch

/-- The finalization task of `mismatch_upload`. -/
def mismatch_task : FinalizeTask :=
  { checkpoint :=
      { active := true, temp_path := str "/srv/alice/.resume/9.part",
        meta_path := str "/srv/alice/.resume/9.meta", final_path := str "/srv/alice/a",
        total := 1, received := 1 },
    md5 := str "9", logical := str "a", username := str "alice", fd_copy := 5 }

/-- The session of `mismatch_upload` once its finalization task has run. -/
def mismatch_finalized : Dispatch :=
  { ctx := mismatch_upload.ctx,
    world := run_task sample_env mismatch_task { mismatch_upload.world with tasks := [] } }

/-- The session of `committed_upload` once its finalization task has run and every
reply has been delivered: `note.bin` is stored and the catalog knows its digest `3`. -/
def note_stored : Dispatch :=
  { ctx := committed_upload.ctx,
    world := { run_task sample_env note_task { committed_upload.world with tasks := [] } with
      async_responses := [] } }

/-- On `note_stored`: one byte is uploaded for `note.bin` under the declared digest `9`
and the upload is committed (the finalization task is queued, not yet run). -/
def mismatch_over_note : Dispatch :=
  after [request [("cmd", "FILE_UPLOAD_INIT"), ("token", "T"), ("path", "note.bin"),
           ("size", "1"), ("md5", "9")],
         request [("cmd", "FILE_UPLOAD_CHUNK"), ("token", "T"), ("offset", "0")] [7],
         request [("cmd", "FILE_UPLOAD_COMMIT"), ("token", "T")]] note_stored

/-- The finalization task of `mismatch_over_note`. -/
def mismatch_over_note_task : FinalizeTask :=
  { mismatch_task with
    checkpoint := { mismatch_task.checkpoint with final_path := str "/srv/alice/note.bin" }
    logical := str "note.bin" }

/-- On `note_stored`: an upload of `big.bin` (5 bytes, digest `5`) is opened, then an
`INIT` for `copy.bin` declares the digest `3` the catalog already knows. -/
def instant_during_upload : Dispatch :=
  after [request [("cmd", "FILE_UPLOAD_INIT"), ("token", "T"), ("path", "big.bin"),
           ("size", "5"), ("md5", "5")],
         request [("cmd", "FILE_UPLOAD_INIT"), ("token", "T"), ("path", "copy.bin"),
           ("size", "3"), ("md5", "3")]] note_stored

/-- A storage in which the checkpoint directory of `alice` holds the meta file of the
digest `5` (recording 4 of 5 bytes received) and no part file. -/
def orphan_meta_storage : FileSystem :=
  [([str "srv"], Node.dir), ([str "srv", str "alice"], Node.dir),
   ([str "srv", str "alice", str ".resume"], Node.dir),
   ([str "srv", str "alice", str ".resume", str "5.meta"],
     Node.file (str "path=/srv/alice/a\ntotal=5\nreceived=4\n"))]

/-- A fresh session over a storage that holds the root of the user `alice2` with the
file `secret.txt` in it. -/
def sibling_dispatch : Dispatch :=
  { fresh_dispatch with world := { empty_backend with
      storage := sibling_storage ++
        [([str "srv", str "alice2", str "secret.txt"], Node.file [1, 2])] } }

/-- On one connection: an upload of `a` opened and filled with the token `T` of `alice`,
then committed with the token `B` of `bob` (the finalization task is queued, not yet run). -/
def cross_user_upload : Dispatch :=
  after [request [("cmd", "FILE_UPLOAD_INIT"), ("token", "T"), ("path", "a"), ("size", "1"),
           ("md5", "1")],
         request [("cmd", "FILE_UPLOAD_CHUNK"), ("token", "T"), ("offset", "0")] [7],
         request [("cmd", "FILE_UPLOAD_COMMIT"), ("token", "B")]] fresh_dispatch

/-- A stand-in for HMAC-SHA256: 32 bytes that depend on the key and the data. -/
def sample_hmac (key data : Str) : List Byte :=
  List.replicate 32 (byteOf (key.length + 7 * data.length))

/-- A token service configuration for the examples. -/
def sample_jwt : JwtConfig := { issuer := str "ecd", secret := str "k", ttl_seconds := 3600 }

/-- A catalog entry for `note.bin` of `alice`. -/
def note_row : FileMetadata where
  owner := str "alice"
  logical_path := str "note.bin"
  md5 := str "3"
  storage_path := str "/srv/alice/note.bin"
  size := 3

/-- An entry whose digest holds a NUL byte: `3`, NUL, `x`. -/
def nul_digest_entry : FileMetadata where
  owner := str "alice"
  logical_path := str "a"
  md5 := [51, 0, 120]
  storage_path := str "/srv/alice/a"
  size := 1

/-- An entry whose owner is `alice`, NUL, `x`. -/
def nul_owner_entry : FileMetadata where
  owner := str "alice" ++ [0, 120]
  logical_path := str "note.bin"
  md5 := str "9"
  storage_path := str "/srv/x"
  size := 2

/-- Two open connections, 5 and 6, and an outbox with four responses: to 5, to the
closed descriptor 7, to 6 and to 5 again. -/
def queued_replies : Server :=
  { connections := [(5, ConnectionContext.fresh 5 []), (6, ConnectionContext.fresh 6 [])],
    world := { empty_backend with
      async_responses :=
        [{ fd := 5, message := request [("cmd", "A")] },
         { fd := 7, message := request [("cmd", "X")] },
         { fd := 6, message := request [("cmd", "B")] },
         { fd := 5, message := request [("cmd", "C")] }] } }

/-- A storage whose one file `/big` has the contents `data`. -/
def big_storage (data : List Byte) : FileSystem := [([str "big"], Node.file data)]

/-- A `FILE_DOWNLOAD_FETCH` of `note.bin` with the given `offset` and `length` headers. -/
def fetch_note (offset length : String) : Message :=
  request [("cmd", "FILE_DOWNLOAD_FETCH"), ("token", "T"), ("path", "note.bin"),
    ("offset", offset), ("length", length)]

/-- Two requests, the second with a body of three bytes. -/
def two_requests : List Message :=
  [request [("cmd", "DIR_PWD"), ("token", "T")],
   request [("cmd", "FILE_UPLOAD_CHUNK"), ("token", "T"), ("offset", "0")] [1, 2, 3]]

/-- The encodings of `two_requests` one after the other. -/
def two_requests_stream : List Byte := (two_requests.map encode).flatten

/-- A `DIR_MKDIR` of `alice` whose path header is `x/../../`, a NUL byte, `zzz/../alice/x`. -/
def nul_mkdir : Message :=
  make_message [(str "cmd", str "DIR_MKDIR"), (str "token", str "T"),
    (str "path", str "x/../../" ++ [0] ++ str "zzz/../alice/x")]

/-- A `DIR_MKDIR` of `alice` for the given path. -/
def mkdir_request (path : String) : Message :=
  request [("cmd", "DIR_MKDIR"), ("token", "T"), ("path", path)]

/-- The configuration of `sample_env` with the default storage root `./server/storage`,
a path relative to the working directory. -/
def relative_env : Env := { sample_env with root := str "./server/storage" }

end samples

end cloud

/-! # Theorems -/

/-! ## Wire codec -/

namespace cloud.protocol

open samples

theorem findChar_skip (c : Byte) (k r : Str) (h : c ∉ k) :
    findChar c (k ++ c :: r) = some k.length := by
  induction k with
  | nil => simp [findChar]
  | cons x xs ih =>
    have hx : x ≠ c := fun e => h (by simp [e])
    have hxs : c ∉ xs := fun e => h (by simp [e])
    simp [findChar, hx, ih hxs]

theorem findChar_skip_append (c : Byte) (k r : Str) (h : c ∉ k) :
    findChar c (k ++ r) = (findChar c r).map (· + k.length) := by
  induction k with
  | nil => simp
  | cons x xs ih =>
    have hx : x ≠ c := fun e => h (by simp [e])
    have hxs : c ∉ xs := fun e => h (by simp [e])
    rw [List.cons_append]
    simp only [findChar, if_neg hx]
    rw [ih hxs]
    cases findChar c r with
    | none => rfl
    | some n => simp only [Option.map_some', List.length_cons, Option.some.injEq]; omega

theorem findChar_lt (c : Byte) : ∀ (s : Str) (n : Nat), findChar c s = some n → n < s.length := by
  intro s
  induction s with
  | nil => intro n h; simp [findChar] at h
  | cons x xs ih =>
    intro n h
    unfold findChar at h
    split at h
    · simp only [Option.some.injEq] at h; subst h; simp
    · cases hf : findChar c xs with
      | none => rw [hf] at h; simp at h
      | some m =>
        rw [hf] at h
        simp only [Option.map_some', Option.some.injEq] at h
        subst h
        have := ih m hf
        simp only [List.length_cons]; omega

/-- The loop of `parse_headers` never runs out of iterations: every amount of fuel from
`data.size()` on gives the same headers. -/
theorem parse_headers_loop_fuel : ∀ (fuel fuel1 : Nat) (rest : Str) (acc : HeaderMap),
    rest.length ≤ fuel → rest.length ≤ fuel1 →
    parse_headers_loop fuel rest acc = parse_headers_loop fuel1 rest acc := by
  intro fuel
  induction fuel with
  | zero =>
    intro fuel1 rest acc h0 _
    have hr : rest = [] := List.eq_nil_of_length_eq_zero (by omega)
    subst hr
    cases fuel1 <;> simp [parse_headers_loop]
  | succ f ih =>
    intro fuel1 rest acc h h1
    cases fuel1 with
    | zero =>
      have hr : rest = [] := List.eq_nil_of_length_eq_zero (by omega)
      subst hr
      simp [parse_headers_loop]
    | succ f1 =>
      unfold parse_headers_loop
      split
      · rfl
      · cases he : findChar chNl rest with
        | none => rfl
        | some e =>
          have hlt := findChar_lt chNl rest e he
          simp only [Option.getD_some]
          split
          · rfl
          · apply ih
            · simp only [List.length_drop]; omega
            · simp only [List.length_drop]; omega

/-- The headers `parse_headers` rebuilds from a serialized block: every entry is emplaced in turn. -/
theorem parse_headers_loop_serialize (es : HeaderMap)
    (hsafe : ∀ e ∈ es, chEq ∉ e.1 ∧ chNl ∉ e.1 ∧ chEq ∉ e.2 ∧ chNl ∉ e.2) :
    ∀ (fuel : Nat) (acc : HeaderMap), (serialize_headers es).length ≤ fuel →
      parse_headers_loop fuel (serialize_headers es) acc
        = es.foldl (fun h e => h.emplace e.1 e.2) acc := by
  induction es with
  | nil =>
    intro fuel acc _
    cases fuel <;> simp [parse_headers_loop, serialize_headers]
  | cons e es ih =>
    intro fuel acc hfuel
    obtain ⟨k, v⟩ := e
    have hs := hsafe (k, v) (by simp)
    simp only at hs
    obtain ⟨hk1, hk2, hv1, hv2⟩ := hs
    have hne : chNl ≠ chEq := by decide
    cases fuel with
    | zero => simp [serialize_headers] at hfuel
    | succ f =>
      have hnl : findChar chNl (k ++ chEq :: (v ++ chNl :: serialize_headers es))
          = some (k.length + 1 + v.length) := by
        rw [findChar_skip_append _ _ _ hk2]
        simp only [findChar, if_neg (Ne.symm hne)]
        rw [findChar_skip _ _ _ hv2]
        simp only [List.length_cons, Option.map_some', Option.some.injEq]
        omega
      have heq : findChar chEq (k ++ chEq :: (v ++ chNl :: serialize_headers es))
          = some k.length := findChar_skip _ _ _ hk1
      have hlen : (serialize_headers es).length ≤ f := by
        simp [serialize_headers] at hfuel; omega
      simp only [parse_headers_loop, serialize_headers, hnl, heq, Option.getD_some]
      have h1 : ¬ ((k ++ chEq :: (v ++ chNl :: serialize_headers es)).length = 0) := by simp
      have h2 : ¬ (k.length + 1 + v.length = 0) := by omega
      have h3 : k.length < k.length + 1 + v.length := by omega
      simp only [h1, h2, h3, if_false, if_true]
      have t1 : List.take k.length (k ++ chEq :: (v ++ chNl :: serialize_headers es)) = k := by
        simp
      have t2 : List.take (k.length + 1 + v.length - k.length - 1)
          (List.drop (k.length + 1) (k ++ chEq :: (v ++ chNl :: serialize_headers es))) = v := by
        have : k.length + 1 + v.length - k.length - 1 = v.length := by omega
        rw [this]
        have : List.drop (k.length + 1) (k ++ chEq :: (v ++ chNl :: serialize_headers es))
            = v ++ chNl :: serialize_headers es := by
          rw [List.drop_append_eq_append_drop]
          simp
        rw [this]; simp
      have t3 : List.drop (k.length + 1 + v.length + 1)
          (k ++ chEq :: (v ++ chNl :: serialize_headers es)) = serialize_headers es := by
        have : k ++ chEq :: (v ++ chNl :: serialize_headers es)
            = (k ++ chEq :: (v ++ [chNl])) ++ serialize_headers es := by simp
        have l1 : (k ++ chEq :: (v ++ [chNl])).length = k.length + 1 + v.length + 1 := by
          simp only [List.length_append, List.length_cons, List.length_nil]; omega
        rw [this, ← l1, List.drop_append_eq_append_drop, List.drop_length, Nat.sub_self]
        rfl
      rw [t1, t2, t3]
      simp only [List.foldl_cons]
      exact ih (fun e he => hsafe e (by simp [he])) f _ hlen


theorem foldl_emplace_fresh (es acc : HeaderMap) (h : HeaderMap.WF (acc ++ es)) :
    es.foldl (fun h e => h.emplace e.1 e.2) acc = acc ++ es := by
  induction es generalizing acc with
  | nil => simp
  | cons e es ih =>
    have hfresh : acc.any (fun x => x.1 == e.1) = false := by
      unfold HeaderMap.WF at h
      rw [List.map_append, List.nodup_append] at h
      have hd := h.2.2
      rw [Bool.eq_false_iff]
      intro hany
      rw [List.any_eq_true] at hany
      obtain ⟨x, hx, hxe⟩ := hany
      have : x.1 = e.1 := by simpa using hxe
      exact hd (List.mem_map_of_mem Prod.fst hx) (by simp [this])
    simp only [List.foldl_cons, HeaderMap.emplace, hfresh]
    have h2 : HeaderMap.WF ((acc ++ [(e.1, e.2)]) ++ es) := by
      simpa [HeaderMap.WF] using h
    have := ih (acc ++ [(e.1, e.2)]) h2
    simpa using this

theorem parse_serialize (es : HeaderMap) (hwf : HeaderMap.WF es)
    (hsafe : ∀ e ∈ es, chEq ∉ e.1 ∧ chNl ∉ e.1 ∧ chEq ∉ e.2 ∧ chNl ∉ e.2) :
    parse_headers (serialize_headers es) = es := by
  unfold parse_headers
  rw [parse_headers_loop_serialize es hsafe _ _ (Nat.le_refl _)]
  simpa using foldl_emplace_fresh es [] (by simpa using hwf)

theorem readBE_be16 (v : Nat) (h : v < 65536) : readBE (be16 v) = v := by
  simp only [readBE, be16, byteOf, List.foldl_cons, List.foldl_nil]
  omega

theorem readBE_be32 (v : Nat) (h : v < 4294967296) : readBE (be32 v) = v := by
  simp only [readBE, be32, byteOf, List.foldl_cons, List.foldl_nil]
  omega

/-- The twelve bytes of a preamble read back as its four fields. -/
theorem readAt_preamble (a b c d : Nat) (rest : List Byte)
    (ha : a < 4294967296) (hb : b < 65536) (hc : c < 65536) (hd : d < 4294967296) :
    readAt (be32 a ++ be16 b ++ be16 c ++ be32 d ++ rest) 0 4 = a
    ∧ readAt (be32 a ++ be16 b ++ be16 c ++ be32 d ++ rest) 4 2 = b
    ∧ readAt (be32 a ++ be16 b ++ be16 c ++ be32 d ++ rest) 6 2 = c
    ∧ readAt (be32 a ++ be16 b ++ be16 c ++ be32 d ++ rest) 8 4 = d := by
  refine ⟨?_, ?_, ?_, ?_⟩
  · exact Eq.trans (by rfl) (readBE_be32 a ha)
  · exact Eq.trans (by rfl) (readBE_be16 b hb)
  · exact Eq.trans (by rfl) (readBE_be16 c hc)
  · exact Eq.trans (by rfl) (readBE_be32 d hd)

theorem encode_length (m : Message) :
    (encode m).length = 12 + (serialize_headers m.headers).length + m.body.length := by
  simp [encode, be32, be16]; omega

/-- The frame `try_decode` reads at the cursor: the end of the frame and the message in it. -/
theorem try_decode_ok (buffer : List Byte) (offset : Nat)
    (hm : readAt buffer offset 4 = kMagic) (hv : readAt buffer (offset + 4) 2 = kVersion)
    (hframe : 12 + readAt buffer (offset + 6) 2 + readAt buffer (offset + 8) 4
      ≤ buffer.length - offset) :
    try_decode buffer offset =
      (if 0 < offset + (12 + readAt buffer (offset + 6) 2 + readAt buffer (offset + 8) 4) ∧
          buffer.length / 2 <
            offset + (12 + readAt buffer (offset + 6) 2 + readAt buffer (offset + 8) 4) then
        { result := DecodeResult.message
            { headers := parse_headers
                ((buffer.drop (offset + 12)).take (readAt buffer (offset + 6) 2)),
              body := (buffer.drop (offset + 12 + readAt buffer (offset + 6) 2)).take
                (readAt buffer (offset + 8) 4) },
          buffer := buffer.drop
            (offset + (12 + readAt buffer (offset + 6) 2 + readAt buffer (offset + 8) 4)),
          offset := 0 }
      else
        { result := DecodeResult.message
            { headers := parse_headers
                ((buffer.drop (offset + 12)).take (readAt buffer (offset + 6) 2)),
              body := (buffer.drop (offset + 12 + readAt buffer (offset + 6) 2)).take
                (readAt buffer (offset + 8) 4) },
          buffer := buffer,
          offset := offset + (12 + readAt buffer (offset + 6) 2 + readAt buffer (offset + 8) 4) }) := by
  have a1 : ¬ (buffer.length - offset < 12) := by omega
  have a2 : ¬ (buffer.length - offset <
      12 + readAt buffer (offset + 6) 2 + readAt buffer (offset + 8) 4) := by omega
  unfold try_decode
  simp only [kWireHeaderSize, hm, hv, a1, a2, if_false, ne_eq, not_true_eq_false]

/-- When `try_decode` returns a message, the preamble at the cursor was valid and the
whole frame was available. -/
theorem try_decode_message_inv (buffer : List Byte) (offset : Nat) (out : Message)
    (h : (try_decode buffer offset).result = DecodeResult.message out) :
    readAt buffer offset 4 = kMagic ∧ readAt buffer (offset + 4) 2 = kVersion ∧
      12 + readAt buffer (offset + 6) 2 + readAt buffer (offset + 8) 4
        ≤ buffer.length - offset := by
  unfold try_decode at h
  simp only [kWireHeaderSize] at h
  split at h
  · simp at h
  · split at h
    · simp at h
    · split at h
      · simp at h
      · split at h
        · simp at h
        · rename_i h1 h2 h3 h4
          refine ⟨?_, ?_, ?_⟩
          · exact Decidable.of_not_not h2
          · exact Decidable.of_not_not h3
          · omega

theorem encode_eq (m : Message) :
    encode m = (be32 kMagic ++ be16 kVersion
      ++ be16 ((serialize_headers m.headers).length % 65536)
      ++ be32 (m.body.length % 4294967296)) ++ (serialize_headers m.headers ++ m.body) := by
  simp only [encode, List.append_assoc]

theorem encode_drop (m : Message) (n : Nat) :
    (encode m).drop (12 + n) = (serialize_headers m.headers ++ m.body).drop n := by
  rw [encode_eq]
  have : (12 + n) = (be32 kMagic ++ be16 kVersion
      ++ be16 ((serialize_headers m.headers).length % 65536)
      ++ be32 (m.body.length % 4294967296)).length + n := by rfl
  rw [this, List.drop_append]

/-- The preamble of an encoded message. -/
theorem readAt_encode (m : Message) :
    readAt (encode m) 0 4 = kMagic ∧ readAt (encode m) 4 2 = kVersion
    ∧ readAt (encode m) 6 2 = (serialize_headers m.headers).length % 65536
    ∧ readAt (encode m) 8 4 = m.body.length % 4294967296 := by
  have hc : (serialize_headers m.headers).length % 65536 < 65536 := Nat.mod_lt _ (by decide)
  have hd : m.body.length % 4294967296 < 4294967296 := Nat.mod_lt _ (by decide)
  have h := readAt_preamble kMagic kVersion _ _
    (serialize_headers m.headers ++ m.body) (by decide) (by decide) hc hd
  rw [← encode_eq] at h
  exact h

/-- An encoded message whose sizes fit the two size fields decodes to itself, and
the decoder has then consumed the whole buffer. -/
theorem try_decode_encode (m : Message) (hwf : HeaderMap.WF m.headers)
    (hsafe : ∀ e ∈ m.headers, chEq ∉ e.1 ∧ chNl ∉ e.1 ∧ chEq ∉ e.2 ∧ chNl ∉ e.2)
    (hh : (serialize_headers m.headers).length ≤ 65535)
    (hb : m.body.length < 4294967296) :
    try_decode (encode m) 0 = { result := DecodeResult.message m, buffer := [], offset := 0 } := by
  obtain ⟨r1, r2, r3, r4⟩ := readAt_encode m
  have hlen := encode_length m
  have e3 : (serialize_headers m.headers).length % 65536 = (serialize_headers m.headers).length :=
    Nat.mod_eq_of_lt (by omega)
  have e4 : m.body.length % 4294967296 = m.body.length := Nat.mod_eq_of_lt hb
  rw [e3] at r3
  rw [e4] at r4
  have key := try_decode_ok (encode m) 0 (by simpa using r1) (by simpa using r2)
    (by simp only [Nat.zero_add, r3, r4]; omega)
  simp only [Nat.zero_add, r3, r4] at key
  rw [key]
  have c : 0 < 12 + (serialize_headers m.headers).length + m.body.length ∧
      (encode m).length / 2 < 12 + (serialize_headers m.headers).length + m.body.length := by
    constructor <;> omega
  rw [if_pos c]
  have d0 := encode_drop m 0
  have d1 := encode_drop m (serialize_headers m.headers).length
  simp only [Nat.add_zero, List.drop_zero] at d0
  rw [d0, d1]
  have d2 : (encode m).drop (12 + (serialize_headers m.headers).length + m.body.length) = [] := by
    apply List.drop_eq_nil_of_le; omega
  rw [d2]
  simp only [List.take_left', List.drop_left', List.take_length]
  rw [parse_serialize m.headers hwf hsafe]


theorem replicate_a_safe (n : Nat) :
    ∀ e ∈ ([(List.replicate n (97 : Byte), [])] : HeaderMap),
      chEq ∉ e.1 ∧ chNl ∉ e.1 ∧ chEq ∉ e.2 ∧ chNl ∉ e.2 := by
  intro e he
  rw [List.mem_singleton] at he
  subst he
  refine ⟨?_, ?_, List.not_mem_nil _, List.not_mem_nil _⟩
  · intro h; exact absurd (List.eq_of_mem_replicate h) (by decide)
  · intro h; exact absurd (List.eq_of_mem_replicate h) (by decide)

theorem serialize_single_length (k v : Str) :
    (serialize_headers [(k, v)]).length = k.length + v.length + 2 := by
  simp only [serialize_headers, List.length_append, List.length_cons, List.length_nil]
  omega

theorem long_header_length :
    (serialize_headers long_header_message.headers).length = 65536 := by
  have h := serialize_single_length (List.replicate 65534 (97 : Byte)) []
  rw [List.length_replicate] at h
  exact h

/-- C2 (counterexample): a header map with safe characters only whose serialized block is
65536 bytes long does not survive the round trip: the `uint16_t` size field wraps to 0 and
the decoder returns a message without headers. -/
theorem try_decode_encode_long_header :
    HeaderMap.WF long_header_message.headers
    ∧ (∀ e ∈ long_header_message.headers, chEq ∉ e.1 ∧ chNl ∉ e.1 ∧ chEq ∉ e.2 ∧ chNl ∉ e.2)
    ∧ (try_decode (encode long_header_message) 0).result
        = DecodeResult.message { headers := [], body := [] }
    ∧ long_header_message.headers ≠ [] := by
  have hl := long_header_length
  have hbody : long_header_message.body = [] := rfl
  refine ⟨?_, ?_, ?_, ?_⟩
  · exact List.nodup_singleton _
  · exact replicate_a_safe 65534
  · obtain ⟨r1, r2, r3, r4⟩ := readAt_encode long_header_message
    rw [hl] at r3
    rw [hbody] at r4
    have r3' : readAt (encode long_header_message) 6 2 = 0 := r3
    have r4' : readAt (encode long_header_message) 8 4 = 0 := r4
    have hlen := encode_length long_header_message
    rw [hl, hbody] at hlen
    have key := try_decode_ok (encode long_header_message) 0 (by simpa using r1)
      (by simpa using r2) (by simp only [Nat.zero_add, r3', r4', hlen]; decide)
    simp only [Nat.zero_add, r3', r4'] at key
    rw [key]
    split <;> rfl
  · exact List.cons_ne_nil _ _

/-- C2 (amended): for every message whose header keys and values contain no `=` and no
newline, whose serialized header block is at most 65535 bytes and whose body is shorter
than 2^32 bytes, `try_decode` on `encode m` with cursor 0 succeeds and returns a message
with the same headers and the same body. -/
theorem try_decode_encode_roundtrip (m : Message) (hwf : HeaderMap.WF m.headers)
    (hsafe : ∀ e ∈ m.headers, chEq ∉ e.1 ∧ chNl ∉ e.1 ∧ chEq ∉ e.2 ∧ chNl ∉ e.2)
    (hh : (serialize_headers m.headers).length ≤ 65535)
    (hb : m.body.length < 4294967296) :
    ∃ out, (try_decode (encode m) 0).result = DecodeResult.message out
      ∧ out.headers = m.headers ∧ out.body = m.body := by
  refine ⟨m, ?_, rfl, rfl⟩
  rw [try_decode_encode m hwf hsafe hh hb]

/-- C2 (witness): the round trip of a `LOGIN` request with a three byte body. -/
theorem try_decode_encode_roundtrip_witness :
    ∃ out, (try_decode (encode
        { headers := [(str "cmd", str "LOGIN"), (str "username", str "alice")],
          body := [1, 2, 3] }) 0).result = DecodeResult.message out
      ∧ out.headers = [(str "cmd", str "LOGIN"), (str "username", str "alice")]
      ∧ out.body = [1, 2, 3] :=
  try_decode_encode_roundtrip
    { headers := [(str "cmd", str "LOGIN"), (str "username", str "alice")], body := [1, 2, 3] }
    (by decide) (by decide) (by decide) (by decide)

/-- C3: whenever `try_decode` returns a message it has consumed exactly
`12 + hdr_len + body_len` bytes: the unread remainder after the call is the unread
remainder before the call without its first `12 + hdr_len + body_len` bytes, whether or
not the consumed prefix was erased; the body is the `body_len` bytes after the header
block and the headers are `parse_headers` of the `hdr_len` header bytes. -/
theorem try_decode_consumes_frame (buffer : List Byte) (offset : Nat) (out : Message)
    (h : (try_decode buffer offset).result = DecodeResult.message out) :
    (try_decode buffer offset).buffer.drop (try_decode buffer offset).offset
        = (buffer.drop offset).drop
            (12 + readAt buffer (offset + 6) 2 + readAt buffer (offset + 8) 4)
    ∧ out.body = (buffer.drop (offset + 12 + readAt buffer (offset + 6) 2)).take
        (readAt buffer (offset + 8) 4)
    ∧ out.body.length = readAt buffer (offset + 8) 4
    ∧ out.headers = parse_headers
        ((buffer.drop (offset + 12)).take (readAt buffer (offset + 6) 2))
    ∧ ((buffer.drop (offset + 12)).take (readAt buffer (offset + 6) 2)).length
        = readAt buffer (offset + 6) 2 := by
  obtain ⟨hm, hv, hframe⟩ := try_decode_message_inv buffer offset out h
  have key := try_decode_ok buffer offset hm hv hframe
  by_cases c : 0 < offset + (12 + readAt buffer (offset + 6) 2 + readAt buffer (offset + 8) 4) ∧
      buffer.length / 2 <
        offset + (12 + readAt buffer (offset + 6) 2 + readAt buffer (offset + 8) 4)
  · rw [if_pos c] at key
    rw [key] at h ⊢
    simp only [DecodeResult.message.injEq] at h
    subst h
    simp only [List.drop_drop, List.drop_zero, List.length_take, List.length_drop, true_and]
    refine ⟨rfl, ?_, ?_⟩
    · exact Nat.min_eq_left (by omega)
    · exact Nat.min_eq_left (by omega)
  · rw [if_neg c] at key
    rw [key] at h ⊢
    simp only [DecodeResult.message.injEq] at h
    subst h
    simp only [List.drop_drop, List.drop_zero, List.length_take, List.length_drop, true_and]
    refine ⟨?_, ?_⟩
    · exact Nat.min_eq_left (by omega)
    · exact Nat.min_eq_left (by omega)

/-- C3 (witness): a frame with two header bytes and one body byte at cursor 1 of a buffer
of 17 bytes. -/
theorem try_decode_consumes_frame_witness :
    (try_decode ((0 : Byte) :: be32 kMagic ++ be16 kVersion ++ be16 2 ++ be32 1
        ++ [97, 61, 7, 9]) 1).result
      = DecodeResult.message { headers := [(str "a", [])], body := [7] }
    ∧ (try_decode ((0 : Byte) :: be32 kMagic ++ be16 kVersion ++ be16 2 ++ be32 1
        ++ [97, 61, 7, 9]) 1).buffer.drop
        (try_decode ((0 : Byte) :: be32 kMagic ++ be16 kVersion ++ be16 2 ++ be32 1
        ++ [97, 61, 7, 9]) 1).offset = [9] :=
  ⟨by decide,
   (try_decode_consumes_frame ((0 : Byte) :: be32 kMagic ++ be16 kVersion ++ be16 2 ++ be32 1
      ++ [97, 61, 7, 9]) 1 { headers := [(str "a", [])], body := [7] } (by decide)).1.trans
     (by decide)⟩

/-- C4: with at least 12 unread bytes, a magic other than `0x45434452`, or that magic
followed by a version other than 1, makes `try_decode` throw (it returns neither a message
nor "need more bytes"), whatever lengths are declared and however many bytes follow, and
the buffer and the cursor are left as they were. -/
theorem try_decode_bad_preamble_fatal (buffer : List Byte) (offset : Nat)
    (h12 : offset + 12 ≤ buffer.length)
    (hbad : readAt buffer offset 4 ≠ 0x45434452 ∨
      (readAt buffer offset 4 = 0x45434452 ∧ readAt buffer (offset + 4) 2 ≠ 1)) :
    (∃ what, (try_decode buffer offset).result = DecodeResult.error what)
    ∧ (try_decode buffer offset).result ≠ DecodeResult.need_more
    ∧ (∀ out, (try_decode buffer offset).result ≠ DecodeResult.message out)
    ∧ (try_decode buffer offset).buffer = buffer
    ∧ (try_decode buffer offset).offset = offset := by
  have a1 : ¬ (buffer.length - offset < 12) := by omega
  unfold try_decode
  simp only [kWireHeaderSize, a1, if_false, kMagic, kVersion]
  rcases hbad with hm | ⟨hm, hv⟩
  · simp [hm]
  · simp [hm, hv]

/-- C4 (witness): twelve zero bytes. -/
theorem try_decode_bad_preamble_fatal_witness :
    (∃ what, (try_decode (List.replicate 12 0) 0).result = DecodeResult.error what)
    ∧ (try_decode (List.replicate 12 0) 0).result ≠ DecodeResult.need_more
    ∧ (∀ out, (try_decode (List.replicate 12 0) 0).result ≠ DecodeResult.message out)
    ∧ (try_decode (List.replicate 12 0) 0).buffer = List.replicate 12 0
    ∧ (try_decode (List.replicate 12 0) 0).offset = 0 :=
  try_decode_bad_preamble_fatal (List.replicate 12 0) 0 (by decide) (Or.inl (by decide))

/-- C5 (counterexample): a preamble with valid magic and version that declares a body of
4294967295 bytes is not a fatal error: `try_decode` answers "need more bytes" and leaves
the buffer to grow. -/
theorem try_decode_oversize_need_more :
    readAt oversize_preamble 0 4 = kMagic ∧ readAt oversize_preamble 4 2 = kVersion
    ∧ readAt oversize_preamble 8 4 = 4294967295
    ∧ try_decode oversize_preamble 0
        = { result := DecodeResult.need_more, buffer := oversize_preamble, offset := 0 } := by
  decide

/-- C5 (amended): for a preamble with valid magic and version `try_decode` never reports a
fatal error, however large the declared `body_len` is: while fewer than
`12 + hdr_len + body_len` bytes are unread it answers "need more bytes" and leaves the
buffer and the cursor unchanged, and once they are there it returns the message. -/
theorem try_decode_valid_preamble_never_fatal (buffer : List Byte) (offset : Nat)
    (h12 : offset + 12 ≤ buffer.length)
    (hm : readAt buffer offset 4 = kMagic) (hv : readAt buffer (offset + 4) 2 = kVersion) :
    (∀ what, (try_decode buffer offset).result ≠ DecodeResult.error what)
    ∧ (buffer.length - offset < 12 + readAt buffer (offset + 6) 2 + readAt buffer (offset + 8) 4 →
        try_decode buffer offset
          = { result := DecodeResult.need_more, buffer := buffer, offset := offset })
    ∧ (12 + readAt buffer (offset + 6) 2 + readAt buffer (offset + 8) 4 ≤ buffer.length - offset →
        ∃ out, (try_decode buffer offset).result = DecodeResult.message out) := by
  have a1 : ¬ (buffer.length - offset < 12) := by omega
  refine ⟨?_, ?_, ?_⟩
  · intro what
    unfold try_decode
    simp only [kWireHeaderSize, a1, if_false, hm, hv, ne_eq, not_true_eq_false]
    split
    · simp
    · split <;> simp
  · intro hlt
    unfold try_decode
    simp only [kWireHeaderSize, a1, if_false, hm, hv, ne_eq, not_true_eq_false, hlt, if_true]
  · intro hge
    rw [try_decode_ok buffer offset hm hv hge]
    split <;> exact ⟨_, rfl⟩

/-- C5 (witness): the oversize preamble followed by one byte. -/
theorem try_decode_valid_preamble_never_fatal_witness :
    (∀ what, (try_decode (oversize_preamble ++ [0]) 0).result ≠ DecodeResult.error what)
    ∧ (try_decode (oversize_preamble ++ [0]) 0).result = DecodeResult.need_more := by
  have h := try_decode_valid_preamble_never_fatal (oversize_preamble ++ [0]) 0
    (by decide) (by decide) (by decide)
  exact ⟨h.1, by rw [h.2.1 (by decide)]⟩

end cloud.protocol

/-! ## Storage engine and reactor -/

namespace cloud.server

open samples fs protocol

/-! ### One answer per message -/

theorem quiet_refl (s : Dispatch) : Quiet s s := ⟨rfl, rfl⟩

theorem quiet_trans {s s1 s2 : Dispatch} (h1 : Quiet s s1) (h2 : Quiet s1 s2) : Quiet s s2 :=
  ⟨h2.1.trans h1.1, h2.2.trans h1.2⟩

theorem replied_of_quiet {fd : Nat} {s s1 s2 : Dispatch} (h1 : Quiet s s1)
    (h2 : Replied fd s1 s2) : Replied fd s s2 := by
  obtain ⟨⟨r, hr⟩, ht⟩ := h2
  exact ⟨⟨r, by rw [hr, h1.1]⟩, by rw [ht, h1.2]⟩

theorem submitted_of_quiet {fd : Nat} {s s1 s2 : Dispatch} (h1 : Quiet s s1)
    (h2 : Submitted fd s1 s2) : Submitted fd s s2 := by
  obtain ⟨hr, t, ht, hfd⟩ := h2
  exact ⟨by rw [hr, h1.1], t, by rw [ht, h1.2], hfd⟩

theorem silent_pure {α : Type} (a : α) : Silent (pure a : Eff Dispatch α) :=
  fun s => quiet_refl s

theorem silent_read : Silent (Eff.read : Eff Dispatch Dispatch) := fun s => quiet_refl s

theorem silent_ofExcept {α : Type} (x : Except Str α) : Silent (Eff.ofExcept x : Eff Dispatch α) :=
  fun s => quiet_refl s

theorem silent_raise {α : Type} (e : Str) : Silent (Eff.raise e : Eff Dispatch α) :=
  fun s => quiet_refl s

theorem silent_storage_call {α : Type} (m : Eff FileSystem α) : Silent (storage_call m) :=
  fun _ => ⟨rfl, rfl⟩

theorem silent_set_ctx (f : ConnectionContext → ConnectionContext) : Silent (set_ctx f) :=
  fun _ => ⟨rfl, rfl⟩

theorem silent_index_call (f : Catalog → Catalog) : Silent (index_call f) :=
  fun _ => ⟨rfl, rfl⟩

theorem silent_auth_call {α : Type} (f : List UserRecord → Except Str (α × List UserRecord)) :
    Silent (auth_call f) := by
  intro s
  unfold auth_call
  split <;> exact ⟨rfl, rfl⟩

theorem answersOnce_schedule (fd : Nat) (m : Message) : AnswersOnce fd (schedule_response fd m) :=
  fun _ => ⟨⟨(), rfl⟩, Or.inl ⟨⟨m, rfl⟩, rfl⟩⟩

theorem answersOnce_submit (fd : Nat) (t : FinalizeTask) (h : t.fd_copy = fd) :
    AnswersOnce fd (submit t) :=
  fun _ => ⟨⟨(), rfl⟩, Or.inr ⟨rfl, t, rfl, h⟩⟩

theorem answersOnce_answers {α : Type} {fd : Nat} {m : Eff Dispatch α} (h : AnswersOnce fd m) :
    Answers fd m := by
  intro s
  obtain ⟨⟨a, ha⟩, hr⟩ := h s
  rw [ha]
  exact hr

theorem answers_schedule (fd : Nat) (m : Message) : Answers fd (schedule_response fd m) :=
  answersOnce_answers (answersOnce_schedule fd m)

theorem answers_raise {α : Type} (fd : Nat) (e : Str) : Answers fd (Eff.raise e : Eff Dispatch α) :=
  fun s => quiet_refl s

/-- A silent step followed by a step that answers: the whole answers. -/
theorem answers_bind {α β : Type} {fd : Nat} {m : Eff Dispatch α} {f : α → Eff Dispatch β}
    (hm : Silent m) (hf : ∀ a, Answers fd (f a)) : Answers fd (m >>= f) := by
  intro s
  have h1 := hm s
  show match (Eff.andThen m f s).1 with
    | .ok _ => Replied fd s (Eff.andThen m f s).2 ∨ Submitted fd s (Eff.andThen m f s).2
    | .error _ => Quiet s (Eff.andThen m f s).2
  unfold Eff.andThen
  rcases hms : m s with ⟨r, s1⟩
  rw [hms] at h1
  cases r with
  | error e => exact h1
  | ok a =>
    have h2 := hf a s1
    simp only
    revert h2
    rcases (f a s1).1 with e | b
    · exact fun h2 => quiet_trans h1 h2
    · intro h2
      rcases h2 with h2 | h2
      · exact Or.inl (replied_of_quiet h1 h2)
      · exact Or.inr (submitted_of_quiet h1 h2)

/-- A silent step followed by a silent step is silent. -/
theorem silent_bind {α β : Type} {m : Eff Dispatch α} {f : α → Eff Dispatch β}
    (hm : Silent m) (hf : ∀ a, Silent (f a)) : Silent (m >>= f) := by
  intro s
  have h1 := hm s
  show Quiet s (Eff.andThen m f s).2
  unfold Eff.andThen
  rcases hms : m s with ⟨r, s1⟩
  rw [hms] at h1
  cases r with
  | error e => exact h1
  | ok a => exact quiet_trans h1 (hf a s1)

/-- A `try` block that answers when it returns, with a `catch` that answers: the
statement always returns and answers exactly once. -/
theorem answersOnce_catching {fd : Nat} {m : Eff Dispatch Unit} {h : Str → Eff Dispatch Unit}
    (hm : Answers fd m) (hh : ∀ e, AnswersOnce fd (h e)) : AnswersOnce fd (Eff.catching m h) := by
  intro s
  have h1 := hm s
  unfold Eff.catching
  rcases hms : m s with ⟨r, s1⟩
  rw [hms] at h1
  cases r with
  | ok a => exact ⟨⟨a, rfl⟩, h1⟩
  | error e =>
    obtain ⟨hok, hr⟩ := hh e s1
    refine ⟨hok, ?_⟩
    rcases hr with hr | hr
    · exact Or.inl (replied_of_quiet h1 hr)
    · exact Or.inr (submitted_of_quiet h1 hr)

theorem answers_ite {α : Type} {fd : Nat} {c : Prop} [Decidable c] {a b : Eff Dispatch α}
    (ha : Answers fd a) (hb : Answers fd b) : Answers fd (if c then a else b) := by
  split <;> assumption

theorem answers_on_register (env : Env) (fd : Nat) (message : Message) :
    Answers fd (on_register env fd message) := by
  unfold on_register
  dsimp only
  repeat' first
    | exact answers_schedule _ _
    | exact silent_auth_call _
    | apply answers_ite
    | refine answers_bind ?_ (fun _ => ?_)

theorem answers_on_login (env : Env) (fd : Nat) (message : Message) :
    Answers fd (on_login env fd message) := by
  unfold on_login
  dsimp only
  repeat' first
    | exact answers_schedule _ _
    | exact silent_read
    | exact silent_set_ctx _
    | apply answers_ite
    | refine answers_bind ?_ (fun _ => ?_)

theorem answers_on_token_auth (env : Env) (fd : Nat) (message : Message) :
    Answers fd (on_token_auth env fd message) := by
  unfold on_token_auth
  dsimp only
  repeat' first
    | exact answers_schedule _ _
    | exact answers_raise _ _
    | exact silent_read
    | exact silent_set_ctx _
    | apply answers_ite
    | refine answers_bind ?_ (fun _ => ?_)
    | split

theorem answers_on_dir_pwd (fd : Nat) : Answers fd (on_dir_pwd fd) := by
  unfold on_dir_pwd
  repeat' first
    | exact answers_schedule _ _
    | exact silent_read
    | refine answers_bind ?_ (fun _ => ?_)

theorem answers_on_dir_mkdir (env : Env) (fd : Nat) (message : Message) :
    Answers fd (on_dir_mkdir env fd message) := by
  unfold on_dir_mkdir
  dsimp only
  repeat' first
    | exact answers_schedule _ _
    | exact silent_read
    | exact silent_storage_call _
    | apply answers_ite
    | refine answers_bind ?_ (fun _ => ?_)

theorem answers_on_file_delete (env : Env) (fd : Nat) (message : Message) :
    Answers fd (on_file_delete env fd message) := by
  unfold on_file_delete
  dsimp only
  repeat' first
    | exact answers_schedule _ _
    | exact silent_read
    | exact silent_storage_call _
    | exact silent_index_call _
    | apply answers_ite
    | refine answers_bind ?_ (fun _ => ?_)

theorem answers_on_upload_open (env : Env) (fd : Nat) (md5 size logical username : Str) :
    Answers fd (on_upload_init.on_upload_open env fd md5 size logical username) := by
  unfold on_upload_init.on_upload_open
  repeat' first
    | exact answers_schedule _ _
    | exact silent_ofExcept _
    | exact silent_storage_call _
    | exact silent_set_ctx _
    | refine answers_bind ?_ (fun _ => ?_)

theorem answers_on_upload_init (env : Env) (fd : Nat) (message : Message) :
    Answers fd (on_upload_init env fd message) := by
  unfold on_upload_init
  dsimp only
  repeat' first
    | exact answers_schedule _ _
    | exact answers_on_upload_open _ _ _ _ _ _
    | exact silent_read
    | exact silent_storage_call _
    | exact silent_index_call _
    | apply answers_ite
    | refine answers_bind ?_ (fun _ => ?_)
    | split

theorem answers_on_upload_chunk (fd : Nat) (message : Message) :
    Answers fd (on_upload_chunk fd message) := by
  unfold on_upload_chunk
  dsimp only
  repeat' first
    | exact answers_schedule _ _
    | exact silent_read
    | exact silent_ofExcept _
    | exact silent_storage_call _
    | exact silent_set_ctx _
    | apply answers_ite
    | refine answers_bind ?_ (fun _ => ?_)

theorem answers_on_upload_commit (fd : Nat) : Answers fd (on_upload_commit fd) := by
  unfold on_upload_commit
  repeat' first
    | exact answers_schedule _ _
    | exact answersOnce_answers (answersOnce_submit _ _ rfl)
    | exact silent_read
    | exact silent_set_ctx _
    | apply answers_ite
    | refine answers_bind ?_ (fun _ => ?_)

theorem answers_on_download_init (env : Env) (fd : Nat) (message : Message) :
    Answers fd (on_download_init env fd message) := by
  unfold on_download_init
  dsimp only
  repeat' first
    | exact answers_schedule _ _
    | exact silent_read
    | exact silent_pure _
    | exact silent_storage_call _
    | apply answers_ite
    | refine answers_bind ?_ (fun _ => ?_)
    | split

theorem answers_on_download_fetch (env : Env) (fd : Nat) (message : Message) :
    Answers fd (on_download_fetch env fd message) := by
  unfold on_download_fetch
  dsimp only
  repeat' first
    | exact answers_schedule _ _
    | exact silent_read
    | exact silent_ofExcept _
    | exact silent_storage_call _
    | apply answers_ite
    | refine answers_bind ?_ (fun _ => ?_)

theorem answers_on_dir_change (env : Env) (fd : Nat) (message : Message) :
    Answers fd (on_dir_change env fd message) := by
  unfold on_dir_change
  dsimp only
  apply answers_ite
  · exact answers_schedule _ _
  · apply answersOnce_answers
    apply answersOnce_catching
    · repeat' first
        | exact answers_schedule _ _
        | exact silent_read
        | exact silent_storage_call _
        | exact silent_set_ctx _
        | apply answers_ite
        | refine answers_bind ?_ (fun _ => ?_)
    · intro e
      exact answersOnce_schedule _ _

theorem answers_on_dir_list (env : Env) (fd : Nat) (message : Message) :
    Answers fd (on_dir_list env fd message) := by
  unfold on_dir_list
  dsimp only
  apply answers_bind silent_read
  intro s
  apply answersOnce_answers
  apply answersOnce_catching
  · repeat' first
      | exact answers_schedule _ _
      | exact silent_storage_call _
      | refine answers_bind ?_ (fun _ => ?_)
  · intro e
    exact answersOnce_schedule _ _

theorem answers_on_command (env : Env) (fd : Nat) (command : Str) (message : Message) :
    Answers fd (on_command env fd command message) := by
  unfold on_command
  exact answers_ite (answers_on_dir_pwd _)
    (answers_ite (answers_on_dir_change _ _ _)
    (answers_ite (answers_on_dir_mkdir _ _ _)
    (answers_ite (answers_on_dir_list _ _ _)
    (answers_ite (answers_on_file_delete _ _ _)
    (answers_ite (answers_on_upload_init _ _ _)
    (answers_ite (answers_on_upload_chunk _ _)
    (answers_ite (answers_on_upload_commit _)
    (answers_ite (answers_on_download_init _ _ _)
    (answers_ite (answers_on_download_fetch _ _ _)
    (answers_schedule _ _))))))))))

theorem answers_dispatch_try (env : Env) (fd : Nat) (command : Str) (message : Message) :
    Answers fd (dispatch_try env fd command message) := by
  unfold dispatch_try
  dsimp only
  refine answers_ite (answers_on_register _ _ _)
    (answers_ite (answers_on_login _ _ _)
    (answers_ite (answers_on_token_auth _ _ _)
    (answers_ite (answers_schedule _ _) ?_)))
  split
  · exact answers_raise _ _
  · exact answers_schedule _ _
  · exact answers_bind (silent_set_ctx _) (fun _ => answers_on_command _ _ _ _)

/-- Handling one decoded message always returns and emits exactly once. -/
theorem answersOnce_dispatch (env : Env) (fd : Nat) (message : Message) :
    AnswersOnce fd (dispatch env fd message) := by
  unfold dispatch
  dsimp only
  split
  · exact answersOnce_schedule _ _
  · exact answersOnce_catching (answers_dispatch_try _ _ _ _) (fun _ => answersOnce_schedule _ _)

/-- C7 (amended): for every message whose non-empty `cmd` is not `REGISTER`, `LOGIN` or
`TOKEN_AUTH`: if the `token` header is absent or empty, the only effect is one reply with
`status=auth_required`; if it is non-empty and `verify(token)` returns no claims, the only
effect is one reply with `status=token_invalid`; if it is non-empty and `verify(token)`
throws, the only effect is one reply with `status=error` and the exception text as
`reason`; in the three cases the session (username, cwd, upload session) and the storage,
catalog and accounts are left as they were.  Otherwise `verify(token)` returns claims, and
the session's username is set to their subject (and the token stored) before the command
body runs. -/
theorem dispatch_auth_guard (env : Env) (fd : Nat) (message : Message) (s : Dispatch)
    (hcmd : header_value message (str "cmd") ≠ [])
    (h1 : header_value message (str "cmd") ≠ str "REGISTER")
    (h2 : header_value message (str "cmd") ≠ str "LOGIN")
    (h3 : header_value message (str "cmd") ≠ str "TOKEN_AUTH") :
    (header_value message (str "token") = [] →
      dispatch env fd message s = (.ok (), { s with world := { s.world with
        async_responses := s.world.async_responses ++
          [{ fd := fd, message :=
              status_reply (header_value message (str "cmd")) (str "auth_required") }] } }))
    ∧ (header_value message (str "token") ≠ [] →
        env.verify (header_value message (str "token")) = .ok none →
      dispatch env fd message s = (.ok (), { s with world := { s.world with
        async_responses := s.world.async_responses ++
          [{ fd := fd, message :=
              status_reply (header_value message (str "cmd")) (str "token_invalid") }] } }))
    ∧ (∀ what, header_value message (str "token") ≠ [] →
        env.verify (header_value message (str "token")) = .error what →
      dispatch env fd message s = (.ok (), { s with world := { s.world with
        async_responses := s.world.async_responses ++
          [{ fd := fd, message :=
              make_message [(str "cmd", header_value message (str "cmd")),
                (str "status", str "error"), (str "reason", what)] }] } }))
    ∧ (∀ subject, header_value message (str "token") ≠ [] →
        env.verify (header_value message (str "token")) = .ok (some subject) →
      dispatch env fd message s =
        Eff.catching (on_command env fd (header_value message (str "cmd")) message)
          (fun what => schedule_response fd
            (make_message [(str "cmd", header_value message (str "cmd")),
              (str "status", str "error"), (str "reason", what)]))
          { s with ctx := { s.ctx with
              username := subject, token := header_value message (str "token") } }) := by
  refine ⟨?_, ?_, ?_, ?_⟩
  · intro ht
    simp only [dispatch, dispatch_try, hcmd, h1, h2, h3, ht, if_false, if_true]
    rfl
  · intro ht hv
    simp only [dispatch, dispatch_try, hcmd, h1, h2, h3, ht, hv, if_false]
    rfl
  · intro what ht hv
    simp only [dispatch, dispatch_try, hcmd, h1, h2, h3, ht, hv, if_false]
    rfl
  · intro subject ht hv
    simp only [dispatch, dispatch_try, hcmd, h1, h2, h3, ht, hv, if_false]
    rfl

set_option maxRecDepth 100000 in
/-- C7 (witness): `DIR_PWD` on a fresh session without a token, with the token `x` that
does not verify, with the token `!..` on which `verify` throws, and with the token `T` of
`alice`. -/
theorem dispatch_auth_guard_witness :
    dispatch sample_env 5 (request [("cmd", "DIR_PWD")]) fresh_dispatch
      = (.ok (), { fresh_dispatch with world := { empty_backend with
          async_responses :=
            [{ fd := 5, message := status_reply (str "DIR_PWD") (str "auth_required") }] } })
    ∧ dispatch sample_env 5 (request [("cmd", "DIR_PWD"), ("token", "x")]) fresh_dispatch
      = (.ok (), { fresh_dispatch with world := { empty_backend with
          async_responses :=
            [{ fd := 5, message := status_reply (str "DIR_PWD") (str "token_invalid") }] } })
    ∧ dispatch sample_env 5 (request [("cmd", "DIR_PWD"), ("token", "!..")]) fresh_dispatch
      = (.ok (), { fresh_dispatch with world := { empty_backend with
          async_responses :=
            [{ fd := 5, message := make_message [(str "cmd", str "DIR_PWD"),
                (str "status", str "error"),
                (str "reason", str "Invalid Base64 character")] }] } })
    ∧ (dispatch sample_env 5 (request [("cmd", "DIR_PWD"), ("token", "T")]) fresh_dispatch).2.ctx.username
        = str "alice" :=
  ⟨(dispatch_auth_guard sample_env 5 (request [("cmd", "DIR_PWD")]) fresh_dispatch
      (by decide) (by decide) (by decide) (by decide)).1 (by decide),
   (dispatch_auth_guard sample_env 5 (request [("cmd", "DIR_PWD"), ("token", "x")])
      fresh_dispatch (by decide) (by decide) (by decide) (by decide)).2.1
      (by decide) (by decide),
   (dispatch_auth_guard sample_env 5 (request [("cmd", "DIR_PWD"), ("token", "!..")])
      fresh_dispatch (by decide) (by decide) (by decide) (by decide)).2.2.1
      (str "Invalid Base64 character") (by decide) (by decide),
   by decide⟩

/-- The `try` block of the finalization task touches the storage and the catalog only. -/
theorem finalize_try_frame (env : Env) (task : FinalizeTask) (w : Backend) :
    (finalize_try env task w).2.async_responses = w.async_responses
    ∧ (finalize_try env task w).2.tasks = w.tasks
    ∧ (finalize_try env task w).2.users = w.users := by
  unfold finalize_try
  split
  · exact ⟨rfl, rfl, rfl⟩
  · split
    · exact ⟨rfl, rfl, rfl⟩
    · split
      · split <;> exact ⟨rfl, rfl, rfl⟩
      · exact ⟨rfl, rfl, rfl⟩

/-- The finalization task schedules exactly one response, for the descriptor it captured,
on every path, and submits nothing. -/
theorem run_task_one_response (env : Env) (task : FinalizeTask) (w : Backend) :
    (∃ reply, (run_task env task w).async_responses
      = w.async_responses ++ [{ fd := task.fd_copy, message := reply }])
    ∧ (run_task env task w).tasks = w.tasks := by
  obtain ⟨h1, h2, _⟩ := finalize_try_frame env task w
  unfold run_task
  dsimp only
  rw [h1]
  exact ⟨⟨_, rfl⟩, h2⟩

/-- C8: for every session state and every decoded message the dispatcher returns normally
and either schedules exactly one response for the connection and submits no task, or
schedules no response and submits exactly one finalization task, which in whatever state it
runs schedules exactly one response for that connection (success, digest mismatch or
failure). -/
theorem dispatch_exactly_one_response (env : Env) (fd : Nat) (message : Message) (s : Dispatch) :
    (dispatch env fd message s).1 = .ok ()
    ∧ (((∃ reply, (dispatch env fd message s).2.world.async_responses
            = s.world.async_responses ++ [{ fd := fd, message := reply }])
          ∧ (dispatch env fd message s).2.world.tasks = s.world.tasks)
      ∨ ((dispatch env fd message s).2.world.async_responses = s.world.async_responses
          ∧ ∃ task, (dispatch env fd message s).2.world.tasks = s.world.tasks ++ [task]
              ∧ ∀ w, (∃ reply, (run_task env task w).async_responses
                      = w.async_responses ++ [{ fd := fd, message := reply }])
                    ∧ (run_task env task w).tasks = w.tasks)) := by
  obtain ⟨⟨u, hu⟩, h⟩ := answersOnce_dispatch env fd message s
  refine ⟨hu, ?_⟩
  rcases h with h | ⟨hr, task, ht, hfd⟩
  · exact Or.inl h
  · refine Or.inr ⟨hr, task, ht, fun w => ?_⟩
    have := run_task_one_response env task w
    rw [hfd] at this
    exact this

set_option maxRecDepth 100000 in
/-- C1 (failing input): with storage root `/srv` holding the root of the user `alice2`,
`resolve("alice", "../alice2/x")` does not fail: it returns `/srv/alice2/x`, whose string
starts with the string `/srv/alice` of alice's root but which is no descendant of it: it
lies in the root of `alice2`. -/
theorem resolve_accepts_sibling_root :
    (resolve sample_env (str "alice") (str "../alice2/x") sibling_storage).1
      = .ok (str "/srv/alice2/x")
    ∧ (user_root sample_env (str "alice") sibling_storage).1 = .ok (str "/srv/alice")
    ∧ (user_root sample_env (str "alice2") sibling_storage).1 = .ok (str "/srv/alice2")
    ∧ (elems (str "/srv/alice")).isPrefixOf (elems (str "/srv/alice2/x")) = false
    ∧ (elems (str "/srv/alice2")).isPrefixOf (elems (str "/srv/alice2/x")) = true := by
  decide

set_option maxRecDepth 100000 in
/-- C6 (failing input): twelve zero bytes arrive on connection 5.  `try_decode` throws on the
bad magic in the loop condition, outside the `try` block of the loop body: the exception
leaves `handle_fd_event` and the ready-queue loop of the reactor, and the session of the
connection is still in the table. -/
theorem handle_fd_event_bad_magic_escapes :
    (handle_fd_event sample_env 5 EPOLLIN
        { recvs := [RecvResult.data (List.replicate 12 0)], sends := [] } one_connection).1
      = .error (str "Protocol magic mismatch")
    ∧ (find_connection (handle_fd_event sample_env 5 EPOLLIN
        { recvs := [RecvResult.data (List.replicate 12 0)], sends := [] } one_connection).2 5).isSome
      = true
    ∧ (drain_ready_queue sample_env
        [(5, EPOLLIN, { recvs := [RecvResult.data (List.replicate 12 0)], sends := [] })]
        one_connection).1 = .error (str "Protocol magic mismatch") := by
  decide

set_option maxRecDepth 100000 in
/-- C7 (counterexample): a `DIR_PWD` request that carries the header `token` with an empty
value.  The token is present and does not verify, yet the reply is `auth_required`, not
`token_invalid`.  And a `DIR_PWD` request with the token `!..`: `verify` throws on it
(`base64_decode` meets `!`, as the embedding `jwt_verify` of `JwtService::verify` shows),
and the reply is `status=error`, not `token_invalid`. -/
theorem dispatch_empty_token_auth_required :
    HeaderMap.find (request [("cmd", "DIR_PWD"), ("token", "")]).headers (str "token") = some []
    ∧ sample_env.verify [] = .ok none
    ∧ (dispatch sample_env 5 (request [("cmd", "DIR_PWD"), ("token", "")]) fresh_dispatch).2
        = { fresh_dispatch with world := { empty_backend with
              async_responses :=
                [{ fd := 5, message := status_reply (str "DIR_PWD") (str "auth_required") }] } }
    ∧ jwt_verify sample_hmac sample_jwt 1000 (str "!..")
        = .error (str "Invalid Base64 character")
    ∧ sample_env.verify (str "!..") = .error (str "Invalid Base64 character")
    ∧ (dispatch sample_env 5 (request [("cmd", "DIR_PWD"), ("token", "!..")]) fresh_dispatch).2
        = { fresh_dispatch with world := { empty_backend with
              async_responses :=
                [{ fd := 5, message := make_message [(str "cmd", str "DIR_PWD"),
                    (str "status", str "error"),
                    (str "reason", str "Invalid Base64 character")] }] } } :=
  ⟨by decide, by decide, by decide, by decide, by decide, by decide⟩

set_option maxRecDepth 100000 in
/-- C9 (failing input): an upload of declared size 1 is opened and one chunk of two bytes
is sent at offset 0.  The chunk is accepted: the session's checkpoint has
`received = 2 > total = 1`, the part file holds two bytes and the meta file records
`received=2` for `total=1`. -/
theorem upload_chunk_overshoots_total :
    (after [request [("cmd", "FILE_UPLOAD_INIT"), ("token", "T"), ("path", "a"), ("size", "1"),
              ("md5", "2")],
            request [("cmd", "FILE_UPLOAD_CHUNK"), ("token", "T"), ("offset", "0")] [1, 2]]
        fresh_dispatch).ctx.upload_active = true
    ∧ (after [request [("cmd", "FILE_UPLOAD_INIT"), ("token", "T"), ("path", "a"), ("size", "1"),
              ("md5", "2")],
            request [("cmd", "FILE_UPLOAD_CHUNK"), ("token", "T"), ("offset", "0")] [1, 2]]
        fresh_dispatch).ctx.upload_checkpoint.received = 2
    ∧ (after [request [("cmd", "FILE_UPLOAD_INIT"), ("token", "T"), ("path", "a"), ("size", "1"),
              ("md5", "2")],
            request [("cmd", "FILE_UPLOAD_CHUNK"), ("token", "T"), ("offset", "0")] [1, 2]]
        fresh_dispatch).ctx.upload_checkpoint.total = 1
    ∧ status (after [request [("cmd", "FILE_UPLOAD_INIT"), ("token", "T"), ("path", "a"),
              ("size", "1"), ("md5", "2")],
            request [("cmd", "FILE_UPLOAD_CHUNK"), ("token", "T"), ("offset", "0")] [1, 2]]
        fresh_dispatch).world.storage (str "/srv/alice/.resume/2.part") = some (Node.file [1, 2])
    ∧ status (after [request [("cmd", "FILE_UPLOAD_INIT"), ("token", "T"), ("path", "a"),
              ("size", "1"), ("md5", "2")],
            request [("cmd", "FILE_UPLOAD_CHUNK"), ("token", "T"), ("offset", "0")] [1, 2]]
        fresh_dispatch).world.storage (str "/srv/alice/.resume/2.meta")
        = some (Node.file (str "path=/srv/alice/a\ntotal=1\nreceived=2\n")) := by
  decide

end cloud.server

/-! ## The finalization task -/

namespace cloud.fs

/-! ### The file system as a finite map -/

set_option linter.unnecessarySimpa false in
theorem find_erase_self (t : FileSystem) (k : List Str) :
    List.find? (fun e => e.1 == k) (erase t k) = none := by
  induction t with
  | nil => rfl
  | cons e t ih =>
    unfold erase at ih ⊢
    by_cases h : e.1 = k
    · simp only [List.filter, h, ne_eq, not_true_eq_false, decide_False]
      simpa [h] using ih
    · have hb : (e.1 == k) = false := by simpa using h
      simp only [List.filter, ne_eq, h, not_false_eq_true, decide_True, List.find?, hb]
      exact ih

theorem find_erase_ne (t : FileSystem) (k k' : List Str) (h : k' ≠ k) :
    List.find? (fun e => e.1 == k') (erase t k) = List.find? (fun e => e.1 == k') t := by
  induction t with
  | nil => rfl
  | cons e t ih =>
    unfold erase at ih ⊢
    by_cases hk : e.1 = k
    · have hb : (e.1 == k') = false := by
        simp only [beq_eq_false_iff_ne, ne_eq]; intro hh; exact h (hh.symm.trans hk)
      simp only [List.filter, hk, ne_eq, not_true_eq_false, decide_False, List.find?]
      simp only [hk] at hb
      simp only [hb]
      simpa [hk] using ih
    · simp only [List.filter, ne_eq, hk, not_false_eq_true, decide_True, List.find?]
      rw [ih]

theorem lookup_erase_self (t : FileSystem) (k : List Str) (hk : k ≠ []) :
    lookup (erase t k) k = none := by
  simp only [lookup, hk, if_false, find_erase_self, Option.map_none']

theorem lookup_erase_ne (t : FileSystem) (k k' : List Str) (h : k' ≠ k) :
    lookup (erase t k) k' = lookup t k' := by
  simp only [lookup, find_erase_ne t k k' h]

theorem lookup_put_self (t : FileSystem) (k : List Str) (n : Node) (hk : k ≠ []) :
    lookup (put t k n) k = some n := by
  simp only [lookup, hk, if_false, put, List.find?_append, find_erase_self, List.find?,
    beq_self_eq_true, Option.none_or, Option.map_some']

theorem lookup_put_ne (t : FileSystem) (k k' : List Str) (n : Node) (h : k' ≠ k) :
    lookup (put t k n) k' = lookup t k' := by
  have hb : (k == k') = false := by simpa using (Ne.symm h)
  simp only [lookup, put, List.find?_append, find_erase_ne t k k' h, List.find?, hb,
    Option.or_none]

/-- A file system that extends another: whatever exists in `t` is the same in `t1`. -/
theorem walk_mono (t t1 : FileSystem)
    (h : ∀ k n, lookup t k = some n → lookup t1 k = some n) :
    ∀ (cs : List Str) (cur k : List Str), walk t cs cur = some k → walk t1 cs cur = some k := by
  intro cs
  induction cs with
  | nil => intro cur k hw; exact hw
  | cons c cs ih =>
    intro cur k hw
    unfold walk at hw ⊢
    by_cases hd : lookup t cur = some Node.dir
    · rw [if_pos hd] at hw
      rw [if_pos (h _ _ hd)]
      exact ih _ _ hw
    · rw [if_neg hd] at hw
      exact absurd hw (by simp)

theorem locate_mono (t t1 : FileSystem)
    (h : ∀ k n, lookup t k = some n → lookup t1 k = some n) (p : Str) (k : List Str)
    (hl : locate t p = some k) : locate t1 p = some k := by
  unfold locate at hl ⊢
  split
  · rename_i h0; rw [if_pos h0] at hl; exact absurd hl (by simp)
  · rename_i h0; rw [if_neg h0] at hl; exact walk_mono t t1 h _ _ _ hl

theorem status_mono (t t1 : FileSystem)
    (h : ∀ k n, lookup t k = some n → lookup t1 k = some n) (p : Str) (n : Node)
    (hs : status t p = some n) : status t1 p = some n := by
  unfold status at hs ⊢
  cases hl : locate t p with
  | none => rw [hl] at hs; exact absurd hs (by simp)
  | some k =>
    rw [hl] at hs
    rw [locate_mono t t1 h p k hl]
    exact h k n hs

/-- Two file systems with the same directories resolve every path alike. -/
theorem walk_same_dirs (t t1 : FileSystem)
    (h : ∀ k, lookup t k = some Node.dir ↔ lookup t1 k = some Node.dir) :
    ∀ (cs : List Str) (cur : List Str), walk t cs cur = walk t1 cs cur := by
  intro cs
  induction cs with
  | nil => intro cur; rfl
  | cons c cs ih =>
    intro cur
    unfold walk
    by_cases hd : lookup t cur = some Node.dir
    · rw [if_pos hd, if_pos ((h cur).1 hd)]; exact ih _
    · rw [if_neg hd, if_neg (fun hh => hd ((h cur).2 hh))]

theorem locate_same_dirs (t t1 : FileSystem)
    (h : ∀ k, lookup t k = some Node.dir ↔ lookup t1 k = some Node.dir) (p : Str) :
    locate t p = locate t1 p := by
  unfold locate
  split
  · rfl
  · exact walk_same_dirs t t1 h _ _

theorem lookup_nil (t : FileSystem) : lookup t [] = some Node.dir := by
  simp only [lookup, if_true]

/-- `create_directories` only adds directories: what existed stays as it was. -/
theorem mkdirs_mono : ∀ (cs : List Str) (cur : List Str) (t : FileSystem) (k : List Str) (n : Node),
    lookup t k = some n → lookup (mkdirs cs cur t).2 k = some n := by
  intro cs
  induction cs with
  | nil => intro cur t k n h; exact h
  | cons c cs ih =>
    intro cur t k n h
    unfold mkdirs
    split
    · exact ih _ _ _ _ h
    · exact h
    · rename_i hnone
      apply ih
      have hne : k ≠ step cur c := by
        intro e; rw [e, hnone] at h; exact absurd h (by simp)
      rw [lookup_put_ne _ _ _ _ hne]
      exact h

theorem create_directories_mono (p : Str) (t : FileSystem) (k : List Str) (n : Node)
    (h : lookup t k = some n) : lookup (create_directories p t).2 k = some n := by
  unfold create_directories
  split
  · exact h
  · exact mkdirs_mono _ _ _ _ _ h

/-- What a successful `rename` of a regular file does: nothing when both paths name the
file, otherwise the file is unlinked at the old place and put at the new one. -/
theorem rename_file_ok (old_p new_p : Str) (t t1 : FileSystem) (d : List Byte)
    (hs : status t old_p = some (Node.file d))
    (hr : rename old_p new_p t = (.ok (), t1)) :
    ∃ ko kn, locate t old_p = some ko ∧ locate t new_p = some kn
      ∧ lookup t ko = some (Node.file d)
      ∧ ((ko = kn ∧ t1 = t)
        ∨ (ko ≠ kn ∧ lookup t kn ≠ some Node.dir ∧ t1 = put (erase t ko) kn (Node.file d))) := by
  unfold status at hs
  cases hlo : locate t old_p with
  | none => rw [hlo] at hs; exact absurd hs (by simp)
  | some ko =>
    rw [hlo] at hs
    change lookup t ko = some (Node.file d) at hs
    unfold rename at hr
    rw [hlo] at hr
    cases hln : locate t new_p with
    | none => rw [hln] at hr; simp at hr
    | some kn =>
      rw [hln] at hr
      simp only [hs] at hr
      refine ⟨ko, kn, rfl, rfl, hs, ?_⟩
      by_cases hk : ko = kn
      · rw [if_pos hk] at hr
        simp only [Prod.mk.injEq, true_and] at hr
        exact Or.inl ⟨hk, hr.symm⟩
      · rw [if_neg hk] at hr
        by_cases hd : lookup t kn = some Node.dir
        · rw [if_pos hd] at hr; simp at hr
        · rw [if_neg hd] at hr
          simp only [Prod.mk.injEq, true_and] at hr
          exact Or.inr ⟨hk, hd, hr.symm⟩

/-- Moving a regular file leaves the directories as they were. -/
theorem move_file_same_dirs (t : FileSystem) (ko kn : List Str) (d : List Byte)
    (hko : lookup t ko = some (Node.file d)) (hkn : lookup t kn ≠ some Node.dir) (k : List Str) :
    lookup t k = some Node.dir ↔ lookup (put (erase t ko) kn (Node.file d)) k = some Node.dir := by
  have hkn0 : kn ≠ [] := by
    intro e; rw [e, lookup_nil] at hkn; exact hkn rfl
  have hko0 : ko ≠ [] := by
    intro e; rw [e, lookup_nil] at hko; exact absurd hko (by simp)
  by_cases h1 : k = kn
  · subst h1
    rw [lookup_put_self _ _ _ hkn0]
    constructor
    · intro h; exact absurd h hkn
    · intro h; exact absurd h (by simp)
  · rw [lookup_put_ne _ _ _ _ h1]
    by_cases h2 : k = ko
    · subst h2
      rw [lookup_erase_self _ _ hko0, hko]
      constructor <;> intro h <;> exact absurd h (by simp)
    · rw [lookup_erase_ne _ _ _ h2]

/-- `remove` only unlinks: what exists afterwards existed before, and the path it was
given names nothing afterwards. -/
theorem remove_ok (p : Str) (t t1 : FileSystem) (b : Bool)
    (hr : remove p t = (.ok b, t1)) :
    (∀ k n, lookup t1 k = some n → lookup t k = some n) ∧ status t1 p = none := by
  have shrink : ∀ (k0 : List Str), ∀ k n, lookup (erase t k0) k = some n → lookup t k = some n := by
    intro k0 k n h
    by_cases hk : k = k0
    · subst hk
      by_cases h0 : k = []
      · subst h0; rw [lookup_nil] at h ⊢; exact h
      · rw [lookup_erase_self _ _ h0] at h; exact absurd h (by simp)
    · rw [lookup_erase_ne _ _ _ hk] at h; exact h
  have gone : ∀ k0, locate t p = some k0 → k0 ≠ [] → status (erase t k0) p = none := by
    intro k0 hl h0
    unfold status
    cases hl1 : locate (erase t k0) p with
    | none => rfl
    | some k1 =>
      have := locate_mono (erase t k0) t (shrink k0) p k1 hl1
      rw [hl] at this
      simp only [Option.some.injEq] at this
      subst this
      exact lookup_erase_self _ _ h0
  unfold remove at hr
  cases hl : locate t p with
  | none =>
    rw [hl] at hr
    simp only [Prod.mk.injEq, Except.ok.injEq] at hr
    rw [← hr.2]
    exact ⟨fun _ _ h => h, by simp [status, hl]⟩
  | some k0 =>
    rw [hl] at hr
    simp only at hr
    cases hk : lookup t k0 with
    | none =>
      rw [hk] at hr
      simp only [Prod.mk.injEq, Except.ok.injEq] at hr
      rw [← hr.2]
      exact ⟨fun _ _ h => h, by simp [status, hl, hk]⟩
    | some node =>
      rw [hk] at hr
      cases node with
      | file d =>
        simp only [Prod.mk.injEq, Except.ok.injEq] at hr
        rw [← hr.2]
        have h0 : k0 ≠ [] := by
          intro e; rw [e, lookup_nil] at hk; exact absurd hk (by simp)
        exact ⟨shrink k0, gone k0 hl h0⟩
      | dir =>
        simp only at hr
        split at hr
        · simp at hr
        · rename_i hc
          simp only [Prod.mk.injEq, Except.ok.injEq] at hr
          rw [← hr.2]
          have h0 : k0 ≠ [] := fun e => hc (Or.inl e)
          exact ⟨shrink k0, gone k0 hl h0⟩

theorem fs_error_ne_ok (what : String) : fs_error what ≠ str "ok" := by
  intro h
  have hl := congrArg List.length h
  have h18 : (str "filesystem error: ").length = 18 := by decide
  have h2 : (str "ok").length = 2 := by decide
  simp only [fs_error, List.length_append, h18, h2] at hl
  omega

theorem mkdirs_error_ne_ok : ∀ (cs : List Str) (cur : List Str) (t : FileSystem) (e : Str),
    (mkdirs cs cur t).1 = .error e → e ≠ str "ok" := by
  intro cs
  induction cs with
  | nil => intro cur t e h; simp [mkdirs, Eff.ret] at h
  | cons c cs ih =>
    intro cur t e h
    unfold mkdirs at h
    split at h
    · exact ih _ _ _ h
    · simp only [Except.error.injEq] at h
      rw [← h]; exact fs_error_ne_ok _
    · exact ih _ _ _ h

theorem create_directories_error_ne_ok (p : Str) (t : FileSystem) (e : Str)
    (h : (create_directories p t).1 = .error e) : e ≠ str "ok" := by
  unfold create_directories at h
  split at h
  · simp only [Eff.raise, Except.error.injEq] at h
    rw [← h]; exact fs_error_ne_ok _
  · exact mkdirs_error_ne_ok _ _ _ _ h

theorem rename_error_ne_ok (old_p new_p : Str) (t : FileSystem) (e : Str)
    (h : (rename old_p new_p t).1 = .error e) : e ≠ str "ok" := by
  unfold rename at h
  repeat' split at h
  all_goals first
    | (simp only [Except.error.injEq] at h; rw [← h]; exact fs_error_ne_ok _)
    | (exact absurd h (by simp))

theorem remove_error_ne_ok (p : Str) (t : FileSystem) (e : Str)
    (h : (remove p t).1 = .error e) : e ≠ str "ok" := by
  unfold remove at h
  repeat' split at h
  all_goals first
    | (simp only [Except.error.injEq] at h; rw [← h]; exact fs_error_ne_ok _)
    | (exact absurd h (by simp))

end cloud.fs

namespace cloud.server

open samples fs protocol

/-- `finalize_upload` step by step. -/
theorem finalize_upload_eq (cp : UploadCheckpoint) (t : FileSystem) :
    finalize_upload cp t =
      match create_directories (parent_path cp.final_path) t with
      | (.error e, ta) => (.error e, ta)
      | (.ok _, ta) =>
        match rename cp.temp_path cp.final_path ta with
        | (.error e, t1) => (.error e, t1)
        | (.ok _, t1) =>
          if path_exists t1 cp.meta_path then
            match fs.remove cp.meta_path t1 with
            | (.error e, t2) => (.error e, t2)
            | (.ok _, t2) => (.ok cp.final_path, t2)
          else (.ok cp.final_path, t1) := by
  unfold finalize_upload
  simp only [bind, Eff.andThen, Eff.read, pure, Eff.ret]
  rcases create_directories (parent_path cp.final_path) t with ⟨r, ta⟩
  cases r with
  | error e => rfl
  | ok u =>
    simp only
    rcases rename cp.temp_path cp.final_path ta with ⟨r1, t1⟩
    cases r1 with
    | error e => rfl
    | ok u1 =>
      simp only
      split
      · simp only [Eff.andThen, Eff.ret]
        rcases fs.remove cp.meta_path t1 with ⟨r2, t2⟩
        cases r2 <;> rfl
      · rfl

theorem finalize_upload_error_ne_ok (cp : UploadCheckpoint) (t : FileSystem) (e : Str)
    (h : (finalize_upload cp t).1 = .error e) : e ≠ str "ok" := by
  rw [finalize_upload_eq] at h
  split at h
  · rename_i e1 ta hc
    simp only [Except.error.injEq] at h
    subst h
    exact create_directories_error_ne_ok _ t _ (by rw [hc])
  · rename_i u ta hc
    split at h
    · rename_i e1 t1 hr
      simp only [Except.error.injEq] at h
      subst h
      exact rename_error_ne_ok _ _ ta _ (by rw [hr])
    · rename_i u1 t1 hr
      split at h
      · split at h
        · rename_i e2 t2 hm
          simp only [Except.error.injEq] at h
          subst h
          exact remove_error_ne_ok _ t1 _ (by rw [hm])
        · exact absurd h (by simp)
      · exact absurd h (by simp)

theorem remove_if_exists_error_ne_ok (p : Str) (t : FileSystem) (e : Str)
    (h : (remove_if_exists p t).1 = .error e) : e ≠ str "ok" := by
  unfold remove_if_exists at h
  split at h
  · split at h
    · exact absurd h (by simp)
    · rename_i what t1 hr
      simp only [Except.error.injEq] at h
      subst h
      exact remove_error_ne_ok p t _ (by rw [hr])
  · exact absurd h (by simp)

theorem discard_checkpoint_error_ne_ok (cp : UploadCheckpoint) (t : FileSystem) (e : Str)
    (h : (discard_checkpoint cp t).1 = .error e) : e ≠ str "ok" := by
  unfold discard_checkpoint at h
  split at h
  · exact remove_if_exists_error_ne_ok _ _ _ h
  · rename_i what t1 hr
    simp only [Except.error.injEq] at h
    subst h
    exact remove_if_exists_error_ne_ok _ t _ (by rw [hr])

theorem compute_md5_error_ne_ok (env : Env) (p : Str) (t : FileSystem) (e : Str)
    (h : (compute_md5 env p t).1 = .error e) : e ≠ str "ok" := by
  unfold compute_md5 at h
  split at h
  · simp only [Except.error.injEq] at h
    rw [← h]; decide
  · exact absurd h (by simp)

theorem compute_md5_state (env : Env) (p : Str) (t : FileSystem) :
    (compute_md5 env p t).2 = t := by
  unfold compute_md5
  split <;> rfl

/-- What a successful `finalize_upload` went through. -/
theorem finalize_upload_ok_inv (cp : UploadCheckpoint) (t t2 : FileSystem) (fp : Str)
    (h : finalize_upload cp t = (.ok fp, t2)) :
    fp = cp.final_path
    ∧ ∃ t1, rename cp.temp_path cp.final_path
          (create_directories (parent_path cp.final_path) t).2 = (.ok (), t1)
        ∧ ((path_exists t1 cp.meta_path = false ∧ t2 = t1)
          ∨ (path_exists t1 cp.meta_path = true ∧ ∃ b, fs.remove cp.meta_path t1 = (.ok b, t2))) := by
  rw [finalize_upload_eq] at h
  split at h
  · exact absurd h (by simp)
  · rename_i u ta hc
    split at h
    · exact absurd h (by simp)
    · rename_i u1 t1 hr
      have hta : (create_directories (parent_path cp.final_path) t).2 = ta := by rw [hc]
      rw [hta]
      cases hx : path_exists t1 cp.meta_path with
      | false =>
        simp only [hx, Bool.false_eq_true, if_false, Prod.mk.injEq, Except.ok.injEq] at h
        exact ⟨h.1.symm, t1, hr, Or.inl ⟨hx, h.2.symm⟩⟩
      | true =>
        simp only [hx, if_true] at h
        split at h
        · exact absurd h (by simp)
        · rename_i b t2' hm
          simp only [Prod.mk.injEq, Except.ok.injEq] at h
          refine ⟨h.1.symm, t1, hr, Or.inr ⟨hx, b, ?_⟩⟩
          rw [hm, h.2]

theorem find_by_path_upsert (c : Catalog) (m : FileMetadata) :
    find_by_path (upsert c m) m.owner m.logical_path = some m.row := by
  unfold find_by_path upsert
  split
  · rename_i hany
    induction c with
    | nil => simp at hany
    | cons r c ih =>
      by_cases hr : r.owner = c_str m.owner ∧ r.logical_path = c_str m.logical_path
      · simp only [List.map_cons, hr, and_self, if_true, List.find?, FileMetadata.row,
          decide_True]
      · have hany' : c.any (fun r => decide (r.owner = c_str m.owner ∧
            r.logical_path = c_str m.logical_path)) = true := by
          simpa [hr] using hany
        simp only [List.map_cons, hr, if_false, List.find?, decide_False]
        exact ih hany'
  · rename_i hany
    have hnone : List.find? (fun r => decide (r.owner = c_str m.owner ∧
        r.logical_path = c_str m.logical_path)) c = none := by
      rw [List.find?_eq_none]
      intro x hx hp
      apply hany
      rw [List.any_eq_true]
      exact ⟨x, hx, hp⟩
    simp only [List.find?_append, hnone, Option.none_or, List.find?, FileMetadata.row,
      and_self, decide_True]

theorem make_message_commit_ok (logical : Str) :
    make_message [(str "cmd", str "FILE_UPLOAD_COMMIT"), (str "status", str "ok"),
        (str "path", logical)]
      = { headers := [(str "cmd", str "FILE_UPLOAD_COMMIT"), (str "status", str "ok"),
            (str "path", logical)], body := [] } := by
  have e1 : (str "cmd" == str "status") = false := by decide
  have e2 : (str "cmd" == str "path") = false := by decide
  have e3 : (str "status" == str "path") = false := by decide
  simp [make_message, HeaderMap.emplace, e1, e2, e3]

theorem status_of_commit_reply (added : Str) :
    header_value (make_message [(str "cmd", str "FILE_UPLOAD_COMMIT"), (str "status", added)])
      (str "status") = added := by
  have e1 : (str "cmd" == str "status") = false := by decide
  simp [make_message, HeaderMap.emplace, header_value, HeaderMap.find, e1]

/-- The `try` block of the finalization task when `finalize_upload` returns and the digest
of the final file is the declared one. -/
theorem finalize_try_ok (env : Env) (task : FinalizeTask) (w : Backend) (t1 : FileSystem)
    (hf : finalize_upload task.checkpoint w.storage = (.ok task.checkpoint.final_path, t1))
    (hm : (compute_md5 env task.checkpoint.final_path t1).1 = .ok task.md5) :
    finalize_try env task w =
      (.ok [(str "status", str "ok"), (str "path", task.logical)],
        { w with
          storage := t1
          file_index := upsert w.file_index
            { owner := task.username, logical_path := task.logical, md5 := task.md5,
              storage_path := task.checkpoint.final_path, size := task.checkpoint.total } }) := by
  have hc : compute_md5 env task.checkpoint.final_path t1 = (.ok task.md5, t1) :=
    Prod.ext hm (compute_md5_state _ _ _)
  unfold finalize_try
  rw [hf]
  simp only
  rw [hc]
  simp only [ne_eq, not_true_eq_false, if_false]

/-- The reply of the finalization task has `status=ok` only on that path. -/
theorem finalize_try_status_ok (env : Env) (task : FinalizeTask) (w : Backend)
    (h : header_value (task_reply env task w) (str "status") = str "ok") :
    ∃ t1, finalize_upload task.checkpoint w.storage = (.ok task.checkpoint.final_path, t1)
      ∧ (compute_md5 env task.checkpoint.final_path t1).1 = .ok task.md5 := by
  unfold task_reply finalize_try at h
  rcases hf : finalize_upload task.checkpoint w.storage with ⟨r, t1⟩
  rw [hf] at h
  cases r with
  | error what =>
    simp only [status_of_commit_reply] at h
    exact absurd h (finalize_upload_error_ne_ok _ _ _ (by rw [hf]))
  | ok fp =>
    have hfp := (finalize_upload_ok_inv _ _ _ _ hf).1
    subst hfp
    simp only at h
    rcases hc : compute_md5 env task.checkpoint.final_path t1 with ⟨r2, t2⟩
    rw [hc] at h
    cases r2 with
    | error what =>
      simp only [status_of_commit_reply] at h
      exact absurd h (compute_md5_error_ne_ok env _ t1 _ (by rw [hc]))
    | ok actual =>
      simp only at h
      by_cases hne : actual = task.md5
      · exact ⟨t1, rfl, by rw [hc, hne]⟩
      · rw [if_pos hne] at h
        rcases hd : discard_checkpoint task.checkpoint t2 with ⟨r3, t3⟩
        rw [hd] at h
        cases r3 with
        | error what =>
          simp only [status_of_commit_reply] at h
          exact absurd h (discard_checkpoint_error_ne_ok _ t2 _ (by rw [hd]))
        | ok u =>
          simp only [status_of_commit_reply] at h
          exact absurd h (by decide)

/-- After a successful `finalize_upload` the meta path names nothing. -/
theorem finalize_upload_meta_gone (cp : UploadCheckpoint) (t t2 : FileSystem) (fp : Str)
    (hf : finalize_upload cp t = (.ok fp, t2)) : path_exists t2 cp.meta_path = false := by
  obtain ⟨_, t1, _, h | ⟨_, b, hr⟩⟩ := finalize_upload_ok_inv cp t t2 fp hf
  · rw [h.2]; exact h.1
  · have := (remove_ok _ _ _ _ hr).2
    unfold path_exists
    rw [this]
    rfl

/-- After a successful `finalize_upload` of a part that was a regular file, a final path
that still names something names a regular file with the bytes of the part, and the part
path names nothing any more unless it names that same file. -/
theorem finalize_upload_moves_part (cp : UploadCheckpoint) (t t2 : FileSystem) (fp : Str)
    (data : List Byte) (node : Node)
    (hf : finalize_upload cp t = (.ok fp, t2))
    (hs : status t cp.temp_path = some (Node.file data))
    (hn : status t2 cp.final_path = some node) :
    node = Node.file data
    ∧ (status t2 cp.temp_path = none ∨ locate t2 cp.temp_path = locate t2 cp.final_path) := by
  obtain ⟨_, t1, hr, hmeta⟩ := finalize_upload_ok_inv cp t t2 fp hf
  -- what exists after the meta file is removed existed before
  have shrink : ∀ k n, lookup t2 k = some n → lookup t1 k = some n := by
    rcases hmeta with h | ⟨_, b, hrm⟩
    · rw [h.2]; exact fun _ _ h => h
    · exact (remove_ok _ _ _ _ hrm).1
  -- the part is still there once the directories have been created
  have hs1 : status (create_directories (parent_path cp.final_path) t).2 cp.temp_path
      = some (Node.file data) :=
    status_mono t _ (fun k n h => create_directories_mono _ t k n h) _ _ hs
  obtain ⟨ko, kn, hlo, hln, hko, hcase⟩ := rename_file_ok _ _ _ _ _ hs1 hr
  -- the final path resolves in `t2` as it did in `t1`
  have hn1 : status t1 cp.final_path = some node := status_mono t2 t1 shrink _ _ hn
  have hl2 : ∃ kf, locate t2 cp.final_path = some kf := by
    unfold status at hn
    cases hl : locate t2 cp.final_path with
    | none => rw [hl] at hn; exact absurd hn (by simp)
    | some kf => exact ⟨kf, rfl⟩
  obtain ⟨kf, hkf⟩ := hl2
  have hkf1 : locate t1 cp.final_path = some kf := locate_mono t2 t1 shrink _ _ hkf
  rcases hcase with ⟨hk, ht⟩ | ⟨hk, hdir, ht⟩
  · -- the final path is the part itself
    subst ht
    rw [hln] at hkf1
    simp only [Option.some.injEq] at hkf1
    constructor
    · have : status (create_directories (parent_path cp.final_path) t).2 cp.final_path
          = some (Node.file data) := by
        unfold status; rw [hln]; rw [← hk]; exact hko
      rw [this] at hn1
      exact (Option.some.inj hn1).symm
    · cases hlt : locate t2 cp.temp_path with
      | none => left; unfold status; rw [hlt]; rfl
      | some kt =>
        right
        have := locate_mono t2 _ shrink _ _ hlt
        rw [hlo] at this
        simp only [Option.some.injEq] at this
        rw [hkf, ← hkf1, ← hk, this]
  · -- the part was moved
    have hsame := move_file_same_dirs _ ko kn data hko hdir
    have hkn0 : kn ≠ [] := by
      intro e; rw [e, lookup_nil] at hdir; exact hdir rfl
    have hko0 : ko ≠ [] := by
      intro e; rw [e, lookup_nil] at hko; exact absurd hko (by simp)
    have hlf : locate t1 cp.final_path = some kn := by
      rw [ht, ← locate_same_dirs _ _ hsame]; exact hln
    have hlt : locate t1 cp.temp_path = some ko := by
      rw [ht, ← locate_same_dirs _ _ hsame]; exact hlo
    constructor
    · have : status t1 cp.final_path = some (Node.file data) := by
        unfold status; rw [hlf, ht]; exact lookup_put_self _ _ _ hkn0
      rw [this] at hn1
      exact (Option.some.inj hn1).symm
    · left
      have hgone : status t1 cp.temp_path = none := by
        unfold status
        rw [hlt, ht]
        show lookup _ ko = none
        rw [lookup_put_ne _ _ _ _ hk, lookup_erase_self _ _ hko0]
      cases hst : status t2 cp.temp_path with
      | none => rfl
      | some n =>
        have := status_mono t2 t1 shrink _ _ hst
        rw [hgone] at this
        exact absurd this (by simp)

/-- What `compute_md5` hashed when it returned. -/
theorem compute_md5_ok_inv (env : Env) (p : Str) (t : FileSystem) (digest : Str)
    (h : (compute_md5 env p t).1 = .ok digest) :
    ∃ node, status t p = some node
      ∧ ∀ data, node = Node.file data → env.md5_hex data = digest := by
  unfold compute_md5 ifstream_open at h
  cases hs : status t p with
  | none => rw [hs] at h; exact absurd h (by simp)
  | some node =>
    rw [hs] at h
    refine ⟨node, rfl, ?_⟩
    intro data hd
    subst hd
    simpa using h

set_option maxRecDepth 100000 in
/-- C10 (counterexample): three committed uploads on which the claim fails.  (1) The target
is the part file of the upload's own checkpoint: the task replies `status=ok` and the part
file still exists, being the final file.  (2) A non-empty directory sits at the meta path:
the rename succeeds and the file at the final path has the declared digest, yet the reply is
not `ok`, because removing the meta path throws.  (3) The path contains a NUL char: the task
replies `ok` and the catalog row holds `/srv/alice/a`, not the final path. -/
theorem finalize_task_corner_cases :
    part_target_upload.world.tasks.map (fun task =>
        (header_value (task_reply sample_env task part_target_upload.world) (str "status"),
         task.checkpoint.temp_path,
         status (run_task sample_env task part_target_upload.world).storage
           task.checkpoint.temp_path))
      = [(str "ok", str "/srv/alice/.resume/1.part", some (Node.file [7]))]
    ∧ meta_directory_upload.world.tasks.map (fun task =>
        ((rename task.checkpoint.temp_path task.checkpoint.final_path
            (create_directories (parent_path task.checkpoint.final_path)
              meta_directory_upload.world.storage).2).1,
         (compute_md5 sample_env task.checkpoint.final_path
            (run_task sample_env task meta_directory_upload.world).storage).1,
         task.md5,
         decide (header_value (task_reply sample_env task meta_directory_upload.world)
           (str "status") = str "ok")))
      = [(.ok (), .ok (str "1"), str "1", false)]
    ∧ nul_path_upload.world.tasks.map (fun task =>
        (header_value (task_reply sample_env task nul_path_upload.world) (str "status"),
         task.checkpoint.final_path,
         (find_by_path (run_task sample_env task nul_path_upload.world).file_index
            task.username task.logical).map (fun e => e.storage_path)))
      = [(str "ok", str "/srv/alice/" ++ [97, 0, 98], some (str "/srv/alice/a"))] :=
  ⟨by decide, by decide, by decide⟩

/-- C10 (amended): the finalization task replies `status=ok` if and only if
`finalize_upload` returned normally (directories created, part renamed, meta file removed if
there was one) and the MD5 of the file at the final path equals the declared digest.  In
that case the reply carries `path` = the logical path, `find_by_path(username, logical)`
returns the row stored for that digest, the final path and `checkpoint.total` (text as
SQLite stores it, up to the first NUL), the meta path no longer exists, and, when the part
path held a regular file, the final path holds exactly its bytes and the part path names
nothing any more unless it names the final file itself. -/
theorem finalize_task_ok (env : Env) (task : FinalizeTask) (w : Backend) :
    (header_value (task_reply env task w) (str "status") = str "ok" ↔
      ∃ t1, finalize_upload task.checkpoint w.storage = (.ok task.checkpoint.final_path, t1)
        ∧ (compute_md5 env task.checkpoint.final_path t1).1 = .ok task.md5)
    ∧ (header_value (task_reply env task w) (str "status") = str "ok" →
        task_reply env task w
          = make_message [(str "cmd", str "FILE_UPLOAD_COMMIT"), (str "status", str "ok"),
              (str "path", task.logical)]
        ∧ find_by_path (run_task env task w).file_index task.username task.logical
          = some (FileMetadata.row
              { owner := task.username, logical_path := task.logical, md5 := task.md5,
                storage_path := task.checkpoint.final_path, size := task.checkpoint.total })
        ∧ path_exists (run_task env task w).storage task.checkpoint.meta_path = false
        ∧ ∀ data, status w.storage task.checkpoint.temp_path = some (Node.file data) →
            status (run_task env task w).storage task.checkpoint.final_path
              = some (Node.file data)
            ∧ env.md5_hex data = task.md5
            ∧ (status (run_task env task w).storage task.checkpoint.temp_path = none
              ∨ locate (run_task env task w).storage task.checkpoint.temp_path
                = locate (run_task env task w).storage task.checkpoint.final_path)) := by
  have post : ∀ t1, finalize_upload task.checkpoint w.storage
        = (.ok task.checkpoint.final_path, t1) →
      (compute_md5 env task.checkpoint.final_path t1).1 = .ok task.md5 →
      header_value (task_reply env task w) (str "status") = str "ok"
      ∧ task_reply env task w
          = make_message [(str "cmd", str "FILE_UPLOAD_COMMIT"), (str "status", str "ok"),
              (str "path", task.logical)]
      ∧ (run_task env task w).storage = t1
      ∧ (run_task env task w).file_index = upsert w.file_index
            { owner := task.username, logical_path := task.logical, md5 := task.md5,
              storage_path := task.checkpoint.final_path, size := task.checkpoint.total } := by
    intro t1 hf hm
    have ht := finalize_try_ok env task w t1 hf hm
    have hreply : task_reply env task w
        = make_message [(str "cmd", str "FILE_UPLOAD_COMMIT"), (str "status", str "ok"),
            (str "path", task.logical)] := by
      unfold task_reply; rw [ht]
    refine ⟨?_, hreply, ?_, ?_⟩
    · rw [hreply, make_message_commit_ok]
      have e1 : (str "cmd" == str "status") = false := by decide
      simp [header_value, HeaderMap.find, e1]
    · unfold run_task; rw [ht]
    · unfold run_task; rw [ht]
  constructor
  · constructor
    · exact finalize_try_status_ok env task w
    · rintro ⟨t1, hf, hm⟩
      exact (post t1 hf hm).1
  · intro hok
    obtain ⟨t1, hf, hm⟩ := finalize_try_status_ok env task w hok
    obtain ⟨_, hreply, hst, hidx⟩ := post t1 hf hm
    refine ⟨hreply, ?_, ?_, ?_⟩
    · rw [hidx]
      exact find_by_path_upsert _ _
    · rw [hst]
      exact finalize_upload_meta_gone _ _ _ _ hf
    · intro data hs
      rw [hst]
      obtain ⟨node, hn, hdig⟩ := compute_md5_ok_inv env _ t1 _ hm
      obtain ⟨hnode, hpart⟩ := finalize_upload_moves_part _ _ _ _ data node hf hs hn
      exact ⟨by rw [hn, hnode], hdig data hnode, hpart⟩

set_option maxRecDepth 100000 in
/-- C10 (witness): the finalization task of the committed upload of `note.bin`. -/
theorem finalize_task_ok_witness :
    committed_upload.world.tasks = [note_task]
    ∧ header_value (task_reply sample_env note_task committed_upload.world) (str "status")
        = str "ok"
    ∧ find_by_path (run_task sample_env note_task committed_upload.world).file_index
        (str "alice") (str "note.bin")
        = some { owner := str "alice", logical_path := str "note.bin", md5 := str "3",
                 storage_path := str "/srv/alice/note.bin", size := 3 }
    ∧ status (run_task sample_env note_task committed_upload.world).storage
        (str "/srv/alice/note.bin") = some (Node.file [1, 2, 3])
    ∧ status (run_task sample_env note_task committed_upload.world).storage
        (str "/srv/alice/.resume/3.part") = none :=
  ⟨by decide, by decide,
   ((finalize_task_ok sample_env note_task committed_upload.world).2 (by decide)).2.1.trans
     (by decide),
   by decide, by decide⟩

end cloud.server

/-! ## Upload sessions, resumption and the session cwd -/

namespace cloud.server
open samples fs protocol

set_option maxRecDepth 100000 in
/-- C11 (failing input): one byte is uploaded for `a` under a declared digest that is not
the digest of the byte, and the upload is committed.  The finalization task replies
`md5_mismatch`, leaves the catalog as it was and leaves no part or meta file, but the byte
is at the target path, where no file was before, and a listing of the directory shows `a`:
`finalize_upload` has renamed the part file to the target before the digest is computed, and
`discard_checkpoint` removes only the part and meta paths.  The same upload aimed at the
stored file `note.bin` replaces its content, while the catalog still describes the old
content. -/
theorem finalize_task_mismatch_keeps_upload :
    mismatch_upload.world.tasks = [mismatch_task]
    ∧ sample_env.md5_hex [7] = str "1"
    ∧ status fresh_dispatch.world.storage (str "/srv/alice/a") = none
    ∧ task_reply sample_env mismatch_task { mismatch_upload.world with tasks := [] }
        = status_reply (str "FILE_UPLOAD_COMMIT") (str "md5_mismatch")
    ∧ mismatch_finalized.world.file_index = []
    ∧ status mismatch_finalized.world.storage (str "/srv/alice/.resume/9.part") = none
    ∧ status mismatch_finalized.world.storage (str "/srv/alice/.resume/9.meta") = none
    ∧ status mismatch_finalized.world.storage (str "/srv/alice/a") = some (Node.file [7])
    ∧ (list sample_env (str "alice") (str ".") mismatch_finalized.world.storage).1
        = .ok [{ name := str ".resume", is_directory := true, size := 0, modified := 0 },
               { name := str "a", is_directory := false, size := 1, modified := 0 }]
    ∧ mismatch_over_note.world.tasks = [mismatch_over_note_task]
    ∧ status note_stored.world.storage (str "/srv/alice/note.bin") = some (Node.file [1, 2, 3])
    ∧ task_reply sample_env mismatch_over_note_task mismatch_over_note.world
        = status_reply (str "FILE_UPLOAD_COMMIT") (str "md5_mismatch")
    ∧ status (run_task sample_env mismatch_over_note_task mismatch_over_note.world).storage
        (str "/srv/alice/note.bin") = some (Node.file [7])
    ∧ (run_task sample_env mismatch_over_note_task mismatch_over_note.world).file_index
        = [{ owner := str "alice", logical_path := str "note.bin", md5 := str "3",
             storage_path := str "/srv/alice/note.bin", size := 3 }] :=
  ⟨by decide, by decide, by decide, by decide, by decide, by decide, by decide, by decide,
   by decide, by decide, by decide, by decide, by decide, by decide⟩

set_option maxRecDepth 100000 in
/-- C12 (failing input): `note.bin` with digest `3` is stored.  An `INIT` opens an upload of
`big.bin`; a second `INIT`, for `copy.bin` with digest `3`, replies `instant`.  After it the
session still has the upload of `big.bin` active, a following `CHUNK` at offset 0 is written
to the part file of that earlier checkpoint, and a following `COMMIT` submits its
finalization. -/
theorem upload_init_instant_keeps_session :
    instant_during_upload.world.async_responses
      = [{ fd := 5, message := make_message [(str "cmd", str "FILE_UPLOAD_INIT"),
            (str "status", str "ready"), (str "offset", str "0")] },
         { fd := 5, message := make_message [(str "cmd", str "FILE_UPLOAD_INIT"),
            (str "status", str "instant"), (str "path", str "copy.bin")] }]
    ∧ instant_during_upload.ctx.upload_active = true
    ∧ instant_during_upload.ctx.upload_logical = str "big.bin"
    ∧ instant_during_upload.ctx.upload_checkpoint.temp_path = str "/srv/alice/.resume/5.part"
    ∧ status instant_during_upload.world.storage (str "/srv/alice/.resume/5.part") = none
    ∧ status (after [request [("cmd", "FILE_UPLOAD_CHUNK"), ("token", "T"), ("offset", "0")]
          [9, 9, 9, 9, 9]] instant_during_upload).world.storage
        (str "/srv/alice/.resume/5.part") = some (Node.file [9, 9, 9, 9, 9])
    ∧ (after [request [("cmd", "FILE_UPLOAD_CHUNK"), ("token", "T"), ("offset", "0")]
          [9, 9, 9, 9, 9],
        request [("cmd", "FILE_UPLOAD_COMMIT"), ("token", "T")]] instant_during_upload).world.tasks
        = [{ checkpoint :=
              { active := true, temp_path := str "/srv/alice/.resume/5.part",
                meta_path := str "/srv/alice/.resume/5.meta",
                final_path := str "/srv/alice/big.bin", total := 5, received := 5 },
             md5 := str "5", logical := str "big.bin", username := str "alice", fd_copy := 5 }] :=
  ⟨by decide, by decide, by decide, by decide, by decide, by decide, by decide⟩

set_option maxRecDepth 100000 in
/-- C15 (failing input): the checkpoint directory holds a meta file for the digest `5` that
records 4 received bytes, and no part file.  `prepare_upload` reports `received = 4`, and the
`INIT` handler replies `ready` with `offset=4`: the stored state is resumed although the
part file is missing. -/
theorem prepare_upload_resumes_without_part :
    path_exists orphan_meta_storage (str "/srv/alice/.resume/5.meta") = true
    ∧ path_exists orphan_meta_storage (str "/srv/alice/.resume/5.part") = false
    ∧ (prepare_upload sample_env (str "alice") (str "5") (str "a") 5 orphan_meta_storage).1
        = .ok { active := true, temp_path := str "/srv/alice/.resume/5.part",
                meta_path := str "/srv/alice/.resume/5.meta", final_path := str "/srv/alice/a",
                total := 5, received := 4 }
    ∧ (after [request [("cmd", "FILE_UPLOAD_INIT"), ("token", "T"), ("path", "a"), ("size", "5"),
          ("md5", "5")]]
        { fresh_dispatch with world := { empty_backend with storage := orphan_meta_storage } }
        ).world.async_responses
        = [{ fd := 5, message := make_message [(str "cmd", str "FILE_UPLOAD_INIT"),
              (str "status", str "ready"), (str "offset", str "4")] }] :=
  ⟨by decide, by decide, by decide, by decide⟩

set_option maxRecDepth 100000 in
/-- C20 (failing input): the storage root holds the root of the user `alice2`.  On a fresh
session of `alice`, `DIR_CHANGE` with path `../alice2` replies `ok` and sets the cwd to
`../alice2`, which has a `..` segment; `resolve("alice", cwd)` is then `/srv/alice2`, which
is not alice's root or below it, and `DIR_LIST` lists the directory of `alice2`. -/
theorem dir_change_escapes_to_sibling_root :
    (after [request [("cmd", "DIR_CHANGE"), ("token", "T"), ("path", "../alice2")]]
        sibling_dispatch).world.async_responses
      = [{ fd := 5, message := make_message [(str "cmd", str "DIR_CHANGE"),
            (str "status", str "ok"), (str "path", str "../alice2")] }]
    ∧ (after [request [("cmd", "DIR_CHANGE"), ("token", "T"), ("path", "../alice2")]]
        sibling_dispatch).ctx.cwd = str "../alice2"
    ∧ dotdot ∈ elems (str "../alice2")
    ∧ (resolve sample_env (str "alice") (str "../alice2")
        (after [request [("cmd", "DIR_CHANGE"), ("token", "T"), ("path", "../alice2")]]
          sibling_dispatch).world.storage).1 = .ok (str "/srv/alice2")
    ∧ (elems (str "/srv/alice")).isPrefixOf (elems (str "/srv/alice2")) = false
    ∧ ((after [request [("cmd", "DIR_CHANGE"), ("token", "T"), ("path", "../alice2")],
               request [("cmd", "DIR_LIST"), ("token", "T")]]
        sibling_dispatch).world.async_responses.map (fun r => r.message)).getLast?
      = some (make_message [(str "cmd", str "DIR_LIST"), (str "status", str "ok"),
          (str "count", str "1")] (str "secret.txt|file|2|0\n")) :=
  ⟨by decide, by decide, by decide, by decide, by decide, by decide⟩

end cloud.server

namespace cloud.fs

/-- `open`, `pwrite`, `close` never throws. -/
theorem open_pwrite_total (p : Str) (offset : Nat) (data : List Byte) (t : FileSystem) :
    (open_pwrite p offset data t).1 = .ok true ∨ (open_pwrite p offset data t).1 = .ok false := by
  unfold open_pwrite
  split
  · exact Or.inr rfl
  · split
    · exact Or.inr rfl
    · split
      · exact Or.inr rfl
      · exact Or.inl rfl
    · split
      · exact Or.inr rfl
      · exact Or.inl rfl

/-- A complete write ends below the largest file position. -/
theorem open_pwrite_ok_bound (p : Str) (offset : Nat) (data : List Byte) (t : FileSystem)
    (h : (open_pwrite p offset data t).1 = .ok true) : offset + data.length < kOffLimit := by
  unfold open_pwrite at h
  split at h
  · cases h
  · split at h
    · cases h
    · split at h
      · cases h
      · omega
    · split at h
      · cases h
      · omega

/-- A write that fails changes no file or directory that exists. -/
theorem open_pwrite_fail_keeps (p : Str) (offset : Nat) (data : List Byte) (t : FileSystem)
    (h : (open_pwrite p offset data t).1 = .ok false) (q : Str) (node : Node)
    (hs : status t q = some node) : status (open_pwrite p offset data t).2 q = some node := by
  unfold open_pwrite at h ⊢
  split
  · exact hs
  · rename_i k hk
    split
    · exact hs
    · split
      · exact hs
      · rename_i hlt
        simp [hk, *] at h
    · rename_i hnone
      split
      · refine status_mono t _ (fun k1 n hn => ?_) q node hs
        by_cases hkk : k1 = k
        · subst hkk; rw [hnone] at hn; cases hn
        · rw [lookup_put_ne _ _ _ _ hkk]; exact hn
      · simp [hk, *] at h

/-- Writing through an `ofstream` never throws. -/
theorem ofstream_write_ok (p : Str) (data : List Byte) (t : FileSystem) :
    (ofstream_write p data t).1 = .ok () := by
  unfold ofstream_write
  split
  · rfl
  · split <;> rfl

/-- Replacing or creating a regular file leaves the directories as they are. -/
theorem put_file_same_dirs (t : FileSystem) (k : List Str) (d : List Byte)
    (hk : lookup t k ≠ some Node.dir) (k1 : List Str) :
    lookup t k1 = some Node.dir ↔ lookup (put t k (Node.file d)) k1 = some Node.dir := by
  have hne : k ≠ [] := by
    intro h; rw [h, lookup_nil] at hk; exact hk rfl
  by_cases hkk : k1 = k
  · subst hkk
    rw [lookup_put_self _ _ _ hne]
    constructor
    · intro h; exact absurd h hk
    · intro h; cases h
  · rw [lookup_put_ne _ _ _ _ hkk]

/-- After an `ofstream` write to a path that can be opened, the file holds the data. -/
theorem ofstream_write_status (p : Str) (data : List Byte) (t : FileSystem) (k : List Str)
    (hl : locate t p = some k) (hk : lookup t k ≠ some Node.dir) :
    status (ofstream_write p data t).2 p = some (Node.file data) := by
  have hne : k ≠ [] := by
    intro h; rw [h, lookup_nil] at hk; exact hk rfl
  have hput : (ofstream_write p data t).2 = put t k (Node.file data) := by
    unfold ofstream_write
    rw [hl]
    dsimp only
    split
    · rename_i h; exact absurd h hk
    · rfl
  rw [hput]
  unfold status
  rw [← locate_same_dirs t _ (put_file_same_dirs t k data hk) p, hl]
  exact lookup_put_self _ _ _ hne

end cloud.fs

namespace cloud.server
open samples fs protocol

set_option maxRecDepth 100000 in
/-- C16 (counterexample): the client creates a directory at the place of the meta file of
the digest `1`, then opens an upload under that digest and sends its one byte at offset 0.
The write succeeds and the reply is `status=ok` with `received=1`, but no meta file is
rewritten: the meta path is a directory, `update_progress` cannot open it and does not
notice. -/
theorem upload_chunk_meta_directory :
    meta_directory_chunk.world.async_responses
      = [{ fd := 5, message := status_reply (str "DIR_MKDIR") (str "ok") },
         { fd := 5, message := make_message [(str "cmd", str "FILE_UPLOAD_INIT"),
            (str "status", str "ready"), (str "offset", str "0")] },
         { fd := 5, message := make_message [(str "cmd", str "FILE_UPLOAD_CHUNK"),
            (str "status", str "ok"), (str "received", str "1")] }]
    ∧ meta_directory_chunk.ctx.upload_checkpoint.received = 1
    ∧ meta_directory_chunk.ctx.upload_checkpoint.meta_path = str "/srv/alice/.resume/1.meta"
    ∧ status meta_directory_chunk.world.storage (str "/srv/alice/.resume/1.part")
        = some (Node.file [7])
    ∧ status meta_directory_chunk.world.storage (str "/srv/alice/.resume/1.meta")
        = some Node.dir :=
  ⟨by decide, by decide, by decide, by decide, by decide⟩

/-- C16 (amended): the `FILE_UPLOAD_CHUNK` handler on a session with an active upload, for a
chunk whose `offset` header parses to `off`.  If `off` is not the checkpoint's `received`,
the only effect is the reply `status=offset`: `write_chunk` is not called and the session
and every file are as before.  If `off = received` and `write_chunk` returns true,
`received` grows by exactly the body length, the storage is what `update_progress` with the
new `received` makes of the storage `write_chunk` left (the meta file then holds the new
`received` provided its path can be opened: it resolves and is not a directory), and the
reply is `status=ok` with the new `received`.  If `write_chunk` does not return true the
reply is `io_error`, the session (so `received`) is unchanged and so is every existing file,
the meta file among them. -/
theorem upload_chunk_transition (fd : Nat) (message : Message) (s : Dispatch) (off : Nat)
    (hactive : s.ctx.upload_active = true)
    (hoff : stoull (header_value message (str "offset")) = .ok off) :
    (off ≠ s.ctx.upload_checkpoint.received →
      on_upload_chunk fd message s = (.ok (), { s with world := { s.world with
        async_responses := s.world.async_responses ++
          [{ fd := fd, message := status_reply (str "FILE_UPLOAD_CHUNK") (str "offset") }] } }))
    ∧ (off = s.ctx.upload_checkpoint.received →
        (write_chunk s.ctx.upload_checkpoint off message.body s.world.storage).1 = .ok true →
      on_upload_chunk fd message s = (.ok (),
        { ctx := { s.ctx with upload_checkpoint := { s.ctx.upload_checkpoint with
              received := s.ctx.upload_checkpoint.received + message.body.length } },
          world := { s.world with
            storage := (update_progress
              { s.ctx.upload_checkpoint with
                received := s.ctx.upload_checkpoint.received + message.body.length }
              (s.ctx.upload_checkpoint.received + message.body.length)
              (write_chunk s.ctx.upload_checkpoint off message.body s.world.storage).2).2,
            async_responses := s.world.async_responses ++
              [{ fd := fd, message := make_message [(str "cmd", str "FILE_UPLOAD_CHUNK"),
                  (str "status", str "ok"),
                  (str "received",
                    to_string (s.ctx.upload_checkpoint.received + message.body.length))] }] } })
      ∧ ∀ k,
          locate (write_chunk s.ctx.upload_checkpoint off message.body s.world.storage).2
            s.ctx.upload_checkpoint.meta_path = some k →
          lookup (write_chunk s.ctx.upload_checkpoint off message.body s.world.storage).2 k
            ≠ some Node.dir →
          status (on_upload_chunk fd message s).2.world.storage s.ctx.upload_checkpoint.meta_path
            = some (Node.file (meta_text { s.ctx.upload_checkpoint with
                received := s.ctx.upload_checkpoint.received + message.body.length })))
    ∧ (off = s.ctx.upload_checkpoint.received →
        (write_chunk s.ctx.upload_checkpoint off message.body s.world.storage).1 ≠ .ok true →
      on_upload_chunk fd message s = (.ok (), { s with world := { s.world with
        storage := (write_chunk s.ctx.upload_checkpoint off message.body s.world.storage).2,
        async_responses := s.world.async_responses ++
          [{ fd := fd, message := status_reply (str "FILE_UPLOAD_CHUNK") (str "io_error") }] } })
      ∧ ∀ p node, status s.world.storage p = some node →
          status (write_chunk s.ctx.upload_checkpoint off message.body s.world.storage).2 p
            = some node) := by
  have hne : header_value message (str "offset") ≠ [] := by
    intro h
    rw [h] at hoff
    have : stoull [] = .error (str "stoull") := by decide
    rw [this] at hoff
    cases hoff
  refine ⟨?_, ?_, ?_⟩
  · intro hd
    simp only [on_upload_chunk, bind, Eff.andThen, Eff.read, Eff.ofExcept, hactive, hne, hoff, hd,
      Bool.not_true, Bool.false_eq_true, if_false, if_true, ne_eq, not_false_eq_true]
    rfl
  · intro hd hw
    have heq : on_upload_chunk fd message s = (.ok (),
        { ctx := { s.ctx with upload_checkpoint := { s.ctx.upload_checkpoint with
              received := s.ctx.upload_checkpoint.received + message.body.length } },
          world := { s.world with
            storage := (update_progress
              { s.ctx.upload_checkpoint with
                received := s.ctx.upload_checkpoint.received + message.body.length }
              (s.ctx.upload_checkpoint.received + message.body.length)
              (write_chunk s.ctx.upload_checkpoint off message.body s.world.storage).2).2,
            async_responses := s.world.async_responses ++
              [{ fd := fd, message := make_message [(str "cmd", str "FILE_UPLOAD_CHUNK"),
                  (str "status", str "ok"),
                  (str "received",
                    to_string (s.ctx.upload_checkpoint.received + message.body.length))] }] } }) := by
      have hb := open_pwrite_ok_bound _ _ _ _ hw
      have hmod : (s.ctx.upload_checkpoint.received + message.body.length) % 18446744073709551616
          = s.ctx.upload_checkpoint.received + message.body.length := by
        apply Nat.mod_eq_of_lt
        rw [hd] at hb
        unfold kOffLimit at hb
        omega
      simp only [on_upload_chunk, bind, Eff.andThen, Eff.read, Eff.ofExcept, hactive, hne, hoff, hd,
        Bool.not_true, Bool.false_eq_true, if_false, if_true, ne_eq, not_true_eq_false,
        storage_call, hmod]
      rw [hd] at hw
      rw [hw]
      have hu : ∀ cp r t, (update_progress cp r t).1 = .ok () :=
        fun cp r t => ofstream_write_ok _ _ t
      simp [Eff.andThen, set_ctx, storage_call, schedule_response, hactive, hu]
    refine ⟨heq, fun k hl hk => ?_⟩
    rw [heq]
    exact ofstream_write_status _ _ _ k hl hk
  · intro hd hw
    have hf : (write_chunk s.ctx.upload_checkpoint off message.body s.world.storage).1
        = .ok false := by
      rcases open_pwrite_total s.ctx.upload_checkpoint.temp_path off message.body s.world.storage
        with h | h
      · exact absurd h hw
      · exact h
    refine ⟨?_, fun p node hs => open_pwrite_fail_keeps _ _ _ _ hf p node hs⟩
    simp only [on_upload_chunk, bind, Eff.andThen, Eff.read, Eff.ofExcept, hactive, hne, hoff, hd,
      Bool.not_true, Bool.false_eq_true, if_false, if_true, ne_eq, not_true_eq_false,
      storage_call]
    rw [hd] at hf
    rw [hf]
    rfl

set_option maxRecDepth 100000 in
/-- C16 (witness): on the session of `opened_upload` (`received = 0`), a chunk of two bytes
at offset 0 is written and acknowledged with `received = 2`, and a chunk at offset 5 is
answered `offset`. -/
theorem upload_chunk_transition_witness :
    opened_upload.ctx.upload_active = true
    ∧ (on_upload_chunk 5 (request [("cmd", "FILE_UPLOAD_CHUNK"), ("token", "T"), ("offset", "0")]
        [1, 2]) opened_upload).2.ctx.upload_checkpoint.received = 2
    ∧ on_upload_chunk 5 (request [("cmd", "FILE_UPLOAD_CHUNK"), ("token", "T"), ("offset", "5")]
        [1, 2]) opened_upload
      = (.ok (), { opened_upload with world := { opened_upload.world with
          async_responses := opened_upload.world.async_responses ++
            [{ fd := 5, message := status_reply (str "FILE_UPLOAD_CHUNK") (str "offset") }] } }) :=
  ⟨by decide,
   (congrArg (fun r => r.2.ctx.upload_checkpoint.received)
     ((upload_chunk_transition 5
        (request [("cmd", "FILE_UPLOAD_CHUNK"), ("token", "T"), ("offset", "0")] [1, 2])
        opened_upload 0 (by decide) (by decide)).2.1 (by decide) (by decide)).1).trans (by decide),
   (upload_chunk_transition 5
      (request [("cmd", "FILE_UPLOAD_CHUNK"), ("token", "T"), ("offset", "5")] [1, 2])
      opened_upload 5 (by decide) (by decide)).1 (by decide)⟩

end cloud.server

namespace cloud.server
open samples fs protocol

theorem keeps_pure {α : Type} {Q : ConnectionContext → List FinalizeTask → Prop} (a : α) :
    Keeps Q (pure a : Eff Dispatch α) := fun _ h => h

theorem keeps_raise {α : Type} {Q : ConnectionContext → List FinalizeTask → Prop} (e : Str) :
    Keeps Q (Eff.raise e : Eff Dispatch α) := fun _ h => h

theorem keeps_read {Q : ConnectionContext → List FinalizeTask → Prop} :
    Keeps Q (Eff.read : Eff Dispatch Dispatch) := fun _ h => h

theorem keeps_ofExcept {α : Type} {Q : ConnectionContext → List FinalizeTask → Prop}
    (x : Except Str α) : Keeps Q (Eff.ofExcept x : Eff Dispatch α) := fun _ h => h

theorem keeps_schedule {Q : ConnectionContext → List FinalizeTask → Prop} (fd : Nat)
    (message : Message) : Keeps Q (schedule_response fd message) := fun _ h => h

theorem keeps_storage_call {α : Type} {Q : ConnectionContext → List FinalizeTask → Prop}
    (m : Eff FileSystem α) : Keeps Q (storage_call m) := fun _ h => h

theorem keeps_index_call {Q : ConnectionContext → List FinalizeTask → Prop}
    (f : Catalog → Catalog) : Keeps Q (index_call f) := fun _ h => h

theorem keeps_auth_call {α : Type} {Q : ConnectionContext → List FinalizeTask → Prop}
    (f : List UserRecord → Except Str (α × List UserRecord)) : Keeps Q (auth_call f) := by
  intro s h
  unfold auth_call
  split <;> exact h

theorem keeps_set_ctx {Q : ConnectionContext → List FinalizeTask → Prop}
    (f : ConnectionContext → ConnectionContext) (hf : ∀ c ts, Q c ts → Q (f c) ts) :
    Keeps Q (set_ctx f) := fun s h => hf s.ctx s.world.tasks h

theorem keeps_bind {α β : Type} {Q : ConnectionContext → List FinalizeTask → Prop}
    {m : Eff Dispatch α} {f : α → Eff Dispatch β}
    (hm : Keeps Q m) (hf : ∀ a, Keeps Q (f a)) : Keeps Q (m >>= f) := by
  intro s hs
  have h1 := hm s hs
  show Q (Eff.andThen m f s).2.ctx (Eff.andThen m f s).2.world.tasks
  unfold Eff.andThen
  rcases hms : m s with ⟨r, s1⟩
  rw [hms] at h1
  cases r with
  | error e => exact h1
  | ok a => exact hf a s1 h1

theorem keeps_catching {α : Type} {Q : ConnectionContext → List FinalizeTask → Prop}
    {m : Eff Dispatch α} {h : Str → Eff Dispatch α}
    (hm : Keeps Q m) (hh : ∀ e, Keeps Q (h e)) : Keeps Q (Eff.catching m h) := by
  intro s hs
  have h1 := hm s hs
  unfold Eff.catching
  rcases hms : m s with ⟨r, s1⟩
  rw [hms] at h1
  cases r with
  | ok a => exact h1
  | error e => exact hh e s1 h1

theorem keeps_ite {α : Type} {Q : ConnectionContext → List FinalizeTask → Prop} {c : Prop}
    [Decidable c] {a b : Eff Dispatch α} (ha : Keeps Q a) (hb : Keeps Q b) :
    Keeps Q (if c then a else b) := by
  split <;> assumption

theorem idle_on_register (T : List FinalizeTask) (env : Env) (fd : Nat) (message : Message) :
    Keeps (UploadIdle T) (on_register env fd message) := by
  unfold on_register
  dsimp only
  repeat' first
    | exact keeps_schedule _ _
    | exact keeps_auth_call _
    | apply keeps_ite
    | refine keeps_bind ?_ (fun _ => ?_)

theorem idle_on_login (T : List FinalizeTask) (env : Env) (fd : Nat) (message : Message) :
    Keeps (UploadIdle T) (on_login env fd message) := by
  unfold on_login
  dsimp only
  repeat' first
    | exact keeps_schedule _ _
    | exact keeps_read
    | exact keeps_set_ctx _ (fun _ _ h => h)
    | apply keeps_ite
    | refine keeps_bind ?_ (fun _ => ?_)

theorem idle_on_token_auth (T : List FinalizeTask) (env : Env) (fd : Nat) (message : Message) :
    Keeps (UploadIdle T) (on_token_auth env fd message) := by
  unfold on_token_auth
  dsimp only
  repeat' first
    | exact keeps_schedule _ _
    | exact keeps_raise _
    | exact keeps_read
    | exact keeps_set_ctx _ (fun _ _ h => h)
    | apply keeps_ite
    | refine keeps_bind ?_ (fun _ => ?_)
    | split

theorem idle_on_dir_pwd (T : List FinalizeTask) (fd : Nat) :
    Keeps (UploadIdle T) (on_dir_pwd fd) := by
  unfold on_dir_pwd
  exact keeps_bind keeps_read (fun _ => keeps_schedule _ _)

theorem idle_on_dir_change (T : List FinalizeTask) (env : Env) (fd : Nat) (message : Message) :
    Keeps (UploadIdle T) (on_dir_change env fd message) := by
  unfold on_dir_change
  dsimp only
  apply keeps_ite
  · exact keeps_schedule _ _
  · refine keeps_catching ?_ (fun e => ?_)
    · repeat' first
        | exact keeps_schedule _ _
        | exact keeps_read
        | exact keeps_storage_call _
        | exact keeps_set_ctx _ (fun _ _ h => h)
        | apply keeps_ite
        | refine keeps_bind ?_ (fun _ => ?_)
    · exact keeps_schedule _ _

theorem idle_on_dir_mkdir (T : List FinalizeTask) (env : Env) (fd : Nat) (message : Message) :
    Keeps (UploadIdle T) (on_dir_mkdir env fd message) := by
  unfold on_dir_mkdir
  dsimp only
  repeat' first
    | exact keeps_schedule _ _
    | exact keeps_read
    | exact keeps_storage_call _
    | apply keeps_ite
    | refine keeps_bind ?_ (fun _ => ?_)

theorem idle_on_dir_list (T : List FinalizeTask) (env : Env) (fd : Nat) (message : Message) :
    Keeps (UploadIdle T) (on_dir_list env fd message) := by
  unfold on_dir_list
  dsimp only
  refine keeps_bind keeps_read (fun s => ?_)
  refine keeps_catching ?_ (fun e => ?_)
  · repeat' first
      | exact keeps_schedule _ _
      | exact keeps_storage_call _
      | refine keeps_bind ?_ (fun _ => ?_)
  · exact keeps_schedule _ _

theorem idle_on_file_delete (T : List FinalizeTask) (env : Env) (fd : Nat) (message : Message) :
    Keeps (UploadIdle T) (on_file_delete env fd message) := by
  unfold on_file_delete
  dsimp only
  repeat' first
    | exact keeps_schedule _ _
    | exact keeps_read
    | exact keeps_storage_call _
    | exact keeps_index_call _
    | apply keeps_ite
    | refine keeps_bind ?_ (fun _ => ?_)

theorem idle_on_upload_chunk (T : List FinalizeTask) (fd : Nat) (message : Message) :
    Keeps (UploadIdle T) (on_upload_chunk fd message) := by
  unfold on_upload_chunk
  dsimp only
  repeat' first
    | exact keeps_schedule _ _
    | exact keeps_read
    | exact keeps_ofExcept _
    | exact keeps_storage_call _
    | exact keeps_set_ctx _ (fun _ _ h => h)
    | apply keeps_ite
    | refine keeps_bind ?_ (fun _ => ?_)

/-- With no active upload, `FILE_UPLOAD_COMMIT` only replies `incomplete`. -/
theorem upload_commit_refused (fd : Nat) (s : Dispatch)
    (h : s.ctx.upload_active = false ∨ s.ctx.upload_checkpoint.received ≠ s.ctx.upload_expected) :
    on_upload_commit fd s = (.ok (), { s with world := { s.world with
      async_responses := s.world.async_responses ++
        [{ fd := fd, message := status_reply (str "FILE_UPLOAD_COMMIT") (str "incomplete") }] } }) := by
  have hc : (!s.ctx.upload_active) = true
      ∨ s.ctx.upload_checkpoint.received ≠ s.ctx.upload_expected := by
    rcases h with h | h
    · left; rw [h]; rfl
    · right; exact h
  simp only [on_upload_commit, bind, Eff.andThen, Eff.read, hc, if_true]
  rfl

theorem idle_on_upload_commit (T : List FinalizeTask) (fd : Nat) :
    Keeps (UploadIdle T) (on_upload_commit fd) := by
  intro s hs
  rw [upload_commit_refused fd s (Or.inl hs.1)]
  exact hs

theorem idle_on_download_init (T : List FinalizeTask) (env : Env) (fd : Nat) (message : Message) :
    Keeps (UploadIdle T) (on_download_init env fd message) := by
  unfold on_download_init
  dsimp only
  repeat' first
    | exact keeps_schedule _ _
    | exact keeps_read
    | exact keeps_pure _
    | exact keeps_storage_call _
    | apply keeps_ite
    | refine keeps_bind ?_ (fun _ => ?_)
    | split

theorem idle_on_download_fetch (T : List FinalizeTask) (env : Env) (fd : Nat) (message : Message) :
    Keeps (UploadIdle T) (on_download_fetch env fd message) := by
  unfold on_download_fetch
  dsimp only
  repeat' first
    | exact keeps_schedule _ _
    | exact keeps_read
    | exact keeps_ofExcept _
    | exact keeps_storage_call _
    | apply keeps_ite
    | refine keeps_bind ?_ (fun _ => ?_)

theorem idle_on_command (T : List FinalizeTask) (env : Env) (fd : Nat) (command : Str)
    (message : Message) (hc : command ≠ str "FILE_UPLOAD_INIT") :
    Keeps (UploadIdle T) (on_command env fd command message) := by
  unfold on_command
  rw [if_neg hc]
  exact keeps_ite (idle_on_dir_pwd _ _)
    (keeps_ite (idle_on_dir_change _ _ _ _)
    (keeps_ite (idle_on_dir_mkdir _ _ _ _)
    (keeps_ite (idle_on_dir_list _ _ _ _)
    (keeps_ite (idle_on_file_delete _ _ _ _)
    (keeps_ite (idle_on_upload_chunk _ _ _)
    (keeps_ite (idle_on_upload_commit _ _)
    (keeps_ite (idle_on_download_init _ _ _ _)
    (keeps_ite (idle_on_download_fetch _ _ _ _)
    (keeps_schedule _ _)))))))))

theorem idle_dispatch (T : List FinalizeTask) (env : Env) (fd : Nat) (message : Message)
    (hc : header_value message (str "cmd") ≠ str "FILE_UPLOAD_INIT") :
    Keeps (UploadIdle T) (dispatch env fd message) := by
  unfold dispatch
  dsimp only
  apply keeps_ite
  · exact keeps_schedule _ _
  · refine keeps_catching ?_ (fun e => keeps_schedule _ _)
    · unfold dispatch_try
      dsimp only
      refine keeps_ite (idle_on_register _ _ _ _) (keeps_ite (idle_on_login _ _ _ _)
        (keeps_ite (idle_on_token_auth _ _ _ _) (keeps_ite (keeps_schedule _ _) ?_)))
      split
      · exact keeps_raise _
      · exact keeps_schedule _ _
      · exact keeps_bind (keeps_set_ctx _ (fun _ _ h => h)) (fun _ => idle_on_command _ _ _ _ _ hc)

theorem idle_dispatch_all (T : List FinalizeTask) (env : Env) (fd : Nat) :
    ∀ (messages : List Message) (s : Dispatch),
      (∀ m ∈ messages, header_value m (str "cmd") ≠ str "FILE_UPLOAD_INIT") →
      UploadIdle T s.ctx s.world.tasks →
      UploadIdle T (dispatch_all env fd messages s).ctx (dispatch_all env fd messages s).world.tasks := by
  intro messages
  induction messages with
  | nil => intro s _ h; exact h
  | cons m ms ih =>
    intro s hm h
    exact ih _ (fun m1 h1 => hm m1 (List.mem_cons_of_mem _ h1))
      (idle_dispatch T env fd m (hm m (List.mem_cons_self _ _)) s h)

/-- A message whose token verifies runs its command with the session's username set to
the verified subject; an exception of the command becomes the `error` reply. -/
theorem dispatch_verified (env : Env) (fd : Nat) (message : Message) (s : Dispatch)
    (subject : Str)
    (hcmd : header_value message (str "cmd") ≠ [])
    (h1 : header_value message (str "cmd") ≠ str "REGISTER")
    (h2 : header_value message (str "cmd") ≠ str "LOGIN")
    (h3 : header_value message (str "cmd") ≠ str "TOKEN_AUTH")
    (ht : header_value message (str "token") ≠ [])
    (hv : env.verify (header_value message (str "token")) = .ok (some subject)) :
    dispatch env fd message s =
      Eff.catching (on_command env fd (header_value message (str "cmd")) message)
        (fun what => schedule_response fd
          (make_message [(str "cmd", header_value message (str "cmd")),
            (str "status", str "error"), (str "reason", what)]))
        { s with ctx := { s.ctx with
            username := subject, token := header_value message (str "token") } } := by
  simp only [dispatch, dispatch_try, hcmd, h1, h2, h3, ht, hv, if_false]
  rfl

theorem on_command_upload_init (env : Env) (fd : Nat) (message : Message) :
    on_command env fd (str "FILE_UPLOAD_INIT") message = on_upload_init env fd message := by
  unfold on_command
  rw [if_neg (by decide), if_neg (by decide), if_neg (by decide), if_neg (by decide),
    if_neg (by decide), if_pos rfl]

theorem on_command_upload_chunk (env : Env) (fd : Nat) (message : Message) :
    on_command env fd (str "FILE_UPLOAD_CHUNK") message = on_upload_chunk fd message := by
  unfold on_command
  rw [if_neg (by decide), if_neg (by decide), if_neg (by decide), if_neg (by decide),
    if_neg (by decide), if_neg (by decide), if_pos rfl]

theorem on_command_upload_commit (env : Env) (fd : Nat) (message : Message) :
    on_command env fd (str "FILE_UPLOAD_COMMIT") message = on_upload_commit fd := by
  unfold on_command
  rw [if_neg (by decide), if_neg (by decide), if_neg (by decide), if_neg (by decide),
    if_neg (by decide), if_neg (by decide), if_neg (by decide), if_pos rfl]

/-- An authenticated `FILE_UPLOAD_COMMIT` on a session without an active upload only
replies `incomplete`. -/
theorem dispatch_commit_idle (env : Env) (fd : Nat) (commit : Message) (s : Dispatch)
    (subject : Str)
    (hc : header_value commit (str "cmd") = str "FILE_UPLOAD_COMMIT")
    (ht : header_value commit (str "token") ≠ [])
    (hv : env.verify (header_value commit (str "token")) = .ok (some subject))
    (hs : s.ctx.upload_active = false) :
    dispatch env fd commit s = (.ok (),
      { ctx := { s.ctx with username := subject, token := header_value commit (str "token") },
        world := { s.world with
          async_responses := s.world.async_responses ++
            [{ fd := fd,
               message := status_reply (str "FILE_UPLOAD_COMMIT") (str "incomplete") }] } }) := by
  rw [dispatch_verified env fd commit s subject (by rw [hc]; decide) (by rw [hc]; decide)
    (by rw [hc]; decide) (by rw [hc]; decide) ht hv, hc, on_command_upload_commit]
  unfold Eff.catching
  rw [upload_commit_refused fd
    { s with ctx := { s.ctx with
        username := subject, token := header_value commit (str "token") } } (Or.inl hs)]

/-- C17: `FILE_UPLOAD_COMMIT` on a session with an active upload whose `received` equals the
expected total submits the finalization task from a session whose `upload_active` is already
false; the task holds copies of the checkpoint, the declared digest, the logical path, the
username and the descriptor, and the only other effect is `upload_active = false`.  A
`COMMIT` with no active upload or with `received ≠ total` only replies `incomplete`.  From a
session with no active upload (such as the one an accepted `COMMIT` leaves), whatever
messages other than `FILE_UPLOAD_INIT` are dispatched: the session still has no active
upload, no task has been submitted, and an authenticated `COMMIT` that follows only replies
`incomplete`.  So an upload session opened by one `INIT` is finalized at most once. -/
theorem upload_commit_at_most_once (env : Env) (fd : Nat) (s : Dispatch) :
    (s.ctx.upload_active = true →
        s.ctx.upload_checkpoint.received = s.ctx.upload_expected →
      on_upload_commit fd s
        = submit { checkpoint := s.ctx.upload_checkpoint, md5 := s.ctx.upload_md5,
                   logical := s.ctx.upload_logical, username := s.ctx.username, fd_copy := fd }
            { s with ctx := { s.ctx with upload_active := false } }
      ∧ on_upload_commit fd s = (.ok (),
          { ctx := { s.ctx with upload_active := false },
            world := { s.world with tasks := s.world.tasks ++
              [{ checkpoint := s.ctx.upload_checkpoint, md5 := s.ctx.upload_md5,
                 logical := s.ctx.upload_logical, username := s.ctx.username,
                 fd_copy := fd }] } }))
    ∧ (s.ctx.upload_active = false
          ∨ s.ctx.upload_checkpoint.received ≠ s.ctx.upload_expected →
      on_upload_commit fd s = (.ok (), { s with world := { s.world with
        async_responses := s.world.async_responses ++
          [{ fd := fd,
             message := status_reply (str "FILE_UPLOAD_COMMIT") (str "incomplete") }] } }))
    ∧ (s.ctx.upload_active = false →
        ∀ messages : List Message,
          (∀ m ∈ messages, header_value m (str "cmd") ≠ str "FILE_UPLOAD_INIT") →
          (dispatch_all env fd messages s).ctx.upload_active = false
          ∧ (dispatch_all env fd messages s).world.tasks = s.world.tasks
          ∧ ∀ (commit : Message) (subject : Str),
              header_value commit (str "cmd") = str "FILE_UPLOAD_COMMIT" →
              header_value commit (str "token") ≠ [] →
              env.verify (header_value commit (str "token")) = .ok (some subject) →
              dispatch env fd commit (dispatch_all env fd messages s) = (.ok (),
                { ctx := { (dispatch_all env fd messages s).ctx with
                    username := subject, token := header_value commit (str "token") },
                  world := { (dispatch_all env fd messages s).world with
                    async_responses :=
                      (dispatch_all env fd messages s).world.async_responses ++
                        [{ fd := fd, message :=
                            status_reply (str "FILE_UPLOAD_COMMIT") (str "incomplete") }] } })) := by
  refine ⟨fun ha hr => ?_, upload_commit_refused fd s, fun hs messages hm => ?_⟩
  · have hc : ¬ ((!s.ctx.upload_active) = true
        ∨ s.ctx.upload_checkpoint.received ≠ s.ctx.upload_expected) := by
      rw [ha]
      simp [hr]
    constructor
    · simp only [on_upload_commit, bind, Eff.andThen, Eff.read, hc, if_false]
      rfl
    · simp only [on_upload_commit, bind, Eff.andThen, Eff.read, hc, if_false]
      rfl
  · have hi := idle_dispatch_all s.world.tasks env fd messages s hm ⟨hs, rfl⟩
    exact ⟨hi.1, hi.2, fun commit subject hc ht hv =>
      dispatch_commit_idle env fd commit _ subject hc ht hv hi.1⟩

set_option maxRecDepth 100000 in
/-- C17 (witness): after the accepted `COMMIT` of `committed_upload` the session has no
active upload and one task is queued; a `DIR_PWD`, a `CHUNK` and a second `COMMIT` later
there is still that one task. -/
theorem upload_commit_at_most_once_witness :
    committed_upload.ctx.upload_active = false
    ∧ committed_upload.world.tasks = [note_task]
    ∧ (dispatch_all sample_env 5
        [request [("cmd", "DIR_PWD"), ("token", "T")],
         request [("cmd", "FILE_UPLOAD_CHUNK"), ("token", "T"), ("offset", "3")] [4],
         request [("cmd", "FILE_UPLOAD_COMMIT"), ("token", "T")]] committed_upload).world.tasks
      = [note_task] :=
  ⟨by decide, by decide,
   ((upload_commit_at_most_once sample_env 5 committed_upload).2.2 (by decide)
      [request [("cmd", "DIR_PWD"), ("token", "T")],
       request [("cmd", "FILE_UPLOAD_CHUNK"), ("token", "T"), ("offset", "3")] [4],
       request [("cmd", "FILE_UPLOAD_COMMIT"), ("token", "T")]] (by decide)).2.1.trans
     (by decide)⟩

end cloud.server

namespace cloud.server
open samples fs protocol

theorem user_root_mono (env : Env) (username : Str) (t : FileSystem) (k : List Str) (n : Node)
    (h : lookup t k = some n) : lookup (user_root env username t).2 k = some n := by
  have hc := create_directories_mono (fs.append env.root username) t k n h
  simp only [user_root, bind, Eff.andThen, pure, Eff.ret]
  rcases hcd : create_directories (fs.append env.root username) t with ⟨r, t1⟩
  rw [hcd] at hc
  cases r <;> exact hc

theorem resolve_mono (env : Env) (username relative : Str) (t : FileSystem) (k : List Str)
    (n : Node) (h : lookup t k = some n) :
    lookup (resolve env username relative t).2 k = some n := by
  have hu := user_root_mono env username t k n h
  simp only [resolve, bind, Eff.andThen]
  rcases hur : user_root env username t with ⟨r, t1⟩
  rw [hur] at hu
  cases r with
  | error e => exact hu
  | ok base =>
    simp only [sanitize_path]
    split <;> exact hu

theorem checkpoint_dir_mono (env : Env) (username : Str) (t : FileSystem) (k : List Str)
    (n : Node) (h : lookup t k = some n) :
    lookup (checkpoint_dir env username t).2 k = some n := by
  have hu := user_root_mono env username t k n h
  simp only [checkpoint_dir, bind, Eff.andThen, pure, Eff.ret]
  rcases hur : user_root env username t with ⟨r, t1⟩
  rw [hur] at hu
  cases r with
  | error e => exact hu
  | ok base =>
    have hc := create_directories_mono (fs.append base (str ".resume")) t1 k n hu
    simp only
    rcases hcd : create_directories (fs.append base (str ".resume")) t1 with ⟨r2, t2⟩
    rw [hcd] at hc
    cases r2 <;> exact hc

theorem user_root_value (env : Env) (username : Str) (t t1 : FileSystem) (p : Str)
    (h : user_root env username t = (.ok p, t1)) : p = fs.append env.root username := by
  simp only [user_root, bind, Eff.andThen, pure, Eff.ret] at h
  rcases hcd : create_directories (fs.append env.root username) t with ⟨r, t2⟩
  rw [hcd] at h
  cases r with
  | error e => simp at h
  | ok u => simp only [Prod.mk.injEq, Except.ok.injEq] at h; exact h.1.symm

theorem checkpoint_dir_value (env : Env) (username : Str) (t t1 : FileSystem) (p : Str)
    (h : checkpoint_dir env username t = (.ok p, t1)) :
    p = fs.append (fs.append env.root username) (str ".resume") := by
  simp only [checkpoint_dir, bind, Eff.andThen, pure, Eff.ret] at h
  rcases hur : user_root env username t with ⟨r, t2⟩
  rw [hur] at h
  cases r with
  | error e => simp at h
  | ok base =>
    simp only at h
    rcases hcd : create_directories (fs.append base (str ".resume")) t2 with ⟨r2, t3⟩
    rw [hcd] at h
    cases r2 with
    | error e => simp at h
    | ok u =>
      simp only [Prod.mk.injEq, Except.ok.injEq] at h
      rw [← h.1, user_root_value env username t t2 base hur]

theorem read_meta_state (meta_path final_path : Str) (t : FileSystem) :
    (read_meta meta_path final_path t).2 = t := by
  unfold read_meta
  dsimp only
  split <;> rfl

theorem file_size_state (p : Str) (t : FileSystem) : (file_size p t).2 = t := by
  unfold file_size
  split <;> rfl

/-- The checkpoint `prepare_upload` returns, and the storage it leaves. -/
theorem prepare_upload_inv (env : Env) (username md5 logical_path : Str) (total_bytes : Nat)
    (t t1 : FileSystem) (cp : UploadCheckpoint)
    (h : prepare_upload env username md5 logical_path total_bytes t = (.ok cp, t1)) :
    cp.active = true ∧ cp.total = total_bytes ∧ cp.received ≤ total_bytes
    ∧ (resolve env username logical_path t).1 = .ok cp.final_path
    ∧ cp.meta_path
        = fs.append (fs.append (fs.append env.root username) (str ".resume")) (md5 ++ str ".meta")
    ∧ cp.temp_path
        = fs.append (fs.append (fs.append env.root username) (str ".resume")) (md5 ++ str ".part")
    ∧ ∃ ta : FileSystem,
        ta = (create_directories (parent_path cp.final_path)
                (checkpoint_dir env username
                  (checkpoint_dir env username
                    (resolve env username logical_path t).2).2).2).2
        ∧ (∀ k n, lookup t k = some n → lookup ta k = some n)
        ∧ ((path_exists ta cp.meta_path = true ∧ t1 = ta
              ∧ ∃ existing, (read_meta cp.meta_path cp.final_path ta).1 = .ok existing
                  ∧ cp.received = min existing.received total_bytes)
          ∨ (path_exists ta cp.meta_path = false ∧ path_exists ta cp.temp_path = true
              ∧ t1 = (write_meta cp ta).2
              ∧ ∃ size, (file_size cp.temp_path ta).1 = .ok size
                  ∧ cp.received = min size total_bytes)
          ∨ (path_exists ta cp.meta_path = false ∧ path_exists ta cp.temp_path = false
              ∧ t1 = (write_meta cp ta).2 ∧ cp.received = 0))
        ∧ (path_exists ta cp.meta_path = false →
            ∀ k, locate ta cp.meta_path = some k →
              status t1 cp.meta_path = some (Node.file (meta_text cp))) := by
  simp only [prepare_upload, meta_file, temp_file, bind, Eff.andThen, Eff.read, pure, Eff.ret] at h
  have m1 := resolve_mono env username logical_path t
  rcases h1 : resolve env username logical_path t with ⟨r1, s1⟩
  rw [h1] at h m1
  cases r1 with
  | error e => simp at h
  | ok final =>
    simp only at h m1
    have m2 := checkpoint_dir_mono env username s1
    rcases h2 : checkpoint_dir env username s1 with ⟨r2, s2⟩
    rw [h2] at h m2
    cases r2 with
    | error e => simp at h
    | ok dir1 =>
      have m3 := checkpoint_dir_mono env username s2
      simp only at h m2
      rcases h3 : checkpoint_dir env username s2 with ⟨r3, s3⟩
      rw [h3] at h m3
      cases r3 with
      | error e => simp at h
      | ok dir2 =>
        have m4 := create_directories_mono (parent_path final) s3
        simp only at h m3
        rcases h4 : create_directories (parent_path final) s3 with ⟨r4, s4⟩
        rw [h4] at h m4
        cases r4 with
        | error e => simp at h
        | ok u =>
          simp only at h m4
          have mono : ∀ k n, lookup t k = some n → lookup s4 k = some n :=
            fun k n hk => m4 k n (m3 k n (m2 k n (m1 k n hk)))
          have d1 := checkpoint_dir_value env username s1 s2 dir1 h2
          have d2 := checkpoint_dir_value env username s2 s3 dir2 h3
          have written : ∀ c : UploadCheckpoint, path_exists s4 c.meta_path = false →
              ∀ k, locate s4 c.meta_path = some k →
                status (write_meta c s4).2 c.meta_path = some (Node.file (meta_text c)) := by
            intro c hc k hk
            refine ofstream_write_status _ _ _ k hk ?_
            intro hd
            have : path_exists s4 c.meta_path = true := by
              simp [path_exists, status, hk, hd]
            rw [this] at hc
            cases hc
          by_cases hm : path_exists s4 (fs.append dir1 (md5 ++ str ".meta")) = true
          · rw [if_pos hm] at h
            unfold Eff.andThen at h
            have hst := read_meta_state (fs.append dir1 (md5 ++ str ".meta")) final s4
            rcases hr : read_meta (fs.append dir1 (md5 ++ str ".meta")) final s4 with ⟨r, s5⟩
            rw [hr] at h hst
            cases r with
            | error e => simp at h
            | ok existing =>
              simp only [Eff.ret, Prod.mk.injEq, Except.ok.injEq] at h hst
              obtain ⟨hcp, ht1⟩ := h
              subst hcp
              subst hst
              refine ⟨rfl, rfl, Nat.min_le_right _ _, rfl, by rw [d1], by rw [d2], s5, by simp only [h4], mono, ?_, ?_⟩
              · exact Or.inl ⟨hm, ht1.symm, existing, by rw [hr], rfl⟩
              · intro hc
                rw [hm] at hc
                cases hc
          · rw [if_neg hm] at h
            have hm1 : path_exists s4 (fs.append dir1 (md5 ++ str ".meta")) = false := by
              simpa using hm
            have hread : ∀ f : FileSystem → Eff FileSystem UploadCheckpoint,
                Eff.andThen Eff.read f s4 = f s4 s4 := fun f => rfl
            rw [hread] at h
            by_cases hp : path_exists s4 (fs.append dir2 (md5 ++ str ".part")) = true
            · rw [if_pos hp] at h
              unfold Eff.andThen at h
              generalize hl : last_write_offset _ s4 = x at h
              simp only [last_write_offset, hp, Bool.not_true, Bool.false_eq_true, if_false] at hl
              have hst := file_size_state (fs.append dir2 (md5 ++ str ".part")) s4
              rw [hl] at hst
              rcases x with ⟨r, s5⟩
              cases r with
              | error e => simp at h
              | ok size =>
                simp only at h hst
                subst hst
                generalize hwm : write_meta _ s5 = y at h
                have hw : y.1 = .ok () := by rw [← hwm]; exact ofstream_write_ok _ _ s5
                rcases y with ⟨r, s6⟩
                simp only at hw
                subst hw
                simp only [Eff.ret, Prod.mk.injEq, Except.ok.injEq] at h
                obtain ⟨hcp, ht1⟩ := h
                subst hcp
                replace ht1 := (congrArg Prod.snd hwm).trans ht1
                refine ⟨rfl, rfl, Nat.min_le_right _ _, rfl, by rw [d1], by rw [d2], s5, by simp only [h4], mono, ?_, ?_⟩
                · exact Or.inr (Or.inl ⟨hm1, hp, ht1.symm, size, by rw [hl], rfl⟩)
                · intro hc k hk
                  rw [← ht1]
                  exact written _ hc k hk
            · rw [if_neg hp] at h
              have hp1 : path_exists s4 (fs.append dir2 (md5 ++ str ".part")) = false := by
                simpa using hp
              unfold Eff.andThen at h
              generalize hwm : write_meta _ s4 = y at h
              have hw : y.1 = .ok () := by rw [← hwm]; exact ofstream_write_ok _ _ s4
              rcases y with ⟨r, s6⟩
              simp only at hw
              subst hw
              simp only [Eff.ret, Prod.mk.injEq, Except.ok.injEq] at h
              obtain ⟨hcp, ht1⟩ := h
              subst hcp
              replace ht1 := (congrArg Prod.snd hwm).trans ht1
              refine ⟨rfl, rfl, Nat.zero_le _, rfl, by rw [d1], by rw [d2], s4, by simp only [h4], mono, ?_, ?_⟩
              · exact Or.inr (Or.inr ⟨hm1, hp1, ht1.symm, rfl⟩)
              · intro hc k hk
                rw [← ht1]
                exact written _ hc k hk

set_option maxRecDepth 100000 in
/-- C14 (counterexample): for the digest `x/y` neither a meta file nor a part file exists;
`prepare_upload` returns `received = 0` and writes no meta file, because the meta path
`.resume/x/y.meta` lies in a directory that does not exist and `write_meta` does not notice
that its stream failed to open.  And on a meta file whose `received` line holds no number,
`prepare_upload` returns no checkpoint: it throws. -/
theorem prepare_upload_writes_no_meta :
    (prepare_upload sample_env (str "alice") (str "x/y") (str "a") 5 []).1
      = .ok { active := true, temp_path := str "/srv/alice/.resume/x/y.part",
              meta_path := str "/srv/alice/.resume/x/y.meta", final_path := str "/srv/alice/a",
              total := 5, received := 0 }
    ∧ path_exists (prepare_upload sample_env (str "alice") (str "x/y") (str "a") 5 []).2
        (str "/srv/alice/.resume/x/y.meta") = false
    ∧ (prepare_upload sample_env (str "alice") (str "x/y") (str "a") 5 []).2
        = [([str "srv"], Node.dir), ([str "srv", str "alice"], Node.dir),
           ([str "srv", str "alice", str ".resume"], Node.dir)]
    ∧ (prepare_upload sample_env (str "alice") (str "5") (str "a") 5
        [([str "srv"], Node.dir), ([str "srv", str "alice"], Node.dir),
         ([str "srv", str "alice", str ".resume"], Node.dir),
         ([str "srv", str "alice", str ".resume", str "5.meta"],
           Node.file (str "received=\n"))]).1 = .error (str "stoull") :=
  ⟨by decide, by decide, by decide, by decide⟩

/-- C14 (amended): whenever `prepare_upload(user, digest, logical, total)` returns, the
checkpoint has `total` = the argument, `received ≤ total`, the target `resolve` gives and the
meta and part paths of the digest.  With `ta` the storage once the user root, the checkpoint
directory and the target's directory have been created: if the meta path exists in `ta`,
`received = min(meta.received, total)` for the checkpoint `read_meta` returns and nothing is
written; else if the part path exists, `received = min(file_size(part), total)`; else
`received = 0`; and in these last two cases `write_meta` is called for the returned
checkpoint, after which the meta file holds its path, total and received provided the meta
path can be resolved (its directory exists). -/
theorem prepare_upload_checkpoint (env : Env) (username md5 logical_path : Str)
    (total_bytes : Nat) (t t1 : FileSystem) (cp : UploadCheckpoint)
    (h : prepare_upload env username md5 logical_path total_bytes t = (.ok cp, t1)) :
    cp.active = true ∧ cp.total = total_bytes ∧ cp.received ≤ total_bytes
    ∧ (resolve env username logical_path t).1 = .ok cp.final_path
    ∧ cp.meta_path
        = fs.append (fs.append (fs.append env.root username) (str ".resume")) (md5 ++ str ".meta")
    ∧ cp.temp_path
        = fs.append (fs.append (fs.append env.root username) (str ".resume")) (md5 ++ str ".part")
    ∧ ∃ ta : FileSystem,
        ta = (create_directories (parent_path cp.final_path)
                (checkpoint_dir env username
                  (checkpoint_dir env username
                    (resolve env username logical_path t).2).2).2).2
        ∧ (∀ k n, lookup t k = some n → lookup ta k = some n)
        ∧ ((path_exists ta cp.meta_path = true ∧ t1 = ta
              ∧ ∃ existing, (read_meta cp.meta_path cp.final_path ta).1 = .ok existing
                  ∧ cp.received = min existing.received total_bytes)
          ∨ (path_exists ta cp.meta_path = false ∧ path_exists ta cp.temp_path = true
              ∧ t1 = (write_meta cp ta).2
              ∧ ∃ size, (file_size cp.temp_path ta).1 = .ok size
                  ∧ cp.received = min size total_bytes)
          ∨ (path_exists ta cp.meta_path = false ∧ path_exists ta cp.temp_path = false
              ∧ t1 = (write_meta cp ta).2 ∧ cp.received = 0))
        ∧ (path_exists ta cp.meta_path = false →
            ∀ k, locate ta cp.meta_path = some k →
              status t1 cp.meta_path = some (Node.file (meta_text cp))) :=
  prepare_upload_inv env username md5 logical_path total_bytes t t1 cp h

set_option maxRecDepth 100000 in
/-- C14 (witness): the first `prepare_upload` for `note.bin` on an empty storage returns
`received = 0` and leaves the meta file of the digest. -/
theorem prepare_upload_checkpoint_witness :
    (prepare_upload sample_env (str "alice") (str "3") (str "note.bin") 3 []).1
      = .ok { note_task.checkpoint with received := 0 }
    ∧ ({ note_task.checkpoint with received := 0 } : UploadCheckpoint).received ≤ 3
    ∧ status (prepare_upload sample_env (str "alice") (str "3") (str "note.bin") 3 []).2
        (str "/srv/alice/.resume/3.meta")
      = some (Node.file (str "path=/srv/alice/note.bin\ntotal=3\nreceived=0\n")) :=
  ⟨by decide,
   (prepare_upload_checkpoint sample_env (str "alice") (str "3") (str "note.bin") 3 []
      (prepare_upload sample_env (str "alice") (str "3") (str "note.bin") 3 []).2
      { note_task.checkpoint with received := 0 } (by decide)).2.2.1,
   by decide⟩

end cloud.server

namespace cloud.server
open samples fs protocol

set_option maxRecDepth 100000 in
/-- C13 (counterexample): the catalog is empty, so `find_by_md5` returns nothing.  An
authenticated `INIT` with path `/etc/passwd`, a digest and the decimal size `1` is answered
`status=error` (`resolve` throws before the catalog is asked), and so is an `INIT` for `a`
made after the client created a directory at the place of the part file (`prepare_upload`
throws).  Neither is answered `ready` and neither opens an upload session. -/
theorem upload_init_error_reply :
    find_by_md5 fresh_dispatch.world.file_index (str "1") = none
    ∧ (after [request [("cmd", "FILE_UPLOAD_INIT"), ("token", "T"), ("path", "/etc/passwd"),
          ("size", "1"), ("md5", "1")]] fresh_dispatch).world.async_responses
      = [{ fd := 5, message := make_message [(str "cmd", str "FILE_UPLOAD_INIT"),
            (str "status", str "error"), (str "reason", str "Path traversal detected")] }]
    ∧ (after [request [("cmd", "FILE_UPLOAD_INIT"), ("token", "T"), ("path", "/etc/passwd"),
          ("size", "1"), ("md5", "1")]] fresh_dispatch).ctx.upload_active = false
    ∧ (after [request [("cmd", "DIR_MKDIR"), ("token", "T"), ("path", ".resume/1.part")],
              request [("cmd", "FILE_UPLOAD_INIT"), ("token", "T"), ("path", "a"),
                ("size", "1"), ("md5", "1")]] fresh_dispatch).world.async_responses
      = [{ fd := 5, message := status_reply (str "DIR_MKDIR") (str "ok") },
         { fd := 5, message := make_message [(str "cmd", str "FILE_UPLOAD_INIT"),
            (str "status", str "error"),
            (str "reason", fs_error "cannot get file size: Is a directory")] }]
    ∧ (after [request [("cmd", "DIR_MKDIR"), ("token", "T"), ("path", ".resume/1.part")],
              request [("cmd", "FILE_UPLOAD_INIT"), ("token", "T"), ("path", "a"),
                ("size", "1"), ("md5", "1")]] fresh_dispatch).ctx.upload_active = false :=
  ⟨by decide, by decide, by decide, by decide, by decide⟩

/-- C13 (amended): an authenticated `FILE_UPLOAD_INIT` with non-empty `path` and `md5` and a
`size` that `stoull` parses to `total`, for which `resolve(username, logical)` returns
(leaving the storage `t1`) and `find_by_md5(md5)` returns nothing or an entry whose
`storage_path` does not exist.  The handler does not reply `instant`: it calls
`prepare_upload(username, md5, logical, total)` on `t1`.  If that returns a checkpoint, the
session's upload becomes active with that checkpoint, expected total `total` (the
checkpoint's), expected digest `md5` and target the normalized logical path, and the one
reply is `status=ready` with `offset` the checkpoint's `received`.  If it throws, the one
reply is `status=error` with the exception text and the upload session is as before. -/
theorem upload_init_opens_session (env : Env) (fd : Nat) (message : Message) (s : Dispatch)
    (subject absolute : Str) (t1 : FileSystem) (total : Nat)
    (hc : header_value message (str "cmd") = str "FILE_UPLOAD_INIT")
    (ht : header_value message (str "token") ≠ [])
    (hv : env.verify (header_value message (str "token")) = .ok (some subject))
    (hp : header_value message (str "path") ≠ [])
    (hm : header_value message (str "md5") ≠ [])
    (hs : stoull (header_value message (str "size")) = .ok total)
    (hr : resolve env subject
        (normalize_relative (fs.append s.ctx.cwd (header_value message (str "path"))))
        s.world.storage = (.ok absolute, t1))
    (hi : ∀ e, find_by_md5 s.world.file_index (header_value message (str "md5")) = some e →
        path_exists t1 e.storage_path = false) :
    (∀ cp t2,
      prepare_upload env subject (header_value message (str "md5"))
        (normalize_relative (fs.append s.ctx.cwd (header_value message (str "path"))))
        total t1 = (.ok cp, t2) →
      cp.total = total
      ∧ dispatch env fd message s = (.ok (),
        { ctx := { s.ctx with
            username := subject
            token := header_value message (str "token")
            upload_active := true
            upload_checkpoint := cp
            upload_expected := total
            upload_md5 := header_value message (str "md5")
            upload_logical :=
              normalize_relative (fs.append s.ctx.cwd (header_value message (str "path"))) },
          world := { s.world with
            storage := t2
            async_responses := s.world.async_responses ++
              [{ fd := fd, message := make_message [(str "cmd", str "FILE_UPLOAD_INIT"),
                  (str "status", str "ready"), (str "offset", to_string cp.received)] }] } }))
    ∧ (∀ what t2,
      prepare_upload env subject (header_value message (str "md5"))
        (normalize_relative (fs.append s.ctx.cwd (header_value message (str "path"))))
        total t1 = (.error what, t2) →
      dispatch env fd message s = (.ok (),
        { ctx := { s.ctx with
            username := subject
            token := header_value message (str "token") },
          world := { s.world with
            storage := t2
            async_responses := s.world.async_responses ++
              [{ fd := fd, message := make_message [(str "cmd", str "FILE_UPLOAD_INIT"),
                  (str "status", str "error"), (str "reason", what)] }] } })) := by
  have hsize : header_value message (str "size") ≠ [] := by
    intro h
    rw [h] at hs
    have : stoull [] = .error (str "stoull") := by decide
    rw [this] at hs
    cases hs
  have hd := dispatch_verified env fd message s subject (by rw [hc]; decide) (by rw [hc]; decide)
    (by rw [hc]; decide) (by rw [hc]; decide) ht hv
  rw [hc, on_command_upload_init] at hd
  have hopen : on_upload_init env fd message
      { s with ctx := { s.ctx with
          username := subject, token := header_value message (str "token") } }
      = on_upload_init.on_upload_open env fd (header_value message (str "md5"))
          (header_value message (str "size"))
          (normalize_relative (fs.append s.ctx.cwd (header_value message (str "path"))))
          subject
          { ctx := { s.ctx with
              username := subject, token := header_value message (str "token") },
            world := { s.world with storage := t1 } } := by
    simp only [on_upload_init, hp, hm, hsize, bind, Eff.andThen, Eff.read, storage_call, hr,
      or_self, if_false]
    rcases hf : find_by_md5 s.world.file_index (header_value message (str "md5"))
      with _ | instant
    · rfl
    · simp only [hi instant hf, Bool.false_eq_true, if_false]
  rw [hd]
  unfold Eff.catching
  rw [hopen]
  refine ⟨fun cp t2 hprep => ⟨(prepare_upload_inv _ _ _ _ _ _ _ _ hprep).2.1, ?_⟩,
    fun what t2 hprep => ?_⟩
  · have htot := (prepare_upload_inv _ _ _ _ _ _ _ _ hprep).2.1
    simp only [on_upload_init.on_upload_open, bind, Eff.andThen, Eff.ofExcept, hs, storage_call,
      hprep, set_ctx, schedule_response, htot]
  · simp only [on_upload_init.on_upload_open, bind, Eff.andThen, Eff.ofExcept, hs, storage_call,
      hprep, schedule_response]

set_option maxRecDepth 100000 in
/-- C13 (witness): the `INIT` for `note.bin` of three bytes on a fresh session. -/
theorem upload_init_opens_session_witness :
    (dispatch sample_env 5 (request [("cmd", "FILE_UPLOAD_INIT"), ("token", "T"),
        ("path", "note.bin"), ("size", "3"), ("md5", "3")]) fresh_dispatch).2.ctx.upload_active
      = true
    ∧ (dispatch sample_env 5 (request [("cmd", "FILE_UPLOAD_INIT"), ("token", "T"),
        ("path", "note.bin"), ("size", "3"), ("md5", "3")]) fresh_dispatch).2.world.async_responses
      = [{ fd := 5, message := make_message [(str "cmd", str "FILE_UPLOAD_INIT"),
            (str "status", str "ready"), (str "offset", str "0")] }] :=
  ⟨congrArg (fun r => r.2.ctx.upload_active)
     (((upload_init_opens_session sample_env 5
        (request [("cmd", "FILE_UPLOAD_INIT"), ("token", "T"), ("path", "note.bin"),
          ("size", "3"), ("md5", "3")]) fresh_dispatch (str "alice") (str "/srv/alice/note.bin")
        (resolve sample_env (str "alice") (str "note.bin") []).2 3
        (by decide) (by decide) (by decide) (by decide) (by decide) (by decide) (by decide)
        (fun e h => Option.noConfusion (show (none : Option FileMetadata) = some e from h))).1
        { note_task.checkpoint with received := 0 }
        (prepare_upload sample_env (str "alice") (str "3") (str "note.bin") 3
          (resolve sample_env (str "alice") (str "note.bin") []).2).2
        (by decide)).2),
   by decide⟩

end cloud.server

namespace cloud.fs

theorem splitSlash_ne_nil : ∀ p : Str, splitSlash p ≠ []
  | [] => by simp [splitSlash]
  | c :: cs => by
    unfold splitSlash
    split
    · simp
    · split <;> simp

theorem splitSlash_noslash : ∀ (p : Str) (x : Str), x ∈ splitSlash p → chSlash ∉ x
  | [], x, hx => by
    simp [splitSlash] at hx
    subst hx
    simp
  | c :: cs, x, hx => by
    unfold splitSlash at hx
    split at hx
    · rcases List.mem_cons.1 hx with h | h
      · subst h; simp
      · exact splitSlash_noslash cs x h
    · rename_i hc
      split at hx
      · rename_i heq
        exact absurd heq (splitSlash_ne_nil cs)
      · rename_i y ys heq
        rcases List.mem_cons.1 hx with h | h
        · subst h
          have hy := splitSlash_noslash cs y (by rw [heq]; exact List.mem_cons_self _ _)
          intro hm
          rcases List.mem_cons.1 hm with h1 | h1
          · exact hc h1.symm
          · exact hy h1
        · exact splitSlash_noslash cs x (by rw [heq]; exact List.mem_cons_of_mem _ h)

theorem names_filename (p : Str) (x : Str) (hx : x ∈ names p) : Filename x := by
  unfold names at hx
  rw [List.mem_filter] at hx
  exact ⟨by simpa using hx.2, splitSlash_noslash p x hx.1⟩

theorem splitSlash_cons (c : Byte) (cs : Str) :
    splitSlash (c :: cs) =
      if c = chSlash then [] :: splitSlash cs
      else
        match splitSlash cs with
        | [] => [[c]]
        | x :: xs => (c :: x) :: xs := by
  rw [splitSlash]

theorem splitSlash_noslash_self : ∀ (x : Str), chSlash ∉ x → splitSlash x = [x]
  | [], _ => rfl
  | c :: cs, h => by
    have hc : c ≠ chSlash := fun e => h (by rw [e]; exact List.mem_cons_self _ _)
    have hcs : chSlash ∉ cs := fun e => h (List.mem_cons_of_mem _ e)
    rw [splitSlash_cons, if_neg hc, splitSlash_noslash_self cs hcs]

theorem splitSlash_append_slash : ∀ (x rest : Str), chSlash ∉ x →
    splitSlash (x ++ chSlash :: rest) = x :: splitSlash rest
  | [], rest, _ => by
    show splitSlash (chSlash :: rest) = _
    rw [splitSlash_cons, if_pos rfl]
  | c :: cs, rest, h => by
    have hc : c ≠ chSlash := fun e => h (by rw [e]; exact List.mem_cons_self _ _)
    have hcs : chSlash ∉ cs := fun e => h (List.mem_cons_of_mem _ e)
    show splitSlash (c :: (cs ++ chSlash :: rest)) = _
    rw [splitSlash_cons, if_neg hc, splitSlash_append_slash cs rest hcs]

theorem joinSlash_cons_cons (x y : Str) (rest : List Str) :
    joinSlash (x :: y :: rest) = x ++ chSlash :: joinSlash (y :: rest) := rfl

theorem joinSlash_snoc : ∀ (st : List Str) (x : Str), st ≠ [] →
    joinSlash (st ++ [x]) = joinSlash st ++ chSlash :: x
  | [], _, h => absurd rfl h
  | [y], x, _ => rfl
  | y :: z :: rest, x, _ => by
    show joinSlash (y :: (z :: rest ++ [x])) = _
    have ih := joinSlash_snoc (z :: rest) x (by simp)
    rw [List.cons_append] at ih ⊢
    rw [joinSlash_cons_cons, ih, joinSlash_cons_cons]
    simp

theorem splitSlash_joinSlash_slash : ∀ (st : List Str) (rest : Str), st ≠ [] →
    (∀ x ∈ st, chSlash ∉ x) →
    splitSlash (joinSlash st ++ chSlash :: rest) = st ++ splitSlash rest
  | [], _, h, _ => absurd rfl h
  | [y], rest, _, hs => by
    show splitSlash (y ++ chSlash :: rest) = _
    rw [splitSlash_append_slash y rest (hs y (List.mem_cons_self _ _))]
    rfl
  | y :: z :: r, rest, _, hs => by
    rw [joinSlash_cons_cons, List.append_assoc, List.cons_append,
      splitSlash_append_slash y _ (hs y (List.mem_cons_self _ _)),
      splitSlash_joinSlash_slash (z :: r) rest (by simp)
        (fun x hx => hs x (List.mem_cons_of_mem _ hx))]
    rfl

theorem splitSlash_joinSlash : ∀ (st : List Str), st ≠ [] → (∀ x ∈ st, chSlash ∉ x) →
    splitSlash (joinSlash st) = st
  | [], h, _ => absurd rfl h
  | [y], _, hs => splitSlash_noslash_self y (hs y (List.mem_cons_self _ _))
  | y :: z :: r, _, hs => by
    rw [joinSlash_cons_cons, splitSlash_append_slash y _ (hs y (List.mem_cons_self _ _)),
      splitSlash_joinSlash (z :: r) (by simp) (fun x hx => hs x (List.mem_cons_of_mem _ hx))]

theorem filter_filenames (st : List Str) (hs : ∀ x ∈ st, Filename x) :
    st.filter (fun x => x ≠ []) = st := by
  rw [List.filter_eq_self]
  intro x hx
  simpa using (hs x hx).1

theorem names_joinSlash (st : List Str) (hs : ∀ x ∈ st, Filename x) :
    names (joinSlash st) = st := by
  unfold names
  by_cases h : st = []
  · subst h; rfl
  · rw [splitSlash_joinSlash st h (fun x hx => (hs x hx).2)]
    exact filter_filenames st hs

theorem names_joinSlash_slash (st : List Str) (hs : ∀ x ∈ st, Filename x) (h : st ≠ []) :
    names (joinSlash st ++ [chSlash]) = st := by
  unfold names
  rw [splitSlash_joinSlash_slash st [] h (fun x hx => (hs x hx).2)]
  rw [List.filter_append, filter_filenames st hs]
  simp [splitSlash]

end cloud.fs

namespace cloud.fs

theorem joinSlash_getLast : ∀ (st : List Str), st ≠ [] → (∀ x ∈ st, Filename x) →
    ∃ c, (joinSlash st).getLast? = some c ∧ c ≠ chSlash
  | [], h, _ => absurd rfl h
  | [y], _, hs => by
    obtain ⟨hne, hno⟩ := hs y (List.mem_cons_self _ _)
    rcases hl : y.getLast? with _ | c
    · have := List.getLast?_isSome.2 hne
      rw [hl] at this
      cases this
    · refine ⟨c, hl, ?_⟩
      intro hc
      subst hc
      exact hno (List.mem_of_mem_getLast? hl)
  | y :: z :: r, _, hs => by
    obtain ⟨c, hc, hne⟩ := joinSlash_getLast (z :: r) (by simp)
      (fun x hx => hs x (List.mem_cons_of_mem _ hx))
    refine ⟨c, ?_, hne⟩
    have hJ : joinSlash (z :: r) ≠ [] := by
      intro h
      rw [h] at hc
      cases hc
    rw [joinSlash_cons_cons, List.getLast?_append_of_ne_nil _ (by simp)]
    rcases hj : joinSlash (z :: r) with _ | ⟨a, l⟩
    · exact absurd hj hJ
    · rw [List.getLast?_cons_cons, ← hj, hc]

theorem dropEndWhile_filename (pre x : Str) (hx : chSlash ∉ x)
    (hpre : pre = [] ∨ pre.getLast? = some chSlash) :
    dropEndWhile (fun c => c != chSlash) (pre ++ x) = pre := by
  unfold dropEndWhile
  rw [List.reverse_append, List.dropWhile_append_of_pos]
  · rcases hpre with h | h
    · subst h; rfl
    · rw [← List.head?_reverse] at h
      rcases hr : pre.reverse with _ | ⟨a, l⟩
      · rw [hr] at h; cases h
      · rw [hr] at h
        simp only [List.head?_cons, Option.some.injEq] at h
        subst h
        rw [List.dropWhile_cons_of_neg (by simp), ← hr, List.reverse_reverse]
  · intro a ha
    rw [List.mem_reverse] at ha
    have : a ≠ chSlash := fun e => hx (e ▸ ha)
    simpa using this

theorem dropEndWhile_slash (body : Str) (c : Byte) (hb : body.getLast? = some c)
    (hc : c ≠ chSlash) :
    dropEndWhile (fun c => c == chSlash) (body ++ [chSlash]) = body := by
  unfold dropEndWhile
  rw [List.reverse_append]
  show ((chSlash :: body.reverse).dropWhile _).reverse = body
  rw [List.dropWhile_cons_of_pos (by simp)]
  rw [← List.head?_reverse] at hb
  rcases hr : body.reverse with _ | ⟨a, l⟩
  · rw [hr] at hb; cases hb
  · rw [hr] at hb
    simp only [List.head?_cons, Option.some.injEq] at hb
    subst hb
    rw [List.dropWhile_cons_of_neg (by simpa using hc), ← hr, List.reverse_reverse]

/-- The parent of a path that ends in a filename, after a root directory or after
other filenames. -/
theorem parent_path_join (root : Str) (hroot : root = [] ∨ root = [chSlash])
    (st : List Str) (x : Str) (hs : ∀ y ∈ st, Filename y) (hx : Filename x) :
    parent_path (root ++ joinSlash (st ++ [x])) = root ++ joinSlash st := by
  have hrel : has_relative_path (root ++ joinSlash (st ++ [x])) = true := by
    unfold has_relative_path
    rw [List.any_eq_true]
    rcases hl : x with _ | ⟨a, l⟩
    · exact absurd hl hx.1
    · have ha : a ∈ x := by rw [hl]; exact List.mem_cons_self _ _
      refine ⟨a, ?_, by simpa using fun e : a = chSlash => hx.2 (e ▸ ha)⟩
      rw [← hl]
      by_cases h : st = []
      · subst h
        exact List.mem_append_right _ ha
      · rw [joinSlash_snoc st x h]
        exact List.mem_append_right _ (List.mem_append_right _ (List.mem_cons_of_mem _ ha))
  unfold parent_path
  rw [hrel]
  simp only [Bool.not_true, Bool.false_eq_true, if_false]
  by_cases h : st = []
  · subst h
    have hq : dropEndWhile (fun c => c != chSlash) (root ++ joinSlash ([] ++ [x])) = root := by
      show dropEndWhile _ (root ++ x) = root
      apply dropEndWhile_filename _ _ hx.2
      rcases hroot with h | h
      · exact Or.inl h
      · right; rw [h]; rfl
    rw [hq]
    rcases hroot with h | h
    · subst h; rfl
    · subst h; rfl
  · obtain ⟨c, hc, hne⟩ := joinSlash_getLast st h hs
    have hbody : (root ++ joinSlash st).getLast? = some c := by
      rw [List.getLast?_append_of_ne_nil _ (by intro e; rw [e] at hc; cases hc)]
      exact hc
    have hq : dropEndWhile (fun c => c != chSlash) (root ++ joinSlash (st ++ [x]))
        = (root ++ joinSlash st) ++ [chSlash] := by
      rw [joinSlash_snoc st x h]
      have e : root ++ (joinSlash st ++ chSlash :: x) = ((root ++ joinSlash st) ++ [chSlash]) ++ x := by
        simp
      rw [e]
      apply dropEndWhile_filename _ _ hx.2
      right
      exact List.getLast?_concat _
    rw [hq, dropEndWhile_slash _ c hbody hne]
    have hne2 : root ++ joinSlash st ≠ [] := by
      intro e; rw [e] at hbody; cases hbody
    rw [if_neg hne2]

theorem has_filename_join (root : Str) (hroot : root = [] ∨ root = [chSlash])
    (st : List Str) (hs : ∀ y ∈ st, Filename y) :
    has_filename (root ++ joinSlash st) = decide (st ≠ []) := by
  unfold has_filename
  by_cases h : st = []
  · subst h
    rcases hroot with h | h <;> subst h <;> rfl
  · obtain ⟨c, hc, hne⟩ := joinSlash_getLast st h hs
    rw [List.getLast?_append_of_ne_nil _ (by intro e; rw [e] at hc; cases hc), hc]
    simp [h, hne]

theorem is_absolute_filename (x : Str) (hx : chSlash ∉ x) : is_absolute x = false := by
  unfold is_absolute
  rcases x with _ | ⟨a, l⟩
  · rfl
  · have : a ≠ chSlash := fun e => hx (e ▸ List.mem_cons_self _ _)
    simpa using this

/-- Appending a filename to a path made of a root directory and filenames. -/
theorem append_join (root : Str) (hroot : root = [] ∨ root = [chSlash])
    (st : List Str) (x : Str) (hs : ∀ y ∈ st, Filename y) (hx : Filename x) :
    append (root ++ joinSlash st) x = root ++ joinSlash (st ++ [x]) := by
  unfold append
  rw [is_absolute_filename x hx.2, has_filename_join root hroot st hs]
  by_cases h : st = []
  · subst h
    simp [joinSlash]
  · rw [joinSlash_snoc st x h]
    simp [h]

end cloud.fs

namespace cloud.server
open samples fs protocol

/-- A segment that the reference normalisation keeps: a filename other than `.` and `..`. -/
theorem reference_fold_kept : ∀ (segs st : List Str),
    (∀ x ∈ segs, Filename x) → (∀ y ∈ st, Filename y ∧ y ≠ dot ∧ y ≠ dotdot) →
    ∀ y ∈ segs.foldl reference_step st, Filename y ∧ y ≠ dot ∧ y ≠ dotdot
  | [], _, _, hst => hst
  | seg :: segs, st, hsegs, hst => by
    rw [List.foldl_cons]
    apply reference_fold_kept segs _ (fun x hx => hsegs x (List.mem_cons_of_mem _ hx))
    unfold reference_step
    split
    · exact hst
    · split
      · exact fun y hy => hst y (List.dropLast_subset _ hy)
      · rename_i h1 h2
        intro y hy
        rcases List.mem_append.1 hy with h | h
        · exact hst y h
        · rw [List.mem_singleton] at h
          subst h
          exact ⟨hsegs y (List.mem_cons_self _ _), h1, h2⟩

theorem joinSlash_eq_nil (st : List Str) (hs : ∀ y ∈ st, Filename y) :
    joinSlash st = [] ↔ st = [] := by
  constructor
  · intro h
    by_contra hne
    obtain ⟨c, hc, _⟩ := joinSlash_getLast st hne hs
    rw [h] at hc
    cases hc
  · intro h; subst h; rfl

/-- The loop of `normalize_relative` over filenames keeps a path made of a root
directory (or nothing) and the segments the reference normalisation keeps. -/
theorem normalize_fold (root : Str) (hroot : root = [] ∨ root = [chSlash]) :
    ∀ (segs st : List Str), (∀ x ∈ segs, Filename x) → (∀ y ∈ st, Filename y) →
    segs.foldl normalize_step (root ++ joinSlash st)
      = root ++ joinSlash (segs.foldl reference_step st)
  | [], _, _, _ => rfl
  | seg :: segs, st, hsegs, hst => by
    have hseg := hsegs seg (List.mem_cons_self _ _)
    have hrest : ∀ x ∈ segs, Filename x := fun x hx => hsegs x (List.mem_cons_of_mem _ hx)
    rw [List.foldl_cons, List.foldl_cons]
    have hstep : normalize_step (root ++ joinSlash st) seg
          = root ++ joinSlash (reference_step st seg)
        ∧ ∀ y ∈ reference_step st seg, Filename y := by
      unfold normalize_step reference_step
      by_cases h1 : seg = dot
      · rw [if_pos h1, if_pos h1]
        exact ⟨rfl, hst⟩
      · rw [if_neg h1, if_neg h1]
        by_cases h2 : seg = dotdot
        · rw [if_pos h2, if_pos h2]
          refine ⟨?_, fun y hy => hst y (List.dropLast_subset _ hy)⟩
          rcases List.eq_nil_or_concat st with h | ⟨init, y, h⟩
          · subst h
            rcases hroot with h | h <;> subst h <;> rfl
          · rw [List.concat_eq_append] at h
            subst h
            have hy := hst y (List.mem_append_right _ (List.mem_singleton_self _))
            have hinit : ∀ z ∈ init, Filename z :=
              fun z hz => hst z (List.mem_append_left _ hz)
            have hne : root ++ joinSlash (init ++ [y]) ≠ [] := by
              intro e
              have := (List.append_eq_nil.1 e).2
              rw [joinSlash_eq_nil _ hst] at this
              simp at this
            rw [if_pos hne, parent_path_join root hroot init y hinit hy, List.dropLast_concat]
        · rw [if_neg h2, if_neg h2]
          refine ⟨append_join root hroot st seg hst hseg, ?_⟩
          intro y hy
          rcases List.mem_append.1 hy with h | h
          · exact hst y h
          · rw [List.mem_singleton] at h
            subst h
            exact hseg
    rw [hstep.1]
    exact normalize_fold root hroot segs _ hrest hstep.2

theorem names_cons_slash (p : Str) : names (chSlash :: p) = names p := by
  unfold names
  rw [splitSlash_cons, if_pos rfl]
  rfl

/-- What `normalize_relative` returns for a path, relative or with a root directory, in
terms of the segments the reference normalisation keeps. -/
theorem normalize_relative_eq (p : Str) (hp : is_absolute p = false) :
    normalize_relative p
      = (if (names p).foldl reference_step [] = [] then str "."
         else joinSlash ((names p).foldl reference_step [])
           ++ (if p.getLast? = some chSlash then [chSlash] else []))
    ∧ normalize_relative (chSlash :: p)
      = chSlash :: (if (names p).foldl reference_step [] = [] then []
         else joinSlash ((names p).foldl reference_step [])
           ++ (if p.getLast? = some chSlash then [chSlash] else [])) := by
  have hn : ∀ x ∈ names p, Filename x := names_filename p
  have hk : ∀ y ∈ (names p).foldl reference_step [], Filename y :=
    fun y hy => (reference_fold_kept (names p) [] hn (by simp) y hy).1
  have f0 := normalize_fold [] (Or.inl rfl) (names p) [] hn (by simp)
  have f1 := normalize_fold [chSlash] (Or.inr rfl) (names p) [] hn (by simp)
  simp only [joinSlash, List.nil_append, List.append_nil, List.singleton_append] at f0 f1
  have hnil : names p = [] → (names p).foldl reference_step [] = [] := by
    intro h; rw [h]; rfl
  constructor
  · unfold normalize_relative elems
    rw [hp]
    simp only [Bool.false_eq_true, if_false, List.nil_append, List.foldl_append, f0]
    by_cases hk0 : (names p).foldl reference_step [] = []
    · rw [hk0]
      simp only [joinSlash, if_true]
      split <;> rfl
    · have hj : joinSlash ((names p).foldl reference_step []) ≠ [] :=
        fun e => hk0 ((joinSlash_eq_nil _ hk).1 e)
      have hnn : names p ≠ [] := fun e => hk0 (hnil e)
      rw [if_neg hk0]
      by_cases ht : p.getLast? = some chSlash
      · have hc : names p ≠ [] ∧ p.getLast? = some chSlash := ⟨hnn, ht⟩
        rw [if_pos hc, if_pos ht]
        have hs : normalize_step (joinSlash ((names p).foldl reference_step [])) []
            = joinSlash ((names p).foldl reference_step []) ++ [chSlash] := by
          have hf := has_filename_join [] (Or.inl rfl) _ hk
          simp only [List.nil_append] at hf
          unfold normalize_step fs.append
          rw [if_neg (by decide), if_neg (by decide), hf]
          simp [hk0, is_absolute]
        simp only [List.foldl_cons, List.foldl_nil, hs]
        rw [if_neg (by simp)]
      · have hc : ¬ (names p ≠ [] ∧ p.getLast? = some chSlash) := fun h => ht h.2
        rw [if_neg hc, if_neg ht]
        simp only [List.foldl_nil, List.append_nil]
        rw [if_neg hj]
  · unfold normalize_relative elems
    have ha : is_absolute (chSlash :: p) = true := rfl
    rw [ha, names_cons_slash]
    have hstart : normalize_step [] [chSlash] = [chSlash] := rfl
    simp only [if_true, List.foldl_append, List.foldl_cons, List.foldl_nil, hstart, f1]
    have hlast : (names p ≠ [] ∧ (chSlash :: p).getLast? = some chSlash)
        ↔ (names p ≠ [] ∧ p.getLast? = some chSlash) := by
      constructor
      · rintro ⟨h1, h2⟩
        refine ⟨h1, ?_⟩
        rcases p with _ | ⟨a, l⟩
        · exact absurd rfl h1
        · rw [List.getLast?_cons_cons] at h2; exact h2
      · rintro ⟨h1, h2⟩
        refine ⟨h1, ?_⟩
        rcases p with _ | ⟨a, l⟩
        · exact absurd rfl h1
        · rw [List.getLast?_cons_cons]; exact h2
    by_cases hk0 : (names p).foldl reference_step [] = []
    · rw [hk0]
      simp only [joinSlash, if_true]
      split
      · rfl
      · rfl
    · have hnn : names p ≠ [] := fun e => hk0 (hnil e)
      rw [if_neg hk0]
      by_cases ht : p.getLast? = some chSlash
      · have hc : names p ≠ [] ∧ (chSlash :: p).getLast? = some chSlash := hlast.2 ⟨hnn, ht⟩
        rw [if_pos hc, if_pos ht]
        have hs : normalize_step (chSlash :: joinSlash ((names p).foldl reference_step [])) []
            = chSlash :: (joinSlash ((names p).foldl reference_step []) ++ [chSlash]) := by
          have hf := has_filename_join [chSlash] (Or.inr rfl) _ hk
          simp only [List.singleton_append] at hf
          unfold normalize_step fs.append
          rw [if_neg (by decide), if_neg (by decide), hf]
          simp [hk0, is_absolute]
        simp only [List.foldl_cons, List.foldl_nil, hs]
        rw [if_neg (by simp)]
      · have hc : ¬ (names p ≠ [] ∧ (chSlash :: p).getLast? = some chSlash) :=
          fun h => ht (hlast.1 h).2
        rw [if_neg hc, if_neg ht]
        simp only [List.foldl_nil, List.append_nil]
        rw [if_neg (by simp)]

end cloud.server

namespace cloud.server
open samples fs protocol

theorem reference_fold_append : ∀ (segs st : List Str),
    (∀ x ∈ segs, x ≠ dot ∧ x ≠ dotdot) → segs.foldl reference_step st = st ++ segs
  | [], st, _ => by simp
  | seg :: segs, st, h => by
    have hs := h seg (List.mem_cons_self _ _)
    rw [List.foldl_cons]
    have : reference_step st seg = st ++ [seg] := by
      unfold reference_step
      rw [if_neg hs.1, if_neg hs.2]
    rw [this, reference_fold_append segs _ (fun x hx => h x (List.mem_cons_of_mem _ hx))]
    simp

theorem is_absolute_joinSlash (st : List Str) (hs : ∀ y ∈ st, Filename y) (tr : Str)
    (hne : st ≠ []) : is_absolute (joinSlash st ++ tr) = false := by
  rcases st with _ | ⟨x, rest⟩
  · exact absurd rfl hne
  · obtain ⟨hx, hno⟩ := hs x (List.mem_cons_self _ _)
    rcases x with _ | ⟨a, l⟩
    · exact absurd rfl hx
    · have ha : a ≠ chSlash := fun e => hno (e ▸ List.mem_cons_self _ _)
      rcases rest with _ | ⟨y, r⟩
      · unfold is_absolute
        simpa [joinSlash] using ha
      · unfold is_absolute
        rw [joinSlash_cons_cons]
        simpa using ha

/-- What `normalize_relative` returns for a relative path when the reference
normalisation keeps some segment. -/
theorem normalize_relative_kept (p : Str) (hp : is_absolute p = false)
    (hk0 : (names p).foldl reference_step [] ≠ []) :
    normalize_relative p = joinSlash ((names p).foldl reference_step [])
        ++ (if p.getLast? = some chSlash then [chSlash] else [])
    ∧ joinSlash ((names p).foldl reference_step []) ≠ str "."
    ∧ normalize_relative p ≠ str "."
    ∧ names (normalize_relative p) = (names p).foldl reference_step []
    ∧ is_absolute (normalize_relative p) = false
    ∧ ((normalize_relative p).getLast? = some chSlash ↔ p.getLast? = some chSlash) := by
  have hkept := reference_fold_kept (names p) [] (names_filename p) (by simp)
  have hk : ∀ y ∈ (names p).foldl reference_step [], Filename y := fun y hy => (hkept y hy).1
  have heq : normalize_relative p = joinSlash ((names p).foldl reference_step [])
      ++ (if p.getLast? = some chSlash then [chSlash] else []) := by
    rw [(normalize_relative_eq p hp).1, if_neg hk0]
  have hdot : joinSlash ((names p).foldl reference_step []) ≠ str "." := by
    intro e
    have h1 := names_joinSlash _ hk
    rw [e] at h1
    have h2 : names (str ".") = [dot] := by decide
    rw [h2] at h1
    have := (hkept dot (by rw [← h1]; exact List.mem_singleton_self _)).2.1
    exact this rfl
  obtain ⟨c, hc, hcne⟩ := joinSlash_getLast _ hk0 hk
  refine ⟨heq, hdot, ?_, ?_, ?_, ?_⟩
  · rw [heq]
    split
    · intro e
      have := congrArg List.getLast? e
      rw [List.getLast?_concat] at this
      revert this
      decide
    · rw [List.append_nil]; exact hdot
  · rw [heq]
    split
    · exact names_joinSlash_slash _ hk hk0
    · rw [List.append_nil]; exact names_joinSlash _ hk
  · rw [heq]
    exact is_absolute_joinSlash _ hk _ hk0
  · rw [heq]
    split
    · rename_i ht
      rw [List.getLast?_concat]
      exact ⟨fun _ => ht, fun _ => rfl⟩
    · rename_i ht
      rw [List.append_nil, hc]
      constructor
      · intro e
        simp only [Option.some.injEq] at e
        exact absurd e hcne
      · intro e
        exact absurd e ht

set_option maxRecDepth 100000 in
/-- C18 (counterexample): `normalize_relative("a/")` is `a/`, while the reference
normalisation of its segment `a` is `a`; and if the empty piece after the slash is taken
for a segment too, the reference result for `a//b` is `a//b`, while
`normalize_relative("a//b")` is `a/b`.  Under neither reading of "segment" do the two agree
on every relative path. -/
theorem normalize_relative_trailing_slash :
    normalize_relative (str "a/") = str "a/"
    ∧ reference_normalize (str "a/") = str "a"
    ∧ reference_normalize_segments (splitSlash (str "a/")) = str "a/"
    ∧ normalize_relative (str "a//b") = str "a/b"
    ∧ reference_normalize (str "a//b") = str "a/b"
    ∧ reference_normalize_segments (splitSlash (str "a//b")) = str "a//b" :=
  ⟨by decide, by decide, by decide, by decide, by decide, by decide⟩

/-- C18 (amended): for every relative path `p`, `normalize_relative(p)` is the reference
stack normalisation of the non-empty segments of `p` (`.` dropped, `..` removes the
preceding kept segment and is ignored when none is left, the rest joined with `/`, `.` for
an empty result), followed by one `/` when `p` ends in `/` and the result is not `.`.  The
output is `.` or has no `.` or `..` segment, it is a relative path, and `normalize_relative`
is idempotent. -/
theorem normalize_relative_reference (p : Str) (hp : is_absolute p = false) :
    normalize_relative p
      = reference_normalize p ++
          (if p.getLast? = some chSlash ∧ reference_normalize p ≠ str "." then [chSlash] else [])
    ∧ (normalize_relative p = str "."
        ∨ ∀ seg ∈ names (normalize_relative p), seg ≠ dot ∧ seg ≠ dotdot)
    ∧ is_absolute (normalize_relative p) = false
    ∧ normalize_relative (normalize_relative p) = normalize_relative p := by
  have hkept := reference_fold_kept (names p) [] (names_filename p) (by simp)
  by_cases hk0 : (names p).foldl reference_step [] = []
  · have hn : normalize_relative p = str "." := by
      rw [(normalize_relative_eq p hp).1, if_pos hk0]
    have hr : reference_normalize p = str "." := by
      unfold reference_normalize reference_normalize_segments
      rw [if_pos hk0]
    refine ⟨?_, Or.inl hn, ?_, ?_⟩
    · rw [hn, hr, if_neg (fun h => h.2 rfl), List.append_nil]
    · rw [hn]; rfl
    · rw [hn]; decide
  · obtain ⟨heq, hdot, hnd, hnames, habs, hlast⟩ := normalize_relative_kept p hp hk0
    have hr : reference_normalize p = joinSlash ((names p).foldl reference_step []) := by
      unfold reference_normalize reference_normalize_segments
      rw [if_neg hk0]
    refine ⟨?_, Or.inr ?_, habs, ?_⟩
    · rw [heq, hr]
      by_cases ht : p.getLast? = some chSlash
      · rw [if_pos ht, if_pos ⟨ht, hdot⟩]
      · rw [if_neg ht, if_neg (fun h => ht h.1)]
    · intro seg hseg
      rw [hnames] at hseg
      exact (hkept seg hseg).2
    · have hfold : (names (normalize_relative p)).foldl reference_step []
          = (names p).foldl reference_step [] := by
        rw [hnames, reference_fold_append _ [] (fun x hx => (hkept x hx).2)]
        rfl
      have hk1 : (names (normalize_relative p)).foldl reference_step [] ≠ [] := by
        rw [hfold]; exact hk0
      rw [(normalize_relative_kept (normalize_relative p) habs hk1).1, hfold]
      by_cases ht : p.getLast? = some chSlash
      · rw [if_pos (hlast.2 ht), heq, if_pos ht]
      · rw [if_neg (fun h => ht (hlast.1 h)), heq, if_neg ht]

set_option maxRecDepth 100000 in
/-- C18 (witness): the examples `../../etc` and the empty path. -/
theorem normalize_relative_reference_witness :
    normalize_relative (str "../../etc") = str "etc"
    ∧ normalize_relative (str "") = str "."
    ∧ normalize_relative (str "a/./b/../c/") = str "a/c/" :=
  ⟨(normalize_relative_reference (str "../../etc") (by decide)).1.trans (by decide),
   (normalize_relative_reference (str "") (by decide)).1.trans (by decide),
   (normalize_relative_reference (str "a/./b/../c/") (by decide)).1.trans (by decide)⟩

set_option maxRecDepth 100000 in
/-- C19 (counterexample): `normalize_relative("/a")` is `/a`, not `a`.  On a fresh session
(cwd `.`), `INIT` with path `a` opens an upload of alice's `a`, while `INIT` with path `/a`
addresses the absolute path `/a` and is answered `Path traversal detected`. -/
theorem normalize_relative_leading_slash :
    normalize_relative (str "/a") = str "/a"
    ∧ normalize_relative (str "a") = str "a"
    ∧ fresh_dispatch.ctx.cwd = str "."
    ∧ fs.append (str ".") (str "/a") = str "/a"
    ∧ (after [request [("cmd", "FILE_UPLOAD_INIT"), ("token", "T"), ("path", "a"),
          ("size", "1"), ("md5", "1")]] fresh_dispatch).ctx.upload_checkpoint.final_path
        = str "/srv/alice/a"
    ∧ (after [request [("cmd", "FILE_UPLOAD_INIT"), ("token", "T"), ("path", "/a"),
          ("size", "1"), ("md5", "1")]] fresh_dispatch).world.async_responses
      = [{ fd := 5, message := make_message [(str "cmd", str "FILE_UPLOAD_INIT"),
            (str "status", str "error"), (str "reason", str "Path traversal detected")] }] :=
  ⟨by decide, by decide, by decide, by decide, by decide, by decide⟩

/-- C19 (amended): a leading `/` is kept.  For every relative path `p`,
`normalize_relative("/" + p)` is `/` followed by `normalize_relative(p)` (just `/` when that
is `.`): an absolute path, never equal to `normalize_relative(p)`.  And `cwd / ("/" + p)` is
`"/" + p` whatever the cwd, so a command given `"/" + p` addresses the absolute path, not
`p` under the user's root. -/
theorem normalize_relative_keeps_root (p : Str) (hp : is_absolute p = false) :
    normalize_relative (chSlash :: p)
      = chSlash :: (if normalize_relative p = str "." then [] else normalize_relative p)
    ∧ is_absolute (normalize_relative (chSlash :: p)) = true
    ∧ normalize_relative (chSlash :: p) ≠ normalize_relative p
    ∧ ∀ cwd, fs.append cwd (chSlash :: p) = chSlash :: p := by
  have hroot : normalize_relative (chSlash :: p)
      = chSlash :: (if normalize_relative p = str "." then [] else normalize_relative p) := by
    rw [(normalize_relative_eq p hp).2]
    by_cases hk0 : (names p).foldl reference_step [] = []
    · have hn : normalize_relative p = str "." := by
        rw [(normalize_relative_eq p hp).1, if_pos hk0]
      rw [if_pos hk0, if_pos hn]
    · obtain ⟨heq, _, hnd, _, _, _⟩ := normalize_relative_kept p hp hk0
      rw [if_neg hk0, if_neg hnd, heq]
  have habs : is_absolute (normalize_relative (chSlash :: p)) = true := by
    rw [hroot]; rfl
  refine ⟨hroot, habs, ?_, fun cwd => rfl⟩
  intro e
  have hrel : is_absolute (normalize_relative p) = false := by
    by_cases hk0 : (names p).foldl reference_step [] = []
    · rw [(normalize_relative_eq p hp).1, if_pos hk0]; rfl
    · exact (normalize_relative_kept p hp hk0).2.2.2.2.1
  rw [e, hrel] at habs
  cases habs

set_option maxRecDepth 100000 in
/-- C19 (witness): the path `a/../b`. -/
theorem normalize_relative_keeps_root_witness :
    is_absolute (str "a/../b") = false
    ∧ normalize_relative (chSlash :: str "a/../b") = str "/b" :=
  ⟨by decide, (normalize_relative_keeps_root (str "a/../b") (by decide)).1.trans (by decide)⟩

end cloud.server

/-! ## Unknown commands, missing commands and the owner of a catalog entry -/

namespace cloud.server
open samples fs protocol

set_option maxRecDepth 100000 in
/-- C21 (counterexample): the command `FOO` is none of the thirteen.  Sent without a token
it is answered `auth_required`, with a token that does not verify `token_invalid`, and with
the token `!..`, on which `verify` throws, `status=error`: the auth guard answers before the
command is looked at. -/
theorem dispatch_unknown_unauthenticated :
    str "FOO" ∉ recognized_commands
    ∧ (dispatch sample_env 5 (request [("cmd", "FOO")]) fresh_dispatch).2.world.async_responses
      = [{ fd := 5, message := status_reply (str "FOO") (str "auth_required") }]
    ∧ (dispatch sample_env 5 (request [("cmd", "FOO"), ("token", "x")])
        fresh_dispatch).2.world.async_responses
      = [{ fd := 5, message := status_reply (str "FOO") (str "token_invalid") }]
    ∧ (dispatch sample_env 5 (request [("cmd", "FOO"), ("token", "!..")])
        fresh_dispatch).2.world.async_responses
      = [{ fd := 5, message := make_message [(str "cmd", str "FOO"),
            (str "status", str "error"), (str "reason", str "Invalid Base64 character")] }] :=
  ⟨by decide, by decide, by decide, by decide⟩

/-- C21 (amended): for every message whose `cmd` header is non-empty and is none of the
thirteen recognized commands: if its `token` header is absent or empty the one reply is
`status=auth_required`, if `verify(token)` returns no claims the one reply is
`status=token_invalid`, if `verify(token)` throws the one reply is `status=error` with the
exception text as `reason`, and if `verify(token)` returns claims the one reply is
`status=unknown` (the session's username and token being set to the verified ones).  Nothing
else changes. -/
theorem dispatch_unknown_command (env : Env) (fd : Nat) (message : Message) (s : Dispatch)
    (hcmd : header_value message (str "cmd") ≠ [])
    (hun : header_value message (str "cmd") ∉ recognized_commands) :
    (header_value message (str "token") = [] →
      dispatch env fd message s = (.ok (), { s with world := { s.world with
        async_responses := s.world.async_responses ++
          [{ fd := fd, message :=
              status_reply (header_value message (str "cmd")) (str "auth_required") }] } }))
    ∧ (header_value message (str "token") ≠ [] →
        env.verify (header_value message (str "token")) = .ok none →
      dispatch env fd message s = (.ok (), { s with world := { s.world with
        async_responses := s.world.async_responses ++
          [{ fd := fd, message :=
              status_reply (header_value message (str "cmd")) (str "token_invalid") }] } }))
    ∧ (∀ what, header_value message (str "token") ≠ [] →
        env.verify (header_value message (str "token")) = .error what →
      dispatch env fd message s = (.ok (), { s with world := { s.world with
        async_responses := s.world.async_responses ++
          [{ fd := fd, message :=
              make_message [(str "cmd", header_value message (str "cmd")),
                (str "status", str "error"), (str "reason", what)] }] } }))
    ∧ (∀ subject, header_value message (str "token") ≠ [] →
        env.verify (header_value message (str "token")) = .ok (some subject) →
      dispatch env fd message s = (.ok (),
        { ctx := { s.ctx with
            username := subject
            token := header_value message (str "token") },
          world := { s.world with
            async_responses := s.world.async_responses ++
              [{ fd := fd, message :=
                  status_reply (header_value message (str "cmd")) (str "unknown") }] } })) := by
  simp only [recognized_commands, List.mem_cons, List.mem_singleton, not_or, List.mem_nil_iff,
    not_false_eq_true, and_true] at hun
  obtain ⟨h1, h2, h3, h4, h5, h6, h7, h8, h9, h10, h11, h12, h13⟩ := hun
  refine ⟨?_, ?_, ?_, ?_⟩
  · intro ht
    simp only [dispatch, dispatch_try, hcmd, h1, h2, h3, ht, if_false, if_true]
    rfl
  · intro ht hv
    simp only [dispatch, dispatch_try, hcmd, h1, h2, h3, ht, hv, if_false]
    rfl
  · intro what ht hv
    simp only [dispatch, dispatch_try, hcmd, h1, h2, h3, ht, hv, if_false]
    rfl
  · intro subject ht hv
    rw [dispatch_verified env fd message s subject hcmd h1 h2 h3 ht hv]
    unfold on_command
    rw [if_neg h4, if_neg h5, if_neg h6, if_neg h7, if_neg h8, if_neg h9, if_neg h10,
      if_neg h11, if_neg h12, if_neg h13]
    rfl

set_option maxRecDepth 100000 in
/-- C21 (witness): `FOO` with the token of `alice`. -/
theorem dispatch_unknown_command_witness :
    dispatch sample_env 5 (request [("cmd", "FOO"), ("token", "T")]) fresh_dispatch
      = (.ok (),
        { ctx := { fresh_dispatch.ctx with
            username := str "alice"
            token := str "T" },
          world := { fresh_dispatch.world with
            async_responses :=
              [{ fd := 5, message := status_reply (str "FOO") (str "unknown") }] } }) :=
  (dispatch_unknown_command sample_env 5 (request [("cmd", "FOO"), ("token", "T")])
    fresh_dispatch (by decide) (by decide)).2.2.2 (str "alice") (by decide) (by decide)

set_option maxRecDepth 100000 in
/-- C22 (counterexample): a message without a `cmd` header.  The one reply has `cmd=ERROR`
and `reason=MissingCommand`; it has no `status` header. -/
theorem dispatch_missing_command_reason :
    (dispatch sample_env 5 (request [("path", "a")]) fresh_dispatch).2.world.async_responses
      = [{ fd := 5, message := make_message [(str "cmd", str "ERROR"),
            (str "reason", str "MissingCommand")] }]
    ∧ HeaderMap.find (make_message [(str "cmd", str "ERROR"),
        (str "reason", str "MissingCommand")]).headers (str "status") = none :=
  ⟨by decide, by decide⟩

/-- C22 (amended): for every message that has no `cmd` header (or an empty one), the
dispatcher's single reply has the headers `cmd=ERROR` and `reason=MissingCommand` (and no
`status` header), and the session state and the rest of the server state are unchanged. -/
theorem dispatch_missing_command (env : Env) (fd : Nat) (message : Message) (s : Dispatch)
    (hcmd : header_value message (str "cmd") = []) :
    dispatch env fd message s = (.ok (), { s with world := { s.world with
      async_responses := s.world.async_responses ++
        [{ fd := fd, message := make_message [(str "cmd", str "ERROR"),
            (str "reason", str "MissingCommand")] }] } })
    ∧ header_value (make_message [(str "cmd", str "ERROR"),
        (str "reason", str "MissingCommand")]) (str "reason") = str "MissingCommand"
    ∧ header_value (make_message [(str "cmd", str "ERROR"),
        (str "reason", str "MissingCommand")]) (str "status") = [] := by
  refine ⟨?_, by decide, by decide⟩
  simp only [dispatch, hcmd, if_true]
  rfl

set_option maxRecDepth 100000 in
/-- C22 (witness): a message with only a `path` header, on a fresh session. -/
theorem dispatch_missing_command_witness :
    dispatch sample_env 5 (request [("path", "a")]) fresh_dispatch
      = (.ok (), { fresh_dispatch with world := { fresh_dispatch.world with
          async_responses := fresh_dispatch.world.async_responses ++
            [{ fd := 5, message := make_message [(str "cmd", str "ERROR"),
                (str "reason", str "MissingCommand")] }] } }) :=
  (dispatch_missing_command sample_env 5 (request [("path", "a")]) fresh_dispatch
    (by decide)).1

set_option maxRecDepth 100000 in
/-- C30 (failing input): on one connection an upload of `a` is opened and filled with the
token of `alice`, and committed with the token of `bob`.  The finalization task captures the
username `bob` with the checkpoint made for `alice`: the catalog entry it writes has owner
`bob` and the storage path `/srv/alice/a`, which is not `resolve("bob", "a")` and lies under
the root of `alice`. -/
theorem commit_under_other_token :
    cross_user_upload.world.tasks
      = [{ checkpoint :=
            { active := true, temp_path := str "/srv/alice/.resume/1.part",
              meta_path := str "/srv/alice/.resume/1.meta", final_path := str "/srv/alice/a",
              total := 1, received := 1 },
           md5 := str "1", logical := str "a", username := str "bob", fd_copy := 5 }]
    ∧ (cross_user_upload.world.tasks.foldl (fun w task => run_task sample_env task w)
        cross_user_upload.world).file_index
      = [{ owner := str "bob", logical_path := str "a", md5 := str "1",
           storage_path := str "/srv/alice/a", size := 1 }]
    ∧ (resolve sample_env (str "bob") (str "a")
        (cross_user_upload.world.tasks.foldl (fun w task => run_task sample_env task w)
          cross_user_upload.world).storage).1 = .ok (str "/srv/bob/a")
    ∧ (elems (str "/srv/bob")).isPrefixOf (elems (str "/srv/alice/a")) = false
    ∧ (elems (str "/srv/alice")).isPrefixOf (elems (str "/srv/alice/a")) = true :=
  ⟨by decide, by decide, by decide, by decide, by decide⟩

end cloud.server

namespace cloud.server
open samples fs protocol

set_option maxRecDepth 1000000 in
/-- C27 (failing input): the username `a"b` (it has no `=` and no newline, so it can be
registered).  `issue` escapes the quote in the payload as `\"`; `verify` takes the subject
up to the next quote without unescaping, so the token issued for `a"b` verifies to the
subject `a\`.  In the same way the token issued for `a\b` verifies to `a\\b`.  A token
issued for `alice` verifies to `alice`. -/
theorem jwt_verify_escaped_subject :
    jwt_verify sample_hmac sample_jwt 1000
        (jwt_issue sample_hmac sample_jwt 1000 (List.replicate 16 0) (str "a\"b"))
      = .ok (some { subject := str "a\\", expires_at := 4600, issued_at := 1000 })
    ∧ jwt_verify sample_hmac sample_jwt 1000
        (jwt_issue sample_hmac sample_jwt 1000 (List.replicate 16 0) (str "a\\b"))
      = .ok (some { subject := str "a\\\\b", expires_at := 4600, issued_at := 1000 })
    ∧ jwt_verify sample_hmac sample_jwt 1000
        (jwt_issue sample_hmac sample_jwt 1000 (List.replicate 16 0) (str "alice"))
      = .ok (some { subject := str "alice", expires_at := 4600, issued_at := 1000 })
    ∧ str "a\\" ≠ str "a\"b" ∧ str "a\\\\b" ≠ str "a\\b" :=
  ⟨by decide, by decide, by decide, by decide, by decide⟩

end cloud.server

/-! ## The catalog as a keyed table -/

namespace cloud.server
open samples fs protocol

theorem c_str_of_no_nul (s : Str) (h : (0 : Byte) ∉ s) : c_str s = s := by
  unfold c_str
  rw [List.takeWhile_eq_self_iff]
  intro x hx
  have : x ≠ 0 := fun e => h (e ▸ hx)
  simpa using this

theorem row_of_no_nul (e : FileMetadata) (h1 : (0 : Byte) ∉ e.owner)
    (h2 : (0 : Byte) ∉ e.logical_path) (h3 : (0 : Byte) ∉ e.md5)
    (h4 : (0 : Byte) ∉ e.storage_path) : e.row = e := by
  unfold FileMetadata.row
  rw [c_str_of_no_nul _ h1, c_str_of_no_nul _ h2, c_str_of_no_nul _ h3, c_str_of_no_nul _ h4]

/-- `upsert` leaves the lookups of the other keys as they are. -/
theorem find_by_path_upsert_other (c : Catalog) (e : FileMetadata) (owner logical_path : Str)
    (hk : ¬ (c_str owner = c_str e.owner ∧ c_str logical_path = c_str e.logical_path)) :
    find_by_path (upsert c e) owner logical_path = find_by_path c owner logical_path := by
  have hrow : ¬ (e.row.owner = c_str owner ∧ e.row.logical_path = c_str logical_path) := by
    intro h
    exact hk ⟨h.1.symm, h.2.symm⟩
  unfold find_by_path upsert
  split
  · clear * - hk hrow
    induction c with
    | nil => rfl
    | cons r c ih =>
      by_cases hr : r.owner = c_str e.owner ∧ r.logical_path = c_str e.logical_path
      · have hq : ¬ (r.owner = c_str owner ∧ r.logical_path = c_str logical_path) := by
          intro h
          exact hk ⟨h.1.symm.trans hr.1, h.2.symm.trans hr.2⟩
        have hq2 : ¬ (c_str e.owner = c_str owner ∧ c_str e.logical_path = c_str logical_path) :=
          fun h => hk ⟨h.1.symm, h.2.symm⟩
        simp only [List.map_cons, hr, and_self, if_true, List.find?, hrow, hq, hq2, decide_False]
        exact ih
      · simp only [List.map_cons, hr, if_false, List.find?]
        rw [ih]
  · simp only [List.find?_append, List.find?, hrow, decide_False, Option.or_none]

/-- After `remove` the key is gone, the other keys are looked up as before, and
removing an absent key changes nothing. -/
theorem find_by_path_remove (c : Catalog) (o p : Str) :
    find_by_path (index_remove c o p) o p = none
    ∧ (∀ owner logical_path, ¬ (c_str owner = c_str o ∧ c_str logical_path = c_str p) →
        find_by_path (index_remove c o p) owner logical_path
          = find_by_path c owner logical_path)
    ∧ (find_by_path c o p = none → index_remove c o p = c) := by
  refine ⟨?_, ?_, ?_⟩
  · unfold find_by_path index_remove
    rw [List.find?_eq_none]
    intro x hx
    rw [List.mem_filter] at hx
    have h2 := hx.2
    simp only [decide_eq_true_eq] at h2
    simpa using h2
  · intro owner logical_path hk
    unfold find_by_path index_remove
    induction c with
    | nil => rfl
    | cons r c ih =>
      by_cases hr : r.owner = c_str o ∧ r.logical_path = c_str p
      · have hq : ¬ (r.owner = c_str owner ∧ r.logical_path = c_str logical_path) := by
          intro h
          exact hk ⟨h.1.symm.trans hr.1, h.2.symm.trans hr.2⟩
        have hq2 : ¬ (c_str o = c_str owner ∧ c_str p = c_str logical_path) :=
          fun h => hk ⟨h.1.symm, h.2.symm⟩
        simp only [List.filter_cons, hr, and_self, not_true_eq_false, decide_False,
          Bool.false_eq_true, if_false, List.find?, hq, hq2]
        exact ih
      · simp only [List.filter_cons, hr, not_false_eq_true, decide_True, if_true, List.find?]
        rw [ih]
  · intro h
    unfold find_by_path at h
    unfold index_remove
    rw [List.find?_eq_none] at h
    rw [List.filter_eq_self]
    intro x hx
    have h2 := h x hx
    revert h2
    simp
    tauto

set_option maxRecDepth 100000 in
/-- C25 (counterexample): an entry whose digest is `3`, a NUL byte, `x`.  After `upsert`
the lookup of its key returns the digest `3`: text is bound with `c_str()`, which ends at the
first NUL byte.  And an `upsert` under the owner `alice`, NUL, `x` replaces the row that the
different key (`alice`, `a`) looks up. -/
theorem catalog_nul_truncation :
    nul_digest_entry.md5 = [51, 0, 120]
    ∧ find_by_path (upsert [] nul_digest_entry) nul_digest_entry.owner
        nul_digest_entry.logical_path
      = some { nul_digest_entry with md5 := str "3" }
    ∧ find_by_path (upsert [] nul_digest_entry) nul_digest_entry.owner
        nul_digest_entry.logical_path ≠ some nul_digest_entry
    ∧ find_by_path [note_row] (str "alice") (str "note.bin") = some note_row
    ∧ (nul_owner_entry.owner, nul_owner_entry.logical_path) ≠ (str "alice", str "note.bin")
    ∧ find_by_path (upsert [note_row] nul_owner_entry) (str "alice") (str "note.bin")
      = some { nul_owner_entry with owner := str "alice" } :=
  ⟨by decide, by decide, by decide, by decide, by decide, by decide⟩

/-- C25 (amended): the catalog as a table keyed by (owner, logical_path), both cut at their
first NUL byte as `c_str()` passes them.  For every catalog state and entry `e`, after
`upsert(e)` the lookup of `e`'s key returns `e` with its four text fields cut at their first
NUL byte (so `e` itself when no field has a NUL byte), whether or not a row for that key
existed before, and the lookups of every other key are unchanged; after
`remove(e.owner, e.logical_path)` the lookup returns empty and the lookups of every other key
are unchanged, and `remove` of an absent key leaves the catalog unchanged. -/
theorem catalog_round_trip (c : Catalog) (e : FileMetadata) :
    find_by_path (upsert c e) e.owner e.logical_path = some e.row
    ∧ ((0 : Byte) ∉ e.owner → (0 : Byte) ∉ e.logical_path → (0 : Byte) ∉ e.md5 →
        (0 : Byte) ∉ e.storage_path →
        find_by_path (upsert c e) e.owner e.logical_path = some e)
    ∧ (∀ owner logical_path,
        ¬ (c_str owner = c_str e.owner ∧ c_str logical_path = c_str e.logical_path) →
        find_by_path (upsert c e) owner logical_path = find_by_path c owner logical_path)
    ∧ find_by_path (index_remove c e.owner e.logical_path) e.owner e.logical_path = none
    ∧ (∀ owner logical_path,
        ¬ (c_str owner = c_str e.owner ∧ c_str logical_path = c_str e.logical_path) →
        find_by_path (index_remove c e.owner e.logical_path) owner logical_path
          = find_by_path c owner logical_path)
    ∧ (find_by_path c e.owner e.logical_path = none →
        index_remove c e.owner e.logical_path = c) := by
  obtain ⟨r1, r2, r3⟩ := find_by_path_remove c e.owner e.logical_path
  refine ⟨find_by_path_upsert c e, ?_, find_by_path_upsert_other c e, r1, r2, r3⟩
  intro h1 h2 h3 h4
  rw [find_by_path_upsert, row_of_no_nul e h1 h2 h3 h4]

set_option maxRecDepth 100000 in
/-- C25 (witness): the entry of `note.bin` on the empty catalog and on a catalog that
holds an older row for the same key. -/
theorem catalog_round_trip_witness :
    find_by_path (upsert [] note_row) (str "alice") (str "note.bin") = some note_row
    ∧ find_by_path (upsert [{ note_row with md5 := str "7" }] note_row)
        (str "alice") (str "note.bin") = some note_row :=
  ⟨(catalog_round_trip [] note_row).2.1 (by decide) (by decide) (by decide) (by decide),
   (catalog_round_trip [{ note_row with md5 := str "7" }] note_row).2.1
      (by decide) (by decide) (by decide) (by decide)⟩

end cloud.server

/-! ## Delivery of the queued responses -/

namespace cloud.server
open samples fs protocol

theorem find_store_connection (fd fd2 : Nat) (ctx : ConnectionContext) (s : Server) :
    find_connection (store_connection fd ctx s) fd2
      = if fd2 = fd then (find_connection s fd).map (fun _ => ctx) else find_connection s fd2 := by
  obtain ⟨conns, world⟩ := s
  unfold find_connection store_connection
  simp only
  induction conns with
  | nil => simp
  | cons e rest ih =>
    by_cases he : e.1 = fd
    · by_cases h2 : fd2 = fd
      · simp [List.find?, he, h2]
      · have h3 : ¬ fd = fd2 := fun h => h2 h.symm
        simp only [List.map_cons, he, if_true, List.find?, h2, if_false, beq_iff_eq, h3,
          beq_eq_false_iff_ne, ne_eq, not_false_eq_true]
        simp only [h2, if_false] at ih
        have hb : (fd == fd2) = false := by simpa using h3
        simp only [hb]
        exact ih
    · by_cases h2 : fd2 = fd
      · subst h2
        have hb : (e.1 == fd2) = false := by simpa using he
        simp only [List.map_cons, he, if_false, List.find?, hb, if_true]
        simpa using ih
      · simp only [List.map_cons, he, if_false, List.find?, h2]
        simp only [h2, if_false] at ih
        cases hb : (e.1 == fd2)
        · exact ih
        · rfl

theorem store_connection_keys (fd : Nat) (ctx : ConnectionContext) (s : Server) :
    (store_connection fd ctx s).connections.map Prod.fst = s.connections.map Prod.fst
    ∧ (store_connection fd ctx s).world = s.world := by
  refine ⟨?_, rfl⟩
  unfold store_connection
  simp only [List.map_map]
  apply List.map_congr_left
  intro e _
  by_cases he : e.1 = fd
  · simp [he]
  · simp [he]

/-- What `deliver` does to the table, seen through `find_connection`. -/
theorem deliver_spec (pending : List PendingResponse) (s : Server) :
    (deliver pending s).world = s.world
    ∧ (deliver pending s).connections.map Prod.fst = s.connections.map Prod.fst
    ∧ ∀ fd, find_connection (deliver pending s) fd
        = (find_connection s fd).map (fun ctx =>
            { ctx with outbound := ctx.outbound
                ++ ((pending.filter (fun r => r.fd = fd)).map
                      (fun r => encode r.message)).flatten }) := by
  induction pending generalizing s with
  | nil =>
    refine ⟨rfl, rfl, fun fd => ?_⟩
    cases h : find_connection s fd <;> simp [deliver, h]
  | cons resp rest ih =>
    unfold deliver
    rcases hf : find_connection s resp.fd with _ | ctx
    · simp only
      obtain ⟨h1, h2, h3⟩ := ih s
      refine ⟨h1, h2, fun fd => ?_⟩
      rw [h3 fd]
      by_cases hfd : resp.fd = fd
      · subst hfd
        simp [hf]
      · simp [List.filter_cons, hfd]
    · simp only
      obtain ⟨h1, h2, h3⟩ := ih (store_connection resp.fd
        { ctx with outbound := ctx.outbound ++ encode resp.message } s)
      refine ⟨h1.trans (store_connection_keys _ _ _).2,
        h2.trans (store_connection_keys _ _ _).1, fun fd => ?_⟩
      rw [h3 fd, find_store_connection]
      by_cases hfd : fd = resp.fd
      · subst hfd
        simp [hf, List.filter_cons, List.append_assoc]
      · have hfd2 : ¬ resp.fd = fd := fun h => hfd h.symm
        simp [hfd, hfd2, List.filter_cons]

/-- C26: for every outbox content and connections table, `drain_async_queue` leaves
the outbox empty and the rest of the shared state and the set of open connections as
they were, and the session of every open connection `fd` afterwards is its session
before with the outbound buffer extended by exactly the concatenation of
`encode(message)` for the outbox entries addressed to `fd`, in the order of the outbox
(the order in which `schedule_response` enqueued them); an fd that is not in the table
is still not in it, so its entries are dropped, and a session with no entry addressed
to it is unchanged. -/
theorem drain_async_queue_order (s : Server) :
    (drain_async_queue s).world = { s.world with async_responses := [] }
    ∧ (drain_async_queue s).world.async_responses = []
    ∧ (drain_async_queue s).connections.map Prod.fst = s.connections.map Prod.fst
    ∧ (∀ fd, find_connection (drain_async_queue s) fd
        = (find_connection s fd).map (fun ctx =>
            { ctx with outbound := ctx.outbound
                ++ ((s.world.async_responses.filter (fun r => r.fd = fd)).map
                      (fun r => encode r.message)).flatten }))
    ∧ (∀ fd, find_connection s fd = none → find_connection (drain_async_queue s) fd = none)
    ∧ (∀ fd, (∀ r ∈ s.world.async_responses, r.fd ≠ fd) →
        find_connection (drain_async_queue s) fd = find_connection s fd)
    ∧ (∀ fd ctx r1 r2 before between after,
        s.world.async_responses = before ++ r1 :: between ++ r2 :: after →
        r1.fd = fd → r2.fd = fd → find_connection s fd = some ctx →
        ∃ a b c ctx2, find_connection (drain_async_queue s) fd = some ctx2
          ∧ ctx2.outbound
              = ctx.outbound ++ a ++ encode r1.message ++ b ++ encode r2.message ++ c) := by
  obtain ⟨h1, h2, h3⟩ := deliver_spec s.world.async_responses
    { s with world := { s.world with async_responses := [] } }
  have hfind : ∀ fd, find_connection { s with world := { s.world with async_responses := [] } } fd
      = find_connection s fd := fun _ => rfl
  have key : ∀ fd, find_connection (drain_async_queue s) fd
        = (find_connection s fd).map (fun ctx =>
            { ctx with outbound := ctx.outbound
                ++ ((s.world.async_responses.filter (fun r => r.fd = fd)).map
                      (fun r => encode r.message)).flatten }) := by
    intro fd
    unfold drain_async_queue
    rw [h3 fd, hfind]
  refine ⟨h1, ?_, h2, key, ?_, ?_, ?_⟩
  · unfold drain_async_queue
    rw [h1]
  · intro fd hnone
    rw [key fd, hnone]
    rfl
  · intro fd hall
    rw [key fd]
    have : s.world.async_responses.filter (fun r => r.fd = fd) = [] := by
      rw [List.filter_eq_nil_iff]
      intro r hr
      simpa using hall r hr
    rw [this]
    cases find_connection s fd <;> simp
  · intro fd ctx r1 r2 before between after hsplit hr1 hr2 hctx
    rw [key fd, hctx, hsplit]
    refine ⟨((before.filter (fun r => r.fd = fd)).map (fun r => encode r.message)).flatten,
      ((between.filter (fun r => r.fd = fd)).map (fun r => encode r.message)).flatten,
      ((after.filter (fun r => r.fd = fd)).map (fun r => encode r.message)).flatten, _, rfl, ?_⟩
    simp [List.filter_cons, List.filter_append, hr1, hr2, List.append_assoc]

set_option maxRecDepth 100000 in
/-- C26 (witness): with responses to 5, 7, 6 and 5 queued and connections 5 and 6 open,
connection 5 receives the first and the fourth response in that order, connection 6 the
third, and descriptor 7 stays closed. -/
theorem drain_async_queue_order_witness :
    find_connection (drain_async_queue queued_replies) 5
      = some { ConnectionContext.fresh 5 [] with
          outbound := encode (request [("cmd", "A")]) ++ encode (request [("cmd", "C")]) }
    ∧ find_connection (drain_async_queue queued_replies) 6
      = some { ConnectionContext.fresh 6 [] with outbound := encode (request [("cmd", "B")]) }
    ∧ find_connection (drain_async_queue queued_replies) 7 = none :=
  ⟨((drain_async_queue_order queued_replies).2.2.2.1 5).trans (by decide),
   ((drain_async_queue_order queued_replies).2.2.2.1 6).trans (by decide),
   (drain_async_queue_order queued_replies).2.2.2.2.1 7 (by decide)⟩

end cloud.server

/-! ## Reading a chunk of a stored file -/

namespace cloud.server
open samples fs protocol

/-- The bytes the memory-mapped branch copies are those of the positional read. -/
theorem mmap_window (data : List Byte) (offset page_size to_read : Nat) :
    (((data.drop (offset - offset % page_size)).take (offset % page_size + to_read)).drop
        (offset % page_size)).take to_read
      = (data.drop offset).take to_read := by
  have hle : offset % page_size ≤ offset := Nat.mod_le _ _
  rw [List.drop_take, List.drop_drop, Nat.add_sub_cancel_left, List.take_take, Nat.min_self]
  congr 2
  omega

/-- The value of `read_chunk` on a regular file. -/
theorem read_chunk_file (env : Env) (t : FileSystem) (p : Str) (F : List Byte)
    (offset length : Nat) (h : status t p = some (Node.file F)) :
    read_chunk env p offset length t =
      (if F.length ≤ offset then .ok []
       else if kMmapThreshold ≤ F.length
            ∧ offset % env.page_size + min length (F.length - offset) = 0 then
         .error (str "mmap failed")
       else .ok ((F.drop offset).take (min length (F.length - offset))), t) := by
  have hsize : storage_file_size p t = (.ok F.length, t) := by
    simp [storage_file_size, path_exists, fs.file_size, h]
  have hopen : ifstream_open t p = some F := by simp [ifstream_open, h]
  have hread : ∀ f : FileSystem → Eff FileSystem (List Byte),
      Eff.andThen Eff.read f t = f t t := fun _ => rfl
  have hlen : ((F.drop offset).take (min length (F.length - offset))).length
      = min length (F.length - offset) := by
    rw [List.length_take, List.length_drop]
    omega
  unfold read_chunk
  simp only [bind, Eff.andThen, hsize]
  by_cases h1 : F.length ≤ offset
  · simp only [h1, if_true]
    rfl
  · simp only [h1, if_false]
    rw [hread]
    simp only [hopen]
    by_cases h2 : kMmapThreshold ≤ F.length
    · simp only [h2, if_true, true_and]
      by_cases h3 : offset % env.page_size + min length (F.length - offset) = 0
      · simp only [h3, if_true]
        rfl
      · simp only [h3, if_false, mmap_window]
        rfl
    · simp only [h2, if_false, false_and, hlen, Nat.sub_self, List.replicate_zero,
        List.append_nil]
      rfl

/-- `read_chunk` on a path where nothing exists. -/
theorem read_chunk_absent (env : Env) (t : FileSystem) (p : Str) (offset length : Nat)
    (h : status t p = none) : read_chunk env p offset length t = (.ok [], t) := by
  have hsize : storage_file_size p t = (.ok 0, t) := by
    simp [storage_file_size, path_exists, h]
  unfold read_chunk
  simp only [bind, Eff.andThen, hsize, Nat.zero_le, if_true]
  rfl

theorem big_storage_status (data : List Byte) :
    status (big_storage data) (str "/big") = some (Node.file data) := rfl

/-- C23 (failing input): the file `/big` of 100 MiB (the threshold of the memory-mapped
branch) and `read_chunk("/big", 0, 0)`.  The offset 0 is before the end of the file, and the
call does not return the empty range `F[0 .. 0)`, as the positional-read branch does for a
smaller file: `map_length` is 0, `mmap` refuses a mapping of length 0, and the call throws
`mmap failed`. -/
theorem read_chunk_mmap_zero_length :
    status (big_storage (List.replicate kMmapThreshold 0)) (str "/big")
      = some (Node.file (List.replicate kMmapThreshold 0))
    ∧ 0 < (List.replicate kMmapThreshold (0 : Byte)).length
    ∧ read_chunk sample_env (str "/big") 0 0 (big_storage (List.replicate kMmapThreshold 0))
      = (.error (str "mmap failed"), big_storage (List.replicate kMmapThreshold 0)) := by
  refine ⟨big_storage_status _, ?_, ?_⟩
  · rw [List.length_replicate]
    decide
  · rw [read_chunk_file sample_env _ _ _ 0 0 (big_storage_status _), List.length_replicate,
      if_neg (by decide), if_pos ⟨Nat.le_refl _, by decide⟩]

/-- What `read_chunk(physical, offset, length)` returns, for a page size above 0.  Where
nothing exists at `physical` it returns the empty byte string.  On a file with contents `F`
of size `n` it returns the empty byte string when `offset ≥ n`; when `offset < n` it returns
exactly `F[offset .. offset + min(length, n − offset))`, unless the file has at least
`kMmapThreshold` bytes, `length` is 0 and `offset` is a multiple of the page size: then the
mapping has length 0 and the call throws `mmap failed`.  The storage is left as it was.  The
bytes the memory-mapped branch extracts (page_offset = offset mod page_size, mapping from
offset − page_offset, copy from page_offset bytes into the mapping) equal those of the
positional read. -/
theorem read_chunk_contents (env : Env) (t : FileSystem) (physical : Str) (offset length : Nat)
    (_hpage : 0 < env.page_size) :
    (status t physical = none → read_chunk env physical offset length t = (.ok [], t))
    ∧ (∀ F, status t physical = some (Node.file F) →
        (F.length ≤ offset → read_chunk env physical offset length t = (.ok [], t))
        ∧ (offset < F.length →
            ¬ (kMmapThreshold ≤ F.length ∧ length = 0 ∧ offset % env.page_size = 0) →
            read_chunk env physical offset length t
              = (.ok ((F.drop offset).take (min length (F.length - offset))), t))
        ∧ (offset < F.length → kMmapThreshold ≤ F.length → length = 0 →
            offset % env.page_size = 0 →
            read_chunk env physical offset length t = (.error (str "mmap failed"), t)))
    ∧ (∀ (F : List Byte) to_read,
        (((F.drop (offset - offset % env.page_size)).take
            (offset % env.page_size + to_read)).drop (offset % env.page_size)).take to_read
          = (F.drop offset).take to_read) := by
  refine ⟨read_chunk_absent env t physical offset length, fun F hF => ⟨?_, ?_, ?_⟩,
    fun F to_read => mmap_window F offset env.page_size to_read⟩
  · intro h
    rw [read_chunk_file env t physical F offset length hF, if_pos h]
  · intro h hno
    rw [read_chunk_file env t physical F offset length hF, if_neg (by omega), if_neg]
    intro hc
    apply hno
    refine ⟨hc.1, ?_, ?_⟩ <;> omega
  · intro h hbig hlen hmod
    rw [read_chunk_file env t physical F offset length hF, if_neg (by omega), if_pos]
    refine ⟨hbig, ?_⟩
    rw [hmod, hlen]
    simp

set_option maxRecDepth 100000 in
/-- An instance of `read_chunk_contents`: on the stored `note.bin` with contents 1, 2, 3,
offset 1 and length 10 give 2, 3; offset 3 gives the empty string. -/
theorem read_chunk_contents_witness :
    read_chunk sample_env (str "/srv/alice/note.bin") 1 10 note_stored.world.storage
      = (.ok [2, 3], note_stored.world.storage)
    ∧ read_chunk sample_env (str "/srv/alice/note.bin") 3 10 note_stored.world.storage
      = (.ok [], note_stored.world.storage) :=
  ⟨((read_chunk_contents sample_env note_stored.world.storage (str "/srv/alice/note.bin") 1 10
      (by decide)).2.1 [1, 2, 3] (by decide)).2.1 (by decide) (by decide),
   ((read_chunk_contents sample_env note_stored.world.storage (str "/srv/alice/note.bin") 3 10
      (by decide)).2.1 [1, 2, 3] (by decide)).1 (by decide)⟩

end cloud.server

/-! ## The reply to `FILE_DOWNLOAD_FETCH` -/

namespace cloud.server
open samples fs protocol

theorem on_command_download_fetch (env : Env) (fd : Nat) (message : Message) :
    on_command env fd (str "FILE_DOWNLOAD_FETCH") message = on_download_fetch env fd message := by
  unfold on_command
  rw [if_neg (by decide), if_neg (by decide), if_neg (by decide), if_neg (by decide),
    if_neg (by decide), if_neg (by decide), if_neg (by decide), if_neg (by decide),
    if_neg (by decide), if_pos rfl]

/-- An authenticated `FILE_DOWNLOAD_FETCH` on an existing file, by what `read_chunk` gives. -/
theorem download_fetch_run (env : Env) (fd : Nat) (message : Message) (s : Dispatch)
    (subject absolute : Str) (t1 : FileSystem) (F : List Byte) (off requested : Nat)
    (r : Except Str (List Byte)) (reply : Message)
    (hreply : reply =
      match r with
      | .ok chunk =>
        make_message [(str "cmd", str "FILE_DOWNLOAD_FETCH"),
          (str "status", if chunk = [] then str "done" else str "ok"),
          (str "chunk", to_string chunk.length)] chunk
      | .error what =>
        make_message [(str "cmd", str "FILE_DOWNLOAD_FETCH"),
          (str "status", str "error"), (str "reason", what)])
    (hc : header_value message (str "cmd") = str "FILE_DOWNLOAD_FETCH")
    (ht : header_value message (str "token") ≠ [])
    (hv : env.verify (header_value message (str "token")) = .ok (some subject))
    (hp : header_value message (str "path") ≠ [])
    (ho : stoull (header_value message (str "offset")) = .ok off)
    (hl : stoul (header_value message (str "length")) = .ok requested)
    (hr : resolve env subject
        (normalize_relative (fs.append s.ctx.cwd (header_value message (str "path"))))
        s.world.storage = (.ok absolute, t1))
    (hf : status t1 absolute = some (Node.file F))
    (hrc : read_chunk env absolute off (min requested env.max_chunk_bytes) t1 = (r, t1)) :
    dispatch env fd message s = (.ok (),
      { ctx := { s.ctx with
          username := subject
          token := header_value message (str "token") },
        world := { s.world with
          storage := t1
          async_responses := s.world.async_responses ++
            [{ fd := fd, message := reply }] } }) := by
  subst hreply
  have hoff : header_value message (str "offset") ≠ [] := by
    intro h
    rw [h] at ho
    have : stoull [] = .error (str "stoull") := by decide
    rw [this] at ho
    cases ho
  have hlen : header_value message (str "length") ≠ [] := by
    intro h
    rw [h] at hl
    have : stoul [] = .error (str "stoul") := by decide
    rw [this] at hl
    cases hl
  have hex : path_exists t1 absolute = true := by simp [path_exists, hf]
  have hd := dispatch_verified env fd message s subject (by rw [hc]; decide) (by rw [hc]; decide)
    (by rw [hc]; decide) (by rw [hc]; decide) ht hv
  rw [hc, on_command_download_fetch] at hd
  rw [hd]
  unfold Eff.catching
  cases r with
  | ok chunk =>
    simp only [on_download_fetch, hp, hoff, hlen, bind, Eff.andThen, Eff.read, storage_call, hr,
      or_self, if_false, hex, Eff.ofExcept, hl, ho, hrc, schedule_response, Bool.not_true,
      Bool.false_eq_true]
  | error what =>
    simp only [on_download_fetch, hp, hoff, hlen, bind, Eff.andThen, Eff.read, storage_call, hr,
      or_self, if_false, hex, Eff.ofExcept, hl, ho, hrc, schedule_response, Bool.not_true,
      Bool.false_eq_true]

set_option maxRecDepth 100000 in
/-- C24 (counterexample): `note.bin` holds the three bytes 1, 2, 3.  An authenticated
`FILE_DOWNLOAD_FETCH` with `offset=1` and `length=0` is answered `status=done` with an
empty body, though the offset 1 is before the end of the file. -/
theorem download_fetch_zero_length_done :
    status note_stored.world.storage (str "/srv/alice/note.bin") = some (Node.file [1, 2, 3])
    ∧ stoull (str "1") = .ok 1
    ∧ stoul (str "0") = .ok 0
    ∧ (dispatch sample_env 5 (fetch_note "1" "0") note_stored).2.world.async_responses
      = [{ fd := 5, message := make_message [(str "cmd", str "FILE_DOWNLOAD_FETCH"),
            (str "status", str "done"), (str "chunk", str "0")] [] }] :=
  ⟨by decide, by decide, by decide, by decide⟩

/-- C24 (amended): an authenticated `FILE_DOWNLOAD_FETCH` with a non-empty `path` whose
resolved path is an existing file with contents `F` of size `n`, with an `offset` header that
`stoull` parses to `off` and a `length` header that `stoul` parses to `requested`.  Let
`count = min(requested, max_chunk_bytes, n − off)`.  If `count > 0` the one reply is
`status=ok`, its body is the `count` bytes of `F` from `off`, and its header `chunk` is
`count`.  If the offset is at or past the end of the file the one reply is `status=done`
with an empty body and `chunk=0`.  If `count = 0` and `read_chunk` returns, the one reply is
`status=done` with an empty body and `chunk=0` as well; and `count = 0` exactly when the
offset is at or past the end of the file or the length asked for, or `max_chunk_bytes`, is
0.  So `done` is also the answer to a request for 0 bytes before the end of the file. -/
theorem download_fetch_reply (env : Env) (fd : Nat) (message : Message) (s : Dispatch)
    (subject absolute : Str) (t1 : FileSystem) (F : List Byte) (off requested : Nat)
    (hc : header_value message (str "cmd") = str "FILE_DOWNLOAD_FETCH")
    (ht : header_value message (str "token") ≠ [])
    (hv : env.verify (header_value message (str "token")) = .ok (some subject))
    (hp : header_value message (str "path") ≠ [])
    (ho : stoull (header_value message (str "offset")) = .ok off)
    (hl : stoul (header_value message (str "length")) = .ok requested)
    (hr : resolve env subject
        (normalize_relative (fs.append s.ctx.cwd (header_value message (str "path"))))
        s.world.storage = (.ok absolute, t1))
    (hf : status t1 absolute = some (Node.file F)) :
    (0 < min (min requested env.max_chunk_bytes) (F.length - off) →
      ((F.drop off).take (min (min requested env.max_chunk_bytes) (F.length - off))).length
        = min (min requested env.max_chunk_bytes) (F.length - off)
      ∧ dispatch env fd message s = (.ok (),
        { ctx := { s.ctx with
            username := subject
            token := header_value message (str "token") },
          world := { s.world with
            storage := t1
            async_responses := s.world.async_responses ++
              [{ fd := fd,
                 message := make_message [(str "cmd", str "FILE_DOWNLOAD_FETCH"),
                   (str "status", str "ok"),
                   (str "chunk",
                     to_string (min (min requested env.max_chunk_bytes) (F.length - off)))]
                   ((F.drop off).take
                     (min (min requested env.max_chunk_bytes) (F.length - off))) }] } }))
    ∧ (F.length ≤ off →
        dispatch env fd message s = (.ok (),
          { ctx := { s.ctx with
              username := subject
              token := header_value message (str "token") },
            world := { s.world with
              storage := t1
              async_responses := s.world.async_responses ++
                [{ fd := fd,
                   message := make_message [(str "cmd", str "FILE_DOWNLOAD_FETCH"),
                     (str "status", str "done"), (str "chunk", to_string 0)] [] }] } }))
    ∧ (min (min requested env.max_chunk_bytes) (F.length - off) = 0 →
        (∀ what, (read_chunk env absolute off (min requested env.max_chunk_bytes) t1).1
          ≠ .error what) →
        dispatch env fd message s = (.ok (),
          { ctx := { s.ctx with
              username := subject
              token := header_value message (str "token") },
            world := { s.world with
              storage := t1
              async_responses := s.world.async_responses ++
                [{ fd := fd,
                   message := make_message [(str "cmd", str "FILE_DOWNLOAD_FETCH"),
                     (str "status", str "done"), (str "chunk", to_string 0)] [] }] } }))
    ∧ (min (min requested env.max_chunk_bytes) (F.length - off) = 0 ↔
        F.length ≤ off ∨ requested = 0 ∨ env.max_chunk_bytes = 0) := by
  have hrc := read_chunk_file env t1 absolute F off (min requested env.max_chunk_bytes) hf
  have hlen : ((F.drop off).take (min (min requested env.max_chunk_bytes) (F.length - off))).length
      = min (min requested env.max_chunk_bytes) (F.length - off) := by
    rw [List.length_take, List.length_drop]
    omega
  have hdone : F.length ≤ off →
      dispatch env fd message s = (.ok (),
          { ctx := { s.ctx with
              username := subject
              token := header_value message (str "token") },
            world := { s.world with
              storage := t1
              async_responses := s.world.async_responses ++
                [{ fd := fd,
                   message := make_message [(str "cmd", str "FILE_DOWNLOAD_FETCH"),
                     (str "status", str "done"), (str "chunk", to_string 0)] [] }] } }) := by
    intro h1
    rw [if_pos h1] at hrc
    rw [download_fetch_run env fd message s subject absolute t1 F off requested _ _ rfl
      hc ht hv hp ho hl hr hf hrc]
    simp only [if_true, List.length_nil]
  refine ⟨fun hpos => ⟨hlen, ?_⟩, hdone, fun hzero hno => ?_, ?_⟩
  · rw [if_neg (by omega), if_neg (by omega)] at hrc
    rw [download_fetch_run env fd message s subject absolute t1 F off requested _ _ rfl
      hc ht hv hp ho hl hr hf hrc]
    have hne : (F.drop off).take (min (min requested env.max_chunk_bytes) (F.length - off))
        ≠ [] := by
      intro h
      rw [h] at hlen
      simp only [List.length_nil] at hlen
      omega
    simp only [hne, if_false, hlen]
  · by_cases h1 : F.length ≤ off
    · exact hdone h1
    · rw [if_neg h1] at hrc
      by_cases hm : kMmapThreshold ≤ F.length
          ∧ off % env.page_size + min (min requested env.max_chunk_bytes) (F.length - off) = 0
      · rw [if_pos hm] at hrc
        exact absurd (congrArg Prod.fst hrc) (hno _)
      · rw [if_neg hm, hzero, List.take_zero] at hrc
        rw [download_fetch_run env fd message s subject absolute t1 F off requested _ _ rfl
          hc ht hv hp ho hl hr hf hrc]
        simp only [if_true, List.length_nil]
  · omega

set_option maxRecDepth 100000 in
/-- C24 (witness): on the stored `note.bin` (1, 2, 3), `offset=1` and `length=10` are
answered `status=ok` with the body 2, 3 and `chunk=2`; `offset=3` is answered `status=done`,
and so is `offset=1` with `length=0`. -/
theorem download_fetch_reply_witness :
    (dispatch sample_env 5 (fetch_note "1" "10") note_stored).2.world.async_responses
      = [{ fd := 5, message := make_message [(str "cmd", str "FILE_DOWNLOAD_FETCH"),
            (str "status", str "ok"), (str "chunk", str "2")] [2, 3] }]
    ∧ (dispatch sample_env 5 (fetch_note "3" "10") note_stored).2.world.async_responses
      = [{ fd := 5, message := make_message [(str "cmd", str "FILE_DOWNLOAD_FETCH"),
            (str "status", str "done"), (str "chunk", str "0")] [] }]
    ∧ (dispatch sample_env 5 (fetch_note "1" "0") note_stored).2.world.async_responses
      = [{ fd := 5, message := make_message [(str "cmd", str "FILE_DOWNLOAD_FETCH"),
            (str "status", str "done"), (str "chunk", str "0")] [] }] :=
  ⟨(congrArg (fun r => r.2.world.async_responses)
      ((download_fetch_reply sample_env 5 (fetch_note "1" "10") note_stored (str "alice")
        (str "/srv/alice/note.bin") note_stored.world.storage [1, 2, 3] 1 10
        (by decide) (by decide) (by decide) (by decide) (by decide) (by decide) (by decide)
        (by decide)).1 (by decide)).2).trans (by decide),
   (congrArg (fun r => r.2.world.async_responses)
      ((download_fetch_reply sample_env 5 (fetch_note "3" "10") note_stored (str "alice")
        (str "/srv/alice/note.bin") note_stored.world.storage [1, 2, 3] 3 10
        (by decide) (by decide) (by decide) (by decide) (by decide) (by decide) (by decide)
        (by decide)).2.1 (by decide))).trans (by decide),
   (congrArg (fun r => r.2.world.async_responses)
      ((download_fetch_reply sample_env 5 (fetch_note "1" "0") note_stored (str "alice")
        (str "/srv/alice/note.bin") note_stored.world.storage [1, 2, 3] 1 0
        (by decide) (by decide) (by decide) (by decide) (by decide) (by decide) (by decide)
        (by decide)).2.2.1 (by decide)
        (by
          intro what h
          have e : read_chunk sample_env (str "/srv/alice/note.bin") 1
              (min 0 sample_env.max_chunk_bytes) note_stored.world.storage
              = (.ok [], note_stored.world.storage) := by decide
          rw [e] at h
          exact Except.noConfusion h))).trans (by decide)⟩

end cloud.server

/-! ## Decoding a stream that arrives in fragments -/

namespace cloud.server
open samples fs protocol

theorem readAt_drop (buffer : List Byte) (offset i n : Nat) :
    readAt buffer (offset + i) n = readAt (buffer.drop offset) i n := by
  unfold readAt
  rw [List.drop_drop, Nat.add_comm]

theorem readAt_append (a b : List Byte) (i n : Nat) (h : i + n ≤ a.length) :
    readAt (a ++ b) i n = readAt a i n := by
  unfold readAt
  congr 1
  rw [List.drop_append_of_le_length (by omega), List.take_append_of_le_length]
  rw [List.length_drop]
  omega

/-- With a whole frame of a safe message unread at the cursor, `try_decode` returns the
message and leaves what followed the frame unread. -/
theorem try_decode_frame (buffer : List Byte) (offset : Nat) (m : Message) (rest : List Byte)
    (hsafe : SafeMessage m) (hu : buffer.drop offset = encode m ++ rest) :
    (try_decode buffer offset).result = DecodeResult.message m
    ∧ (try_decode buffer offset).buffer.drop (try_decode buffer offset).offset = rest
    ∧ (rest = [] → (try_decode buffer offset).buffer = []
        ∧ (try_decode buffer offset).offset = 0)
    ∧ (try_decode buffer offset).offset ≤ (try_decode buffer offset).buffer.length := by
  obtain ⟨hwf, hchars, hh, hb⟩ := hsafe
  obtain ⟨r1, r2, r3, r4⟩ := readAt_encode m
  have hlen := encode_length m
  have e3 : (serialize_headers m.headers).length % 65536 = (serialize_headers m.headers).length :=
    Nat.mod_eq_of_lt (by omega)
  have e4 : m.body.length % 4294967296 = m.body.length := Nat.mod_eq_of_lt hb
  rw [e3] at r3
  rw [e4] at r4
  have hul : buffer.length - offset = (encode m).length + rest.length := by
    have := congrArg List.length hu
    rw [List.length_drop, List.length_append] at this
    exact this
  have q : ∀ i n, i + n ≤ 12 → readAt buffer (offset + i) n = readAt (encode m) i n := by
    intro i n hin
    rw [readAt_drop, hu, readAt_append _ _ _ _ (by omega)]
  have q1 : readAt buffer offset 4 = kMagic := by
    have := q 0 4 (by omega)
    rw [Nat.add_zero] at this
    rw [this, r1]
  have q2 : readAt buffer (offset + 4) 2 = kVersion := by rw [q 4 2 (by omega), r2]
  have q3 : readAt buffer (offset + 6) 2 = (serialize_headers m.headers).length := by
    rw [q 6 2 (by omega), r3]
  have q4 : readAt buffer (offset + 8) 4 = m.body.length := by rw [q 8 4 (by omega), r4]
  have key := try_decode_ok buffer offset q1 q2 (by rw [q3, q4]; omega)
  rw [q3, q4] at key
  have hdrop : ∀ k, buffer.drop (offset + k) = (encode m ++ rest).drop k := by
    intro k
    rw [← hu, List.drop_drop, Nat.add_comm]
  have hhead : (buffer.drop (offset + 12)).take (serialize_headers m.headers).length
      = serialize_headers m.headers := by
    rw [hdrop, List.drop_append_of_le_length (by omega)]
    have := encode_drop m 0
    rw [Nat.add_zero, List.drop_zero] at this
    rw [this, List.append_assoc, List.take_left]
  have hbody : (buffer.drop (offset + 12 + (serialize_headers m.headers).length)).take
      m.body.length = m.body := by
    rw [Nat.add_assoc, hdrop, List.drop_append_of_le_length (by omega), encode_drop,
      List.drop_left, List.take_left]
  have hrest : buffer.drop (offset + (12 + (serialize_headers m.headers).length + m.body.length))
      = rest := by
    rw [hdrop, ← hlen, List.drop_left]
  rw [hhead, hbody, parse_serialize m.headers hwf hchars, hrest] at key
  by_cases c : 0 < offset + (12 + (serialize_headers m.headers).length + m.body.length) ∧
      buffer.length / 2 < offset + (12 + (serialize_headers m.headers).length + m.body.length)
  · rw [if_pos c] at key
    rw [key]
    exact ⟨rfl, rfl, fun h => ⟨h, rfl⟩, Nat.zero_le _⟩
  · rw [if_neg c] at key
    rw [key]
    refine ⟨rfl, hrest, fun h => ?_, ?_⟩
    · exfalso
      apply c
      rw [h, List.length_nil] at hul
      constructor <;> omega
    · show offset + (12 + (serialize_headers m.headers).length + m.body.length) ≤ buffer.length
      omega

/-- While the frame at the cursor is incomplete, `try_decode` asks for more bytes and
leaves the buffer and the cursor as they are. -/
theorem try_decode_partial (buffer : List Byte) (offset : Nat) (m : Message) (more : List Byte)
    (hsafe : SafeMessage m) (hmore : more ≠ []) (hu : buffer.drop offset ++ more = encode m) :
    try_decode buffer offset
      = { result := DecodeResult.need_more, buffer := buffer, offset := offset } := by
  obtain ⟨_, _, hh, hb⟩ := hsafe
  obtain ⟨r1, r2, r3, r4⟩ := readAt_encode m
  have hlen := encode_length m
  have e3 : (serialize_headers m.headers).length % 65536 = (serialize_headers m.headers).length :=
    Nat.mod_eq_of_lt (by omega)
  have e4 : m.body.length % 4294967296 = m.body.length := Nat.mod_eq_of_lt hb
  rw [e3] at r3
  rw [e4] at r4
  have hul : buffer.length - offset + more.length = (encode m).length := by
    have := congrArg List.length hu
    rw [List.length_append, List.length_drop] at this
    exact this
  have hpos : 0 < more.length := List.length_pos.mpr hmore
  unfold try_decode
  simp only [kWireHeaderSize]
  by_cases h12 : buffer.length - offset < 12
  · rw [if_pos h12]
  · rw [if_neg h12]
    have q : ∀ i n, i + n ≤ 12 → readAt buffer (offset + i) n = readAt (encode m) i n := by
      intro i n hin
      rw [readAt_drop, ← hu, readAt_append _ _ _ _ (by rw [List.length_drop]; omega)]
    have q1 : readAt buffer offset 4 = kMagic := by
      have := q 0 4 (by omega)
      rw [Nat.add_zero] at this
      rw [this, r1]
    have q2 : readAt buffer (offset + 4) 2 = kVersion := by rw [q 4 2 (by omega), r2]
    have q3 : readAt buffer (offset + 6) 2 = (serialize_headers m.headers).length := by
      rw [q 6 2 (by omega), r3]
    have q4 : readAt buffer (offset + 8) 4 = m.body.length := by
      rw [q 8 4 (by omega), r4]
    simp only [q1, q2, q3, q4, ne_eq, not_true_eq_false, if_false]
    rw [if_pos (by omega)]

theorem try_decode_nothing_unread (buffer : List Byte) (offset : Nat)
    (hu : buffer.drop offset = []) :
    try_decode buffer offset
      = { result := DecodeResult.need_more, buffer := buffer, offset := offset } := by
  have hl : buffer.length - offset = 0 := by
    have := congrArg List.length hu
    rw [List.length_drop] at this
    exact this
  unfold try_decode
  simp only [kWireHeaderSize]
  rw [if_pos (by omega)]

/-- The bytes of the messages one after the other. -/
theorem stream_cons (m : Message) (ms : List Message) :
    ((m :: ms).map encode).flatten = encode m ++ (ms.map encode).flatten := by
  simp

/-- The decode loop on a buffer whose unread bytes, with the bytes still to come, are the
encodings of safe messages: it decodes the messages that are complete, in order, and never
throws. -/
theorem decode_messages_stream : ∀ (ms : List Message), (∀ m ∈ ms, SafeMessage m) →
    ∀ (fuel : Nat) (buffer : List Byte) (offset : Nat) (future : List Byte),
    buffer.drop offset ++ future = (ms.map encode).flatten →
    (buffer.drop offset).length < fuel →
    offset ≤ buffer.length →
    (buffer.drop offset = [] → buffer = [] ∧ offset = 0) →
    ∃ ds rest buffer1 offset1,
      decode_messages fuel buffer offset = .ok (ds, buffer1, offset1)
      ∧ ms = ds ++ rest
      ∧ buffer1.drop offset1 ++ future = (rest.map encode).flatten
      ∧ (future = [] → rest = [] ∧ buffer1.drop offset1 = [])
      ∧ offset1 ≤ buffer1.length
      ∧ (buffer1.drop offset1 = [] → buffer1 = [] ∧ offset1 = 0) := by
  intro ms
  induction ms with
  | nil =>
    intro _ fuel buffer offset future hu hfuel hoff hj
    simp only [List.map_nil, List.flatten_nil, List.append_eq_nil] at hu
    obtain ⟨f, rfl⟩ : ∃ f, fuel = f + 1 := ⟨fuel - 1, by omega⟩
    refine ⟨[], [], buffer, offset, ?_, rfl, ?_, fun _ => ⟨rfl, hu.1⟩, hoff, hj⟩
    · rw [decode_messages, try_decode_nothing_unread buffer offset hu.1]
    · simp [hu.1, hu.2]
  | cons m ms ih =>
    intro hsafe fuel buffer offset future hu hfuel hoff hj
    have hm : SafeMessage m := hsafe m (List.mem_cons_self _ _)
    have hms : ∀ x ∈ ms, SafeMessage x := fun x hx => hsafe x (List.mem_cons_of_mem _ hx)
    have hlen := encode_length m
    rw [stream_cons] at hu
    obtain ⟨f, rfl⟩ : ∃ f, fuel = f + 1 := ⟨fuel - 1, by omega⟩
    rcases List.append_eq_append_iff.mp hu with ⟨more, h1, h2⟩ | ⟨rest, h1, h2⟩
    · by_cases hmore : more = []
      · subst hmore
        rw [List.append_nil] at h1
        rw [List.nil_append] at h2
        obtain ⟨d1, d2, d3, d4⟩ := try_decode_frame buffer offset m [] hm
          (by rw [List.append_nil]; exact h1.symm)
        have hul : (buffer.drop offset).length = (encode m).length := by rw [← h1]
        obtain ⟨ds, rest2, b1, o1, e1, e2, e3, e4, e5, e6⟩ :=
          ih hms f (try_decode buffer offset).buffer (try_decode buffer offset).offset future
            (by rw [d2, List.nil_append, h2]) (by rw [d2, List.length_nil]; omega) d4
            (fun _ => d3 rfl)
        refine ⟨m :: ds, rest2, b1, o1, ?_, ?_, e3, e4, e5, e6⟩
        · rw [decode_messages]
          simp only [d1, e1]
        · rw [e2, List.cons_append]
      · refine ⟨[], m :: ms, buffer, offset, ?_, rfl, ?_, ?_, hoff, hj⟩
        · rw [decode_messages, try_decode_partial buffer offset m more hm hmore h1.symm]
        · rw [stream_cons]
          exact hu
        · intro hf
          exfalso
          rw [hf] at h2
          have := congrArg List.length h2
          simp only [List.length_nil, List.length_append] at this
          have hp : 0 < more.length := List.length_pos.mpr hmore
          omega
    · obtain ⟨d1, d2, d3, d4⟩ := try_decode_frame buffer offset m rest hm h1
      have hul : (buffer.drop offset).length = (encode m).length + rest.length := by
        rw [h1, List.length_append]
      obtain ⟨ds, rest2, b1, o1, e1, e2, e3, e4, e5, e6⟩ :=
        ih hms f (try_decode buffer offset).buffer (try_decode buffer offset).offset future
          (by rw [d2, h2]) (by rw [d2]; omega) d4 (fun h => d3 (d2 ▸ h))
      refine ⟨m :: ds, rest2, b1, o1, ?_, ?_, e3, e4, e5, e6⟩
      · rw [decode_messages]
        simp only [d1, e1]
      · rw [e2, List.cons_append]

/-- Feeding the fragments of a stream of safe messages decodes the messages. -/
theorem feed_fragments_stream : ∀ (fragments : List (List Byte)) (ms : List Message)
    (buffer : List Byte) (offset : Nat),
    (∀ m ∈ ms, SafeMessage m) →
    buffer.drop offset ++ fragments.flatten = (ms.map encode).flatten →
    (fragments.flatten = [] → ms = [] ∧ buffer.drop offset = []) →
    offset ≤ buffer.length →
    (buffer.drop offset = [] → buffer = [] ∧ offset = 0) →
    feed_fragments fragments buffer offset = .ok (ms, [], 0) := by
  intro fragments
  induction fragments with
  | nil =>
    intro ms buffer offset _ _ hend _ hj
    obtain ⟨h1, h2⟩ := hend rfl
    obtain ⟨h3, h4⟩ := hj h2
    rw [h1, h3, h4]
    rfl
  | cons fragment rest ih =>
    intro ms buffer offset hsafe hu hend hoff hj
    have hdrop : (buffer ++ fragment).drop offset = buffer.drop offset ++ fragment :=
      List.drop_append_of_le_length hoff
    rw [List.flatten_cons, ← List.append_assoc, ← hdrop] at hu
    obtain ⟨ds, rest2, b1, o1, e1, e2, e3, e4, e5, e6⟩ :=
      decode_messages_stream ms hsafe ((buffer ++ fragment).length - offset + 1)
        (buffer ++ fragment) offset rest.flatten hu
        (by rw [List.length_drop]; omega)
        (by rw [List.length_append]; omega)
        (by
          intro h
          rw [hdrop, List.append_eq_nil] at h
          obtain ⟨h3, h4⟩ := hj h.1
          rw [h3, h.2, h4]
          exact ⟨rfl, rfl⟩)
    have hsafe2 : ∀ m ∈ rest2, SafeMessage m := by
      intro x hx
      apply hsafe
      rw [e2]
      exact List.mem_append_right _ hx
    rw [feed_fragments]
    simp only [e1, ih rest2 b1 o1 hsafe2 e3 e4 e5 e6, e2]

theorem try_decode_need_more_keeps (buffer : List Byte) (offset : Nat)
    (h : (try_decode buffer offset).result = DecodeResult.need_more) :
    (try_decode buffer offset).buffer = buffer ∧ (try_decode buffer offset).offset = offset := by
  unfold try_decode at h ⊢
  simp only at h ⊢
  split
  · exact ⟨rfl, rfl⟩
  · rename_i h1
    rw [if_neg h1] at h
    split
    · exact ⟨rfl, rfl⟩
    · rename_i h2
      rw [if_neg h2] at h
      split
      · exact ⟨rfl, rfl⟩
      · rename_i h3
        rw [if_neg h3] at h
        split
        · exact ⟨rfl, rfl⟩
        · rename_i h4
          rw [if_neg h4] at h
          split at h <;> simp at h

/-- C29: stream decoding is independent of how the bytes arrive.  For every list of safe
messages (header keys pairwise distinct, no `=` or newline in a key or value, serialized
header block at most 65535 bytes, body shorter than 2^32 bytes) and every split of the
concatenation of their encodings into consecutive fragments: appending the fragments one at
a time to an initially empty inbound buffer with cursor 0, and calling `try_decode` after
each append until it reports "need more bytes", never throws, decodes exactly the original
messages in order, and ends with an empty buffer and the cursor 0, so with no unread bytes;
and every call of `try_decode` that reports "need more bytes" leaves the buffer and the
cursor as they were. -/
theorem stream_decoding_any_split (ms : List Message) (fragments : List (List Byte))
    (hsafe : ∀ m ∈ ms, SafeMessage m)
    (hsplit : fragments.flatten = (ms.map encode).flatten) :
    feed_fragments fragments [] 0 = .ok (ms, [], 0)
    ∧ (∀ buffer offset, (try_decode buffer offset).result = DecodeResult.need_more →
        (try_decode buffer offset).buffer = buffer
        ∧ (try_decode buffer offset).offset = offset) := by
  refine ⟨?_, try_decode_need_more_keeps⟩
  apply feed_fragments_stream fragments ms [] 0 hsafe
  · rw [List.drop_nil, List.nil_append, hsplit]
  · intro h
    rw [h] at hsplit
    refine ⟨?_, rfl⟩
    cases ms with
    | nil => rfl
    | cons m rest =>
      exfalso
      have := congrArg List.length hsplit
      rw [stream_cons, List.length_append, encode_length] at this
      simp only [List.length_nil] at this
      omega
  · exact Nat.le_refl _
  · intro _
    exact ⟨rfl, rfl⟩

set_option maxRecDepth 100000 in
/-- C29 (witness): the two requests of `two_requests`, arriving as 5 bytes, then 40 bytes,
then nothing, then the rest. -/
theorem stream_decoding_any_split_witness :
    feed_fragments
      [two_requests_stream.take 5, (two_requests_stream.drop 5).take 40, [],
        two_requests_stream.drop 45] [] 0 = .ok (two_requests, [], 0) :=
  (stream_decoding_any_split two_requests
    [two_requests_stream.take 5, (two_requests_stream.drop 5).take 40, [],
      two_requests_stream.drop 45] (by decide) (by decide)).1

end cloud.server

/-! ## Directory creation: what a path names, and creating it again -/

namespace cloud.fs

theorem splitSlash_append_general : ∀ (p q : Str),
    splitSlash (p ++ chSlash :: q) = splitSlash p ++ splitSlash q
  | [], q => by
    show splitSlash (chSlash :: q) = splitSlash [] ++ splitSlash q
    rw [splitSlash_cons, if_pos rfl]
    rfl
  | c :: p, q => by
    show splitSlash (c :: (p ++ chSlash :: q)) = splitSlash (c :: p) ++ splitSlash q
    rw [splitSlash_cons, splitSlash_cons, splitSlash_append_general p q]
    by_cases hc : c = chSlash
    · rw [if_pos hc, if_pos hc]
      rfl
    · rw [if_neg hc, if_neg hc]
      rcases hs : splitSlash p with _ | ⟨x, xs⟩
      · exact absurd hs (splitSlash_ne_nil p)
      · rfl

theorem names_nil : names [] = [] := rfl

theorem names_append_slash (p q : Str) : names (p ++ chSlash :: q) = names p ++ names q := by
  unfold names
  rw [splitSlash_append_general, List.filter_append]

theorem names_append_trailing (p q : Str) (h : p.getLast? = some chSlash) :
    names (p ++ q) = names p ++ names q := by
  obtain ⟨p1, rfl⟩ : ∃ p1, p = p1 ++ [chSlash] := by
    rcases List.eq_nil_or_concat p with h0 | ⟨p1, c, h1⟩
    · rw [h0] at h
      simp at h
    · rw [h1] at h
      simp at h
      exact ⟨p1, by rw [h1, h, List.concat_eq_append]⟩
  rw [List.append_assoc, List.singleton_append, names_append_slash, names_append_slash,
    names_nil, List.append_nil]

theorem names_fs_append (p q : Str) (hq : is_absolute q = false) :
    names (append p q) = names p ++ names q := by
  unfold append
  rw [hq]
  simp only [Bool.false_eq_true, if_false]
  by_cases hf : has_filename p = true
  · rw [if_pos hf, names_append_slash]
  · rw [if_neg hf]
    unfold has_filename at hf
    rcases hl : p.getLast? with _ | c
    · have : p = [] := by simpa using hl
      rw [this]
      rfl
    · rw [hl] at hf
      have hc : c = chSlash := by simpa using hf
      rw [hc] at hl
      exact names_append_trailing p q hl

/-- The filenames the kernel walks are the names of the path, and a final `.` if the path
ends in a separator. -/
theorem os_comps_eq (p : Str) :
    os_comps p = names p ++ (if (splitSlash p).getLast? = some [] then [dot] else []) := by
  unfold os_comps names
  have hne := splitSlash_ne_nil p
  obtain ⟨ini, last, hs⟩ : ∃ ini last, splitSlash p = ini ++ [last] := by
    rcases List.eq_nil_or_concat (splitSlash p) with h0 | ⟨ini, last, h1⟩
    · exact absurd h0 hne
    · exact ⟨ini, last, by rw [h1, List.concat_eq_append]⟩
  simp only [hs, List.dropLast_concat, List.getLast?_concat, List.filter_append]
  by_cases hl : last = []
  · subst hl
    simp
  · simp [hl]

theorem walk_eq_fold (t : FileSystem) : ∀ (cs : List Str) (cur k : List Str),
    walk t cs cur = some k → k = cs.foldl step cur
  | [], cur, k, h => by
    simp only [walk, Option.some.injEq] at h
    exact h.symm
  | c :: cs, cur, k, h => by
    unfold walk at h
    by_cases hd : lookup t cur = some Node.dir
    · rw [if_pos hd] at h
      exact walk_eq_fold t cs _ k h
    · rw [if_neg hd] at h
      exact absurd h (by simp)

theorem walk_cons (t : FileSystem) (c : Str) (cs cur : List Str) :
    walk t (c :: cs) cur
      = if lookup t cur = some Node.dir then walk t cs (step cur c) else none := rfl

theorem walk_append (t : FileSystem) : ∀ (a b : List Str) (cur : List Str),
    walk t (a ++ b) cur = (walk t a cur).bind (fun k => walk t b k)
  | [], b, cur => rfl
  | c :: a, b, cur => by
    show walk t (c :: (a ++ b)) cur = _
    rw [walk_cons, walk_cons]
    by_cases hd : lookup t cur = some Node.dir
    · rw [if_pos hd, if_pos hd]
      exact walk_append t a b _
    · rw [if_neg hd, if_neg hd]
      rfl

theorem step_dot (cur : List Str) : step cur dot = cur := by
  unfold step
  rw [if_pos rfl]

theorem walk_dot (t : FileSystem) (cur : List Str) :
    walk t [dot] cur = if lookup t cur = some Node.dir then some cur else none := by
  unfold walk
  by_cases hd : lookup t cur = some Node.dir
  · rw [if_pos hd, if_pos hd, step_dot]
    rfl
  · rw [if_neg hd, if_neg hd]

/-- Whether a path names a directory depends on the names of the path only. -/
theorem status_dir_iff (t : FileSystem) (p : Str) :
    status t p = some Node.dir ↔
      c_str p ≠ [] ∧ ∃ k, walk t (names (c_str p)) [] = some k ∧ lookup t k = some Node.dir := by
  unfold status locate
  by_cases h0 : c_str p = []
  · rw [if_pos h0]
    simp [h0]
  · rw [if_neg h0, os_comps_eq, walk_append]
    by_cases hl : (splitSlash (c_str p)).getLast? = some []
    · rw [if_pos hl]
      rcases hw : walk t (names (c_str p)) [] with _ | k
      · simp [h0]
      · simp only [Option.some_bind, walk_dot]
        by_cases hd : lookup t k = some Node.dir
        · simp [hd, h0]
        · simp [hd, h0]
    · rw [if_neg hl]
      rcases hw : walk t (names (c_str p)) [] with _ | k
      · simp [h0]
      · simp [walk, h0]

theorem mkdirs_ok_walk : ∀ (cs : List Str) (cur : List Str) (t t1 : FileSystem),
    mkdirs cs cur t = (.ok (), t1) → lookup t1 cur = some Node.dir →
    walk t1 cs cur = some (cs.foldl step cur) ∧ lookup t1 (cs.foldl step cur) = some Node.dir
  | [], cur, t, t1, _, hc => ⟨rfl, hc⟩
  | c :: cs, cur, t, t1, h, hc => by
    unfold mkdirs at h
    unfold walk
    rw [if_pos hc]
    rcases hl : lookup t (step cur c) with _ | n
    · rw [hl] at h
      simp only at h
      have hne : step cur c ≠ [] := by
        intro h0
        rw [h0] at hl
        simp [lookup] at hl
      have hd : lookup t1 (step cur c) = some Node.dir := by
        have := mkdirs_mono cs (step cur c) (put t (step cur c) Node.dir) (step cur c) Node.dir
          (lookup_put_self t _ _ hne)
        rw [h] at this
        exact this
      exact mkdirs_ok_walk cs _ _ t1 h hd
    · rw [hl] at h
      cases n with
      | file d => simp at h
      | dir =>
        simp only at h
        have hd : lookup t1 (step cur c) = some Node.dir := by
          have := mkdirs_mono cs (step cur c) t (step cur c) Node.dir hl
          rw [h] at this
          exact this
        exact mkdirs_ok_walk cs _ _ t1 h hd

/-- After a successful `create_directories(p)` the path names a directory. -/
theorem create_directories_ok_status (p : Str) (t t1 : FileSystem)
    (h : create_directories p t = (.ok (), t1)) : status t1 p = some Node.dir := by
  unfold create_directories at h
  by_cases h0 : c_str p = []
  · rw [if_pos h0] at h
    simp [Eff.raise] at h
  · rw [if_neg h0] at h
    obtain ⟨hw, hl⟩ := mkdirs_ok_walk _ _ _ _ h (by simp [lookup])
    unfold status locate
    rw [if_neg h0, hw]
    exact hl

theorem walk_dir_mkdirs (t : FileSystem) : ∀ (cs : List Str) (cur k : List Str),
    walk t cs cur = some k → lookup t k = some Node.dir → mkdirs cs cur t = (.ok (), t)
  | [], _, _, _, _ => rfl
  | c :: cs, cur, k, hw, hk => by
    unfold walk at hw
    by_cases hd : lookup t cur = some Node.dir
    · rw [if_pos hd] at hw
      have hnext : lookup t (step cur c) = some Node.dir := by
        cases cs with
        | nil =>
          simp only [walk, Option.some.injEq] at hw
          rw [hw]
          exact hk
        | cons c2 cs2 =>
          unfold walk at hw
          by_cases hd2 : lookup t (step cur c) = some Node.dir
          · exact hd2
          · rw [if_neg hd2] at hw
            exact absurd hw (by simp)
      unfold mkdirs
      rw [hnext]
      exact walk_dir_mkdirs t cs _ k hw hk
    · rw [if_neg hd] at hw
      exact absurd hw (by simp)

/-- On an existing directory `create_directories` does nothing. -/
theorem create_directories_noop (p : Str) (t : FileSystem)
    (h : status t p = some Node.dir) : create_directories p t = (.ok (), t) := by
  unfold status locate at h
  unfold create_directories
  by_cases h0 : c_str p = []
  · rw [if_pos h0] at h
    simp at h
  · rw [if_neg h0] at h ⊢
    rcases hw : walk t (os_comps (c_str p)) [] with _ | k
    · rw [hw] at h
      simp at h
    · rw [hw] at h
      exact walk_dir_mkdirs t _ _ k hw h

end cloud.fs

namespace cloud.fs

theorem key_string_eq : ∀ (k : List Str), k ≠ [] → key_string k = chSlash :: joinSlash k
  | [], h => absurd rfl h
  | [c], _ => rfl
  | c :: d :: rest, _ => by
    show chSlash :: (c ++ key_string (d :: rest)) = chSlash :: (c ++ chSlash :: joinSlash (d :: rest))
    rw [key_string_eq (d :: rest) (by simp)]

theorem plain_nil : Plain [] := fun _ h => absurd h (List.not_mem_nil _)

theorem step_plain (cur : List Str) (c : Str) (hcur : Plain cur) (hc : Filename c) :
    Plain (step cur c) := by
  unfold step
  by_cases h1 : c = dot
  · rw [if_pos h1]
    exact hcur
  · rw [if_neg h1]
    by_cases h2 : c = dotdot
    · rw [if_pos h2]
      intro x hx
      exact hcur x (List.mem_of_mem_dropLast hx)
    · rw [if_neg h2]
      intro x hx
      rcases List.mem_append.mp hx with h | h
      · exact hcur x h
      · rw [List.mem_singleton] at h
        rw [h]
        exact ⟨hc, h1, h2⟩

theorem foldl_step_plain : ∀ (cs : List Str) (cur : List Str), Plain cur →
    (∀ c ∈ cs, Filename c) → Plain (cs.foldl step cur)
  | [], _, hcur, _ => hcur
  | c :: cs, cur, hcur, hcs =>
    foldl_step_plain cs _ (step_plain cur c hcur (hcs c (List.mem_cons_self _ _)))
      (fun x hx => hcs x (List.mem_cons_of_mem _ hx))

theorem lexical_key_plain (p : Str) : Plain (lexical_key p) :=
  foldl_step_plain _ _ plain_nil (fun c hc => names_filename p c hc)

theorem foldl_step_of_plain : ∀ (k cur : List Str), Plain k → k.foldl step cur = cur ++ k
  | [], cur, _ => by simp
  | c :: k, cur, h => by
    have hc := h c (List.mem_cons_self _ _)
    have hs : step cur c = cur ++ [c] := by
      unfold step
      rw [if_neg hc.2.1, if_neg hc.2.2]
    rw [List.foldl_cons, hs, foldl_step_of_plain k _ (fun x hx => h x (List.mem_cons_of_mem _ hx))]
    simp

theorem names_key_string (k : List Str) (h : Plain k) : names (key_string k) = k := by
  by_cases hk : k = []
  · subst hk
    rfl
  · rw [key_string_eq k hk, server.names_cons_slash, names_joinSlash k (fun x hx => (h x hx).1)]

theorem names_key_string_slash (k : List Str) (h : Plain k) (hk : k ≠ []) :
    names (key_string k ++ [chSlash]) = k := by
  rw [key_string_eq k hk, List.cons_append, server.names_cons_slash,
    names_joinSlash_slash k (fun x hx => (h x hx).1) hk]

/-- The place `locate` finds is the lexical place of the path the kernel sees. -/
theorem locate_lexical_key (t : FileSystem) (p : Str) (k : List Str)
    (h : locate t p = some k) : k = lexical_key (c_str p) := by
  unfold locate at h
  by_cases h0 : c_str p = []
  · rw [if_pos h0] at h
    exact absurd h (by simp)
  · rw [if_neg h0] at h
    have := walk_eq_fold t _ _ _ h
    rw [this, os_comps_eq, List.foldl_append]
    unfold lexical_key
    split
    · rw [List.foldl_cons, List.foldl_nil, step_dot]
    · rfl

/-- The element loop of `lexically_normal` for a path with a root directory. -/
theorem normal_loop_abs : ∀ (es st : List Str) (tr : Bool),
    (∀ e ∈ es, Filename e ∨ e = []) → Plain st →
    (normal_loop es st true tr).1.reverse = (es.filter (fun x => x ≠ [])).foldl step st.reverse
    ∧ Plain (normal_loop es st true tr).1
  | [], st, tr, _, hst => ⟨rfl, hst⟩
  | e :: es, st, tr, hes, hst => by
    have hrest : ∀ x ∈ es, Filename x ∨ x = [] := fun x hx => hes x (List.mem_cons_of_mem _ hx)
    unfold normal_loop
    by_cases h0 : e = []
    · subst h0
      simp only [true_or, if_true, List.filter_cons, ne_eq, not_true_eq_false, decide_False,
        Bool.false_eq_true, if_false]
      exact normal_loop_abs es st true hrest hst
    · have hfile : Filename e := (hes e (List.mem_cons_self _ _)).resolve_right h0
      have hfilter : (e :: es).filter (fun x => x ≠ []) = e :: es.filter (fun x => x ≠ []) := by
        simp [List.filter_cons, h0]
      rw [hfilter, List.foldl_cons]
      by_cases h1 : e = dot
      · simp only [h1, or_true, if_true]
        rw [step_dot]
        exact normal_loop_abs es st true hrest hst
      · have h01 : ¬ (e = [] ∨ e = dot) := by
          intro h
          rcases h with h | h
          · exact h0 h
          · exact h1 h
        rw [if_neg h01]
        by_cases h2 : e = dotdot
        · rw [if_pos h2]
          have hs : step st.reverse e = st.reverse.dropLast := by
            unfold step
            rw [if_neg h1, if_pos h2]
          rw [hs]
          cases st with
          | nil =>
            simp only [if_true, List.reverse_nil, List.dropLast_nil]
            exact normal_loop_abs es [] tr hrest hst
          | cons top rest =>
            have htop : top ≠ dotdot := (hst top (List.mem_cons_self _ _)).2.2
            simp only [htop, if_false, List.reverse_cons, List.dropLast_concat]
            exact normal_loop_abs es rest true hrest
              (fun x hx => hst x (List.mem_cons_of_mem _ hx))
        · rw [if_neg h2]
          have hs : step st.reverse e = (e :: st).reverse := by
            unfold step
            rw [if_neg h1, if_neg h2, List.reverse_cons]
          rw [hs]
          apply normal_loop_abs es (e :: st) false hrest
          intro x hx
          rcases List.mem_cons.mp hx with h | h
          · rw [h]
            exact ⟨hfile, h1, h2⟩
          · exact hst x h

end cloud.fs

namespace cloud.fs

theorem is_absolute_cons (X : Str) (h : is_absolute X = true) : ∃ rest, X = chSlash :: rest := by
  cases X with
  | nil => simp [is_absolute] at h
  | cons c rest =>
    have : c = chSlash := by simpa [is_absolute] using h
    exact ⟨rest, by rw [this]⟩

theorem elems_abs (X : Str) (habs : is_absolute X = true) :
    ∃ tr, elems X = [chSlash] :: (names X ++ tr) ∧ (tr = [] ∨ tr = [[]]) := by
  unfold elems
  rw [habs]
  by_cases h : names X ≠ [] ∧ X.getLast? = some chSlash
  · exact ⟨[[]], by rw [if_pos h]; simp, Or.inr rfl⟩
  · exact ⟨[], by rw [if_neg h]; simp, Or.inl rfl⟩

theorem names_or_trailing (X : Str) (tr : List Str) (htr : tr = [] ∨ tr = [[]]) :
    (∀ e ∈ names X ++ tr, Filename e ∨ e = [])
    ∧ (names X ++ tr).filter (fun x => x ≠ []) = names X
    ∧ (names X ++ tr).filter (fun e => e ≠ [chSlash]) = names X ++ tr := by
  have hn : ∀ e ∈ names X, Filename e := fun e he => names_filename X e he
  refine ⟨?_, ?_, ?_⟩
  · intro e he
    rcases List.mem_append.mp he with h | h
    · exact Or.inl (hn e h)
    · rcases htr with h0 | h0
      · rw [h0] at h
        exact absurd h (List.not_mem_nil _)
      · rw [h0, List.mem_singleton] at h
        exact Or.inr h
  · rw [List.filter_append, filter_filenames _ hn]
    rcases htr with h0 | h0 <;> simp [h0]
  · rw [List.filter_eq_self]
    intro e he
    have hne : e ≠ [chSlash] := by
      rcases List.mem_append.mp he with h | h
      · intro hc
        have := (hn e h).2
        rw [hc] at this
        exact this (List.mem_singleton_self _)
      · rcases htr with h0 | h0
        · rw [h0] at h
          exact absurd h (List.not_mem_nil _)
        · rw [h0, List.mem_singleton] at h
          rw [h]
          simp
    simpa using hne

/-- The normal form of a path with a root directory: the path of its lexical place, and
possibly a final separator. -/
theorem lexically_normal_abs (X : Str) (habs : is_absolute X = true) :
    ∃ sl, lexically_normal X = key_string (lexical_key X) ++ sl
      ∧ (sl = [] ∨ (sl = [chSlash] ∧ lexical_key X ≠ [])) := by
  obtain ⟨rest, hX⟩ := is_absolute_cons X habs
  have hne : X ≠ [] := by rw [hX]; simp
  obtain ⟨tr, he, htr⟩ := elems_abs X habs
  obtain ⟨h1, h2, h3⟩ := names_or_trailing X tr htr
  have hfilt : (elems X).filter (fun e => e ≠ [chSlash]) = names X ++ tr := by
    rw [he, List.filter_cons]
    simp only [ne_eq, not_true_eq_false, decide_False, Bool.false_eq_true, if_false]
    exact h3
  obtain ⟨hrev, hplain⟩ := normal_loop_abs (names X ++ tr) [] false h1 plain_nil
  rw [h2, List.reverse_nil] at hrev
  unfold lexically_normal
  rw [if_neg hne]
  simp only [habs, hfilt, if_true]
  rcases hr : normal_loop (names X ++ tr) [] true false with ⟨st, flag⟩
  rw [hr] at hrev hplain
  simp only at hrev hplain
  cases st with
  | nil =>
    refine ⟨[], ?_, Or.inl rfl⟩
    simp only [List.reverse_nil] at hrev
    unfold lexical_key
    rw [← hrev]
    rfl
  | cons top more =>
    have hk : lexical_key X = (top :: more).reverse := hrev.symm
    have hkne : lexical_key X ≠ [] := by rw [hk]; simp
    simp only
    by_cases hs : flag = true ∧ top ≠ dotdot
    · refine ⟨[chSlash], ?_, Or.inr ⟨rfl, hkne⟩⟩
      rw [if_pos hs, key_string_eq _ hkne, hk]
      simp
    · refine ⟨[], ?_, Or.inl rfl⟩
      rw [if_neg hs, key_string_eq _ hkne, hk]
      simp

theorem leading_existing_spec (t : FileSystem) : ∀ (es : List Str) (result : Str),
    ∃ pre, es = pre ++ (leading_existing t result es).2
      ∧ (leading_existing t result es).1 = pre.foldl append result
      ∧ (pre ≠ [] → path_exists t (leading_existing t result es).1 = true)
  | [], result => ⟨[], rfl, rfl, fun h => absurd rfl h⟩
  | e :: es, result => by
    unfold leading_existing
    by_cases hx : path_exists t (append result e) = true
    · rw [if_pos hx]
      obtain ⟨pre, h1, h2, h3⟩ := leading_existing_spec t es (append result e)
      refine ⟨e :: pre, ?_, ?_, ?_⟩
      · rw [List.cons_append, ← h1]
      · rw [h2]
        rfl
      · intro _
        by_cases hp : pre = []
        · rw [h2, hp]
          exact hx
        · exact h3 hp
    · rw [if_neg hx]
      exact ⟨[], rfl, rfl, fun h => absurd rfl h⟩

theorem names_single (e : Str) (h : Filename e) : names e = [e] := by
  have := names_joinSlash [e] (fun x hx => by rw [List.mem_singleton] at hx; rw [hx]; exact h)
  exact this

theorem names_foldl_append : ∀ (es : List Str) (p : Str), (∀ e ∈ es, Filename e ∨ e = []) →
    names (es.foldl append p) = names p ++ es.filter (fun x => x ≠ [])
  | [], p, _ => by simp
  | e :: es, p, h => by
    have hrest : ∀ x ∈ es, Filename x ∨ x = [] := fun x hx => h x (List.mem_cons_of_mem _ hx)
    rw [List.foldl_cons, names_foldl_append es _ hrest]
    rcases h e (List.mem_cons_self _ _) with hf | h0
    · rw [names_fs_append p e (is_absolute_filename e hf.2), names_single e hf]
      simp [List.filter_cons, hf.1]
    · subst h0
      rw [names_fs_append p [] rfl, names_nil]
      simp [List.filter_cons]

theorem is_absolute_foldl_append : ∀ (es : List Str) (p : Str),
    (∀ e ∈ es, Filename e ∨ e = []) → is_absolute p = true →
    is_absolute (es.foldl append p) = true
  | [], _, _, hp => hp
  | e :: es, p, h, hp => by
    have hrest : ∀ x ∈ es, Filename x ∨ x = [] := fun x hx => h x (List.mem_cons_of_mem _ hx)
    apply is_absolute_foldl_append es _ hrest
    obtain ⟨rest, hX⟩ := is_absolute_cons p hp
    have hq : is_absolute e = false := by
      rcases h e (List.mem_cons_self _ _) with hf | h0
      · exact is_absolute_filename e hf.2
      · rw [h0]
        rfl
    unfold append
    rw [hq, hX]
    simp only [Bool.false_eq_true, if_false]
    split <;> rfl

theorem mem_splitSlash_bytes : ∀ (p x : Str), x ∈ splitSlash p → ∀ c ∈ x, c ∈ p
  | [], x, hx, c, hc => by
    simp only [splitSlash, List.mem_singleton] at hx
    rw [hx] at hc
    exact hc
  | a :: p, x, hx, c, hc => by
    rw [splitSlash_cons] at hx
    by_cases ha : a = chSlash
    · rw [if_pos ha] at hx
      rcases List.mem_cons.mp hx with h | h
      · rw [h] at hc
        exact absurd hc (List.not_mem_nil _)
      · exact List.mem_cons_of_mem _ (mem_splitSlash_bytes p x h c hc)
    · rw [if_neg ha] at hx
      rcases hs : splitSlash p with _ | ⟨y, ys⟩
      · exact absurd hs (splitSlash_ne_nil p)
      · rw [hs] at hx
        simp only at hx
        rcases List.mem_cons.mp hx with h | h
        · rw [h] at hc
          rcases List.mem_cons.mp hc with h2 | h2
          · rw [h2]
            exact List.mem_cons_self _ _
          · exact List.mem_cons_of_mem _
              (mem_splitSlash_bytes p y (by rw [hs]; exact List.mem_cons_self _ _) c h2)
        · exact List.mem_cons_of_mem _
            (mem_splitSlash_bytes p x (by rw [hs]; exact List.mem_cons_of_mem _ h) c hc)

theorem mem_names_bytes (p x : Str) (hx : x ∈ names p) (c : Byte) (hc : c ∈ x) : c ∈ p := by
  unfold names at hx
  exact mem_splitSlash_bytes p x (List.mem_filter.mp hx).1 c hc

theorem mem_append_bytes (p q : Str) (c : Byte) (hc : c ∈ append p q) :
    c ∈ p ∨ c = chSlash ∨ c ∈ q := by
  unfold append at hc
  split at hc
  · exact Or.inr (Or.inr hc)
  · split at hc
    · rcases List.mem_append.mp hc with h | h
      · exact Or.inl h
      · rcases List.mem_cons.mp h with h2 | h2
        · exact Or.inr (Or.inl h2)
        · exact Or.inr (Or.inr h2)
    · rcases List.mem_append.mp hc with h | h
      · exact Or.inl h
      · exact Or.inr (Or.inr h)

theorem mem_foldl_append : ∀ (es : List Str) (p : Str) (c : Byte), c ∈ es.foldl append p →
    c ∈ p ∨ c = chSlash ∨ ∃ e ∈ es, c ∈ e
  | [], _, _, hc => Or.inl hc
  | e :: es, p, c, hc => by
    rw [List.foldl_cons] at hc
    rcases mem_foldl_append es _ c hc with h | h | ⟨x, hx, hcx⟩
    · rcases mem_append_bytes p e c h with h2 | h2 | h2
      · exact Or.inl h2
      · exact Or.inr (Or.inl h2)
      · exact Or.inr (Or.inr ⟨e, List.mem_cons_self _ _, h2⟩)
    · exact Or.inr (Or.inl h)
    · exact Or.inr (Or.inr ⟨x, List.mem_cons_of_mem _ hx, hcx⟩)

theorem mem_foldl_step : ∀ (cs cur : List Str) (x : Str), x ∈ cs.foldl step cur →
    x ∈ cur ∨ x ∈ cs
  | [], _, _, h => Or.inl h
  | c :: cs, cur, x, h => by
    rw [List.foldl_cons] at h
    rcases mem_foldl_step cs _ x h with h1 | h1
    · unfold step at h1
      split at h1
      · exact Or.inl h1
      · split at h1
        · exact Or.inl (List.mem_of_mem_dropLast h1)
        · rcases List.mem_append.mp h1 with h2 | h2
          · exact Or.inl h2
          · rw [List.mem_singleton] at h2
            rw [h2]
            exact Or.inr (List.mem_cons_self _ _)
    · exact Or.inr (List.mem_cons_of_mem _ h1)

theorem mem_key_string : ∀ (k : List Str) (c : Byte), c ∈ key_string k →
    c = chSlash ∨ ∃ x ∈ k, c ∈ x
  | [], c, h => by
    simp only [key_string, List.mem_singleton] at h
    exact Or.inl h
  | [a], c, h => by
    simp only [key_string, List.mem_cons] at h
    rcases h with h | h
    · exact Or.inl h
    · exact Or.inr ⟨a, List.mem_singleton_self _, h⟩
  | a :: b :: rest, c, h => by
    have h2 : c ∈ chSlash :: (a ++ key_string (b :: rest)) := h
    rcases List.mem_cons.mp h2 with h3 | h3
    · exact Or.inl h3
    · rcases List.mem_append.mp h3 with h4 | h4
      · exact Or.inr ⟨a, List.mem_cons_self _ _, h4⟩
      · rcases mem_key_string (b :: rest) c h4 with h5 | ⟨x, hx, hcx⟩
        · exact Or.inl h5
        · exact Or.inr ⟨x, List.mem_cons_of_mem _ hx, hcx⟩

/-- The bytes of the path of the lexical place of `p` are separators and bytes of `p`. -/
theorem mem_key_string_lexical (p : Str) (c : Byte) (hc : c ∈ key_string (lexical_key p)) :
    c = chSlash ∨ c ∈ p := by
  rcases mem_key_string _ c hc with h | ⟨x, hx, hcx⟩
  · exact Or.inl h
  · unfold lexical_key at hx
    rcases mem_foldl_step _ _ x hx with h | h
    · exact absurd h (List.not_mem_nil _)
    · exact Or.inr (mem_names_bytes p x h c hcx)

end cloud.fs

namespace cloud.fs

theorem c_str_no_nul (s : Str) (h : (0 : Byte) ∉ s) : c_str s = s := by
  unfold c_str
  rw [List.takeWhile_eq_self_iff]
  intro x hx
  have : x ≠ 0 := fun e => h (e ▸ hx)
  simpa using this

theorem path_exists_root (t : FileSystem) : path_exists t [chSlash] = true := rfl

theorem path_exists_locate (t : FileSystem) (p : Str) (h : path_exists t p = true) :
    ∃ k, locate t p = some k := by
  unfold path_exists status at h
  rcases hl : locate t p with _ | k
  · rw [hl] at h
    simp at h
  · exact ⟨k, rfl⟩

theorem foldl_step_append (a b cur : List Str) :
    (a ++ b).foldl step cur = b.foldl step (a.foldl step cur) := List.foldl_append _ _ _ _

/-- The place `weakly_canonical` returns for a path with a root directory and without NUL
byte: the path of its lexical place, and possibly a final separator. -/
theorem weakly_canonical_abs (t : FileSystem) (T : Str) (hnul : (0 : Byte) ∉ T)
    (habs : is_absolute T = true) :
    ∃ sl, weakly_canonical t T = key_string (lexical_key T) ++ sl
      ∧ (sl = [] ∨ (sl = [chSlash] ∧ lexical_key T ≠ [])) := by
  have hc : c_str T = T := c_str_no_nul T hnul
  unfold weakly_canonical
  split
  · rename_i n k hs hl
    have := locate_lexical_key t T k hl
    rw [hc] at this
    exact ⟨[], by rw [this, List.append_nil], Or.inl rfl⟩
  · obtain ⟨tr, he, htr⟩ := elems_abs T habs
    obtain ⟨h1, h2, h3⟩ := names_or_trailing T tr htr
    have hle : leading_existing t [] (elems T) = leading_existing t [chSlash] (names T ++ tr) := by
      rw [he]
      show (if path_exists t (append [] [chSlash]) then
        leading_existing t (append [] [chSlash]) (names T ++ tr)
        else ([], [chSlash] :: (names T ++ tr))) = _
      have ha : append [] [chSlash] = [chSlash] := rfl
      rw [ha, path_exists_root, if_pos rfl]
    obtain ⟨pre, p1, p2, p3⟩ := leading_existing_spec t (names T ++ tr) [chSlash]
    rw [← hle] at p1 p2 p3
    have hpre : ∀ e ∈ pre, Filename e ∨ e = [] := fun e he =>
      h1 e (by rw [p1]; exact List.mem_append_left _ he)
    have hr2 : ∀ e ∈ (leading_existing t [] (elems T)).2, Filename e ∨ e = [] := fun e he =>
      h1 e (by rw [p1]; exact List.mem_append_right _ he)
    have hex : path_exists t (leading_existing t [] (elems T)).1 = true := by
      by_cases hp : pre = []
      · rw [p2, hp]
        exact path_exists_root t
      · exact p3 hp
    obtain ⟨kp, hkp⟩ := path_exists_locate t _ hex
    have hr1nul : (0 : Byte) ∉ (leading_existing t [] (elems T)).1 := by
      rw [p2]
      intro h0
      rcases mem_foldl_append pre [chSlash] 0 h0 with h | h | ⟨e, he, hce⟩
      · simp [chSlash] at h
      · simp [chSlash] at h
      · have hmem : e ∈ names T ++ tr := by rw [p1]; exact List.mem_append_left _ he
        rcases List.mem_append.mp hmem with h | h
        · exact hnul (mem_names_bytes T e h 0 hce)
        · rcases htr with h0 | h0
          · rw [h0] at h
            exact absurd h (List.not_mem_nil _)
          · rw [h0, List.mem_singleton] at h
            rw [h] at hce
            exact absurd hce (List.not_mem_nil _)
    have hr1ne : (leading_existing t [] (elems T)).1 ≠ [] := by
      intro h0
      rw [h0] at hkp
      simp [locate, c_str] at hkp
    have hkey : kp = (pre.filter (fun x => x ≠ [])).foldl step [] := by
      have := locate_lexical_key t _ kp hkp
      rw [c_str_no_nul _ hr1nul, p2] at this
      unfold lexical_key at this
      rw [names_foldl_append pre _ hpre] at this
      exact this
    have hkpplain : Plain kp := by
      rw [hkey]
      apply foldl_step_plain _ _ plain_nil
      intro c hc
      have hc2 := List.mem_filter.mp hc
      rcases hpre c hc2.1 with h | h
      · exact h
      · rw [h] at hc2
        simp at hc2
    simp only [hr1ne, if_false, hkp]
    have hXabs : is_absolute ((leading_existing t [] (elems T)).2.foldl append (key_string kp))
        = true := by
      apply is_absolute_foldl_append _ _ hr2
      cases kp with
      | nil => rfl
      | cons a rest =>
        rw [key_string_eq _ (by simp)]
        rfl
    obtain ⟨sl, hsl, hcase⟩ := lexically_normal_abs _ hXabs
    have hkeyX : lexical_key ((leading_existing t [] (elems T)).2.foldl append (key_string kp))
        = lexical_key T := by
      unfold lexical_key
      rw [names_foldl_append _ _ hr2, names_key_string kp hkpplain, foldl_step_append,
        foldl_step_of_plain kp [] hkpplain, List.nil_append, hkey, ← foldl_step_append,
        ← List.filter_append, ← p1, h2]
    rw [hkeyX] at hsl hcase
    exact ⟨sl, hsl, hcase⟩

end cloud.fs

namespace cloud.fs

theorem weakly_canonical_existing (t : FileSystem) (p : Str) (n : Node) (k : List Str)
    (hs : status t p = some n) (hl : locate t p = some k) :
    weakly_canonical t p = key_string k := by
  unfold weakly_canonical
  rw [hs, hl]

theorem status_locate (t : FileSystem) (p : Str) (n : Node) (hs : status t p = some n) :
    ∃ k, locate t p = some k := by
  unfold status at hs
  rcases hl : locate t p with _ | k
  · rw [hl] at hs
    simp at hs
  · exact ⟨k, rfl⟩

theorem normal_form_names (k : List Str) (sl : Str) (hk : Plain k)
    (hsl : sl = [] ∨ (sl = [chSlash] ∧ k ≠ [])) : names (key_string k ++ sl) = k := by
  rcases hsl with h | ⟨h, hne⟩
  · rw [h, List.append_nil, names_key_string k hk]
  · rw [h, names_key_string_slash k hk hne]

theorem key_string_ne_nil : ∀ (k : List Str), key_string k ≠ []
  | [] => by simp [key_string]
  | [c] => by simp [key_string]
  | c :: d :: rest => by simp [key_string]

theorem key_string_last (k : List Str) (hk : Plain k) (hne : k ≠ []) :
    ∃ c, (key_string k).getLast? = some c ∧ c ≠ chSlash := by
  obtain ⟨c, h1, h2⟩ := joinSlash_getLast k hne (fun x hx => (hk x hx).1)
  refine ⟨c, ?_, h2⟩
  rw [key_string_eq k hne]
  have hj : joinSlash k ≠ [] := by
    intro h0
    rw [h0] at h1
    simp at h1
  obtain ⟨a, l, hal⟩ := List.exists_cons_of_ne_nil hj
  rw [hal] at h1 ⊢
  rw [List.getLast?_cons_cons]
  exact h1

/-- A canonical path that is a string prefix of one normal form of a place is a string
prefix of the other normal forms of that place. -/
theorem prefix_normal_form (kb k : List Str) (sl1 sl2 : Str) (hkb : Plain kb)
    (h1 : sl1 = [] ∨ sl1 = [chSlash])
    (hp : (key_string kb).isPrefixOf (key_string k ++ sl1) = true) :
    (key_string kb).isPrefixOf (key_string k ++ sl2) = true := by
  rw [List.isPrefixOf_iff_prefix] at hp ⊢
  have hbase : key_string kb <+: key_string k → key_string kb <+: key_string k ++ sl2 :=
    fun h => h.trans (List.prefix_append _ _)
  rcases h1 with h | h
  · rw [h, List.append_nil] at hp
    exact hbase hp
  · rw [h] at hp
    rcases List.prefix_concat_iff.mp hp with h2 | h2
    · exfalso
      by_cases hne : kb = []
      · rw [hne] at h2
        have hl := congrArg List.length h2
        have hpos := List.length_pos.mpr (key_string_ne_nil k)
        have hone : (key_string ([] : List Str)).length = 1 := rfl
        rw [List.length_append, hone, List.length_singleton] at hl
        omega
      · obtain ⟨c, hc1, hc2⟩ := key_string_last kb hkb hne
        rw [h2, List.getLast?_append] at hc1
        simp at hc1
        exact hc2 hc1.symm
    · exact hbase h2

theorem normal_loop_filenames : ∀ (es st : List Str) (ab tr : Bool),
    (∀ e ∈ es, Filename e ∨ e = []) → (∀ x ∈ st, Filename x) →
    ∀ x ∈ (normal_loop es st ab tr).1, Filename x
  | [], st, _, _, _, hst => hst
  | e :: es, st, ab, tr, hes, hst => by
    have hrest : ∀ x ∈ es, Filename x ∨ x = [] := fun x hx => hes x (List.mem_cons_of_mem _ hx)
    have hdd : Filename dotdot := by decide
    unfold normal_loop
    split
    · exact normal_loop_filenames es st ab true hrest hst
    · rename_i h01
      split
      · cases st with
        | nil =>
          simp only
          split
          · exact normal_loop_filenames es [] ab tr hrest hst
          · apply normal_loop_filenames es [dotdot] ab false hrest
            intro x hx
            rw [List.mem_singleton] at hx
            rw [hx]
            exact hdd
        | cons top rest =>
          simp only
          split
          · apply normal_loop_filenames es (dotdot :: top :: rest) ab false hrest
            intro x hx
            rcases List.mem_cons.mp hx with h | h
            · rw [h]
              exact hdd
            · exact hst x h
          · exact normal_loop_filenames es rest ab true hrest
              (fun x hx => hst x (List.mem_cons_of_mem _ hx))
      · apply normal_loop_filenames es (e :: st) ab false hrest
        intro x hx
        rcases List.mem_cons.mp hx with h | h
        · rw [h]
          rcases hes e (List.mem_cons_self _ _) with hf | h0
          · exact hf
          · exact absurd (Or.inl h0) h01
        · exact hst x h

theorem elems_rel (X : Str) (hrel : is_absolute X = false) :
    ∃ tr, elems X = names X ++ tr ∧ (tr = [] ∨ tr = [[]]) := by
  unfold elems
  rw [hrel]
  by_cases h : names X ≠ [] ∧ X.getLast? = some chSlash
  · exact ⟨[[]], by rw [if_pos h]; simp, Or.inr rfl⟩
  · exact ⟨[], by rw [if_neg h]; simp, Or.inl rfl⟩

/-- The normal form of a path without a root directory has no root directory. -/
theorem lexically_normal_rel (X : Str) (hrel : is_absolute X = false) :
    is_absolute (lexically_normal X) = false := by
  unfold lexically_normal
  by_cases hX : X = []
  · rw [if_pos hX]
    rfl
  · rw [if_neg hX]
    obtain ⟨tr, he, htr⟩ := elems_rel X hrel
    obtain ⟨h1, _, h3⟩ := names_or_trailing X tr htr
    simp only [hrel, he, h3, Bool.false_eq_true, if_false, List.nil_append]
    have hfn := normal_loop_filenames (names X ++ tr) [] false false h1
      (fun x hx => absurd hx (List.not_mem_nil _))
    rcases hr : normal_loop (names X ++ tr) [] false false with ⟨st, flag⟩
    rw [hr] at hfn
    simp only at hfn
    cases st with
    | nil => rfl
    | cons top more =>
      simp only
      apply server.is_absolute_joinSlash
      · intro y hy
        exact hfn y (List.mem_reverse.mp hy)
      · simp

theorem is_absolute_append_rel (p q : Str) (hp : is_absolute p = false)
    (hq : is_absolute q = false) : is_absolute (append p q) = false := by
  unfold append
  rw [hq]
  simp only [Bool.false_eq_true, if_false]
  cases p with
  | nil =>
    have : has_filename ([] : Str) = false := rfl
    rw [this]
    simpa using hq
  | cons c rest =>
    have hc : (c == chSlash) = false := by simpa [is_absolute] using hp
    split
    · simpa [is_absolute] using hc
    · simpa [is_absolute] using hc

theorem is_absolute_foldl_append_rel : ∀ (es : List Str) (p : Str),
    (∀ e ∈ es, Filename e ∨ e = []) → is_absolute p = false →
    is_absolute (es.foldl append p) = false
  | [], _, _, hp => hp
  | e :: es, p, h, hp => by
    have hrest : ∀ x ∈ es, Filename x ∨ x = [] := fun x hx => h x (List.mem_cons_of_mem _ hx)
    apply is_absolute_foldl_append_rel es _ hrest
    apply is_absolute_append_rel p e hp
    rcases h e (List.mem_cons_self _ _) with hf | h0
    · exact is_absolute_filename e hf.2
    · rw [h0]
      rfl

theorem path_exists_nil (t : FileSystem) : path_exists t [] = false := rfl

/-- When neither the path nor its first element exists, `weakly_canonical` returns the
normal form of the path as it is written: a path without a root directory. -/
theorem weakly_canonical_rooted (t : FileSystem) (T : Str)
    (h : is_absolute (weakly_canonical t T) = true) :
    path_exists t T = true
      ∨ ∃ e es, elems T = e :: es ∧ path_exists t (append [] e) = true := by
  by_contra hno
  rw [not_or] at hno
  obtain ⟨hn1, hn2⟩ := hno
  have hrel : is_absolute T = false := by
    by_contra habs
    have habs2 : is_absolute T = true := by simpa using habs
    obtain ⟨tr, he, _⟩ := elems_abs T habs2
    exact hn2 ⟨_, _, he, path_exists_root t⟩
  obtain ⟨tr, he, htr⟩ := elems_rel T hrel
  obtain ⟨h1, _, _⟩ := names_or_trailing T tr htr
  have hle : leading_existing t [] (elems T) = ([], elems T) := by
    rcases hE : elems T with _ | ⟨e, es⟩
    · rfl
    · show (if path_exists t (append [] e) then leading_existing t (append [] e) es
        else ([], e :: es)) = _
      rw [if_neg]
      intro hx
      exact hn2 ⟨e, es, hE, hx⟩
  have hw : weakly_canonical t T = lexically_normal ((elems T).foldl append []) := by
    unfold weakly_canonical
    split
    · rename_i n k hs hl
      exfalso
      apply hn1
      unfold path_exists
      rw [hs]
      rfl
    · simp only [hle, if_true]
  rw [hw, lexically_normal_rel _
    (is_absolute_foldl_append_rel (elems T) [] (by rw [he]; exact h1) rfl)] at h
  exact absurd h (by simp)

/-- The place `weakly_canonical` returns for a path without NUL byte that exists or whose
first element exists: the path of its lexical place, and possibly a final separator. -/
theorem weakly_canonical_nf (t : FileSystem) (T : Str) (hnul : (0 : Byte) ∉ T)
    (hQ : path_exists t T = true
      ∨ ∃ e es, elems T = e :: es ∧ path_exists t (append [] e) = true) :
    ∃ sl, weakly_canonical t T = key_string (lexical_key T) ++ sl
      ∧ (sl = [] ∨ (sl = [chSlash] ∧ lexical_key T ≠ [])) := by
  by_cases habs : is_absolute T = true
  · exact weakly_canonical_abs t T hnul habs
  have hrel : is_absolute T = false := by simpa using habs
  have hc : c_str T = T := c_str_no_nul T hnul
  unfold weakly_canonical
  split
  · rename_i n k hs hl
    have := locate_lexical_key t T k hl
    rw [hc] at this
    exact ⟨[], by rw [this, List.append_nil], Or.inl rfl⟩
  · rename_i hsplit
    rcases hQ with hex0 | ⟨e, es, hE, hex⟩
    · exfalso
      unfold path_exists at hex0
      rcases hs : status t T with _ | n
      · rw [hs] at hex0
        simp at hex0
      · obtain ⟨k, hk⟩ := status_locate t T n hs
        exact hsplit n k hs hk
    · obtain ⟨tr, he, htr⟩ := elems_rel T hrel
      obtain ⟨h1, h2, h3⟩ := names_or_trailing T tr htr
      have hmemE : ∀ x ∈ e :: es, x ∈ names T ++ tr := by
        intro x hx
        rw [← he, hE]
        exact hx
      have he_ne : e ≠ [] := by
        intro h0
        rw [h0] at hex
        exact absurd hex (by simp [append, is_absolute, has_filename, path_exists_nil])
      have hef : Filename e := (h1 e (hmemE e (List.mem_cons_self _ _))).resolve_right he_ne
      have hae : append [] e = e := by
        unfold append
        rw [is_absolute_filename e hef.2]
        rfl
      rw [hae] at hex
      have hle : leading_existing t [] (elems T) = leading_existing t e es := by
        rw [hE]
        show (if path_exists t (append [] e) then leading_existing t (append [] e) es
          else ([], e :: es)) = _
        rw [hae, hex, if_pos rfl]
      obtain ⟨pre, p1, p2, p3⟩ := leading_existing_spec t es e
      rw [← hle] at p1 p2 p3
      have hes : ∀ x ∈ es, Filename x ∨ x = [] := fun x hx =>
        h1 x (hmemE x (List.mem_cons_of_mem _ hx))
      have hpre : ∀ x ∈ pre, Filename x ∨ x = [] := fun x hx =>
        hes x (by rw [p1]; exact List.mem_append_left _ hx)
      have hr2 : ∀ x ∈ (leading_existing t [] (elems T)).2, Filename x ∨ x = [] := fun x hx =>
        hes x (by rw [p1]; exact List.mem_append_right _ hx)
      have hexr : path_exists t (leading_existing t [] (elems T)).1 = true := by
        by_cases hp : pre = []
        · rw [p2, hp]
          exact hex
        · exact p3 hp
      obtain ⟨kp, hkp⟩ := path_exists_locate t _ hexr
      have hbytes : ∀ x ∈ e :: es, (0 : Byte) ∉ x := by
        intro x hx h0
        rcases List.mem_append.mp (hmemE x hx) with h | h
        · exact hnul (mem_names_bytes T x h 0 h0)
        · rcases htr with ht | ht
          · rw [ht] at h
            exact absurd h (List.not_mem_nil _)
          · rw [ht, List.mem_singleton] at h
            rw [h] at h0
            exact absurd h0 (List.not_mem_nil _)
      have hr1nul : (0 : Byte) ∉ (leading_existing t [] (elems T)).1 := by
        rw [p2]
        intro h0
        rcases mem_foldl_append pre e 0 h0 with h | h | ⟨x, hx, hcx⟩
        · exact hbytes e (List.mem_cons_self _ _) h
        · simp [chSlash] at h
        · exact hbytes x (List.mem_cons_of_mem _ (by rw [p1]; exact List.mem_append_left _ hx))
            hcx
      have hr1ne : (leading_existing t [] (elems T)).1 ≠ [] := by
        intro h0
        rw [h0] at hkp
        simp [locate, c_str] at hkp
      have hkey : kp = (e :: pre.filter (fun x => x ≠ [])).foldl step [] := by
        have := locate_lexical_key t _ kp hkp
        rw [c_str_no_nul _ hr1nul, p2] at this
        unfold lexical_key at this
        rw [names_foldl_append pre _ hpre, names_single e hef] at this
        exact this
      have hkpplain : Plain kp := by
        rw [hkey]
        apply foldl_step_plain _ _ plain_nil
        intro c hc
        rcases List.mem_cons.mp hc with h | h
        · rw [h]
          exact hef
        · have hc2 := List.mem_filter.mp h
          rcases hpre c hc2.1 with h3 | h3
          · exact h3
          · rw [h3] at hc2
            simp at hc2
      simp only [hr1ne, if_false, hkp]
      have hXabs : is_absolute ((leading_existing t [] (elems T)).2.foldl append (key_string kp))
          = true := by
        apply is_absolute_foldl_append _ _ hr2
        cases kp with
        | nil => rfl
        | cons a rest =>
          rw [key_string_eq _ (by simp)]
          rfl
      obtain ⟨sl, hsl, hcase⟩ := lexically_normal_abs _ hXabs
      have hfilterE : (e :: es).filter (fun x => x ≠ []) = names T := by
        rw [← hE, he]
        exact h2
      have hkeyX : lexical_key ((leading_existing t [] (elems T)).2.foldl append (key_string kp))
          = lexical_key T := by
        unfold lexical_key
        rw [names_foldl_append _ _ hr2, names_key_string kp hkpplain, foldl_step_append,
          foldl_step_of_plain kp [] hkpplain, List.nil_append, hkey, ← foldl_step_append,
          ← hfilterE, p1]
        simp [List.filter_cons, he_ne, List.filter_append]
      rw [hkeyX] at hsl hcase
      exact ⟨sl, hsl, hcase⟩

theorem key_string_abs : ∀ (k : List Str), is_absolute (key_string k) = true
  | [] => rfl
  | [_] => rfl
  | _ :: _ :: _ => rfl

theorem is_absolute_extends (p q : Str) (hp : is_absolute p = true)
    (h : p.isPrefixOf q = true) : is_absolute q = true := by
  obtain ⟨rest, hrest⟩ := is_absolute_cons p hp
  rw [List.isPrefixOf_iff_prefix] at h
  obtain ⟨more, hmore⟩ := h
  rw [← hmore, hrest]
  rfl

theorem path_exists_mono (t t1 : FileSystem)
    (h : ∀ k n, lookup t k = some n → lookup t1 k = some n) (p : Str)
    (hp : path_exists t p = true) : path_exists t1 p = true := by
  unfold path_exists at hp ⊢
  rcases hs : status t p with _ | n
  · rw [hs] at hp
    simp at hp
  · rw [status_mono t t1 h p n hs]
    rfl

end cloud.fs

namespace cloud.server
open samples fs protocol

/-- A second `sanitize_path` after the place of the first was created as a directory: it
succeeds again, with a path that names that directory. -/
theorem sanitize_path_again (base relative : Str) (t0 t0b t1 : FileSystem) (C1 : Str)
    (hnul : (0 : Byte) ∉ fs.append base relative)
    (hbase : status t0 base = some Node.dir)
    (hext : ∀ k n, lookup t0 k = some n → lookup t1 k = some n)
    (h1 : sanitize_path base relative t0 = (.ok C1, t0b))
    (hdir : status t1 C1 = some Node.dir) :
    ∃ C2, sanitize_path base relative t1 = (.ok C2, t1) ∧ status t1 C2 = some Node.dir := by
  obtain ⟨kb, hkb⟩ := status_locate t0 base _ hbase
  have hkbplain : Plain kb := by
    rw [locate_lexical_key t0 base kb hkb]
    exact lexical_key_plain _
  have hcb0 := weakly_canonical_existing t0 base _ kb hbase hkb
  have hcb1 := weakly_canonical_existing t1 base _ kb (status_mono t0 t1 hext base _ hbase)
    (locate_mono t0 t1 hext base kb hkb)
  unfold sanitize_path at h1
  simp only [hcb0] at h1
  by_cases hp0 : (key_string kb).isPrefixOf (weakly_canonical t0 (fs.append base relative)) = true
  · have hQ0 := weakly_canonical_rooted t0 _
      (is_absolute_extends _ _ (key_string_abs kb) hp0)
    have hQ1 : path_exists t1 (fs.append base relative) = true
        ∨ ∃ e es, elems (fs.append base relative) = e :: es
          ∧ path_exists t1 (fs.append [] e) = true := by
      rcases hQ0 with h | ⟨e, es, hE, hx⟩
      · exact Or.inl (path_exists_mono t0 t1 hext _ h)
      · exact Or.inr ⟨e, es, hE, path_exists_mono t0 t1 hext _ hx⟩
    obtain ⟨sl1, e1, c1⟩ := weakly_canonical_nf t0 _ hnul hQ0
    obtain ⟨sl2, e2, c2⟩ := weakly_canonical_nf t1 _ hnul hQ1
    have hplain := lexical_key_plain (fs.append base relative)
    have hsl1 : sl1 = [] ∨ sl1 = [chSlash] := c1.imp id (fun h => h.1)
    have hnul_form : ∀ sl,
        (sl = [] ∨ (sl = [chSlash] ∧ lexical_key (fs.append base relative) ≠ [])) →
        (0 : Byte) ∉ key_string (lexical_key (fs.append base relative)) ++ sl := by
      intro sl hsl h0
      rcases List.mem_append.mp h0 with h | h
      · rcases mem_key_string_lexical _ 0 h with h2 | h2
        · simp [chSlash] at h2
        · exact hnul h2
      · rcases hsl with h2 | ⟨h2, _⟩
        · rw [h2] at h
          exact absurd h (List.not_mem_nil _)
        · rw [h2] at h
          simp [chSlash] at h
    rw [e1] at hp0 h1
    simp only [hp0, Bool.not_true, Bool.false_eq_true, if_false, Prod.mk.injEq,
      Except.ok.injEq] at h1
    have hp2 := prefix_normal_form kb _ sl1 sl2 hkbplain hsl1 hp0
    refine ⟨key_string (lexical_key (fs.append base relative)) ++ sl2, ?_, ?_⟩
    · unfold sanitize_path
      simp only [hcb1, e2, hp2, Bool.not_true, Bool.false_eq_true, if_false]
    · rw [← h1.1] at hdir
      rw [status_dir_iff] at hdir ⊢
      rw [c_str_no_nul _ (hnul_form sl1 c1), normal_form_names _ sl1 hplain c1] at hdir
      rw [c_str_no_nul _ (hnul_form sl2 c2), normal_form_names _ sl2 hplain c2]
      refine ⟨?_, hdir.2⟩
      intro h0
      exact key_string_ne_nil _ (List.append_eq_nil.mp h0).1
  · simp only [hp0, Bool.not_false, if_true, Prod.mk.injEq] at h1
    exact absurd h1.1 (by simp)

end cloud.server

namespace cloud.server
open samples fs protocol

theorem sanitize_path_state (base relative : Str) (t : FileSystem) :
    (sanitize_path base relative t).2 = t := by
  unfold sanitize_path
  simp only
  split <;> rfl

/-- The steps of `ensure_directory`. -/
theorem ensure_directory_eq (env : Env) (username relative : Str) (t : FileSystem) :
    ensure_directory env username relative t =
      match create_directories (fs.append env.root username) t with
      | (.error what, t0) => (.error what, t0)
      | (.ok _, t0) =>
        match sanitize_path (fs.append env.root username) relative t0 with
        | (.error what, t0b) => (.error what, t0b)
        | (.ok path, t0b) =>
          match create_directories path t0b with
          | (.error what, t1) => (.error what, t1)
          | (.ok _, t1) => (.ok (path_exists t1 path), t1) := by
  simp only [ensure_directory, resolve, user_root, bind, Eff.andThen, pure, Eff.ret, Eff.read]
  rcases create_directories (fs.append env.root username) t with ⟨r, t0⟩
  cases r with
  | error e => rfl
  | ok u =>
    simp only
    rcases sanitize_path (fs.append env.root username) relative t0 with ⟨r2, t0b⟩
    cases r2 with
    | error e => rfl
    | ok path =>
      simp only
      rcases create_directories path t0b with ⟨r3, t1⟩
      cases r3 with
      | error e => rfl
      | ok u2 => rfl

/-- A second `ensure_directory` for a target without NUL byte, after a first one that
returned `true`: it returns `true` again and changes nothing. -/
theorem ensure_directory_again (env : Env) (username relative : Str) (t t1 : FileSystem)
    (hnul : (0 : Byte) ∉ fs.append (fs.append env.root username) relative)
    (h : ensure_directory env username relative t = (.ok true, t1)) :
    ensure_directory env username relative t1 = (.ok true, t1) := by
  rw [ensure_directory_eq] at h
  rcases hb : create_directories (fs.append env.root username) t with ⟨r, t0⟩
  rw [hb] at h
  cases r with
  | error e => simp at h
  | ok u =>
    simp only at h
    have hst := sanitize_path_state (fs.append env.root username) relative t0
    rcases hs : sanitize_path (fs.append env.root username) relative t0 with ⟨r2, t0b⟩
    rw [hs] at h hst
    simp only at hst
    subst hst
    cases r2 with
    | error e => simp at h
    | ok C1 =>
      simp only at h
      rcases hc : create_directories C1 t0b with ⟨r3, t1b⟩
      rw [hc] at h
      cases r3 with
      | error e => simp at h
      | ok u2 =>
        simp only [Prod.mk.injEq, Except.ok.injEq] at h
        obtain ⟨_, h2⟩ := h
        subst h2
        have hbase0 : status t0b (fs.append env.root username) = some Node.dir :=
          create_directories_ok_status _ _ _ hb
        have hext : ∀ k n, lookup t0b k = some n → lookup t1b k = some n := by
          intro k n hk
          have := create_directories_mono C1 t0b k n hk
          rw [hc] at this
          exact this
        have hbase1 := status_mono t0b t1b hext _ _ hbase0
        have hdir : status t1b C1 = some Node.dir := create_directories_ok_status _ _ _ hc
        obtain ⟨C2, hs2, hd2⟩ := sanitize_path_again (fs.append env.root username) relative
          t0b t0b t1b C1 hnul hbase0 hext hs hdir
        rw [ensure_directory_eq, create_directories_noop _ _ hbase1]
        simp only [hs2, create_directories_noop _ _ hd2, path_exists, hd2, Option.isSome_some]

theorem on_command_dir_mkdir (env : Env) (fd : Nat) (message : Message) :
    on_command env fd (str "DIR_MKDIR") message = on_dir_mkdir env fd message := by
  unfold on_command
  rw [if_neg (by decide), if_neg (by decide), if_pos rfl]

/-- An authenticated `DIR_MKDIR` with a path, by what `ensure_directory` gives. -/
theorem dir_mkdir_run (env : Env) (fd : Nat) (message : Message) (s : Dispatch)
    (subject : Str) (t1 : FileSystem) (r : Except Str Bool) (reply : Message)
    (hreply : reply =
      match r with
      | .ok true => status_reply (str "DIR_MKDIR") (str "ok")
      | .ok false => status_reply (str "DIR_MKDIR") (str "failed")
      | .error what =>
        make_message [(str "cmd", str "DIR_MKDIR"),
          (str "status", str "error"), (str "reason", what)])
    (hc : header_value message (str "cmd") = str "DIR_MKDIR")
    (ht : header_value message (str "token") ≠ [])
    (hv : env.verify (header_value message (str "token")) = .ok (some subject))
    (hp : header_value message (str "path") ≠ [])
    (hr : ensure_directory env subject
        (fs.append s.ctx.cwd (header_value message (str "path"))) s.world.storage = (r, t1)) :
    dispatch env fd message s = (.ok (),
      { ctx := { s.ctx with
          username := subject
          token := header_value message (str "token") },
        world := { s.world with
          storage := t1
          async_responses := s.world.async_responses ++
            [{ fd := fd, message := reply }] } }) := by
  subst hreply
  have hd := dispatch_verified env fd message s subject (by rw [hc]; decide) (by rw [hc]; decide)
    (by rw [hc]; decide) (by rw [hc]; decide) ht hv
  rw [hc, on_command_dir_mkdir] at hd
  rw [hd]
  unfold Eff.catching
  cases r with
  | error what =>
    simp only [on_dir_mkdir, hp, bind, Eff.andThen, Eff.read, storage_call, hr, if_false,
      schedule_response]
  | ok b =>
    cases b with
    | true =>
      simp only [on_dir_mkdir, hp, bind, Eff.andThen, Eff.read, storage_call, hr, if_false,
        schedule_response, if_true]
    | false =>
      simp only [on_dir_mkdir, hp, bind, Eff.andThen, Eff.read, storage_call, hr, if_false,
        schedule_response, Bool.false_eq_true]

end cloud.server

namespace cloud.server
open samples fs protocol

theorem error_reply_ne_ok (what : Str) :
    make_message [(str "cmd", str "DIR_MKDIR"), (str "status", str "error"),
      (str "reason", what)] ≠ status_reply (str "DIR_MKDIR") (str "ok") := by
  intro h
  have h2 := congrArg (fun m => header_value m (str "status")) h
  have e1 : header_value (make_message [(str "cmd", str "DIR_MKDIR"),
      (str "status", str "error"), (str "reason", what)]) (str "status") = str "error" := rfl
  have e2 : header_value (status_reply (str "DIR_MKDIR") (str "ok")) (str "status")
      = str "ok" := rfl
  simp only [e1, e2] at h2
  exact absurd h2 (by decide)

theorem mkdir_reply_ok (r : Except Str Bool)
    (h : (match r with
          | .ok true => status_reply (str "DIR_MKDIR") (str "ok")
          | .ok false => status_reply (str "DIR_MKDIR") (str "failed")
          | .error what =>
            make_message [(str "cmd", str "DIR_MKDIR"),
              (str "status", str "error"), (str "reason", what)])
        = status_reply (str "DIR_MKDIR") (str "ok")) : r = .ok true := by
  cases r with
  | error what => exact absurd h (error_reply_ne_ok what)
  | ok b =>
    cases b with
    | true => rfl
    | false => exact absurd h (by decide)

set_option maxRecDepth 100000 in
/-- C28 (counterexample): the path header `x/../../`, a NUL byte, `zzz/../alice/x`, sent
twice by `alice` on a fresh session.  The first `DIR_MKDIR` is answered `status=ok` (the
path is normalized as text to `/srv/alice/x`, which is created); the second is answered
`status=error` with `Path traversal detected`: now `x` exists, and the kernel, which
reads the path up to the NUL byte, resolves it to `/srv`. -/
theorem dir_mkdir_nul_not_idempotent :
    (dispatch sample_env 5 nul_mkdir fresh_dispatch).2.world.async_responses
      = [{ fd := 5, message := status_reply (str "DIR_MKDIR") (str "ok") }]
    ∧ (dispatch sample_env 5 nul_mkdir
        (dispatch sample_env 5 nul_mkdir fresh_dispatch).2).2.world.async_responses
      = [{ fd := 5, message := status_reply (str "DIR_MKDIR") (str "ok") },
         { fd := 5, message := make_message [(str "cmd", str "DIR_MKDIR"),
            (str "status", str "error"), (str "reason", str "Path traversal detected")] }] :=
  ⟨by decide, by decide⟩

/-- C28 (amended): `DIR_MKDIR` idempotence for targets without NUL byte.  For every
authenticated session and path such that the target `root / username / cwd / path` holds
no NUL byte, and for which a first `DIR_MKDIR` replies `status=ok`: every repetition of the
same `DIR_MKDIR` from the same cwd again replies `status=ok`, and leaves the file system,
and the rest of the state but the outbox, exactly as they were after the first call.  The
storage root may be absolute or relative to the working directory. -/
theorem dir_mkdir_idempotent (env : Env) (fd : Nat) (message : Message) (s : Dispatch)
    (subject : Str)
    (hc : header_value message (str "cmd") = str "DIR_MKDIR")
    (ht : header_value message (str "token") ≠ [])
    (hv : env.verify (header_value message (str "token")) = .ok (some subject))
    (hnul : (0 : Byte) ∉ fs.append (fs.append env.root subject)
        (fs.append s.ctx.cwd (header_value message (str "path"))))
    (hok : (dispatch env fd message s).2.world.async_responses
        = s.world.async_responses
            ++ [{ fd := fd, message := status_reply (str "DIR_MKDIR") (str "ok") }]) (n : Nat) :
    dispatch_all env fd (List.replicate n message) (dispatch env fd message s).2
      = { (dispatch env fd message s).2 with
          world := { (dispatch env fd message s).2.world with
            async_responses := (dispatch env fd message s).2.world.async_responses
              ++ List.replicate n
                  { fd := fd, message := status_reply (str "DIR_MKDIR") (str "ok") } } }
    ∧ (dispatch_all env fd (List.replicate n message) (dispatch env fd message s).2).world.storage
      = (dispatch env fd message s).2.world.storage := by
  have hp : header_value message (str "path") ≠ [] := by
    intro hp0
    have hd := dispatch_verified env fd message s subject (by rw [hc]; decide)
      (by rw [hc]; decide) (by rw [hc]; decide) (by rw [hc]; decide) ht hv
    rw [hc, on_command_dir_mkdir] at hd
    rw [hd] at hok
    unfold Eff.catching at hok
    simp only [on_dir_mkdir, hp0, if_true, schedule_response] at hok
    have := List.append_cancel_left hok
    simp only [List.cons.injEq, PendingResponse.mk.injEq, true_and, and_true] at this
    exact absurd this (by decide)
  rcases hr : ensure_directory env subject
      (fs.append s.ctx.cwd (header_value message (str "path"))) s.world.storage with ⟨r, t1⟩
  have hrun := dir_mkdir_run env fd message s subject t1 r _ rfl hc ht hv hp hr
  have hr_ok : r = .ok true := by
    rw [hrun] at hok
    have := List.append_cancel_left hok
    simp only [List.cons.injEq, PendingResponse.mk.injEq, true_and, and_true] at this
    exact mkdir_reply_ok r this
  subst hr_ok
  have hagain := ensure_directory_again env subject _ _ _ hnul hr
  have hstep : ∀ j : Nat,
      dispatch env fd message
        { ctx := { s.ctx with
            username := subject
            token := header_value message (str "token") },
          world := { s.world with
            storage := t1
            async_responses := (s.world.async_responses ++
              [{ fd := fd, message := status_reply (str "DIR_MKDIR") (str "ok") }])
                ++ List.replicate j
                    { fd := fd, message := status_reply (str "DIR_MKDIR") (str "ok") } } }
      = (.ok (),
        { ctx := { s.ctx with
            username := subject
            token := header_value message (str "token") },
          world := { s.world with
            storage := t1
            async_responses := (s.world.async_responses ++
              [{ fd := fd, message := status_reply (str "DIR_MKDIR") (str "ok") }])
                ++ List.replicate (j + 1)
                    { fd := fd, message := status_reply (str "DIR_MKDIR") (str "ok") } } }) := by
    intro j
    rw [dir_mkdir_run env fd message _ subject t1 (.ok true) _ rfl hc ht hv hp hagain,
      List.replicate_succ', ← List.append_assoc]
  have hall : ∀ (n j : Nat),
      dispatch_all env fd (List.replicate n message)
        { ctx := { s.ctx with
            username := subject
            token := header_value message (str "token") },
          world := { s.world with
            storage := t1
            async_responses := (s.world.async_responses ++
              [{ fd := fd, message := status_reply (str "DIR_MKDIR") (str "ok") }])
                ++ List.replicate j
                    { fd := fd, message := status_reply (str "DIR_MKDIR") (str "ok") } } }
      = { ctx := { s.ctx with
            username := subject
            token := header_value message (str "token") },
          world := { s.world with
            storage := t1
            async_responses := (s.world.async_responses ++
              [{ fd := fd, message := status_reply (str "DIR_MKDIR") (str "ok") }])
                ++ List.replicate (j + n)
                    { fd := fd, message := status_reply (str "DIR_MKDIR") (str "ok") } } } := by
    intro n
    induction n with
    | zero => intro j; rfl
    | succ n ih =>
      intro j
      unfold dispatch_all
      rw [List.replicate_succ, List.foldl_cons, hstep j]
      have := ih (j + 1)
      unfold dispatch_all at this
      rw [this]
      have e : j + 1 + n = j + (n + 1) := by omega
      rw [e]
  have h0 := hall n 0
  simp only [List.replicate_zero, List.append_nil, Nat.zero_add] at h0
  rw [hrun]
  simp only
  rw [h0]
  exact ⟨rfl, rfl⟩

set_option maxRecDepth 100000 in
/-- C28 (witness): `alice` creates `a/b` on a fresh session and repeats the request twice,
under the storage root `/srv` and under the relative storage root `./server/storage`. -/
theorem dir_mkdir_idempotent_witness :
    (dispatch_all sample_env 5 (List.replicate 2 (mkdir_request "a/b"))
        (dispatch sample_env 5 (mkdir_request "a/b") fresh_dispatch).2).world.storage
      = (dispatch sample_env 5 (mkdir_request "a/b") fresh_dispatch).2.world.storage
    ∧ (dispatch sample_env 5 (mkdir_request "a/b") fresh_dispatch).2.world.storage
      = [([str "srv"], Node.dir), ([str "srv", str "alice"], Node.dir),
         ([str "srv", str "alice", str "a"], Node.dir),
         ([str "srv", str "alice", str "a", str "b"], Node.dir)]
    ∧ (dispatch_all relative_env 5 (List.replicate 2 (mkdir_request "a/b"))
        (dispatch relative_env 5 (mkdir_request "a/b") fresh_dispatch).2).world.storage
      = (dispatch relative_env 5 (mkdir_request "a/b") fresh_dispatch).2.world.storage
    ∧ (dispatch relative_env 5 (mkdir_request "a/b") fresh_dispatch).2.world.storage
      = [([str "server"], Node.dir), ([str "server", str "storage"], Node.dir),
         ([str "server", str "storage", str "alice"], Node.dir),
         ([str "server", str "storage", str "alice", str "a"], Node.dir),
         ([str "server", str "storage", str "alice", str "a", str "b"], Node.dir)] :=
  ⟨(dir_mkdir_idempotent sample_env 5 (mkdir_request "a/b") fresh_dispatch (str "alice")
      (by decide) (by decide) (by decide) (by decide) (by decide) 2).2,
   by decide,
   (dir_mkdir_idempotent relative_env 5 (mkdir_request "a/b") fresh_dispatch (str "alice")
      (by decide) (by decide) (by decide) (by decide) (by decide) 2).2,
   by decide⟩

end cloud.server
